import Mathlib

/-!
# intmat: sparse dual-indexed big-integer matrices with connected views

A shallow embedding of `bigintmat.go` and of the row and column vectors of
`bigintvec.go`.

* A Go `map[int]V` is an association list `List (Int × V)`; Go gives no
  iteration order, so every theorem quantifies over the list order.  Keys of a
  Go map are unique, which is the predicate `NodupKeys`.
* The two outer maps of a matrix are Go reference objects shared between views.
  They live in a `Heap` of map objects, and a view holds two addresses.
* In `namespace BigIntMatrix` a `*big.Int` is modelled by the integer it holds
  (`nil` is `none`).  This is exact for every method that leaves the element
  objects themselves alone, which is every method but `Negate`.
* `Negate` changes element objects in place, and `set` stores the pointer it is
  given, so that one element may sit in several cells.  `namespace Ptr` embeds
  `Negate` and the methods around it at that level: a cell holds the address of
  its element and a second heap gives the integer of each element.
* Go `int` is modelled by `Int`; indices are assumed to stay in machine range.
  The one place where this hides a behaviour of the program is the check
  `j+length > Len()` of `TransposedBigIntVector.Slice`, which a sum that
  overflows passes; there the sum is computed in 64 bits by `wrapInt`.
* A panic is the result `none`.  `namespace Panic` repeats `Set`, `mul`, `Mul`
  and `Add` with the result `Except.error h` for a panic raised when the heap
  was `h`, to state what a failing call leaves behind.
* A `range` loop runs over the entries present when it starts, and an inner map
  handed out by a `range` is the map as it was when its entry was visited.  This
  is what Go does when the maps being ranged over are not written during the
  loop, which the theorems ensure by taking the operands' maps to be other
  objects than the destination's.  In `Ptr.Reach` an operand may share the
  destination's store; what is proved there uses only that every write goes
  through `set`.
* `encoding/json` is not part of the repository.  `MarshalJSON` is the struct of
  six fields it hands to `json.Marshal`, `UnmarshalJSON` starts from the struct
  that `json.Unmarshal` has filled, and `Decodes` says what the second holds
  when the bytes come from the first.
-/

namespace Intmat

/-! ## Go maps as association lists -/

/-- Lookup `m[k]` together with its `ok` flag. -/
def mapGet {V : Type} (m : List (Int × V)) (k : Int) : Option V :=
  match m with
  | [] => none
  | e :: rest => if e.1 = k then some e.2 else mapGet rest k

/-- The builtin `delete(m, k)`. -/
def mapDel {V : Type} (m : List (Int × V)) (k : Int) : List (Int × V) :=
  m.filter (fun e => decide (e.1 ≠ k))

/-- The assignment `m[k] = v`. -/
def mapPut {V : Type} (m : List (Int × V)) (k : Int) (v : V) : List (Int × V) :=
  (k, v) :: mapDel m k

/-- Keys of a Go map are pairwise distinct. -/
def NodupKeys {V : Type} (m : List (Int × V)) : Prop :=
  (m.map (fun e => e.1)).Nodup

instance {V : Type} (m : List (Int × V)) : Decidable (NodupKeys m) := by
  unfold NodupKeys; infer_instance

/-- The type `map[int]map[int]*big.Int`. -/
abbrev Outer := List (Int × List (Int × Int))

/-- The cell `o[x][y]` of a nested map, `none` when either lookup misses. -/
def cell (o : Outer) (x y : Int) : Option Int :=
  match mapGet o x with
  | none => none
  | some ys => mapGet ys y

/-- Remove `o[x][y]`, dropping the inner map when it becomes empty:
`delete(o[x], y); if len(o[x]) == 0 { delete(o, x) }`. -/
def delCell (o : Outer) (x y : Int) : Outer :=
  match mapGet o x with
  | none => o
  | some ys =>
    if (mapDel ys y).length = 0 then mapDel o x else mapPut o x (mapDel ys y)

/-- Store `o[x][y] = v`, creating the inner map when it is missing. -/
def putCell (o : Outer) (x y : Int) (v : Int) : Outer :=
  match mapGet o x with
  | none => mapPut o x [(y, v)]
  | some ys => mapPut o x (mapPut ys y v)

/-- Key uniqueness of a nested Go map: outer keys and the keys of every inner map. -/
def WFOuter (o : Outer) : Prop :=
  NodupKeys o ∧ ∀ e ∈ o, NodupKeys e.2

instance (o : Outer) : Decidable (WFOuter o) := by
  unfold WFOuter; infer_instance

/-! ## Machine integers -/

/-- The largest `int` of Go on a 64-bit platform, `math.MaxInt64`. -/
def maxInt : Int := 9223372036854775807

/-- The `int` that Go computes for an `int` expression whose mathematical value
is `x`: the value in 64-bit two's complement, so that `maxInt + 1` is
`-maxInt - 1`. -/
def wrapInt (x : Int) : Int :=
  (x + 9223372036854775808) % 18446744073709551616 - 9223372036854775808

/-! ## Heap of map objects and matrix views -/

/-- The map objects allocated so far; `next` is the first unused address. -/
structure Heap where
  obj : Nat → Outer
  next : Nat

/-- The heap with no map allocated. -/
def Heap.empty : Heap := ⟨fun _ => [], 0⟩

/-- Overwrite the map object at address `a`. -/
def Heap.write (h : Heap) (a : Nat) (o : Outer) : Heap :=
  ⟨fun x => if x = a then o else h.obj x, h.next⟩

/-- Allocate an empty map (`map[int]map[int]*big.Int{}`) at address `h.next`. -/
def Heap.alloc (h : Heap) : Heap :=
  ⟨fun x => if x = h.next then [] else h.obj x, h.next + 1⟩

/-- The struct `BigIntMatrix`: two map references, a shape and an offset. -/
structure BigIntMatrix where
  rowValues : Nat
  colValues : Nat
  rows : Int
  rowStart : Int
  cols : Int
  colStart : Int
deriving DecidableEq, Repr

/-- The struct `BigIntVector` (bigintvec.go:12): a matrix view with one row.
The pointer `mat` is taken to be non-nil. -/
structure BigIntVector where
  mat : BigIntMatrix
deriving DecidableEq, Repr

/-- The struct `TransposedBigIntVector` (bigintvec.go:276): a matrix view with
one column.  The pointer `mat` is taken to be non-nil. -/
structure TransposedBigIntVector where
  mat : BigIntMatrix
deriving DecidableEq, Repr

/-- The method `BigIntVector.Len` for a non-nil `mat`. -/
def BigIntVector.Len (vec : BigIntVector) : Int := vec.mat.cols

/-- The method `TransposedBigIntVector.Len` for a non-nil `mat`. -/
def TransposedBigIntVector.Len (tvec : TransposedBigIntVector) : Int := tvec.mat.rows

namespace BigIntMatrix

/-- The test `value == nil || value.Sign() == 0`. -/
def isNilOrZero (value : Option Int) : Bool :=
  match value with
  | none => true
  | some v => decide (v = 0)

/-- The method `set` (bigintmat.go:218), on absolute coordinates. -/
def set (h : Heap) (mat : BigIntMatrix) (r c : Int) (value : Option Int) : Heap :=
  if isNilOrZero value then
    match mapGet (h.obj mat.rowValues) r with
    | none => h
    | some ys =>
      match mapGet ys c with
      | none => h
      | some _ =>
        let h1 := h.write mat.rowValues (delCell (h.obj mat.rowValues) r c)
        h1.write mat.colValues (delCell (h1.obj mat.colValues) c r)
  else
    let v := value.getD 0
    let h1 := h.write mat.rowValues (putCell (h.obj mat.rowValues) r c v)
    h1.write mat.colValues (putCell (h1.obj mat.colValues) c r v)

/-- The method `at` (bigintmat.go:196): `none` is the nil pointer. -/
def at_ (h : Heap) (mat : BigIntMatrix) (r c : Int) : Option Int :=
  cell (h.obj mat.rowValues) r c

/-- The method `checkRowBounds`: `true` when it does not panic. -/
def checkRowBounds (mat : BigIntMatrix) (i : Int) : Bool :=
  !(decide (i < 0) || decide (i ≥ mat.rows))

/-- The method `checkColBounds`: `true` when it does not panic. -/
def checkColBounds (mat : BigIntMatrix) (j : Int) : Bool :=
  !(decide (j < 0) || decide (j ≥ mat.cols))

/-- The method `Dims`. -/
def Dims (mat : BigIntMatrix) : Int × Int := (mat.rows, mat.cols)

/-- The method `At` (bigintmat.go:183); an absent cell reads as zero. -/
def At (h : Heap) (mat : BigIntMatrix) (i j : Int) : Option Int :=
  if !mat.checkRowBounds i then none
  else if !mat.checkColBounds j then none
  else
    match mat.at_ h (i + mat.rowStart) (j + mat.colStart) with
    | none => some 0
    | some v => some v

/-- The method `Set` (bigintmat.go:209). -/
def Set (h : Heap) (mat : BigIntMatrix) (i j : Int) (value : Option Int) : Option Heap :=
  if !mat.checkRowBounds i then none
  else if !mat.checkColBounds j then none
  else some (mat.set h (i + mat.rowStart) (j + mat.colStart) value)

/-- The method `slice` (bigintmat.go:154): same maps, new window. -/
def slice (mat : BigIntMatrix) (r c rows cols : Int) : BigIntMatrix :=
  { rowValues := mat.rowValues, rows := rows, rowStart := r,
    colValues := mat.colValues, cols := cols, colStart := c }

/-- The method `Slice` (bigintmat.go:135). -/
def Slice (mat : BigIntMatrix) (i j rows cols : Int) : Option BigIntMatrix :=
  if decide (rows ≤ 0) || decide (cols ≤ 0) then none
  else if !mat.checkRowBounds i then none
  else if !mat.checkColBounds j then none
  else
    let r := i + mat.rowStart
    let c := j + mat.colStart
    if decide (r + rows - 1 > mat.rows) || decide (c + cols - 1 > mat.cols) then none
    else if !mat.checkRowBounds (i + rows - 1) then none
    else if !mat.checkColBounds (j + cols - 1) then none
    else some (mat.slice r c rows cols)

/-- The method `T` (bigintmat.go:262): the two maps and the two axes swap. -/
def T (mat : BigIntMatrix) : BigIntMatrix :=
  { rowValues := mat.colValues, rows := mat.cols, rowStart := mat.colStart,
    colValues := mat.rowValues, cols := mat.rows, colStart := mat.rowStart }

/-- Loop helper: a fold whose body may panic. -/
def foldOpt {α σ : Type} (f : σ → α → Option σ) : List α → σ → Option σ
  | [], s => some s
  | x :: xs, s =>
    match f s x with
    | none => none
    | some s1 => foldOpt f xs s1

/-- The index sequence of `for i := 0; i < n; i++`. -/
def upto (n : Int) : List Int := (List.range n.toNat).map Int.ofNat

/-- The method `zeroize` (bigintmat.go:293).  The ranges run over the entries
present when the loop starts; `set(rv, cv, nil)` only ever deletes the entry
being visited. -/
def zeroize (h : Heap) (mat : BigIntMatrix) (r c rows col : Int) : Heap :=
  (h.obj mat.rowValues).foldl (fun h1 e =>
    if decide (e.1 < r) || decide (r + rows ≤ e.1) then h1
    else e.2.foldl (fun h2 f =>
      if decide (f.1 < c) || decide (c + col ≤ f.1) then h2
      else mat.set h2 e.1 f.1 none) h1) h

/-- The method `Zeroize` (bigintmat.go:274). -/
def Zeroize (h : Heap) (mat : BigIntMatrix) : Heap :=
  mat.zeroize h mat.rowStart mat.colStart mat.rows mat.cols

/-- The method `ZeroizeRange` (bigintmat.go:279). -/
def ZeroizeRange (h : Heap) (mat : BigIntMatrix) (i j rows cols : Int) : Option Heap :=
  if decide (i < 0) || decide (j < 0) || decide (rows < 0) || decide (cols < 0) then none
  else if decide (mat.rows < i + rows) || decide (mat.cols < j + cols) then none
  else some (mat.zeroize h (i + mat.rowStart) (j + mat.colStart) rows cols)

/-- A freshly allocated root view, as built by the struct literal of the three
constructors: two new empty maps and zero offsets. -/
def fresh (h : Heap) (rows cols : Int) : Heap × BigIntMatrix :=
  (h.alloc.alloc,
   { rowValues := h.next, colValues := h.next + 1,
     rows := rows, rowStart := 0, cols := cols, colStart := 0 })

/-- The constructor `NewBigIntMat` (bigintmat.go:63); a nil entry of `values`
is `none`. -/
def NewBigIntMat (h : Heap) (rows cols : Int) (values : List (Option Int)) :
    Option (Heap × BigIntMatrix) :=
  if values.length ≠ 0 ∧ (values.length : Int) ≠ rows * cols then none
  else
    let hm := fresh h rows cols
    if values.length > 0 then
      some ((upto rows).foldl (fun h1 i =>
        (upto cols).foldl (fun h2 j =>
          match values.getD (i * cols + j).toNat none with
          | none => h2
          | some v => hm.2.set h2 i j (some v)) h1) hm.1, hm.2)
    else some hm

/-- The constructor `BigIntIdentity` (bigintmat.go:96). -/
def BigIntIdentity (h : Heap) (size : Int) : Heap × BigIntMatrix :=
  let hm := fresh h size size
  ((upto size).foldl (fun h1 i => hm.2.set h1 i i (some 1)) hm.1, hm.2)

/-- The constructor `BigIntCopy` (bigintmat.go:114). -/
def BigIntCopy (h : Heap) (m : BigIntMatrix) : Option (Heap × BigIntMatrix) :=
  let hm := fresh h m.rows m.cols
  match foldOpt (fun h1 i =>
      foldOpt (fun h2 j =>
        match m.At h2 i j with
        | none => none
        | some v => some (hm.2.set h2 i j (some v))) (upto hm.2.cols) h1)
      (upto hm.2.rows) hm.1 with
  | none => none
  | some h1 => some (h1, hm.2)

/-- The inner loop of `mul`: `value` accumulates `v1 * v2` over the entries of
row `cs` whose translated index is a key of column `rs`. -/
def dot (cs rs : List (Int × Int)) (aColStart bRowStart : Int) : Int :=
  cs.foldl (fun value e =>
    match mapGet rs (e.1 - aColStart + bRowStart) with
    | some v2 => value + e.2 * v2
    | none => value) 0

/-- The method `mul` (bigintmat.go:365). -/
def mul (h : Heap) (mat a b : BigIntMatrix) : Option Heap :=
  let h0 := mat.zeroize h mat.rowStart mat.colStart mat.rows mat.cols
  foldOpt (fun h1 e =>
    if decide (e.1 < a.rowStart) || decide (a.rowStart + a.rows ≤ e.1) then some h1
    else foldOpt (fun h2 f =>
      if decide (f.1 < b.colStart) || decide (b.colStart + b.cols ≤ f.1) then some h2
      else mat.Set h2 (e.1 - a.rowStart) (f.1 - b.colStart)
        (some (dot e.2 f.2 a.colStart b.rowStart))) (h1.obj b.colValues) h1)
    (h0.obj a.rowValues) h0

/-- The method `Mul` (bigintmat.go:342).  A nil operand is `none`; `matIsA` and
`matIsB` are the outcomes of the pointer comparisons `mat == a`, `mat == b`. -/
def Mul (h : Heap) (mat : BigIntMatrix) (a b : Option BigIntMatrix)
    (matIsA matIsB : Bool) : Option Heap :=
  match a, b with
  | some x, some y =>
    if matIsA || matIsB then none
    else if x.cols ≠ y.rows then none
    else if mat.Dims.1 ≠ x.Dims.1 ∨ mat.Dims.2 ≠ y.Dims.2 then none
    else mat.mul h x y
  | _, _ => none

/-- The method `setMatrix` (bigintmat.go:583). -/
def setMatrix (h : Heap) (mat a : BigIntMatrix) (rOffset cOffset : Int) : Heap :=
  let h0 := mat.zeroize h rOffset cOffset a.rows a.cols
  (h0.obj a.rowValues).foldl (fun h1 e =>
    e.2.foldl (fun h2 f =>
      mat.set h2 (e.1 - a.rowStart + rOffset) (f.1 - a.colStart + cOffset) (some f.2)) h1) h0

/-- The method `SetMatrix` (bigintmat.go:572). -/
def SetMatrix (h : Heap) (mat a : BigIntMatrix) (iOffset jOffset : Int) : Option Heap :=
  if decide (iOffset < 0) || decide (jOffset < 0) then none
  else if decide (mat.rows < iOffset + a.rows) || decide (mat.cols < jOffset + a.cols) then none
  else some (mat.setMatrix h a (iOffset + mat.rowStart) (jOffset + mat.colStart))

/-- The method `add` (bigintmat.go:415). -/
def add (h : Heap) (mat a b : BigIntMatrix) : Heap :=
  let h0 := mat.setMatrix h a mat.rowStart mat.colStart
  (h0.obj b.rowValues).foldl (fun h1 e =>
    e.2.foldl (fun h2 f =>
      let mr := e.1 - b.rowStart + mat.rowStart
      let mc := f.1 - b.colStart + mat.colStart
      match mat.at_ h2 mr mc with
      | none => mat.set h2 mr mc (some f.2)
      | some cur => mat.set h2 mr mc (some (cur + f.2))) h1) h0

/-- The method `Add` (bigintmat.go:397), with nil operands and pointer
comparisons as in `Mul`. -/
def Add (h : Heap) (mat : BigIntMatrix) (a b : Option BigIntMatrix)
    (matIsA matIsB : Bool) : Option Heap :=
  match a, b with
  | some x, some y =>
    if matIsA || matIsB then none
    else if x.rows ≠ y.rows ∨ x.cols ≠ y.cols then none
    else if mat.rows ≠ x.rows ∨ mat.cols ≠ x.cols then none
    else some (mat.add h x y)
  | _, _ => none

/-- The three statements `temp := NewBigIntMat(rows, cols); temp.Mul(x, y);
... = temp` that `Pow` runs twice per round.  `temp` is a new object, so both
pointer comparisons of `temp.Mul` are false. -/
def mulNew (h : Heap) (rows cols : Int) (x y : BigIntMatrix) : Option (Heap × BigIntMatrix) :=
  match NewBigIntMat h rows cols [] with
  | none => none
  | some (h1, temp) =>
    match temp.Mul h1 (some x) (some y) false false with
    | none => none
    | some h2 => some (h2, temp)

/-- The loop `for k > 0` of `Pow`, with Go's truncated `%` and `/`.  `fuel`
bounds the number of rounds; `none` is a panic of `Mul` or exhausted fuel. -/
def powLoop (rows cols : Int) : Nat → Heap → Int → BigIntMatrix → BigIntMatrix →
    Option (Heap × BigIntMatrix)
  | 0, _, _, _, _ => none
  | fuel + 1, h, k, result, currentPower =>
    if k > 0 then
      match (if Int.tmod k 2 = 1 then mulNew h rows cols result currentPower
          else some (h, result)) with
      | none => none
      | some (h2, result1) =>
        match (if Int.tdiv k 2 > 0 then mulNew h2 rows cols currentPower currentPower
            else some (h2, currentPower)) with
        | none => none
        | some (h4, currentPower1) =>
          powLoop rows cols fuel h4 (Int.tdiv k 2) result1 currentPower1
    else some (h, result)

/-- The method `Pow` (bigintmat.go:309).  The loop halves `k` each round, so
`k + 1` rounds of fuel are never used up. -/
def Pow (h : Heap) (mat : BigIntMatrix) (k : Int) : Option (Heap × BigIntMatrix) :=
  if mat.rows ≠ mat.cols then none
  else if k < 0 then none
  else if k = 0 then some (BigIntIdentity h mat.rows)
  else
    let r := BigIntIdentity h mat.rows
    match BigIntCopy r.1 mat with
    | none => none
    | some (h1, currentPower) => powLoop mat.rows mat.cols (k.toNat + 1) h1 k r.2 currentPower

/-- The method `Equals` (bigintmat.go:500).  Nil receivers and arguments are
`none`; `sameObject` is the pointer comparison `mat == m` of two non-nil views. -/
def Equals (h : Heap) (mat m : Option BigIntMatrix) (sameObject : Bool) : Bool :=
  match mat, m with
  | none, none => true
  | none, some _ => false
  | some _, none => false
  | some x, some y =>
    if sameObject then true
    else if x.rows ≠ y.rows ∨ x.cols ≠ y.cols then false
    else (upto x.rows).all (fun i =>
      let cs := mapGet (h.obj x.rowValues) (i + x.rowStart)
      let acs := mapGet (h.obj y.rowValues) (i + y.rowStart)
      if cs.isNone && acs.isNone then true
      else (upto x.cols).all (fun j =>
        let v1 := cs.bind (fun m1 => mapGet m1 (j + x.colStart))
        let v2 := acs.bind (fun m2 => mapGet m2 (j + y.colStart))
        match v1, v2 with
        | none, none => true
        | some p, some q => decide (p = q)
        | _, _ => false))

/-- What `set` leaves in the store for a given argument: nothing for nil or zero. -/
def stored (value : Option Int) : Option Int :=
  if isNilOrZero value then none else value

/-- The two index maps of the store of `m` mirror each other, cell by cell. -/
def MirrorP (h : Heap) (m : BigIntMatrix) : Prop :=
  ∀ x y, cell (h.obj m.rowValues) x y = cell (h.obj m.colValues) y x

/-- One store update made by a loop body: the target cell, and the value handed
to `set` as a function of the current content of that cell. -/
structure Op where
  r : Int
  c : Int
  f : Option Int → Option Int

/-- Run one update through `set`. -/
def applyOp (m : BigIntMatrix) (h : Heap) (op : Op) : Heap :=
  m.set h op.r op.c (op.f (m.at_ h op.r op.c))

/-- Run a sequence of updates. -/
def runOps (m : BigIntMatrix) (h : Heap) (ops : List Op) : Heap :=
  ops.foldl (applyOp m) h

/-- The content of one cell after a sequence of updates, from its content before. -/
def replay (ops : List Op) (x y : Int) (cur : Option Int) : Option Int :=
  (ops.filter (fun op => decide (op.r = x ∧ op.c = y))).foldl
    (fun v op => stored (op.f v)) cur

/-- The updates made by `zeroize` on the row map `o`. -/
def zeroizeOps (o : Outer) (r c rows col : Int) : List Op :=
  o.flatMap (fun e =>
    if decide (e.1 < r) || decide (r + rows ≤ e.1) then []
    else e.2.flatMap (fun f =>
      if decide (f.1 < c) || decide (c + col ≤ f.1) then []
      else [⟨e.1, f.1, fun _ => none⟩]))

/-- The list form of the dual-index invariant: every stored cell of either
index map is stored, with the same value, in the other one. -/
def Mirror (h : Heap) (m : BigIntMatrix) : Prop :=
  (∀ e ∈ h.obj m.rowValues, ∀ f ∈ e.2, cell (h.obj m.colValues) f.1 e.1 = some f.2) ∧
  (∀ e ∈ h.obj m.colValues, ∀ f ∈ e.2, cell (h.obj m.rowValues) f.1 e.1 = some f.2)

instance (h : Heap) (m : BigIntMatrix) : Decidable (Mirror h m) := by
  unfold Mirror; infer_instance

/-- The row map of the view holds no cell outside the view's rectangle. -/
def Confined (h : Heap) (m : BigIntMatrix) : Prop :=
  ∀ e ∈ h.obj m.rowValues, ∀ f ∈ e.2,
    m.rowStart ≤ e.1 ∧ e.1 < m.rowStart + m.rows ∧ m.colStart ≤ f.1 ∧ f.1 < m.colStart + m.cols

instance (h : Heap) (m : BigIntMatrix) : Decidable (Confined h m) := by
  unfold Confined; infer_instance

/-- Both index maps of the view have unique keys, as every Go map does. -/
def WF (h : Heap) (m : BigIntMatrix) : Prop :=
  WFOuter (h.obj m.rowValues) ∧ WFOuter (h.obj m.colValues)

instance (h : Heap) (m : BigIntMatrix) : Decidable (WF h m) := by
  unfold WF; infer_instance

/-- The view refers to two different map objects, both allocated in the heap. -/
def Live (h : Heap) (m : BigIntMatrix) : Prop :=
  m.rowValues ≠ m.colValues ∧ m.rowValues < h.next ∧ m.colValues < h.next

instance (h : Heap) (m : BigIntMatrix) : Decidable (Live h m) := by
  unfold Live; infer_instance

/-- The views `d` and `a` share no map object. -/
def Separate (d a : BigIntMatrix) : Prop :=
  d.rowValues ≠ a.rowValues ∧ d.rowValues ≠ a.colValues ∧
  d.colValues ≠ a.rowValues ∧ d.colValues ≠ a.colValues

instance (d a : BigIntMatrix) : Decidable (Separate d a) := by
  unfold Separate; infer_instance

/-- The updates of a loop that visits every stored cell `(r, c, v)` of the row
map `o` and makes the update `mk r c v`. -/
def cellOps (o : Outer) (mk : Int → Int → Int → Op) : List Op :=
  o.flatMap (fun e => e.2.map (fun f => mk e.1 f.1 f.2))

/-- The update made by the copy loop of `setMatrix` for the cell `(r, c, v)` of `a`. -/
def setMatrixOp (a : BigIntMatrix) (rOffset cOffset r c v : Int) : Op :=
  ⟨r - a.rowStart + rOffset, c - a.colStart + cOffset, fun _ => some v⟩

/-- The update made by the loop of `add` for the cell `(r, c, v)` of `b`. -/
def addOp (mat b : BigIntMatrix) (r c v : Int) : Op :=
  ⟨r - b.rowStart + mat.rowStart, c - b.colStart + mat.colStart,
    fun cur => match cur with
      | none => some v
      | some w => some (w + v)⟩

/-- The updates made by the loops of `mul`, for the row map `A` of `a` and the
column map `B` of `b`. -/
def mulOps (A B : Outer) (mat a b : BigIntMatrix) : List Op :=
  A.flatMap (fun e =>
    if decide (e.1 < a.rowStart) || decide (a.rowStart + a.rows ≤ e.1) then []
    else B.flatMap (fun f =>
      if decide (f.1 < b.colStart) || decide (b.colStart + b.cols ≤ f.1) then []
      else [⟨e.1 - a.rowStart + mat.rowStart, f.1 - b.colStart + mat.colStart,
        fun _ => some (dot e.2 f.2 a.colStart b.rowStart)⟩]))

/-- The updates made by the loop of `BigIntIdentity`. -/
def identityOps (size : Int) : List Op :=
  (upto size).map (fun i => ⟨i, i, fun _ => some 1⟩)

/-- The updates made by the loops of `BigIntCopy` into the new view, for the
row map `M0` of the source view `m`. -/
def copyOps (M0 : Outer) (m : BigIntMatrix) : List Op :=
  (upto m.rows).flatMap (fun i => (upto m.cols).map (fun j =>
    ⟨i, j, fun _ => some ((cell M0 (i + m.rowStart) (j + m.colStart)).getD 0)⟩))

/-- A clean root of size `n` in heap `h`: a square view with zero offsets over
two distinct allocated maps with unique keys that mirror each other and hold no
cell outside the shape.  This is what the three constructors return. -/
structure Clean (h : Heap) (v : BigIntMatrix) (n : Int) : Prop where
  rows : v.rows = n
  cols : v.cols = n
  rowStart : v.rowStart = 0
  colStart : v.colStart = 0
  ne : v.rowValues ≠ v.colValues
  ltRow : v.rowValues < h.next
  ltCol : v.colValues < h.next
  wfRow : WFOuter (h.obj v.rowValues)
  wfCol : WFOuter (h.obj v.colValues)
  mirror : MirrorP h v
  inside : ∀ x y w, cell (h.obj v.rowValues) x y = some w → 0 ≤ x ∧ x < n ∧ 0 ≤ y ∧ y < n

/-- The logical contents of a view as a square matrix of size `N`. -/
def matOf (h : Heap) (v : BigIntMatrix) (N : Nat) : Matrix (Fin N) (Fin N) Int :=
  fun i j => (v.At h ((i : Nat) : Int) ((j : Nat) : Int)).getD 0

/-- No zero value is stored in the row map of the view. -/
def NoStoredZero (h : Heap) (m : BigIntMatrix) : Prop :=
  ∀ e ∈ h.obj m.rowValues, ∀ f ∈ e.2, f.2 ≠ 0

instance (h : Heap) (m : BigIntMatrix) : Decidable (NoStoredZero h m) := by
  unfold NoStoredZero; infer_instance

/-- The rows of a view as read through `At`, for stating concrete results. -/
def toRows (h : Heap) (m : BigIntMatrix) : List (List (Option Int)) :=
  (upto m.rows).map (fun i => (upto m.cols).map (fun j => m.At h i j))

/-- Example state: the 2×2 root `[[1,2],[3,4]]` in an empty heap. -/
def demoA : Heap × BigIntMatrix :=
  (NewBigIntMat Heap.empty 2 2 [some 1, some 2, some 3, some 4]).getD
    (Heap.empty, ⟨0, 0, 0, 0, 0, 0⟩)

/-- Example state: `demoA` followed by the 2×2 root `[[0,1],[1,0]]`. -/
def demoB : Heap × BigIntMatrix :=
  (NewBigIntMat demoA.1 2 2 [some 0, some 1, some 1, some 0]).getD
    (Heap.empty, ⟨0, 0, 0, 0, 0, 0⟩)

/-- Example state: `demoB` followed by a 2×2 destination holding `[[9,9],[9,9]]`. -/
def demoD : Heap × BigIntMatrix :=
  (NewBigIntMat demoB.1 2 2 [some 9, some 9, some 9, some 9]).getD
    (Heap.empty, ⟨0, 0, 0, 0, 0, 0⟩)

/-- The method `SetRow` (bigintmat.go:477).  Both ranges run over the entries
present when the loop starts. -/
def SetRow (h : Heap) (mat : BigIntMatrix) (i : Int) (vec : BigIntVector) : Option Heap :=
  if !mat.checkRowBounds i then none
  else if mat.cols ≠ vec.Len then none
  else
    let r := i + mat.rowStart
    let h1 := ((mapGet (h.obj mat.rowValues) r).getD []).foldl
      (fun s f => mat.set s r f.1 none) h
    some (((mapGet (h1.obj vec.mat.rowValues) vec.mat.rowStart).getD []).foldl
      (fun s f => mat.set s r (f.1 + mat.colStart) (some f.2)) h1)

/-- The method `SetColumn` (bigintmat.go:445).  Both ranges run over the
entries present when the loop starts. -/
def SetColumn (h : Heap) (mat : BigIntMatrix) (j : Int) (vec : TransposedBigIntVector) :
    Option Heap :=
  if !mat.checkColBounds j then none
  else if mat.rows ≠ vec.Len then none
  else
    let c := j + mat.colStart
    let h1 := ((mapGet (h.obj mat.colValues) c).getD []).foldl
      (fun s f => mat.set s f.1 c none) h
    some (((mapGet (h1.obj vec.mat.colValues) vec.mat.colStart).getD []).foldl
      (fun s f => mat.set s (f.1 + mat.rowStart) c (some f.2)) h1)

/-- The heap `h1` comes from `h` by a sequence of calls of `set` through the
view `m`. -/
def Writes (m : BigIntMatrix) (h h1 : Heap) : Prop :=
  ∃ ops : List Op, h1 = runOps m h ops

/-- The store with row map at address `r` and column map at address `c`
satisfies the dual-index invariant: the two maps mirror each other cell by cell
and no stored value is zero; moreover both maps have unique keys. -/
def StoreOK (h : Heap) (r c : Nat) : Prop :=
  (∀ x y, cell (h.obj r) x y = cell (h.obj c) y x) ∧ (∀ x y, cell (h.obj r) x y ≠ some 0) ∧
  WFOuter (h.obj r) ∧ WFOuter (h.obj c)

/-- The invariant carried along a reachable state: stores are allocated in
pairs, every view handed out refers to the two maps of one store, in either
order, and every store satisfies the dual-index invariant. -/
def StateOK (h : Heap) (vs : List BigIntMatrix) : Prop :=
  (∃ n, h.next = 2 * n) ∧
  (∀ m ∈ vs, ∃ k, 2 * k + 1 < h.next ∧
    ((m.rowValues = 2 * k ∧ m.colValues = 2 * k + 1) ∨
      (m.rowValues = 2 * k + 1 ∧ m.colValues = 2 * k))) ∧
  (∀ k, 2 * k + 1 < h.next → StoreOK h (2 * k) (2 * k + 1))

/-- One of the mutators `Set`, `Zeroize`, `ZeroizeRange` and `SetMatrix` applied
through the view `m`, taking the heap `h` to `h1`. -/
def Mutates (m : BigIntMatrix) (h h1 : Heap) : Prop :=
  (∃ i j v, m.Set h i j v = some h1) ∨ h1 = m.Zeroize h ∨
  (∃ i j rows cols, m.ZeroizeRange h i j rows cols = some h1) ∨
  (∃ a i j, m.SetMatrix h a i j = some h1)

/-- The method `Row` (bigintmat.go:468). -/
def Row (mat : BigIntMatrix) (i : Int) : Option BigIntVector :=
  if !mat.checkRowBounds i then none
  else
    match mat.Slice i 0 1 mat.cols with
    | none => none
    | some s => some ⟨s⟩

/-- The updates made by the loops of `NewBigIntMat` for a non-empty `values`. -/
def newMatOps (rows cols : Int) (values : List (Option Int)) : List Op :=
  (upto rows).flatMap (fun i => (upto cols).flatMap (fun j =>
    match values.getD (i * cols + j).toNat none with
    | none => []
    | some v => [⟨i, j, fun _ => some v⟩]))

/-- The row-major list of the `n * n` entries with 1 on the diagonal and 0
elsewhere, as a value list for `NewBigIntMat`. -/
def identityValues (n : Nat) : List (Option Int) :=
  (List.range (n * n)).map (fun k => some (if k / n = k % n then 1 else 0))

end BigIntMatrix

/-! ## Columns, the calls of Mul made by Pow, and serialization -/

namespace BigIntMatrix

/-- The method `Column` (bigintmat.go:436). -/
def Column (mat : BigIntMatrix) (j : Int) : Option TransposedBigIntVector :=
  if !mat.checkColBounds j then none
  else
    match mat.Slice 0 j mat.rows 1 with
    | none => none
    | some s => some ⟨s⟩

/-- The loop `for k > 0` of `Pow` as in `powLoop`, with one counter for each of
the two call sites of `Mul`: `products` goes up by one at
`temp.Mul(result, currentPower)` and `squarings` at
`temp.Mul(currentPower, currentPower)`. -/
def powLoopCalls (rows cols : Int) : Nat → Heap → Int → BigIntMatrix → BigIntMatrix →
    Nat → Nat → Option (Heap × BigIntMatrix × Nat × Nat)
  | 0, _, _, _, _, _, _ => none
  | fuel + 1, h, k, result, currentPower, products, squarings =>
    if k > 0 then
      match (if Int.tmod k 2 = 1 then
            (mulNew h rows cols result currentPower).map (fun r => (r.1, r.2, products + 1))
          else some (h, result, products)) with
      | none => none
      | some (h2, result1, products1) =>
        match (if Int.tdiv k 2 > 0 then
              (mulNew h2 rows cols currentPower currentPower).map
                (fun r => (r.1, r.2, squarings + 1))
            else some (h2, currentPower, squarings)) with
        | none => none
        | some (h4, currentPower1, squarings1) =>
          powLoopCalls rows cols fuel h4 (Int.tdiv k 2) result1 currentPower1
            products1 squarings1
    else some (h, result, products, squarings)

/-- The method `Pow` as in `Pow`, returning also the two numbers of calls of
`Mul` made by its loop: the products of `result` by the current power, and the
squarings. -/
def PowCalls (h : Heap) (mat : BigIntMatrix) (k : Int) :
    Option (Heap × BigIntMatrix × Nat × Nat) :=
  if mat.rows ≠ mat.cols then none
  else if k < 0 then none
  else if k = 0 then some ((BigIntIdentity h mat.rows).1, (BigIntIdentity h mat.rows).2, 0, 0)
  else
    let r := BigIntIdentity h mat.rows
    match BigIntCopy r.1 mat with
    | none => none
    | some (h1, currentPower) =>
      powLoopCalls mat.rows mat.cols (k.toNat + 1) h1 k r.2 currentPower 0 0

/-- Example state: `demoB` followed by the 3×3 root `P` with 9 in every cell;
the view `⟨4, 5, 2, 1, 2, 1⟩` is the slice `P.Slice(1,1,2,2)`. -/
def demoQ : Heap × BigIntMatrix :=
  (NewBigIntMat demoB.1 3 3 (List.replicate 9 (some 9))).getD
    (Heap.empty, ⟨0, 0, 0, 0, 0, 0⟩)

end BigIntMatrix

/-- The struct `bigintmatrix` (bigintmat.go:23) that is handed to `json.Marshal`
and filled by `json.Unmarshal`: the two maps by their contents and the four
integers. -/
structure bigintmatrix where
  RowValues : Outer
  ColValues : Outer
  Rows : Int
  RowStart : Int
  Cols : Int
  ColStart : Int
deriving DecidableEq, Repr

namespace BigIntMatrix

/-- The method `MarshalJSON` (bigintmat.go:32): the value it hands to
`json.Marshal`. -/
def MarshalJSON (h : Heap) (mat : BigIntMatrix) : bigintmatrix :=
  { RowValues := h.obj mat.rowValues, ColValues := h.obj mat.colValues,
    Rows := mat.rows, RowStart := mat.rowStart, Cols := mat.cols, ColStart := mat.colStart }

/-- The method `UnmarshalJSON` (bigintmat.go:43) after `json.Unmarshal` has
filled `m`: the two decoded maps are new map objects, and the six fields are
assigned to the receiver, which is returned here. -/
def UnmarshalJSON (h : Heap) (m : bigintmatrix) : Heap × BigIntMatrix :=
  ((h.alloc.write h.next m.RowValues).alloc.write (h.next + 1) m.ColValues,
   { rowValues := h.next, colValues := h.next + 1,
     rows := m.Rows, rowStart := m.RowStart, cols := m.Cols, colStart := m.ColStart })

end BigIntMatrix

/-- What `json.Unmarshal` may write into the struct `m` from the bytes that
`json.Marshal` made of the struct `e`: the four integers as they were and two
maps with the same cells; the order of the entries of a map is not fixed. -/
def Decodes (e m : bigintmatrix) : Prop :=
  (∀ x y, cell m.RowValues x y = cell e.RowValues x y) ∧
  (∀ x y, cell m.ColValues x y = cell e.ColValues x y) ∧
  m.Rows = e.Rows ∧ m.RowStart = e.RowStart ∧ m.Cols = e.Cols ∧ m.ColStart = e.ColStart

/-! ## Row vectors -/

namespace BigIntVector

/-- The constructor `NewBigIntVec` (bigintvec.go:36). -/
def NewBigIntVec (h : Heap) (length : Int) (values : List (Option Int)) :
    Option (Heap × BigIntVector) :=
  if values.length ≠ 0 ∧ length ≠ (values.length : Int) then none
  else
    match BigIntMatrix.NewBigIntMat h 1 length values with
    | none => none
    | some hm => some (hm.1, ⟨hm.2⟩)

/-- The method `offset` (bigintvec.go:55). -/
def offset (vec : BigIntVector) : Int := vec.mat.colStart

/-- The method `checkBounds` (bigintvec.go:79): `true` when it does not panic. -/
def checkBounds (vec : BigIntVector) (i : Int) : Bool :=
  !(decide (i < 0) || decide (i ≥ vec.Len))

/-- The method `at` (bigintvec.go:98), which takes an absolute column index. -/
def at_ (h : Heap) (vec : BigIntVector) (absColIdx : Int) : Option Int :=
  match mapGet (h.obj vec.mat.rowValues) vec.mat.rowStart with
  | some rowMap => mapGet rowMap absColIdx
  | none => none

/-- The method `At` (bigintvec.go:86): the index `i` is handed to `at` as it is. -/
def At (h : Heap) (vec : BigIntVector) (i : Int) : Option Int :=
  if !vec.checkBounds i then none
  else
    match vec.at_ h i with
    | none => some 0
    | some v => some v

/-- The method `set` (bigintvec.go:119). -/
def set (h : Heap) (vec : BigIntVector) (j : Int) (value : Option Int) : Heap :=
  vec.mat.set h vec.mat.rowStart j value

/-- The method `Set` (bigintvec.go:112). -/
def Set (h : Heap) (vec : BigIntVector) (i : Int) (value : Option Int) : Option Heap :=
  if !vec.checkBounds i then none
  else some (vec.set h (i + vec.offset) value)

/-- The method `Slice` (bigintvec.go:191): the new view starts at row 0. -/
def Slice (vec : BigIntVector) (i len : Int) : Option BigIntVector :=
  if len ≤ 0 then none
  else if !vec.checkBounds i then none
  else some ⟨vec.mat.slice 0 (i + vec.offset) 1 len⟩

/-- The method `Dot` (bigintvec.go:150).  The matrix `m` is a new object, so
both pointer comparisons of `m.Mul` are false. -/
def Dot (h : Heap) (vec a : BigIntVector) : Option (Heap × Int) :=
  if vec.Len ≠ a.Len then none
  else
    match BigIntMatrix.NewBigIntMat h 1 1 [] with
    | none => none
    | some hm =>
      match hm.2.Mul hm.1 (some vec.mat) (some a.mat.T) false false with
      | none => none
      | some h2 =>
        match hm.2.At h2 0 0 with
        | none => none
        | some v => some (h2, v)

/-- The method `Equals` (bigintvec.go:235) for non-nil vectors; `sameObject` is
the comparison `vec == v` and `sameMat` the comparison of the two `mat`
pointers made by `BigIntMatrix.Equals`. -/
def Equals (h : Heap) (vec v : BigIntVector) (sameObject sameMat : Bool) : Bool :=
  if sameObject then true
  else BigIntMatrix.Equals h (some vec.mat) (some v.mat) sameMat

/-- The method `T` (bigintvec.go:183). -/
def T (vec : BigIntVector) : TransposedBigIntVector := ⟨vec.mat.T⟩

/-- The method `SetVec` (bigintvec.go:124); a nil `a` is `none`. -/
def SetVec (h : Heap) (vec : BigIntVector) (a : Option BigIntVector) (i : Int) : Option Heap :=
  match a with
  | none => none
  | some a =>
    if decide (i < 0) || decide (i + a.Len > vec.Len) then none
    else some (vec.mat.setMatrix h a.mat vec.mat.rowStart (i + vec.mat.colStart))

/-- The method `NonzeroValues` (bigintvec.go:159); the map it returns is built
entry by entry from the row map of the store. -/
def NonzeroValues (h : Heap) (vec : BigIntVector) : List (Int × Int) :=
  match mapGet (h.obj vec.mat.rowValues) vec.mat.rowStart with
  | none => []
  | some rowMap =>
    rowMap.foldl (fun indexToValues e =>
      if e.1 ≥ vec.mat.colStart ∧ e.1 < vec.mat.colStart + vec.mat.cols then
        if e.2 ≠ 0 then mapPut indexToValues (e.1 - vec.mat.colStart) e.2
        else indexToValues
      else indexToValues) []

/-- Example state: the row vector `[1,0,3]` in an empty heap. -/
def demoV : Heap × BigIntVector :=
  (NewBigIntVec Heap.empty 3 [some 1, some 0, some 3]).getD
    (Heap.empty, ⟨⟨0, 0, 0, 0, 0, 0⟩⟩)

end BigIntVector

/-! ## Column vectors -/

namespace TransposedBigIntVector

/-- The constructor `NewTBigIntVec` (bigintvec.go:300). -/
def NewTBigIntVec (h : Heap) (length : Int) (values : List (Option Int)) :
    Option (Heap × TransposedBigIntVector) :=
  if values.length ≠ 0 ∧ length ≠ (values.length : Int) then none
  else
    match BigIntVector.NewBigIntVec h length values with
    | none => none
    | some hv => some (hv.1, hv.2.T)

/-- The method `offset` (bigintvec.go:321). -/
def offset (tvec : TransposedBigIntVector) : Int := tvec.mat.rowStart

/-- The method `T` (bigintvec.go:326). -/
def T (tvec : TransposedBigIntVector) : BigIntVector := ⟨tvec.mat.T⟩

/-- The method `checkBounds` (bigintvec.go:339): `true` when it does not panic. -/
def checkBounds (tvec : TransposedBigIntVector) (i : Int) : Bool :=
  !(decide (i < 0) || decide (i ≥ tvec.Len))

/-- The method `At` (bigintvec.go:346). -/
def At (h : Heap) (tvec : TransposedBigIntVector) (i : Int) : Option Int :=
  if !tvec.checkBounds i then none
  else tvec.mat.At h i 0

/-- The method `Set` (bigintvec.go:364). -/
def Set (h : Heap) (tvec : TransposedBigIntVector) (i : Int) (value : Option Int) :
    Option Heap :=
  if !tvec.checkBounds i then none
  else tvec.mat.Set h i 0 value

/-- The method `Slice` (bigintvec.go:391).  The sum `j+length` of the two
arguments is the `int` that Go computes. -/
def Slice (tvec : TransposedBigIntVector) (j length : Int) : Option TransposedBigIntVector :=
  if length ≤ 0 then none
  else if !tvec.checkBounds j then none
  else if wrapInt (j + length) > tvec.Len then none
  else some ⟨tvec.mat.slice (tvec.mat.rowStart + j) tvec.mat.colStart length 1⟩

/-- The method `NonzeroValues` (bigintvec.go:443); the map it returns is built
entry by entry from the column map of the store. -/
def NonzeroValues (h : Heap) (tvec : TransposedBigIntVector) : List (Int × Int) :=
  match mapGet (h.obj tvec.mat.colValues) tvec.mat.colStart with
  | none => []
  | some colMap =>
    colMap.foldl (fun indexToValues e =>
      if e.1 ≥ tvec.mat.rowStart ∧ e.1 < tvec.mat.rowStart + tvec.mat.rows then
        if e.2 ≠ 0 then mapPut indexToValues (e.1 - tvec.mat.rowStart) e.2
        else indexToValues
      else indexToValues) []

/-- Example state: the column vector `[1,0,3]` in an empty heap. -/
def demoT : Heap × TransposedBigIntVector :=
  (NewTBigIntVec Heap.empty 3 [some 1, some 0, some 3]).getD
    (Heap.empty, ⟨⟨0, 0, 0, 0, 0, 0⟩⟩)

end TransposedBigIntVector

/-! ## Panics with the heap they leave behind -/

namespace Panic

/-- A fold whose body may panic; `Except.error h` is a panic raised when the
heap was `h`. -/
def foldExc {α : Type} (f : Heap → α → Except Heap Heap) : List α → Heap → Except Heap Heap
  | [], s => Except.ok s
  | x :: xs, s =>
    match f s x with
    | Except.error e => Except.error e
    | Except.ok s1 => foldExc f xs s1

/-- The method `Set` (bigintmat.go:209). -/
def Set (h : Heap) (mat : BigIntMatrix) (i j : Int) (value : Option Int) : Except Heap Heap :=
  if !mat.checkRowBounds i then Except.error h
  else if !mat.checkColBounds j then Except.error h
  else Except.ok (mat.set h (i + mat.rowStart) (j + mat.colStart) value)

/-- The method `mul` (bigintmat.go:365). -/
def mul (h : Heap) (mat a b : BigIntMatrix) : Except Heap Heap :=
  let h0 := mat.zeroize h mat.rowStart mat.colStart mat.rows mat.cols
  foldExc (fun h1 e =>
    if decide (e.1 < a.rowStart) || decide (a.rowStart + a.rows ≤ e.1) then Except.ok h1
    else foldExc (fun h2 f =>
      if decide (f.1 < b.colStart) || decide (b.colStart + b.cols ≤ f.1) then Except.ok h2
      else Set h2 mat (e.1 - a.rowStart) (f.1 - b.colStart)
        (some (BigIntMatrix.dot e.2 f.2 a.colStart b.rowStart))) (h1.obj b.colValues) h1)
    (h0.obj a.rowValues) h0

/-- The method `Mul` (bigintmat.go:342). -/
def Mul (h : Heap) (mat : BigIntMatrix) (a b : Option BigIntMatrix)
    (matIsA matIsB : Bool) : Except Heap Heap :=
  match a, b with
  | some x, some y =>
    if matIsA || matIsB then Except.error h
    else if x.cols ≠ y.rows then Except.error h
    else if mat.Dims.1 ≠ x.Dims.1 ∨ mat.Dims.2 ≠ y.Dims.2 then Except.error h
    else mul h mat x y
  | _, _ => Except.error h

/-- The method `Add` (bigintmat.go:397). -/
def Add (h : Heap) (mat : BigIntMatrix) (a b : Option BigIntMatrix)
    (matIsA matIsB : Bool) : Except Heap Heap :=
  match a, b with
  | some x, some y =>
    if matIsA || matIsB then Except.error h
    else if x.rows ≠ y.rows ∨ x.cols ≠ y.cols then Except.error h
    else if mat.rows ≠ x.rows ∨ mat.cols ≠ x.cols then Except.error h
    else Except.ok (mat.add h x y)
  | _, _ => Except.error h

end Panic

/-! ## Element objects: the pointer-level state -/

namespace Ptr

/-- The map objects together with the `big.Int` objects.  In `maps` an entry of
an inner map holds the address of its element (a `*big.Int`, nil being `none`);
`val` is the integer each element holds; the addresses from 1 up to
`nextInt - 1` are allocated. -/
structure Mem where
  maps : Heap
  val : Int → Int
  nextInt : Int

/-- The state with no map object and no element object. -/
def Mem.empty : Mem := ⟨Heap.empty, fun _ => 0, 1⟩

/-- The pointer `p` refers to an allocated element object. -/
def Allocated (s : Mem) (p : Int) : Prop := 1 ≤ p ∧ p < s.nextInt

instance (s : Mem) (p : Int) : Decidable (Allocated s p) := by
  unfold Allocated; infer_instance

/-- The integer held by the element stored at `o[x][y]` of the map object at
address `a`, `none` when the cell is absent. -/
def read (s : Mem) (a : Nat) (x y : Int) : Option Int :=
  (cell (s.maps.obj a) x y).map s.val

/-- The calls `big.NewInt(v)` and `new(big.Int).Set(..)`, `new(big.Int).Add(..)`:
a new element object holding `v`. -/
def newInt (s : Mem) (v : Int) : Mem × Int :=
  (⟨s.maps, fun q => if q = s.nextInt then v else s.val q, s.nextInt + 1⟩, s.nextInt)

/-- The call `p.Neg(p)`: the element object `p` is negated in place. -/
def neg (s : Mem) (p : Int) : Mem :=
  ⟨s.maps, fun q => if q = p then - s.val p else s.val q, s.nextInt⟩

/-- The test `value == nil || value.Sign() == 0`. -/
def isNilOrZero (s : Mem) (value : Option Int) : Bool :=
  match value with
  | none => true
  | some p => decide (s.val p = 0)

/-- The method `set` (bigintmat.go:218): the pointer `value` itself is stored
in both maps. -/
def set (s : Mem) (mat : BigIntMatrix) (r c : Int) (value : Option Int) : Mem :=
  if isNilOrZero s value then
    match mapGet (s.maps.obj mat.rowValues) r with
    | none => s
    | some ys =>
      match mapGet ys c with
      | none => s
      | some _ =>
        let h1 := s.maps.write mat.rowValues (delCell (s.maps.obj mat.rowValues) r c)
        ⟨h1.write mat.colValues (delCell (h1.obj mat.colValues) c r), s.val, s.nextInt⟩
  else
    let p := value.getD 0
    let h1 := s.maps.write mat.rowValues (putCell (s.maps.obj mat.rowValues) r c p)
    ⟨h1.write mat.colValues (putCell (h1.obj mat.colValues) c r p), s.val, s.nextInt⟩

/-- The method `at` (bigintmat.go:196): the stored pointer, `none` for nil. -/
def at_ (s : Mem) (mat : BigIntMatrix) (r c : Int) : Option Int :=
  cell (s.maps.obj mat.rowValues) r c

/-- The method `At` (bigintmat.go:183): the stored pointer, or a new element
holding zero when the cell is absent. -/
def At (s : Mem) (mat : BigIntMatrix) (i j : Int) : Option (Mem × Int) :=
  if !mat.checkRowBounds i then none
  else if !mat.checkColBounds j then none
  else
    match at_ s mat (i + mat.rowStart) (j + mat.colStart) with
    | none => some (newInt s 0)
    | some p => some (s, p)

/-- The method `Set` (bigintmat.go:209). -/
def Set (s : Mem) (mat : BigIntMatrix) (i j : Int) (value : Option Int) : Option Mem :=
  if !mat.checkRowBounds i then none
  else if !mat.checkColBounds j then none
  else some (set s mat (i + mat.rowStart) (j + mat.colStart) value)

/-- The method `zeroize` (bigintmat.go:293). -/
def zeroize (s : Mem) (mat : BigIntMatrix) (r c rows col : Int) : Mem :=
  (s.maps.obj mat.rowValues).foldl (fun s1 e =>
    if decide (e.1 < r) || decide (r + rows ≤ e.1) then s1
    else e.2.foldl (fun s2 f =>
      if decide (f.1 < c) || decide (c + col ≤ f.1) then s2
      else set s2 mat e.1 f.1 none) s1) s

/-- The method `Zeroize` (bigintmat.go:274). -/
def Zeroize (s : Mem) (mat : BigIntMatrix) : Mem :=
  zeroize s mat mat.rowStart mat.colStart mat.rows mat.cols

/-- The method `ZeroizeRange` (bigintmat.go:279). -/
def ZeroizeRange (s : Mem) (mat : BigIntMatrix) (i j rows cols : Int) : Option Mem :=
  if decide (i < 0) || decide (j < 0) || decide (rows < 0) || decide (cols < 0) then none
  else if decide (mat.rows < i + rows) || decide (mat.cols < j + cols) then none
  else some (zeroize s mat (i + mat.rowStart) (j + mat.colStart) rows cols)

/-- A freshly allocated root view: two new empty maps and zero offsets. -/
def fresh (s : Mem) (rows cols : Int) : Mem × BigIntMatrix :=
  (⟨(BigIntMatrix.fresh s.maps rows cols).1, s.val, s.nextInt⟩,
    (BigIntMatrix.fresh s.maps rows cols).2)

/-- The constructor `NewBigIntMat` (bigintmat.go:63); the pointers of `values`
are stored as they are. -/
def NewBigIntMat (s : Mem) (rows cols : Int) (values : List (Option Int)) :
    Option (Mem × BigIntMatrix) :=
  if values.length ≠ 0 ∧ (values.length : Int) ≠ rows * cols then none
  else
    let sm := fresh s rows cols
    if values.length > 0 then
      some ((BigIntMatrix.upto rows).foldl (fun s1 i =>
        (BigIntMatrix.upto cols).foldl (fun s2 j =>
          match values.getD (i * cols + j).toNat none with
          | none => s2
          | some p => set s2 sm.2 i j (some p)) s1) sm.1, sm.2)
    else some sm

/-- The constructor `BigIntIdentity` (bigintmat.go:96): every diagonal cell gets
its own `big.NewInt(1)`. -/
def BigIntIdentity (s : Mem) (size : Int) : Mem × BigIntMatrix :=
  let sm := fresh s size size
  ((BigIntMatrix.upto size).foldl (fun s1 i =>
    set (newInt s1 1).1 sm.2 i i (some (newInt s1 1).2)) sm.1, sm.2)

/-- The constructor `BigIntCopy` (bigintmat.go:114): the pointer returned by
`m.At(i, j)` is what `set` receives. -/
def BigIntCopy (s : Mem) (m : BigIntMatrix) : Option (Mem × BigIntMatrix) :=
  let sm := fresh s m.rows m.cols
  match BigIntMatrix.foldOpt (fun s1 i =>
      BigIntMatrix.foldOpt (fun s2 j =>
        match At s2 m i j with
        | none => none
        | some sp => some (set sp.1 sm.2 i j (some sp.2))) (BigIntMatrix.upto sm.2.cols) s1)
      (BigIntMatrix.upto sm.2.rows) sm.1 with
  | none => none
  | some s1 => some (s1, sm.2)

/-- The method `setMatrix` (bigintmat.go:583): the pointers of `a` are stored
as they are. -/
def setMatrix (s : Mem) (mat a : BigIntMatrix) (rOffset cOffset : Int) : Mem :=
  let s0 := zeroize s mat rOffset cOffset a.rows a.cols
  (s0.maps.obj a.rowValues).foldl (fun s1 e =>
    e.2.foldl (fun s2 f =>
      set s2 mat (e.1 - a.rowStart + rOffset) (f.1 - a.colStart + cOffset) (some f.2)) s1) s0

/-- The method `SetMatrix` (bigintmat.go:572). -/
def SetMatrix (s : Mem) (mat a : BigIntMatrix) (iOffset jOffset : Int) : Option Mem :=
  if decide (iOffset < 0) || decide (jOffset < 0) then none
  else if decide (mat.rows < iOffset + a.rows) || decide (mat.cols < jOffset + a.cols) then none
  else some (setMatrix s mat a (iOffset + mat.rowStart) (jOffset + mat.colStart))

/-- The method `SetRow` (bigintmat.go:477). -/
def SetRow (s : Mem) (mat : BigIntMatrix) (i : Int) (vec : BigIntVector) : Option Mem :=
  if !mat.checkRowBounds i then none
  else if mat.cols ≠ vec.Len then none
  else
    let r := i + mat.rowStart
    let s1 := ((mapGet (s.maps.obj mat.rowValues) r).getD []).foldl
      (fun t f => set t mat r f.1 none) s
    some (((mapGet (s1.maps.obj vec.mat.rowValues) vec.mat.rowStart).getD []).foldl
      (fun t f => set t mat r (f.1 + mat.colStart) (some f.2)) s1)

/-- The method `SetColumn` (bigintmat.go:445). -/
def SetColumn (s : Mem) (mat : BigIntMatrix) (j : Int) (vec : TransposedBigIntVector) :
    Option Mem :=
  if !mat.checkColBounds j then none
  else if mat.rows ≠ vec.Len then none
  else
    let c := j + mat.colStart
    let s1 := ((mapGet (s.maps.obj mat.colValues) c).getD []).foldl
      (fun t f => set t mat f.1 c none) s
    some (((mapGet (s1.maps.obj vec.mat.colValues) vec.mat.colStart).getD []).foldl
      (fun t f => set t mat (f.1 + mat.rowStart) c (some f.2)) s1)

/-- The method `add` (bigintmat.go:415): each sum is a new element object. -/
def add (s : Mem) (mat a b : BigIntMatrix) : Mem :=
  let s0 := setMatrix s mat a mat.rowStart mat.colStart
  (s0.maps.obj b.rowValues).foldl (fun s1 e =>
    e.2.foldl (fun s2 f =>
      let mr := e.1 - b.rowStart + mat.rowStart
      let mc := f.1 - b.colStart + mat.colStart
      match at_ s2 mat mr mc with
      | none => set (newInt s2 (s2.val f.2)).1 mat mr mc (some (newInt s2 (s2.val f.2)).2)
      | some cur =>
        set (newInt s2 (s2.val cur + s2.val f.2)).1 mat mr mc
          (some (newInt s2 (s2.val cur + s2.val f.2)).2)) s1) s0

/-- The method `Add` (bigintmat.go:397). -/
def Add (s : Mem) (mat : BigIntMatrix) (a b : Option BigIntMatrix)
    (matIsA matIsB : Bool) : Option Mem :=
  match a, b with
  | some x, some y =>
    if matIsA || matIsB then none
    else if x.rows ≠ y.rows ∨ x.cols ≠ y.cols then none
    else if mat.rows ≠ x.rows ∨ mat.cols ≠ x.cols then none
    else some (add s mat x y)
  | _, _ => none

/-- The inner loop of `mul` on the integers held by the elements. -/
def dot (s : Mem) (cs rs : List (Int × Int)) (aColStart bRowStart : Int) : Int :=
  cs.foldl (fun value e =>
    match mapGet rs (e.1 - aColStart + bRowStart) with
    | some p2 => value + s.val e.2 * s.val p2
    | none => value) 0

/-- The method `mul` (bigintmat.go:365).  The accumulator `value` is a new
element object, stored once the inner loop is over; the temporaries `prod` are
never stored and are left out. -/
def mul (s : Mem) (mat a b : BigIntMatrix) : Option Mem :=
  let s0 := zeroize s mat mat.rowStart mat.colStart mat.rows mat.cols
  BigIntMatrix.foldOpt (fun s1 e =>
    if decide (e.1 < a.rowStart) || decide (a.rowStart + a.rows ≤ e.1) then some s1
    else BigIntMatrix.foldOpt (fun s2 f =>
      if decide (f.1 < b.colStart) || decide (b.colStart + b.cols ≤ f.1) then some s2
      else Set (newInt s2 (dot s2 e.2 f.2 a.colStart b.rowStart)).1 mat
        (e.1 - a.rowStart) (f.1 - b.colStart)
        (some (newInt s2 (dot s2 e.2 f.2 a.colStart b.rowStart)).2))
      (s1.maps.obj b.colValues) s1)
    (s0.maps.obj a.rowValues) s0

/-- The method `Mul` (bigintmat.go:342). -/
def Mul (s : Mem) (mat : BigIntMatrix) (a b : Option BigIntMatrix)
    (matIsA matIsB : Bool) : Option Mem :=
  match a, b with
  | some x, some y =>
    if matIsA || matIsB then none
    else if x.cols ≠ y.rows then none
    else if mat.Dims.1 ≠ x.Dims.1 ∨ mat.Dims.2 ≠ y.Dims.2 then none
    else mul s mat x y
  | _, _ => none

/-- The method `Negate` (bigintmat.go:598): the stored element is negated in
place and the same pointer is handed to `set`. -/
def Negate (s : Mem) (mat : BigIntMatrix) : Mem :=
  (BigIntMatrix.upto mat.rows).foldl (fun s1 i =>
    (BigIntMatrix.upto mat.cols).foldl (fun s2 j =>
      match at_ s2 mat (i + mat.rowStart) (j + mat.colStart) with
      | none => s2
      | some p => set (neg s2 p) mat (i + mat.rowStart) (j + mat.colStart) (some p)) s1) s

/-- One primitive step of a mutator working through the view `m`: a call of
`set` with nil or an allocated pointer, the allocation of an element, or the
negation of an element in place. -/
inductive Step (m : BigIntMatrix) : Mem → Mem → Prop
  | set (s : Mem) (r c : Int) (value : Option Int)
      (h : ∀ p, value = some p → Allocated s p) : Step m s (set s m r c value)
  | newInt (s : Mem) (v : Int) : Step m s (newInt s v).1
  | neg (s : Mem) (p : Int) : Step m s (neg s p)

/-- Every element pointer held by the nested map `o` satisfies `P`. -/
def AllVals (P : Int → Prop) (o : Outer) : Prop :=
  ∀ e ∈ o, ∀ f ∈ e.2, P f.2

/-- Every element stored in any map object is allocated and holds a non-zero
integer. -/
def Good (s : Mem) : Prop :=
  1 ≤ s.nextInt ∧ ∀ a, AllVals (fun p => Allocated s p ∧ s.val p ≠ 0) (s.maps.obj a)

/-- A sequence of primitive steps through the view `m`. -/
def PW (m : BigIntMatrix) (s s1 : Mem) : Prop :=
  Relation.ReflTransGen (Step m) s s1

/-- The invariant carried along a reachable state: the one of the map objects,
with element addresses as cell contents, and the one of the elements. -/
def Inv (s : Mem) (vs : List BigIntMatrix) : Prop :=
  BigIntMatrix.StateOK s.maps vs ∧ Good s

/-- The states reachable through the public operations: the memory together
with the views handed out so far.  The caller may allocate elements and pass nil
or any allocated element, stored or not, to `NewBigIntMat` and `Set`; every
mutator is applied through any view, with any views as operands. -/
inductive Reach : Mem → List BigIntMatrix → Prop
  | empty : Reach Mem.empty []
  | newInt {s : Mem} {vs : List BigIntMatrix} (v : Int) : Reach s vs → Reach (newInt s v).1 vs
  | newMat {s s1 : Mem} {vs : List BigIntMatrix} {m : BigIntMatrix} (rows cols : Int)
      (values : List (Option Int)) :
      Reach s vs → (∀ p, some p ∈ values → Allocated s p) →
      NewBigIntMat s rows cols values = some (s1, m) → Reach s1 (m :: vs)
  | identity {s : Mem} {vs : List BigIntMatrix} (size : Int) :
      Reach s vs → Reach (BigIntIdentity s size).1 ((BigIntIdentity s size).2 :: vs)
  | copy {s s1 : Mem} {vs : List BigIntMatrix} {m c : BigIntMatrix} :
      Reach s vs → m ∈ vs → BigIntCopy s m = some (s1, c) → Reach s1 (c :: vs)
  | slice {s : Mem} {vs : List BigIntMatrix} {m v : BigIntMatrix} (i j rows cols : Int) :
      Reach s vs → m ∈ vs → m.Slice i j rows cols = some v → Reach s (v :: vs)
  | transpose {s : Mem} {vs : List BigIntMatrix} {m : BigIntMatrix} :
      Reach s vs → m ∈ vs → Reach s (m.T :: vs)
  | read {s s1 : Mem} {vs : List BigIntMatrix} {m : BigIntMatrix} (i j : Int) (p : Int) :
      Reach s vs → m ∈ vs → At s m i j = some (s1, p) → Reach s1 vs
  | set {s s1 : Mem} {vs : List BigIntMatrix} {m : BigIntMatrix} (i j : Int)
      (value : Option Int) :
      Reach s vs → m ∈ vs → (∀ p, value = some p → Allocated s p) →
      Set s m i j value = some s1 → Reach s1 vs
  | zeroize {s : Mem} {vs : List BigIntMatrix} {m : BigIntMatrix} :
      Reach s vs → m ∈ vs → Reach (Zeroize s m) vs
  | zeroizeRange {s s1 : Mem} {vs : List BigIntMatrix} {m : BigIntMatrix}
      (i j rows cols : Int) :
      Reach s vs → m ∈ vs → ZeroizeRange s m i j rows cols = some s1 → Reach s1 vs
  | setMatrix {s s1 : Mem} {vs : List BigIntMatrix} {m a : BigIntMatrix} (i j : Int) :
      Reach s vs → m ∈ vs → a ∈ vs → SetMatrix s m a i j = some s1 → Reach s1 vs
  | setRow {s s1 : Mem} {vs : List BigIntMatrix} {m : BigIntMatrix} (i : Int)
      (vec : BigIntVector) :
      Reach s vs → m ∈ vs → vec.mat ∈ vs → SetRow s m i vec = some s1 → Reach s1 vs
  | setColumn {s s1 : Mem} {vs : List BigIntMatrix} {m : BigIntMatrix} (j : Int)
      (vec : TransposedBigIntVector) :
      Reach s vs → m ∈ vs → vec.mat ∈ vs → SetColumn s m j vec = some s1 → Reach s1 vs
  | add {s s1 : Mem} {vs : List BigIntMatrix} {m a b : BigIntMatrix} (matIsA matIsB : Bool) :
      Reach s vs → m ∈ vs → a ∈ vs → b ∈ vs →
      Add s m (some a) (some b) matIsA matIsB = some s1 → Reach s1 vs
  | mul {s s1 : Mem} {vs : List BigIntMatrix} {m a b : BigIntMatrix} (matIsA matIsB : Bool) :
      Reach s vs → m ∈ vs → a ∈ vs → b ∈ vs →
      Mul s m (some a) (some b) matIsA matIsB = some s1 → Reach s1 vs
  | negate {s : Mem} {vs : List BigIntMatrix} {m : BigIntMatrix} :
      Reach s vs → m ∈ vs → Reach (Negate s m) vs

/-- The integer held by the element that `At(i, j)` returns. -/
def AtVal (s : Mem) (m : BigIntMatrix) (i j : Int) : Option Int :=
  (At s m i j).map (fun sp => sp.1.val sp.2)

/-- No element object sits in two cells of the row map of the store of `m`. -/
def Distinct (s : Mem) (m : BigIntMatrix) : Prop :=
  ((s.maps.obj m.rowValues).flatMap (fun e => e.2.map (fun f => f.2))).Nodup

instance (s : Mem) (m : BigIntMatrix) : Decidable (Distinct s m) := by
  unfold Distinct; infer_instance

/-- The positions visited by the loops of `Negate`, in order. -/
def positions (m : BigIntMatrix) : List (Int × Int) :=
  (BigIntMatrix.upto m.rows).flatMap (fun i => (BigIntMatrix.upto m.cols).map (fun j => (i, j)))

/-- The cells of the view `m` hold pairwise distinct element objects: the list
of the elements found at the positions of the view has no repetition. -/
def DistinctIn (s : Mem) (m : BigIntMatrix) : Prop :=
  ((positions m).filterMap
    (fun p => cell (s.maps.obj m.rowValues) (p.1 + m.rowStart) (p.2 + m.colStart))).Nodup

instance (s : Mem) (m : BigIntMatrix) : Decidable (DistinctIn s m) := by
  unfold DistinctIn; infer_instance

/-- No element stored in the row map of the store of `m` holds zero. -/
def NoZeroElem (s : Mem) (m : BigIntMatrix) : Prop :=
  ∀ e ∈ s.maps.obj m.rowValues, ∀ f ∈ e.2, s.val f.2 ≠ 0

instance (s : Mem) (m : BigIntMatrix) : Decidable (NoZeroElem s m) := by
  unfold NoZeroElem; infer_instance

/-- The body of the loops of `Negate` for the position `p = (i, j)` of the view. -/
def negStep (m : BigIntMatrix) (t : Mem) (p : Int × Int) : Mem :=
  match at_ t m (p.1 + m.rowStart) (p.2 + m.colStart) with
  | none => t
  | some q => set (neg t q) m (p.1 + m.rowStart) (p.2 + m.colStart) (some q)

/-- The element `t` sits in the row map at one of the positions `L` of the view. -/
def Pointed (m : BigIntMatrix) (s : Mem) (L : List (Int × Int)) (t : Int) : Prop :=
  ∃ p ∈ L, cell (s.maps.obj m.rowValues) (p.1 + m.rowStart) (p.2 + m.colStart) = some t

/-- Both maps of the store of `m` hold the same element in every cell in `s1`
as in `s`. -/
def SameCells (m : BigIntMatrix) (s s1 : Mem) : Prop :=
  (∀ x y, cell (s1.maps.obj m.rowValues) x y = cell (s.maps.obj m.rowValues) x y) ∧
  (∀ x y, cell (s1.maps.obj m.colValues) y x = cell (s.maps.obj m.colValues) y x)

/-- Example state: four elements holding 5, -6, 7 and 8, and the 2×2 root
`[[5,-6],[7,8]]` built from them. -/
def demoP : Mem × BigIntMatrix :=
  (NewBigIntMat (newInt (newInt (newInt (newInt Mem.empty 5).1 (-6)).1 7).1 8).1 2 2
    [some 1, some 2, some 3, some 4]).getD (Mem.empty, ⟨0, 0, 0, 0, 0, 0⟩)

end Ptr

/-! ## Lemmas on association lists -/

theorem mapGet_cons {V : Type} (e : Int × V) (rest : List (Int × V)) (k : Int) :
    mapGet (e :: rest) k = if e.1 = k then some e.2 else mapGet rest k := rfl

theorem mapDel_cons {V : Type} (e : Int × V) (rest : List (Int × V)) (k : Int) :
    mapDel (e :: rest) k = if e.1 = k then mapDel rest k else e :: mapDel rest k := by
  unfold mapDel
  by_cases hk : e.1 = k <;> simp [List.filter_cons, hk]

theorem mapGet_mapDel_self {V : Type} (m : List (Int × V)) (k : Int) :
    mapGet (mapDel m k) k = none := by
  induction m with
  | nil => rfl
  | cons e rest ih =>
    rw [mapDel_cons]
    split
    · exact ih
    · rename_i hk
      rw [mapGet_cons, if_neg hk]; exact ih

theorem mapGet_mapDel_ne {V : Type} (m : List (Int × V)) {k k1 : Int} (hne : k1 ≠ k) :
    mapGet (mapDel m k) k1 = mapGet m k1 := by
  induction m with
  | nil => rfl
  | cons e rest ih =>
    rw [mapDel_cons, mapGet_cons]
    split
    · rename_i hk
      have hk1 : ¬ e.1 = k1 := fun h => hne (h ▸ hk)
      rw [if_neg hk1]; exact ih
    · rw [mapGet_cons, ih]

theorem mapGet_mapPut_self {V : Type} (m : List (Int × V)) (k : Int) (v : V) :
    mapGet (mapPut m k v) k = some v := by
  simp [mapPut, mapGet]

theorem mapGet_mapPut_ne {V : Type} (m : List (Int × V)) {k k1 : Int} (v : V) (hne : k1 ≠ k) :
    mapGet (mapPut m k v) k1 = mapGet m k1 := by
  have h : ¬ k = k1 := fun h => hne h.symm
  simp [mapPut, mapGet, h, mapGet_mapDel_ne m hne]

theorem mapGet_mem {V : Type} {m : List (Int × V)} {k : Int} {v : V}
    (h : mapGet m k = some v) : (k, v) ∈ m := by
  induction m with
  | nil => simp [mapGet] at h
  | cons e rest ih =>
    by_cases hk : e.1 = k
    · simp [mapGet, hk] at h
      have : e = (k, v) := by cases e; simp_all
      simp [this]
    · simp [mapGet, hk] at h
      exact List.mem_cons_of_mem _ (ih h)

theorem mapGet_of_mem {V : Type} {m : List (Int × V)} {k : Int} {v : V}
    (hnd : NodupKeys m) (h : (k, v) ∈ m) : mapGet m k = some v := by
  induction m with
  | nil => simp at h
  | cons e rest ih =>
    have hnd1 : e.1 ∉ rest.map (fun e => e.1) ∧ NodupKeys rest := by
      simpa [NodupKeys] using hnd
    rcases List.mem_cons.1 h with h1 | h1
    · subst h1; simp [mapGet]
    · have hk : ¬ e.1 = k := by
        intro hk
        apply hnd1.1
        exact List.mem_map.2 ⟨(k, v), h1, hk.symm⟩
      simp [mapGet, hk, ih hnd1.2 h1]

theorem mapGet_none_of_not_mem {V : Type} {m : List (Int × V)} {k : Int}
    (h : ∀ e ∈ m, e.1 ≠ k) : mapGet m k = none := by
  induction m with
  | nil => rfl
  | cons e rest ih =>
    have hk : ¬ e.1 = k := h e (List.mem_cons_self _ _)
    simp [mapGet, hk]
    exact ih (fun e1 he1 => h e1 (List.mem_cons_of_mem _ he1))

theorem mem_mapDel {V : Type} {m : List (Int × V)} {k : Int} {e : Int × V} :
    e ∈ mapDel m k ↔ e ∈ m ∧ e.1 ≠ k := by
  simp [mapDel, List.mem_filter]

theorem mem_mapPut {V : Type} {m : List (Int × V)} {k : Int} {v : V} {e : Int × V} :
    e ∈ mapPut m k v ↔ e = (k, v) ∨ (e ∈ m ∧ e.1 ≠ k) := by
  simp [mapPut, mem_mapDel]

theorem nodupKeys_mapDel {V : Type} {m : List (Int × V)} (k : Int) (h : NodupKeys m) :
    NodupKeys (mapDel m k) := by
  unfold NodupKeys mapDel
  exact (List.Sublist.map _ (List.filter_sublist m)).nodup h

theorem nodupKeys_mapPut {V : Type} {m : List (Int × V)} (k : Int) (v : V)
    (h : NodupKeys m) : NodupKeys (mapPut m k v) := by
  have h1 := nodupKeys_mapDel k h
  unfold NodupKeys at h1 ⊢
  simp only [mapPut, List.map_cons, List.nodup_cons]
  refine ⟨?_, h1⟩
  intro hmem
  obtain ⟨e, he, hk⟩ := List.mem_map.1 hmem
  exact (mem_mapDel.1 he).2 hk

theorem mapGet_of_mapDel_nil {V : Type} {m : List (Int × V)} {k k1 : Int}
    (h : (mapDel m k).length = 0) (hne : k1 ≠ k) : mapGet m k1 = none := by
  rw [← mapGet_mapDel_ne m hne]
  have : mapDel m k = [] := List.length_eq_zero.1 h
  rw [this]; rfl

/-! ## Lemmas on nested maps -/

theorem cell_putCell (o : Outer) (x y v x1 y1 : Int) :
    cell (putCell o x y v) x1 y1 = if x1 = x ∧ y1 = y then some v else cell o x1 y1 := by
  unfold putCell cell
  by_cases hx : x1 = x
  · subst hx
    cases hg : mapGet o x1 with
    | none =>
      by_cases hy : y1 = y
      · simp [mapGet_mapPut_self, hy, mapGet]
      · have hy2 : ¬ y = y1 := fun h => hy h.symm
        simp [mapGet_mapPut_self, hy, mapGet, hy2]
    | some ys =>
      by_cases hy : y1 = y
      · simp [mapGet_mapPut_self, hy]
      · simp [mapGet_mapPut_self, hy, mapGet_mapPut_ne]
  · cases hg : mapGet o x with
    | none => simp [mapGet_mapPut_ne _ _ hx, hx]
    | some ys => simp [mapGet_mapPut_ne _ _ hx, hx]

theorem cell_delCell (o : Outer) (x y x1 y1 : Int) :
    cell (delCell o x y) x1 y1 = if x1 = x ∧ y1 = y then none else cell o x1 y1 := by
  unfold delCell
  cases hg : mapGet o x with
  | none =>
    by_cases hx : x1 = x
    · subst hx; simp [cell, hg]
    · simp [hx]
  | some ys =>
    by_cases hl : (mapDel ys y).length = 0
    · simp only [hl, if_true]
      by_cases hx : x1 = x
      · subst hx
        by_cases hy : y1 = y
        · simp [cell, mapGet_mapDel_self, hy]
        · simp [cell, mapGet_mapDel_self, hy, hg, mapGet_of_mapDel_nil hl hy]
      · simp [cell, mapGet_mapDel_ne _ hx, hx]
    · simp only [hl, if_false]
      by_cases hx : x1 = x
      · subst hx
        by_cases hy : y1 = y
        · simp [cell, mapGet_mapPut_self, hy, mapGet_mapDel_self]
        · simp [cell, mapGet_mapPut_self, hy, hg, mapGet_mapDel_ne _ hy]
      · simp [cell, mapGet_mapPut_ne _ _ hx, hx]

theorem wfOuter_putCell {o : Outer} (x y v : Int) (h : WFOuter o) :
    WFOuter (putCell o x y v) := by
  unfold putCell
  cases hg : mapGet o x with
  | none =>
    refine ⟨nodupKeys_mapPut _ _ h.1, ?_⟩
    intro e he
    rcases mem_mapPut.1 he with h1 | h1
    · subst h1; simp [NodupKeys]
    · exact h.2 e h1.1
  | some ys =>
    refine ⟨nodupKeys_mapPut _ _ h.1, ?_⟩
    intro e he
    rcases mem_mapPut.1 he with h1 | h1
    · subst h1
      exact nodupKeys_mapPut _ _ (h.2 _ (mapGet_mem hg))
    · exact h.2 e h1.1

theorem wfOuter_delCell {o : Outer} (x y : Int) (h : WFOuter o) :
    WFOuter (delCell o x y) := by
  unfold delCell
  cases hg : mapGet o x with
  | none => exact h
  | some ys =>
    by_cases hl : (mapDel ys y).length = 0
    · simp only [hl, if_true]
      exact ⟨nodupKeys_mapDel _ h.1, fun e he => h.2 e (mem_mapDel.1 he).1⟩
    · simp only [hl, if_false]
      refine ⟨nodupKeys_mapPut _ _ h.1, ?_⟩
      intro e he
      rcases mem_mapPut.1 he with h1 | h1
      · subst h1
        exact nodupKeys_mapDel _ (h.2 _ (mapGet_mem hg))
      · exact h.2 e h1.1

/-! ## The cell-level effect of `set` -/

namespace BigIntMatrix

theorem stored_some {v : Int} (hv : v ≠ 0) : stored (some v) = some v := by
  simp [stored, isNilOrZero, hv]

theorem stored_zero : stored (some 0) = none := by
  simp [stored, isNilOrZero]

theorem stored_getD (value : Option Int) : (stored value).getD 0 = value.getD 0 := by
  cases value with
  | none => rfl
  | some v =>
    by_cases hv : v = 0
    · subst hv; rfl
    · rw [stored_some hv]

theorem set_absent (h : Heap) (m : BigIntMatrix) (r c : Int) (v : Option Int)
    (hz : isNilOrZero v = true) (hc : cell (h.obj m.rowValues) r c = none) :
    m.set h r c v = h := by
  unfold set
  rw [if_pos hz]
  unfold cell at hc
  cases hg : mapGet (h.obj m.rowValues) r with
  | none => rfl
  | some ys =>
    rw [hg] at hc
    simp only at hc
    simp only [hc]

theorem set_present (h : Heap) (m : BigIntMatrix) (r c : Int) (v : Option Int) (w : Int)
    (hz : isNilOrZero v = true) (hc : cell (h.obj m.rowValues) r c = some w) :
    m.set h r c v =
      (h.write m.rowValues (delCell (h.obj m.rowValues) r c)).write m.colValues
        (delCell ((h.write m.rowValues (delCell (h.obj m.rowValues) r c)).obj m.colValues) c r) := by
  unfold set
  rw [if_pos hz]
  unfold cell at hc
  cases hg : mapGet (h.obj m.rowValues) r with
  | none => rw [hg] at hc; simp at hc
  | some ys =>
    rw [hg] at hc
    simp only at hc
    simp only [hc]

theorem set_put (h : Heap) (m : BigIntMatrix) (r c : Int) (v : Option Int)
    (hz : ¬ isNilOrZero v = true) :
    m.set h r c v =
      (h.write m.rowValues (putCell (h.obj m.rowValues) r c (v.getD 0))).write m.colValues
        (putCell ((h.write m.rowValues (putCell (h.obj m.rowValues) r c (v.getD 0))).obj
          m.colValues) c r (v.getD 0)) := by
  unfold set
  rw [if_neg hz]

theorem set_cases (h : Heap) (m : BigIntMatrix) (r c : Int) (v : Option Int) :
    (isNilOrZero v = true ∧ cell (h.obj m.rowValues) r c = none ∧ m.set h r c v = h) ∨
    (isNilOrZero v = true ∧ (∃ w, cell (h.obj m.rowValues) r c = some w) ∧ m.set h r c v =
      (h.write m.rowValues (delCell (h.obj m.rowValues) r c)).write m.colValues
        (delCell ((h.write m.rowValues (delCell (h.obj m.rowValues) r c)).obj m.colValues) c r)) ∨
    (¬ isNilOrZero v = true ∧ m.set h r c v =
      (h.write m.rowValues (putCell (h.obj m.rowValues) r c (v.getD 0))).write m.colValues
        (putCell ((h.write m.rowValues (putCell (h.obj m.rowValues) r c (v.getD 0))).obj
          m.colValues) c r (v.getD 0))) := by
  by_cases hz : isNilOrZero v = true
  · cases hc : cell (h.obj m.rowValues) r c with
    | none => exact Or.inl ⟨hz, rfl, set_absent h m r c v hz hc⟩
    | some w => exact Or.inr (Or.inl ⟨hz, ⟨w, rfl⟩, set_present h m r c v w hz hc⟩)
  · exact Or.inr (Or.inr ⟨hz, set_put h m r c v hz⟩)

theorem set_next (h : Heap) (m : BigIntMatrix) (r c : Int) (v : Option Int) :
    (m.set h r c v).next = h.next := by
  rcases set_cases h m r c v with ⟨_, _, e⟩ | ⟨_, _, e⟩ | ⟨_, e⟩ <;> rw [e] <;> rfl

theorem set_frame (h : Heap) (m : BigIntMatrix) (r c : Int) (v : Option Int) {a : Nat}
    (h1 : a ≠ m.rowValues) (h2 : a ≠ m.colValues) : (m.set h r c v).obj a = h.obj a := by
  rcases set_cases h m r c v with ⟨_, _, e⟩ | ⟨_, _, e⟩ | ⟨_, e⟩ <;> rw [e] <;>
    simp [Heap.write, h1, h2]

theorem set_wf (h : Heap) (m : BigIntMatrix) (r c : Int) (v : Option Int) {a : Nat}
    (hw : WFOuter (h.obj a)) (hr : WFOuter (h.obj m.rowValues))
    (hc : WFOuter (h.obj m.colValues)) : WFOuter ((m.set h r c v).obj a) := by
  rcases set_cases h m r c v with ⟨_, _, e⟩ | ⟨_, _, e⟩ | ⟨_, e⟩ <;> rw [e]
  · exact hw
  · simp only [Heap.write]
    by_cases ha : a = m.colValues
    · rw [if_pos ha]
      apply wfOuter_delCell
      split
      · exact wfOuter_delCell _ _ hr
      · exact hc
    · rw [if_neg ha]
      by_cases hb : a = m.rowValues
      · rw [if_pos hb]; exact wfOuter_delCell _ _ hr
      · rw [if_neg hb]; exact hw
  · simp only [Heap.write]
    by_cases ha : a = m.colValues
    · rw [if_pos ha]
      apply wfOuter_putCell
      split
      · exact wfOuter_putCell _ _ _ hr
      · exact hc
    · rw [if_neg ha]
      by_cases hb : a = m.rowValues
      · rw [if_pos hb]; exact wfOuter_putCell _ _ _ hr
      · rw [if_neg hb]; exact hw

theorem stored_of_not_zero {v : Option Int} (hz : ¬ isNilOrZero v = true) :
    stored v = some (v.getD 0) := by
  cases v with
  | none => simp [isNilOrZero] at hz
  | some w => simp [stored, hz]

theorem stored_of_zero {v : Option Int} (hz : isNilOrZero v = true) : stored v = none := by
  simp [stored, hz]

theorem set_row (h : Heap) (m : BigIntMatrix) (r c : Int) (v : Option Int)
    (hne : m.rowValues ≠ m.colValues) (x y : Int) :
    cell ((m.set h r c v).obj m.rowValues) x y =
      if x = r ∧ y = c then stored v else cell (h.obj m.rowValues) x y := by
  rcases set_cases h m r c v with ⟨hz, hc, e⟩ | ⟨hz, _, e⟩ | ⟨hz, e⟩ <;> rw [e]
  · rw [stored_of_zero hz]
    split
    · rename_i hxy; rw [hxy.1, hxy.2, hc]
    · rfl
  · rw [stored_of_zero hz]
    simp only [Heap.write, if_neg hne, if_true]
    exact cell_delCell _ _ _ _ _
  · rw [stored_of_not_zero hz]
    simp only [Heap.write, if_neg hne, if_true]
    exact cell_putCell _ _ _ _ _ _

theorem set_col (h : Heap) (m : BigIntMatrix) (r c : Int) (v : Option Int)
    (hne : m.rowValues ≠ m.colValues) (hm : MirrorP h m) (x y : Int) :
    cell ((m.set h r c v).obj m.colValues) y x =
      if x = r ∧ y = c then stored v else cell (h.obj m.colValues) y x := by
  have hne2 : m.colValues ≠ m.rowValues := fun e => hne e.symm
  have hsw : (y = c ∧ x = r) ↔ (x = r ∧ y = c) := ⟨fun e => ⟨e.2, e.1⟩, fun e => ⟨e.2, e.1⟩⟩
  rcases set_cases h m r c v with ⟨hz, hc, e⟩ | ⟨hz, _, e⟩ | ⟨hz, e⟩ <;> rw [e]
  · rw [stored_of_zero hz]
    split
    · rename_i hxy; rw [hxy.1, hxy.2, ← hm, hc]
    · rfl
  · rw [stored_of_zero hz]
    simp only [Heap.write, if_neg hne2, if_true]
    rw [cell_delCell]
    simp only [hsw]
  · rw [stored_of_not_zero hz]
    simp only [Heap.write, if_neg hne2, if_true]
    rw [cell_putCell]
    simp only [hsw]

theorem set_mirror (h : Heap) (m : BigIntMatrix) (r c : Int) (v : Option Int)
    (hne : m.rowValues ≠ m.colValues) (hm : MirrorP h m) : MirrorP (m.set h r c v) m := by
  intro x y
  rw [set_row h m r c v hne, set_col h m r c v hne hm, hm x y]

end BigIntMatrix

/-! ## Loops as sequences of cell updates -/

namespace BigIntMatrix

theorem foldl_flatMap_eq {α β σ : Type} (F : σ → β → σ) (g : α → List β) (l : List α) (s : σ) :
    (l.flatMap g).foldl F s = l.foldl (fun s1 e => (g e).foldl F s1) s := by
  induction l generalizing s with
  | nil => rfl
  | cons e rest ih => simp [List.flatMap_cons, List.foldl_append, ih]

theorem runOps_append (m : BigIntMatrix) (h : Heap) (l1 l2 : List Op) :
    runOps m h (l1 ++ l2) = runOps m (runOps m h l1) l2 := by
  simp [runOps, List.foldl_append]

theorem runOps_next (m : BigIntMatrix) (h : Heap) (ops : List Op) :
    (runOps m h ops).next = h.next := by
  induction ops generalizing h with
  | nil => rfl
  | cons op rest ih =>
    show (runOps m (applyOp m h op) rest).next = h.next
    rw [ih]; exact set_next _ _ _ _ _

theorem runOps_frame (m : BigIntMatrix) (h : Heap) (ops : List Op) {a : Nat}
    (h1 : a ≠ m.rowValues) (h2 : a ≠ m.colValues) : (runOps m h ops).obj a = h.obj a := by
  induction ops generalizing h with
  | nil => rfl
  | cons op rest ih =>
    show (runOps m (applyOp m h op) rest).obj a = h.obj a
    rw [ih]; exact set_frame _ _ _ _ _ h1 h2

theorem runOps_wf (m : BigIntMatrix) (h : Heap) (ops : List Op) {a : Nat}
    (hw : WFOuter (h.obj a)) (hr : WFOuter (h.obj m.rowValues))
    (hc : WFOuter (h.obj m.colValues)) : WFOuter ((runOps m h ops).obj a) := by
  induction ops generalizing h with
  | nil => exact hw
  | cons op rest ih =>
    show WFOuter ((runOps m (applyOp m h op) rest).obj a)
    exact ih _ (set_wf _ _ _ _ _ hw hr hc) (set_wf _ _ _ _ _ hr hr hc)
      (set_wf _ _ _ _ _ hc hr hc)

theorem runOps_mirror (m : BigIntMatrix) (h : Heap) (ops : List Op)
    (hne : m.rowValues ≠ m.colValues) (hm : MirrorP h m) : MirrorP (runOps m h ops) m := by
  induction ops generalizing h with
  | nil => exact hm
  | cons op rest ih =>
    show MirrorP (runOps m (applyOp m h op) rest) m
    exact ih _ (set_mirror _ _ _ _ _ hne hm)

theorem runOps_row (m : BigIntMatrix) (h : Heap) (ops : List Op)
    (hne : m.rowValues ≠ m.colValues) (x y : Int) :
    cell ((runOps m h ops).obj m.rowValues) x y =
      replay ops x y (cell (h.obj m.rowValues) x y) := by
  induction ops generalizing h with
  | nil => rfl
  | cons op rest ih =>
    show cell ((runOps m (applyOp m h op) rest).obj m.rowValues) x y = _
    rw [ih]
    unfold replay
    rw [List.filter_cons]
    unfold applyOp
    rw [set_row _ _ _ _ _ hne]
    rcases op with ⟨r, c, f⟩
    by_cases hxy : r = x ∧ c = y
    · obtain ⟨rfl, rfl⟩ := hxy
      simp [at_]
    · have hxy2 : ¬ (x = r ∧ y = c) := fun e => hxy ⟨e.1.symm, e.2.symm⟩
      simp [hxy, hxy2]

theorem replay_nil_of_forall {ops : List Op} {x y : Int} (cur : Option Int)
    (hno : ∀ op ∈ ops, ¬ (op.r = x ∧ op.c = y)) : replay ops x y cur = cur := by
  unfold replay
  have : ops.filter (fun op => decide (op.r = x ∧ op.c = y)) = [] := by
    rw [List.filter_eq_nil_iff]
    intro op hop
    simpa using hno op hop
  rw [this]; rfl

theorem replay_const {ops : List Op} {x y : Int} (cur w : Option Int)
    (hex : ∃ op ∈ ops, op.r = x ∧ op.c = y)
    (hall : ∀ op ∈ ops, op.r = x ∧ op.c = y → ∀ v, stored (op.f v) = w) :
    replay ops x y cur = w := by
  unfold replay
  have key : ∀ (l : List Op) (v : Option Int), (∀ op ∈ l, ∀ u, stored (op.f u) = w) →
      l ≠ [] → l.foldl (fun v op => stored (op.f v)) v = w := by
    intro l
    induction l with
    | nil => intro v _ hn; exact absurd rfl hn
    | cons op rest ih =>
      intro v hl _
      rw [List.foldl_cons, hl op (List.mem_cons_self _ _)]
      by_cases hr : rest = []
      · subst hr; rfl
      · exact ih w (fun o ho => hl o (List.mem_cons_of_mem _ ho)) hr
  apply key
  · intro op hop u
    have := List.mem_filter.1 hop
    exact hall op this.1 (by simpa using this.2) u
  · obtain ⟨op, hop, hxy⟩ := hex
    intro hnil
    have : op ∈ ops.filter (fun op => decide (op.r = x ∧ op.c = y)) :=
      List.mem_filter.2 ⟨hop, by simpa using hxy⟩
    rw [hnil] at this
    simp at this

end BigIntMatrix

/-! ## Bounds-checked access -/

namespace BigIntMatrix

theorem checkRowBounds_eq_true {m : BigIntMatrix} {i : Int} (h0 : 0 ≤ i) (h1 : i < m.rows) :
    m.checkRowBounds i = true := by
  simp [checkRowBounds]; omega

theorem checkColBounds_eq_true {m : BigIntMatrix} {j : Int} (h0 : 0 ≤ j) (h1 : j < m.cols) :
    m.checkColBounds j = true := by
  simp [checkColBounds]; omega

theorem At_eq (h : Heap) (m : BigIntMatrix) {i j : Int} (hi0 : 0 ≤ i) (hi1 : i < m.rows)
    (hj0 : 0 ≤ j) (hj1 : j < m.cols) :
    m.At h i j = some ((cell (h.obj m.rowValues) (i + m.rowStart) (j + m.colStart)).getD 0) := by
  unfold At at_
  rw [checkRowBounds_eq_true hi0 hi1, checkColBounds_eq_true hj0 hj1]
  cases cell (h.obj m.rowValues) (i + m.rowStart) (j + m.colStart) <;> rfl

theorem Set_eq (h : Heap) (m : BigIntMatrix) {i j : Int} (v : Option Int) (hi0 : 0 ≤ i)
    (hi1 : i < m.rows) (hj0 : 0 ≤ j) (hj1 : j < m.cols) :
    m.Set h i j v = some (m.set h (i + m.rowStart) (j + m.colStart) v) := by
  unfold Set
  rw [checkRowBounds_eq_true hi0 hi1, checkColBounds_eq_true hj0 hj1]
  rfl

theorem mirrorP_of_mirror {h : Heap} {m : BigIntMatrix} (hm : Mirror h m) : MirrorP h m := by
  intro x y
  have row_to_col : ∀ v, cell (h.obj m.rowValues) x y = some v →
      cell (h.obj m.colValues) y x = some v := by
    intro v hv
    unfold cell at hv
    cases hg : mapGet (h.obj m.rowValues) x with
    | none => rw [hg] at hv; simp at hv
    | some ys =>
      rw [hg] at hv
      exact hm.1 _ (mapGet_mem hg) _ (mapGet_mem hv)
  have col_to_row : ∀ v, cell (h.obj m.colValues) y x = some v →
      cell (h.obj m.rowValues) x y = some v := by
    intro v hv
    unfold cell at hv
    cases hg : mapGet (h.obj m.colValues) y with
    | none => rw [hg] at hv; simp at hv
    | some xs =>
      rw [hg] at hv
      exact hm.2 _ (mapGet_mem hg) _ (mapGet_mem hv)
  cases hr : cell (h.obj m.rowValues) x y with
  | some v => exact (row_to_col v hr).symm
  | none =>
    cases hc : cell (h.obj m.colValues) y x with
    | none => rfl
    | some v => rw [col_to_row v hc] at hr; exact absurd hr (by simp)

theorem Slice_some {m s : BigIntMatrix} {i j rows cols : Int}
    (hs : m.Slice i j rows cols = some s) :
    s = m.slice (i + m.rowStart) (j + m.colStart) rows cols ∧
      0 < rows ∧ 0 < cols ∧ 0 ≤ i ∧ 0 ≤ j ∧ i + rows ≤ m.rows ∧ j + cols ≤ m.cols := by
  unfold Slice at hs
  simp only [checkRowBounds, checkColBounds] at hs
  split at hs
  · exact absurd hs (by simp)
  split at hs
  · exact absurd hs (by simp)
  split at hs
  · exact absurd hs (by simp)
  split at hs
  · exact absurd hs (by simp)
  split at hs
  · exact absurd hs (by simp)
  split at hs
  · exact absurd hs (by simp)
  rename_i h1 h2 h3 h4 h5 h6
  simp at h1 h2 h3 h4 h5 h6
  refine ⟨(Option.some.inj hs).symm, ?_, ?_, ?_, ?_, ?_, ?_⟩ <;> omega

end BigIntMatrix

/-! ## Claims on slices and transposes -/

namespace BigIntMatrix

/-- C7: a slice that is returned has the requested dims, reads the parent's
cells at the translated position, and is connected to the parent in both
directions: a `Set` through the slice is read back by the parent's `At`, and a
`Set` through the parent is read back by the slice's `At` (nil and zero read
back as 0). -/
theorem Slice_connected (h : Heap) (A s : BigIntMatrix) (i j r c : Int)
    (hne : A.rowValues ≠ A.colValues) (hs : A.Slice i j r c = some s) :
    s.Dims = (r, c) ∧
    (∀ di dj, 0 ≤ di → di < r → 0 ≤ dj → dj < c →
      s.At h di dj = A.At h (i + di) (j + dj) ∧ (s.At h di dj).isSome = true) ∧
    (∀ di dj v, 0 ≤ di → di < r → 0 ≤ dj → dj < c →
      ∃ h1, s.Set h di dj v = some h1 ∧ A.At h1 (i + di) (j + dj) = some (v.getD 0)) ∧
    (∀ di dj v, 0 ≤ di → di < r → 0 ≤ dj → dj < c →
      ∃ h1, A.Set h (i + di) (j + dj) v = some h1 ∧ s.At h1 di dj = some (v.getD 0)) := by
  obtain ⟨rfl, hr, hc, hi, hj, hir, hjc⟩ := Slice_some hs
  have hne2 : (A.slice (i + A.rowStart) (j + A.colStart) r c).rowValues ≠
      (A.slice (i + A.rowStart) (j + A.colStart) r c).colValues := hne
  refine ⟨rfl, ?_, ?_, ?_⟩
  · intro di dj h1 h2 h3 h4
    rw [At_eq h (A.slice (i + A.rowStart) (j + A.colStart) r c) h1 h2 h3 h4,
      At_eq h A (by omega) (by omega) (by omega) (by omega)]
    simp only [slice, Option.isSome_some, and_true]
    rw [show di + (i + A.rowStart) = i + di + A.rowStart by omega,
      show dj + (j + A.colStart) = j + dj + A.colStart by omega]
  · intro di dj v h1 h2 h3 h4
    refine ⟨_, Set_eq h (A.slice (i + A.rowStart) (j + A.colStart) r c) v h1 h2 h3 h4, ?_⟩
    rw [At_eq _ A (by omega) (by omega) (by omega) (by omega)]
    have := set_row h (A.slice (i + A.rowStart) (j + A.colStart) r c)
      (di + (i + A.rowStart)) (dj + (j + A.colStart)) v hne2
      (i + di + A.rowStart) (j + dj + A.colStart)
    simp only [slice] at this ⊢
    rw [this, if_pos ⟨by omega, by omega⟩, stored_getD]
  · intro di dj v h1 h2 h3 h4
    refine ⟨_, Set_eq h A v (by omega) (by omega) (by omega) (by omega), ?_⟩
    rw [At_eq _ (A.slice (i + A.rowStart) (j + A.colStart) r c) h1 h2 h3 h4]
    have := set_row h A (i + di + A.rowStart) (j + dj + A.colStart) v hne
      (di + (i + A.rowStart)) (dj + (j + A.colStart))
    simp only [slice] at this ⊢
    rw [this, if_pos ⟨by omega, by omega⟩, stored_getD]

/-- C9: over a store whose two index maps mirror each other, the transpose has
the swapped dims, reads `A.At(i,j)` at `(j,i)`, and is connected to `A`: after
`A.T().Set(j,i,v)` the cell `A.At(i,j)` holds `v` (nil and zero read as 0). -/
theorem T_transposes (h : Heap) (A : BigIntMatrix) (hne : A.rowValues ≠ A.colValues)
    (hm : Mirror h A) :
    A.T.Dims = (A.Dims.2, A.Dims.1) ∧
    (∀ i j, 0 ≤ i → i < A.rows → 0 ≤ j → j < A.cols →
      A.T.At h j i = A.At h i j ∧ (A.At h i j).isSome = true) ∧
    (∀ i j v, 0 ≤ i → i < A.rows → 0 ≤ j → j < A.cols →
      ∃ h1, A.T.Set h j i v = some h1 ∧ A.At h1 i j = some (v.getD 0)) := by
  have hp := mirrorP_of_mirror hm
  refine ⟨rfl, ?_, ?_⟩
  · intro i j h1 h2 h3 h4
    rw [At_eq h A.T h3 h4 h1 h2, At_eq h A h1 h2 h3 h4]
    simp only [T, Option.isSome_some, and_true]
    rw [hp]
  · intro i j v h1 h2 h3 h4
    refine ⟨_, Set_eq h A.T v h3 h4 h1 h2, ?_⟩
    rw [At_eq _ A h1 h2 h3 h4]
    have hmT : MirrorP h A.T := fun x y => (hp y x).symm
    have := set_col h A.T (j + A.colStart) (i + A.rowStart) v (fun e => hne e.symm) hmT
      (j + A.colStart) (i + A.rowStart)
    simp only [T] at this ⊢
    rw [this]
    simp [stored_getD]

/-- C10: transposing twice gives back the same view: the same two maps in the
same roles and the same rows, cols, rowStart and colStart. -/
theorem T_involutive (A : BigIntMatrix) :
    A.T.T = A ∧ A.T.T.rowValues = A.rowValues ∧ A.T.T.colValues = A.colValues ∧
    A.T.T.rows = A.rows ∧ A.T.T.cols = A.cols ∧
    A.T.T.rowStart = A.rowStart ∧ A.T.T.colStart = A.colStart :=
  ⟨rfl, rfl, rfl, rfl, rfl, rfl, rfl⟩

end BigIntMatrix

/-! ## The loops of zeroize, setMatrix, add and mul -/

namespace BigIntMatrix

theorem zeroize_eq (h : Heap) (m : BigIntMatrix) (r c rows col : Int) :
    m.zeroize h r c rows col = runOps m h (zeroizeOps (h.obj m.rowValues) r c rows col) := by
  unfold zeroize runOps zeroizeOps
  rw [foldl_flatMap_eq]
  congr 1
  funext s e
  split
  · rfl
  · rw [foldl_flatMap_eq]
    congr 1
    funext s2 f
    split <;> rfl

theorem mem_zeroizeOps {o : Outer} {r c rows col : Int} {op : Op} :
    op ∈ zeroizeOps o r c rows col ↔
      ∃ e ∈ o, ∃ f ∈ e.2, (r ≤ e.1 ∧ e.1 < r + rows ∧ c ≤ f.1 ∧ f.1 < c + col) ∧
        op = ⟨e.1, f.1, fun _ => none⟩ := by
  unfold zeroizeOps
  simp only [List.mem_flatMap]
  constructor
  · rintro ⟨e, he, hop⟩
    split at hop
    · simp at hop
    · rename_i hr
      simp only [List.mem_flatMap] at hop
      obtain ⟨f, hf, hop⟩ := hop
      split at hop
      · simp at hop
      · rename_i hc
        simp at hr hc hop
        exact ⟨e, he, f, hf, ⟨by omega, by omega, by omega, by omega⟩, hop⟩
  · rintro ⟨e, he, f, hf, ⟨h1, h2, h3, h4⟩, hop⟩
    refine ⟨e, he, ?_⟩
    have hr : ¬ ((decide (e.1 < r) || decide (r + rows ≤ e.1)) = true) := by
      simp; omega
    rw [if_neg hr]
    simp only [List.mem_flatMap]
    refine ⟨f, hf, ?_⟩
    have hc : ¬ ((decide (f.1 < c) || decide (c + col ≤ f.1)) = true) := by
      simp; omega
    rw [if_neg hc]
    simp [hop]

theorem cell_mem {o : Outer} {x y v : Int} (hc : cell o x y = some v) :
    ∃ e ∈ o, ∃ f ∈ e.2, e.1 = x ∧ f.1 = y ∧ f.2 = v := by
  unfold cell at hc
  cases hg : mapGet o x with
  | none => rw [hg] at hc; simp at hc
  | some ys =>
    rw [hg] at hc
    exact ⟨(x, ys), mapGet_mem hg, (y, v), mapGet_mem hc, rfl, rfl, rfl⟩

theorem cell_of_mem {o : Outer} (hw : WFOuter o) {e : Int × List (Int × Int)} {f : Int × Int}
    (he : e ∈ o) (hf : f ∈ e.2) : cell o e.1 f.1 = some f.2 := by
  unfold cell
  rw [mapGet_of_mem hw.1 he]
  exact mapGet_of_mem (hw.2 e he) hf

theorem zeroize_row (h : Heap) (m : BigIntMatrix) (r c rows col : Int)
    (hne : m.rowValues ≠ m.colValues) (x y : Int) :
    cell ((m.zeroize h r c rows col).obj m.rowValues) x y =
      if r ≤ x ∧ x < r + rows ∧ c ≤ y ∧ y < c + col then none
      else cell (h.obj m.rowValues) x y := by
  rw [zeroize_eq, runOps_row _ _ _ hne]
  split
  · rename_i hin
    by_cases hex : ∃ op ∈ zeroizeOps (h.obj m.rowValues) r c rows col, op.r = x ∧ op.c = y
    · apply replay_const _ _ hex
      intro op hop _ v
      obtain ⟨e, _, f, _, _, rfl⟩ := mem_zeroizeOps.1 hop
      rfl
    · rw [replay_nil_of_forall _ (fun op hop hxy => hex ⟨op, hop, hxy⟩)]
      cases hc : cell (h.obj m.rowValues) x y with
      | none => rfl
      | some v =>
        exfalso
        obtain ⟨e, he, f, hf, h1, h2, _⟩ := cell_mem hc
        apply hex
        refine ⟨⟨e.1, f.1, fun _ => none⟩, mem_zeroizeOps.2 ⟨e, he, f, hf, ?_, rfl⟩, h1, h2⟩
        rw [h1, h2]; exact hin
  · rename_i hout
    apply replay_nil_of_forall
    intro op hop hxy
    obtain ⟨e, _, f, _, hin, rfl⟩ := mem_zeroizeOps.1 hop
    apply hout
    rw [← hxy.1, ← hxy.2]; exact hin

theorem foldl_cellOps (m : BigIntMatrix) (h : Heap) (o : Outer) (mk : Int → Int → Int → Op) :
    o.foldl (fun h1 e => e.2.foldl (fun h2 f => applyOp m h2 (mk e.1 f.1 f.2)) h1) h =
      runOps m h (cellOps o mk) := by
  unfold runOps cellOps
  rw [foldl_flatMap_eq]
  congr 1
  funext s e
  rw [List.foldl_map]

theorem replay_append (l1 l2 : List Op) (x y : Int) (cur : Option Int) :
    replay (l1 ++ l2) x y cur = replay l2 x y (replay l1 x y cur) := by
  simp [replay, List.filter_append, List.foldl_append]

theorem filter_inner (ys : List (Int × Int)) (hnd : NodupKeys ys) (mk : Int → Int → Op)
    (dr dc r x y : Int) (hr : ∀ c v, (mk c v).r = r + dr) (hc : ∀ c v, (mk c v).c = c + dc) :
    (ys.map (fun f => mk f.1 f.2)).filter (fun op => decide (op.r = x ∧ op.c = y)) =
      if r + dr = x then
        match mapGet ys (y - dc) with
        | none => []
        | some v => [mk (y - dc) v]
      else [] := by
  induction ys with
  | nil => simp [mapGet]
  | cons f rest ih =>
    have hnd1 : f.1 ∉ rest.map (fun e => e.1) ∧ NodupKeys rest := by
      simpa [NodupKeys] using hnd
    rw [List.map_cons, List.filter_cons, ih hnd1.2, hr, hc, mapGet_cons]
    by_cases hx : r + dr = x
    · simp only [hx, true_and, if_true]
      by_cases hy : f.1 = y - dc
      · have : f.1 + dc = y := by omega
        rw [if_pos (by simpa using this), if_pos hy]
        have hn : mapGet rest (y - dc) = none := by
          apply mapGet_none_of_not_mem
          intro e he hk
          apply hnd1.1
          rw [hy, ← hk]
          exact List.mem_map.2 ⟨e, he, rfl⟩
        rw [hn, ← hy]
      · have : ¬ f.1 + dc = y := by omega
        rw [if_neg (by simpa using this), if_neg hy]
    · simp [hx]

theorem filter_cellOps (o : Outer) (hw : WFOuter o) (mk : Int → Int → Int → Op) (dr dc : Int)
    (hr : ∀ r c v, (mk r c v).r = r + dr) (hc : ∀ r c v, (mk r c v).c = c + dc) (x y : Int) :
    (cellOps o mk).filter (fun op => decide (op.r = x ∧ op.c = y)) =
      match cell o (x - dr) (y - dc) with
      | none => []
      | some v => [mk (x - dr) (y - dc) v] := by
  induction o with
  | nil => simp [cellOps, cell, mapGet]
  | cons e rest ih =>
    have hnd1 : e.1 ∉ rest.map (fun e => e.1) ∧ NodupKeys rest := by
      simpa [NodupKeys] using hw.1
    have hwrest : WFOuter rest := ⟨hnd1.2, fun e1 he1 => hw.2 e1 (List.mem_cons_of_mem _ he1)⟩
    have hcons : cellOps (e :: rest) mk = e.2.map (fun f => mk e.1 f.1 f.2) ++ cellOps rest mk := by
      simp [cellOps, List.flatMap_cons]
    rw [hcons, List.filter_append, ih hwrest,
      filter_inner e.2 (hw.2 e (List.mem_cons_self _ _)) (fun c v => mk e.1 c v) dr dc e.1 x y
        (fun c v => hr e.1 c v) (fun c v => hc e.1 c v)]
    unfold cell
    rw [mapGet_cons]
    by_cases hx : e.1 = x - dr
    · have hx2 : e.1 + dr = x := by omega
      rw [if_pos hx2, if_pos hx]
      have hn : mapGet rest (x - dr) = none := by
        apply mapGet_none_of_not_mem
        intro e1 he1 hk
        apply hnd1.1
        rw [hx, ← hk]
        exact List.mem_map.2 ⟨e1, he1, rfl⟩
      rw [hn, hx]
      simp
    · have hx2 : ¬ e.1 + dr = x := by omega
      rw [if_neg hx2, if_neg hx]
      simp

theorem replay_cellOps (o : Outer) (hw : WFOuter o) (mk : Int → Int → Int → Op) (dr dc : Int)
    (hr : ∀ r c v, (mk r c v).r = r + dr) (hc : ∀ r c v, (mk r c v).c = c + dc)
    (x y : Int) (cur : Option Int) :
    replay (cellOps o mk) x y cur =
      match cell o (x - dr) (y - dc) with
      | none => cur
      | some v => stored ((mk (x - dr) (y - dc) v).f cur) := by
  unfold replay
  rw [filter_cellOps o hw mk dr dc hr hc]
  cases cell o (x - dr) (y - dc) <;> rfl

theorem setMatrix_eq (h : Heap) (m a : BigIntMatrix) (rO cO : Int)
    (ha1 : a.rowValues ≠ m.rowValues) (ha2 : a.rowValues ≠ m.colValues) :
    m.setMatrix h a rO cO =
      runOps m h (zeroizeOps (h.obj m.rowValues) rO cO a.rows a.cols ++
        cellOps (h.obj a.rowValues) (setMatrixOp a rO cO)) := by
  unfold setMatrix
  have hbody : (fun (h1 : Heap) (e : Int × List (Int × Int)) =>
      e.2.foldl (fun h2 f =>
        m.set h2 (e.1 - a.rowStart + rO) (f.1 - a.colStart + cO) (some f.2)) h1) =
      (fun h1 e => e.2.foldl (fun h2 f => applyOp m h2 (setMatrixOp a rO cO e.1 f.1 f.2)) h1) :=
    rfl
  simp only [hbody]
  rw [foldl_cellOps, zeroize_eq, runOps_frame _ _ _ ha1 ha2, runOps_append]

theorem add_eq (h : Heap) (m a b : BigIntMatrix)
    (ha1 : a.rowValues ≠ m.rowValues) (ha2 : a.rowValues ≠ m.colValues)
    (hb1 : b.rowValues ≠ m.rowValues) (hb2 : b.rowValues ≠ m.colValues) :
    m.add h a b =
      runOps m h ((zeroizeOps (h.obj m.rowValues) m.rowStart m.colStart a.rows a.cols ++
        cellOps (h.obj a.rowValues) (setMatrixOp a m.rowStart m.colStart)) ++
        cellOps (h.obj b.rowValues) (addOp m b)) := by
  have hfold : m.add h a b =
      ((m.setMatrix h a m.rowStart m.colStart).obj b.rowValues).foldl (fun h1 e =>
        e.2.foldl (fun h2 f => applyOp m h2 (addOp m b e.1 f.1 f.2)) h1)
        (m.setMatrix h a m.rowStart m.colStart) := by
    unfold add
    simp only []
    congr 1
    funext h1 e
    congr 1
    funext h2 f
    simp only [applyOp, addOp]
    cases m.at_ h2 (e.1 - b.rowStart + m.rowStart) (f.1 - b.colStart + m.colStart) <;> rfl
  rw [hfold, foldl_cellOps, setMatrix_eq _ _ _ _ _ ha1 ha2, runOps_frame _ _ _ hb1 hb2,
    ← runOps_append]

/-- The cell of the destination after `add`, for a position inside the common shape. -/
theorem add_cell (h : Heap) (m a b : BigIntMatrix) (hne : m.rowValues ≠ m.colValues)
    (ha1 : a.rowValues ≠ m.rowValues) (ha2 : a.rowValues ≠ m.colValues)
    (hb1 : b.rowValues ≠ m.rowValues) (hb2 : b.rowValues ≠ m.colValues)
    (hwa : WFOuter (h.obj a.rowValues)) (hwb : WFOuter (h.obj b.rowValues))
    {i j : Int} (hi0 : 0 ≤ i) (hi1 : i < a.rows) (hj0 : 0 ≤ j) (hj1 : j < a.cols) :
    cell ((m.add h a b).obj m.rowValues) (i + m.rowStart) (j + m.colStart) =
      stored (some ((cell (h.obj a.rowValues) (i + a.rowStart) (j + a.colStart)).getD 0 +
        (cell (h.obj b.rowValues) (i + b.rowStart) (j + b.colStart)).getD 0)) := by
  rw [add_eq h m a b ha1 ha2 hb1 hb2, runOps_row _ _ _ hne, replay_append, replay_append,
    ← runOps_row _ _ _ hne, ← zeroize_eq, zeroize_row _ _ _ _ _ _ hne,
    if_pos ⟨by omega, by omega, by omega, by omega⟩,
    replay_cellOps _ hwa (setMatrixOp a m.rowStart m.colStart) (m.rowStart - a.rowStart)
      (m.colStart - a.colStart) (fun r c v => by simp only [setMatrixOp]; omega)
      (fun r c v => by simp only [setMatrixOp]; omega),
    replay_cellOps _ hwb (addOp m b) (m.rowStart - b.rowStart)
      (m.colStart - b.colStart) (fun r c v => by simp only [addOp]; omega)
      (fun r c v => by simp only [addOp]; omega)]
  rw [show i + m.rowStart - (m.rowStart - a.rowStart) = i + a.rowStart by omega,
    show j + m.colStart - (m.colStart - a.colStart) = j + a.colStart by omega,
    show i + m.rowStart - (m.rowStart - b.rowStart) = i + b.rowStart by omega,
    show j + m.colStart - (m.colStart - b.colStart) = j + b.colStart by omega]
  cases cell (h.obj a.rowValues) (i + a.rowStart) (j + a.colStart) with
  | none =>
    cases cell (h.obj b.rowValues) (i + b.rowStart) (j + b.colStart) with
    | none => simp [stored_zero]
    | some vb => simp [addOp]
  | some va =>
    cases cell (h.obj b.rowValues) (i + b.rowStart) (j + b.colStart) with
    | none => simp [setMatrixOp]
    | some vb =>
      by_cases hva : va = 0
      · subst hva; simp [setMatrixOp, addOp, stored_zero]
      · simp [setMatrixOp, addOp, stored_some hva]

theorem add_frame (h : Heap) (m a b : BigIntMatrix)
    (ha1 : a.rowValues ≠ m.rowValues) (ha2 : a.rowValues ≠ m.colValues)
    (hb1 : b.rowValues ≠ m.rowValues) (hb2 : b.rowValues ≠ m.colValues)
    {x : Nat} (h1 : x ≠ m.rowValues) (h2 : x ≠ m.colValues) :
    (m.add h a b).obj x = h.obj x := by
  rw [add_eq h m a b ha1 ha2 hb1 hb2]
  exact runOps_frame _ _ _ h1 h2

theorem add_mirror (h : Heap) (m a b : BigIntMatrix) (hne : m.rowValues ≠ m.colValues)
    (ha1 : a.rowValues ≠ m.rowValues) (ha2 : a.rowValues ≠ m.colValues)
    (hb1 : b.rowValues ≠ m.rowValues) (hb2 : b.rowValues ≠ m.colValues)
    (hm : MirrorP h m) : MirrorP (m.add h a b) m := by
  rw [add_eq h m a b ha1 ha2 hb1 hb2]
  exact runOps_mirror _ _ _ hne hm

theorem mul_inner (mat a b : BigIntMatrix) (hcols : mat.cols = b.cols)
    (e : Int × List (Int × Int)) (he0 : 0 ≤ e.1 - a.rowStart) (he1 : e.1 - a.rowStart < mat.rows)
    (Bl : Outer) (s : Heap) :
    foldOpt (fun h2 f =>
      if decide (f.1 < b.colStart) || decide (b.colStart + b.cols ≤ f.1) then some h2
      else mat.Set h2 (e.1 - a.rowStart) (f.1 - b.colStart)
        (some (dot e.2 f.2 a.colStart b.rowStart))) Bl s =
    some (runOps mat s (Bl.flatMap (fun f =>
      if decide (f.1 < b.colStart) || decide (b.colStart + b.cols ≤ f.1) then []
      else [⟨e.1 - a.rowStart + mat.rowStart, f.1 - b.colStart + mat.colStart,
        fun _ => some (dot e.2 f.2 a.colStart b.rowStart)⟩]))) := by
  induction Bl generalizing s with
  | nil => rfl
  | cons f rest ih =>
    rw [List.flatMap_cons, runOps_append]
    unfold foldOpt
    by_cases hc : (decide (f.1 < b.colStart) || decide (b.colStart + b.cols ≤ f.1)) = true
    · simp only [hc, if_true]
      exact ih s
    · simp only [hc]
      have hc2 : b.colStart ≤ f.1 ∧ f.1 < b.colStart + b.cols := by
        simp at hc; omega
      rw [Set_eq s mat _ he0 he1 (by omega) (by omega)]
      exact ih _

theorem mul_outer (mat a b : BigIntMatrix) (hrows : mat.rows = a.rows) (hcols : mat.cols = b.cols)
    (hb1 : b.colValues ≠ mat.rowValues) (hb2 : b.colValues ≠ mat.colValues)
    (Bl : Outer) (Al : Outer) (s : Heap) (hs : s.obj b.colValues = Bl) :
    foldOpt (fun h1 e =>
      if decide (e.1 < a.rowStart) || decide (a.rowStart + a.rows ≤ e.1) then some h1
      else foldOpt (fun h2 f =>
        if decide (f.1 < b.colStart) || decide (b.colStart + b.cols ≤ f.1) then some h2
        else mat.Set h2 (e.1 - a.rowStart) (f.1 - b.colStart)
          (some (dot e.2 f.2 a.colStart b.rowStart))) (h1.obj b.colValues) h1) Al s =
    some (runOps mat s (mulOps Al Bl mat a b)) := by
  induction Al generalizing s with
  | nil => rfl
  | cons e rest ih =>
    unfold mulOps
    rw [List.flatMap_cons, runOps_append]
    unfold foldOpt
    by_cases hr : (decide (e.1 < a.rowStart) || decide (a.rowStart + a.rows ≤ e.1)) = true
    · simp only [hr, if_true]
      exact ih s hs
    · simp only [hr]
      have hr2 : a.rowStart ≤ e.1 ∧ e.1 < a.rowStart + a.rows := by
        simp at hr; omega
      rw [hs, mul_inner mat a b hcols e (by omega) (by omega) Bl s]
      apply ih
      rw [runOps_frame _ _ _ hb1 hb2, hs]

theorem mul_eq (h : Heap) (mat a b : BigIntMatrix)
    (hrows : mat.rows = a.rows) (hcols : mat.cols = b.cols)
    (ha1 : a.rowValues ≠ mat.rowValues) (ha2 : a.rowValues ≠ mat.colValues)
    (hb1 : b.colValues ≠ mat.rowValues) (hb2 : b.colValues ≠ mat.colValues) :
    mat.mul h a b = some (runOps mat h
      (zeroizeOps (h.obj mat.rowValues) mat.rowStart mat.colStart mat.rows mat.cols ++
        mulOps (h.obj a.rowValues) (h.obj b.colValues) mat a b)) := by
  unfold mul
  simp only []
  rw [mul_outer mat a b hrows hcols hb1 hb2 (h.obj b.colValues), zeroize_eq,
    runOps_frame _ _ _ ha1 ha2, runOps_append]
  rw [zeroize_eq, runOps_frame _ _ _ hb1 hb2]

theorem mem_mulOps {A B : Outer} {mat a b : BigIntMatrix} {op : Op} :
    op ∈ mulOps A B mat a b ↔
      ∃ e ∈ A, ∃ f ∈ B, (a.rowStart ≤ e.1 ∧ e.1 < a.rowStart + a.rows ∧
        b.colStart ≤ f.1 ∧ f.1 < b.colStart + b.cols) ∧
        op = ⟨e.1 - a.rowStart + mat.rowStart, f.1 - b.colStart + mat.colStart,
          fun _ => some (dot e.2 f.2 a.colStart b.rowStart)⟩ := by
  unfold mulOps
  simp only [List.mem_flatMap]
  constructor
  · rintro ⟨e, he, hop⟩
    split at hop
    · simp at hop
    · rename_i hr
      simp only [List.mem_flatMap] at hop
      obtain ⟨f, hf, hop⟩ := hop
      split at hop
      · simp at hop
      · rename_i hc
        simp at hr hc hop
        exact ⟨e, he, f, hf, ⟨by omega, by omega, by omega, by omega⟩, hop⟩
  · rintro ⟨e, he, f, hf, ⟨h1, h2, h3, h4⟩, hop⟩
    refine ⟨e, he, ?_⟩
    have hr : ¬ ((decide (e.1 < a.rowStart) || decide (a.rowStart + a.rows ≤ e.1)) = true) := by
      simp; omega
    rw [if_neg hr]
    simp only [List.mem_flatMap]
    refine ⟨f, hf, ?_⟩
    have hc : ¬ ((decide (f.1 < b.colStart) || decide (b.colStart + b.cols ≤ f.1)) = true) := by
      simp; omega
    rw [if_neg hc]
    simp [hop]

theorem dot_eq_sum (cs rs : List (Int × Int)) (aCS bRS : Int) :
    dot cs rs aCS bRS =
      (cs.map (fun e => e.2 * (mapGet rs (e.1 - aCS + bRS)).getD 0)).sum := by
  unfold dot
  have key : ∀ (l : List (Int × Int)) (acc : Int),
      l.foldl (fun value e =>
        match mapGet rs (e.1 - aCS + bRS) with
        | some v2 => value + e.2 * v2
        | none => value) acc =
      acc + (l.map (fun e => e.2 * (mapGet rs (e.1 - aCS + bRS)).getD 0)).sum := by
    intro l
    induction l with
    | nil => intro acc; simp
    | cons e rest ih =>
      intro acc
      rw [List.foldl_cons, ih, List.map_cons, List.sum_cons]
      cases mapGet rs (e.1 - aCS + bRS) with
      | none => simp
      | some v2 => simp [add_assoc]
  exact (key cs 0).trans (zero_add _)

theorem sum_row_eq (cs : List (Int × Int)) (hnd : NodupKeys cs) (aCS n : Int) (w : Int → Int)
    (hin : ∀ e ∈ cs, (aCS ≤ e.1 ∧ e.1 < aCS + n) ∨ w (e.1 - aCS) = 0) :
    (cs.map (fun e => e.2 * w (e.1 - aCS))).sum =
      ∑ k in Finset.range n.toNat, (mapGet cs ((k : Int) + aCS)).getD 0 * w (k : Int) := by
  induction cs with
  | nil => simp [mapGet]
  | cons e rest ih =>
    have hnd1 : e.1 ∉ rest.map (fun e => e.1) ∧ NodupKeys rest := by
      simpa [NodupKeys] using hnd
    have hnone : mapGet rest e.1 = none := by
      apply mapGet_none_of_not_mem
      intro e1 he1 hk
      apply hnd1.1
      rw [← hk]
      exact List.mem_map.2 ⟨e1, he1, rfl⟩
    rw [List.map_cons, List.sum_cons, ih hnd1.2 (fun e1 he1 => hin e1 (List.mem_cons_of_mem _ he1))]
    rcases hin e (List.mem_cons_self _ _) with he | he
    · have hterm : ∀ k ∈ Finset.range n.toNat,
          (mapGet (e :: rest) ((k : Int) + aCS)).getD 0 * w (k : Int) =
          (if k = (e.1 - aCS).toNat then e.2 * w (e.1 - aCS) else 0) +
            (mapGet rest ((k : Int) + aCS)).getD 0 * w (k : Int) := by
        intro k _
        rw [mapGet_cons]
        by_cases hk : k = (e.1 - aCS).toNat
        · have hk2 : e.1 = (k : Int) + aCS := by omega
          rw [if_pos hk2, if_pos hk, ← hk2, hnone]
          have : (k : Int) = e.1 - aCS := by omega
          rw [this]; simp
        · have hk2 : ¬ e.1 = (k : Int) + aCS := by omega
          rw [if_neg hk2, if_neg hk, zero_add]
      rw [Finset.sum_congr rfl hterm, Finset.sum_add_distrib, Finset.sum_ite_eq']
      have hmem : (e.1 - aCS).toNat ∈ Finset.range n.toNat := by
        rw [Finset.mem_range]; omega
      rw [if_pos hmem]
    · rw [he, mul_zero, zero_add]
      apply Finset.sum_congr rfl
      intro k _
      rw [mapGet_cons]
      by_cases hk2 : e.1 = (k : Int) + aCS
      · rw [if_pos hk2, ← hk2, hnone]
        have : (k : Int) = e.1 - aCS := by omega
        rw [this, he]; simp
      · rw [if_neg hk2]

theorem mapGet_ne_of_none {V : Type} {m : List (Int × V)} {k : Int} (h : mapGet m k = none) :
    ∀ e ∈ m, e.1 ≠ k := by
  induction m with
  | nil => intro e he; simp at he
  | cons e0 rest ih =>
    rw [mapGet_cons] at h
    by_cases hk : e0.1 = k
    · rw [if_pos hk] at h; simp at h
    · rw [if_neg hk] at h
      intro e he
      rcases List.mem_cons.1 he with h1 | h1
      · rw [h1]; exact hk
      · exact ih h e h1

/-- The value written by `mul` for one destination cell, as a sum over the
inner index. -/
theorem mul_replay (A B : Outer) (mat a b : BigIntMatrix)
    (hwa : WFOuter A) (hwb : WFOuter B)
    (hconf : ∀ e ∈ A, a.rowStart ≤ e.1 → e.1 < a.rowStart + a.rows →
      ∀ f ∈ e.2, (a.colStart ≤ f.1 ∧ f.1 < a.colStart + a.cols) ∨
        (∀ g ∈ B, b.colStart ≤ g.1 → g.1 < b.colStart + b.cols →
          mapGet g.2 (f.1 - a.colStart + b.rowStart) = none))
    {i j : Int} (hi0 : 0 ≤ i) (hi1 : i < a.rows) (hj0 : 0 ≤ j) (hj1 : j < b.cols) :
    replay (mulOps A B mat a b) (i + mat.rowStart) (j + mat.colStart) none =
      stored (some (∑ k in Finset.range a.cols.toNat,
        (cell A (i + a.rowStart) ((k : Int) + a.colStart)).getD 0 *
        (cell B (j + b.colStart) ((k : Int) + b.rowStart)).getD 0)) := by
  cases hga : mapGet A (i + a.rowStart) with
  | none =>
    have hno : ∀ op ∈ mulOps A B mat a b,
        ¬ (op.r = i + mat.rowStart ∧ op.c = j + mat.colStart) := by
      intro op hop hxy
      obtain ⟨e, he, f, _, _, rfl⟩ := mem_mulOps.1 hop
      apply mapGet_ne_of_none hga e he
      have := hxy.1
      simp only at this
      omega
    rw [replay_nil_of_forall _ hno]
    have hz : ∀ k ∈ Finset.range a.cols.toNat,
        (cell A (i + a.rowStart) ((k : Int) + a.colStart)).getD 0 *
        (cell B (j + b.colStart) ((k : Int) + b.rowStart)).getD 0 = 0 := by
      intro k _
      simp [cell, hga]
    rw [Finset.sum_eq_zero hz, stored_zero]
  | some cs =>
    cases hgb : mapGet B (j + b.colStart) with
    | none =>
      have hno : ∀ op ∈ mulOps A B mat a b,
          ¬ (op.r = i + mat.rowStart ∧ op.c = j + mat.colStart) := by
        intro op hop hxy
        obtain ⟨_, _, f, hf, _, rfl⟩ := mem_mulOps.1 hop
        apply mapGet_ne_of_none hgb f hf
        have := hxy.2
        simp only at this
        omega
      rw [replay_nil_of_forall _ hno]
      have hz : ∀ k ∈ Finset.range a.cols.toNat,
          (cell A (i + a.rowStart) ((k : Int) + a.colStart)).getD 0 *
          (cell B (j + b.colStart) ((k : Int) + b.rowStart)).getD 0 = 0 := by
        intro k _
        simp [cell, hgb]
      rw [Finset.sum_eq_zero hz, stored_zero]
    | some rs =>
      have hea : (i + a.rowStart, cs) ∈ A := mapGet_mem hga
      have heb : (j + b.colStart, rs) ∈ B := mapGet_mem hgb
      have hsum : dot cs rs a.colStart b.rowStart =
          ∑ k in Finset.range a.cols.toNat,
            (cell A (i + a.rowStart) ((k : Int) + a.colStart)).getD 0 *
            (cell B (j + b.colStart) ((k : Int) + b.rowStart)).getD 0 := by
        rw [dot_eq_sum]
        have h1 := sum_row_eq cs (hwa.2 _ hea) a.colStart a.cols
          (fun t => (mapGet rs (t + b.rowStart)).getD 0)
          (fun f hf => by
            rcases hconf _ hea (by simp only []; omega) (by simp only []; omega) f hf with hc | hc
            · exact Or.inl hc
            · right
              have := hc _ heb (by simp only []; omega) (by simp only []; omega)
              simp only at this
              simp only [this, Option.getD_none])
        simp only at h1
        rw [h1]
        apply Finset.sum_congr rfl
        intro k _
        simp [cell, hga, hgb]
      rw [← hsum]
      apply replay_const
      · refine ⟨_, mem_mulOps.2 ⟨_, hea, _, heb, ⟨by simp only []; omega, by simp only []; omega, by simp only []; omega,
          by simp only []; omega⟩,
          rfl⟩, ?_, ?_⟩ <;> simp
      · intro op hop hxy v
        obtain ⟨e, he, f, hf, _, rfl⟩ := mem_mulOps.1 hop
        have hx := hxy.1
        have hy := hxy.2
        simp only at hx hy
        have hx2 : e.1 = i + a.rowStart := by omega
        have hy2 : f.1 = j + b.colStart := by omega
        have e1 := mapGet_of_mem hwa.1 he
        have e2 := mapGet_of_mem hwb.1 hf
        rw [hx2, hga] at e1
        rw [hy2, hgb] at e2
        simp only [← Option.some.inj e1, ← Option.some.inj e2]

theorem mul_cell (h : Heap) (mat a b : BigIntMatrix) (hne : mat.rowValues ≠ mat.colValues)
    (hrows : mat.rows = a.rows) (hcols : mat.cols = b.cols)
    (hwa : WFOuter (h.obj a.rowValues)) (hwb : WFOuter (h.obj b.colValues))
    (hconf : ∀ e ∈ h.obj a.rowValues, a.rowStart ≤ e.1 → e.1 < a.rowStart + a.rows →
      ∀ f ∈ e.2, (a.colStart ≤ f.1 ∧ f.1 < a.colStart + a.cols) ∨
        (∀ g ∈ h.obj b.colValues, b.colStart ≤ g.1 → g.1 < b.colStart + b.cols →
          mapGet g.2 (f.1 - a.colStart + b.rowStart) = none))
    {i j : Int} (hi0 : 0 ≤ i) (hi1 : i < a.rows) (hj0 : 0 ≤ j) (hj1 : j < b.cols) :
    cell ((runOps mat h
      (zeroizeOps (h.obj mat.rowValues) mat.rowStart mat.colStart mat.rows mat.cols ++
        mulOps (h.obj a.rowValues) (h.obj b.colValues) mat a b)).obj mat.rowValues)
        (i + mat.rowStart) (j + mat.colStart) =
      stored (some (∑ k in Finset.range a.cols.toNat,
        (cell (h.obj a.rowValues) (i + a.rowStart) ((k : Int) + a.colStart)).getD 0 *
        (cell (h.obj b.colValues) (j + b.colStart) ((k : Int) + b.rowStart)).getD 0)) := by
  rw [runOps_row _ _ _ hne, replay_append, ← runOps_row _ _ _ hne, ← zeroize_eq,
    zeroize_row _ _ _ _ _ _ hne, if_pos ⟨by omega, by omega, by omega, by omega⟩]
  exact mul_replay _ _ mat a b hwa hwb hconf hi0 hi1 hj0 hj1

/-- Outside the destination rectangle `mul` leaves the row map as it was. -/
theorem mul_cell_outside (h : Heap) (mat a b : BigIntMatrix)
    (hne : mat.rowValues ≠ mat.colValues)
    (hrows : mat.rows = a.rows) (hcols : mat.cols = b.cols) (x y : Int)
    (hout : ¬ (mat.rowStart ≤ x ∧ x < mat.rowStart + mat.rows ∧
      mat.colStart ≤ y ∧ y < mat.colStart + mat.cols)) :
    cell ((runOps mat h
      (zeroizeOps (h.obj mat.rowValues) mat.rowStart mat.colStart mat.rows mat.cols ++
        mulOps (h.obj a.rowValues) (h.obj b.colValues) mat a b)).obj mat.rowValues) x y =
      cell (h.obj mat.rowValues) x y := by
  rw [runOps_row _ _ _ hne, replay_append, ← runOps_row _ _ _ hne, ← zeroize_eq,
    zeroize_row _ _ _ _ _ _ hne, if_neg hout]
  apply replay_nil_of_forall
  intro op hop hxy
  obtain ⟨e, _, f, _, hin, rfl⟩ := mem_mulOps.1 hop
  apply hout
  have hx := hxy.1
  have hy := hxy.2
  simp only at hx hy
  omega

end BigIntMatrix

/-! ## Constructors -/

namespace BigIntMatrix

theorem mem_upto {n i : Int} : i ∈ upto n ↔ 0 ≤ i ∧ i < n := by
  unfold upto
  simp only [List.mem_map, List.mem_range]
  constructor
  · rintro ⟨k, hk, rfl⟩
    constructor
    · exact Int.ofNat_nonneg k
    · have : ((k : Nat) : Int) < n := by omega
      exact this
  · rintro ⟨h0, h1⟩
    refine ⟨i.toNat, by omega, ?_⟩
    show ((i.toNat : Nat) : Int) = i
    omega

theorem fresh_next (h : Heap) (r c : Int) : (fresh h r c).1.next = h.next + 2 := rfl

theorem fresh_old (h : Heap) (r c : Int) {x : Nat} (hx : x < h.next) :
    (fresh h r c).1.obj x = h.obj x := by
  have h1 : x ≠ h.next := by omega
  have h2 : x ≠ h.next + 1 := by omega
  simp [fresh, Heap.alloc, h1, h2]

theorem fresh_row (h : Heap) (r c : Int) : (fresh h r c).1.obj (fresh h r c).2.rowValues = [] := by
  simp [fresh, Heap.alloc]

theorem fresh_col (h : Heap) (r c : Int) : (fresh h r c).1.obj (fresh h r c).2.colValues = [] := by
  simp [fresh, Heap.alloc]

theorem fresh_ne (h : Heap) (r c : Int) :
    (fresh h r c).2.rowValues ≠ (fresh h r c).2.colValues := by
  simp [fresh]

theorem wfOuter_nil : WFOuter [] := by
  constructor
  · simp [NodupKeys]
  · intro e he; simp at he

theorem NewBigIntMat_nil (h : Heap) (r c : Int) : NewBigIntMat h r c [] = some (fresh h r c) := by
  simp [NewBigIntMat]

theorem BigIntIdentity_eq (h : Heap) (n : Int) :
    BigIntIdentity h n = (runOps (fresh h n n).2 (fresh h n n).1 (identityOps n), (fresh h n n).2) := by
  unfold BigIntIdentity runOps identityOps
  simp only [List.foldl_map]
  rfl

theorem BigIntIdentity_cell (h : Heap) (n x y : Int) :
    cell ((BigIntIdentity h n).1.obj (BigIntIdentity h n).2.rowValues) x y =
      if x = y ∧ 0 ≤ x ∧ x < n then some 1 else none := by
  rw [BigIntIdentity_eq]
  simp only []
  rw [runOps_row _ _ _ (fresh_ne h n n), fresh_row]
  split
  · rename_i hx
    apply replay_const
    · exact ⟨⟨x, x, fun _ => some 1⟩, List.mem_map.2 ⟨x, mem_upto.2 hx.2, rfl⟩, rfl, hx.1⟩
    · intro op hop _ v
      obtain ⟨i, _, rfl⟩ := List.mem_map.1 hop
      rfl
  · rename_i hx
    rw [replay_nil_of_forall]
    · rfl
    · intro op hop hxy
      obtain ⟨i, hi, rfl⟩ := List.mem_map.1 hop
      apply hx
      have h1 := hxy.1
      have h2 := hxy.2
      simp only at h1 h2
      have := mem_upto.1 hi
      omega

theorem copy_inner (C m : BigIntMatrix) (M0 : Outer)
    (h1 : m.rowValues ≠ C.rowValues) (h2 : m.rowValues ≠ C.colValues)
    (i : Int) (hi0 : 0 ≤ i) (hi1 : i < m.rows) (js : List Int)
    (hjs : ∀ j ∈ js, 0 ≤ j ∧ j < m.cols) (s : Heap) (hs : s.obj m.rowValues = M0) :
    foldOpt (fun h2 j =>
      match m.At h2 i j with
      | none => none
      | some v => some (C.set h2 i j (some v))) js s =
    some (runOps C s (js.map (fun j =>
      ⟨i, j, fun _ => some ((cell M0 (i + m.rowStart) (j + m.colStart)).getD 0)⟩))) := by
  induction js generalizing s with
  | nil => rfl
  | cons j rest ih =>
    have hj := hjs j (List.mem_cons_self _ _)
    unfold foldOpt
    rw [At_eq s m hi0 hi1 hj.1 hj.2]
    simp only []
    rw [ih (fun j1 hj1 => hjs j1 (List.mem_cons_of_mem _ hj1)) _
      (by rw [set_frame _ _ _ _ _ h1 h2, hs]), hs]
    rfl

theorem copy_outer (C m : BigIntMatrix) (M0 : Outer)
    (h1 : m.rowValues ≠ C.rowValues) (h2 : m.rowValues ≠ C.colValues)
    (is : List Int) (his : ∀ i ∈ is, 0 ≤ i ∧ i < m.rows)
    (s : Heap) (hs : s.obj m.rowValues = M0) :
    foldOpt (fun h1 i =>
      foldOpt (fun h2 j =>
        match m.At h2 i j with
        | none => none
        | some v => some (C.set h2 i j (some v))) (upto m.cols) h1) is s =
    some (runOps C s (is.flatMap (fun i => (upto m.cols).map (fun j =>
      ⟨i, j, fun _ => some ((cell M0 (i + m.rowStart) (j + m.colStart)).getD 0)⟩)))) := by
  induction is generalizing s with
  | nil => rfl
  | cons i rest ih =>
    have hi := his i (List.mem_cons_self _ _)
    unfold foldOpt
    rw [copy_inner C m M0 h1 h2 i hi.1 hi.2 (upto m.cols) (fun j hj => mem_upto.1 hj) s hs]
    simp only []
    rw [ih (fun i1 hi1 => his i1 (List.mem_cons_of_mem _ hi1)) _
      (by rw [runOps_frame _ _ _ h1 h2, hs]), List.flatMap_cons, runOps_append]

theorem BigIntCopy_eq (h : Heap) (m : BigIntMatrix) (hlt : m.rowValues < h.next) :
    BigIntCopy h m = some (runOps (fresh h m.rows m.cols).2 (fresh h m.rows m.cols).1
      (copyOps (h.obj m.rowValues) m), (fresh h m.rows m.cols).2) := by
  have h1 : m.rowValues ≠ (fresh h m.rows m.cols).2.rowValues := by
    simp only [fresh]; omega
  have h2 : m.rowValues ≠ (fresh h m.rows m.cols).2.colValues := by
    simp only [fresh]; omega
  have key := copy_outer (fresh h m.rows m.cols).2 m (h.obj m.rowValues) h1 h2 (upto m.rows)
    (fun i hi => mem_upto.1 hi) (fresh h m.rows m.cols).1 (fresh_old h _ _ hlt)
  have key2 := congrArg (fun o : Option Heap =>
    match o with
    | none => (none : Option (Heap × BigIntMatrix))
    | some h1 => some (h1, (fresh h m.rows m.cols).2)) key
  exact key2

theorem copy_cell (h : Heap) (m : BigIntMatrix) (x y : Int) :
    cell ((runOps (fresh h m.rows m.cols).2 (fresh h m.rows m.cols).1
      (copyOps (h.obj m.rowValues) m)).obj (fresh h m.rows m.cols).2.rowValues) x y =
      if 0 ≤ x ∧ x < m.rows ∧ 0 ≤ y ∧ y < m.cols then
        stored (some ((cell (h.obj m.rowValues) (x + m.rowStart) (y + m.colStart)).getD 0))
      else none := by
  rw [runOps_row _ _ _ (fresh_ne h _ _), fresh_row]
  have hmem : ∀ op, op ∈ copyOps (h.obj m.rowValues) m ↔
      ∃ i j, (0 ≤ i ∧ i < m.rows) ∧ (0 ≤ j ∧ j < m.cols) ∧ op = ⟨i, j, fun _ =>
        some ((cell (h.obj m.rowValues) (i + m.rowStart) (j + m.colStart)).getD 0)⟩ := by
    intro op
    unfold copyOps
    simp only [List.mem_flatMap, List.mem_map, mem_upto]
    constructor
    · rintro ⟨i, hi, j, hj, rfl⟩
      exact ⟨i, j, hi, hj, rfl⟩
    · rintro ⟨i, j, hi, hj, rfl⟩
      exact ⟨i, hi, j, hj, rfl⟩
  split
  · rename_i hx
    apply replay_const
    · exact ⟨_, (hmem _).2 ⟨x, y, ⟨hx.1, hx.2.1⟩, ⟨hx.2.2.1, hx.2.2.2⟩, rfl⟩, rfl, rfl⟩
    · intro op hop hxy v
      obtain ⟨i, j, _, _, rfl⟩ := (hmem _).1 hop
      have e1 := hxy.1
      have e2 := hxy.2
      simp only at e1 e2
      simp only [e1, e2]
  · rename_i hx
    rw [replay_nil_of_forall]
    · rfl
    · intro op hop hxy
      obtain ⟨i, j, hi, hj, rfl⟩ := (hmem _).1 hop
      apply hx
      have e1 := hxy.1
      have e2 := hxy.2
      simp only at e1 e2
      omega

end BigIntMatrix

/-! ## Claims on Mul and Add -/

namespace BigIntMatrix

theorem At_congr_obj (h h1 : Heap) (m : BigIntMatrix) (i j : Int)
    (he : h1.obj m.rowValues = h.obj m.rowValues) : m.At h1 i j = m.At h i j := by
  unfold At at_
  rw [he]

theorem At_getD (h : Heap) (m : BigIntMatrix) {i j : Int} (hi0 : 0 ≤ i) (hi1 : i < m.rows)
    (hj0 : 0 ≤ j) (hj1 : j < m.cols) :
    (m.At h i j).getD 0 = (cell (h.obj m.rowValues) (i + m.rowStart) (j + m.colStart)).getD 0 := by
  rw [At_eq h m hi0 hi1 hj0 hj1]; rfl

theorem Mul_eq_mul (h : Heap) (dst a b : BigIntMatrix) (hinner : a.cols = b.rows)
    (hrows : dst.rows = a.rows) (hcols : dst.cols = b.cols) :
    dst.Mul h (some a) (some b) false false = dst.mul h a b := by
  simp [Mul, Dims, hinner, hrows, hcols]

/-- C1: for operands `a` (m×n) and `b` (n×p) with unique map keys, where the row
map of `a` holds no cell outside `a`'s rectangle and the two index maps of `b`
mirror each other (as for every matrix built by a constructor, and its
transpose), and a destination of shape m×p over other map objects, `Mul`
succeeds and every destination cell holds the sum over `k` of
`a.At(i,k) * b.At(k,j)`; when that sum is zero the cell is absent from the row
map, and from the column map as well when the destination's maps mirrored each
other before. -/
theorem Mul_computes_product (h : Heap) (dst a b : BigIntMatrix)
    (hne : dst.rowValues ≠ dst.colValues) (hsa : Separate dst a) (hsb : Separate dst b)
    (hwa : WF h a) (hwb : WF h b) (hca : Confined h a) (hmb : Mirror h b)
    (hinner : a.cols = b.rows) (hrows : dst.rows = a.rows) (hcols : dst.cols = b.cols) :
    ∃ h1, dst.Mul h (some a) (some b) false false = some h1 ∧
      ∀ i j, 0 ≤ i → i < a.rows → 0 ≤ j → j < b.cols →
        dst.At h1 i j = some (∑ k in Finset.range a.cols.toNat,
          (a.At h i (k : Int)).getD 0 * (b.At h (k : Int) j).getD 0) ∧
        ((∑ k in Finset.range a.cols.toNat,
            (a.At h i (k : Int)).getD 0 * (b.At h (k : Int) j).getD 0) = 0 →
          dst.at_ h1 (i + dst.rowStart) (j + dst.colStart) = none ∧
          (Mirror h dst →
            cell (h1.obj dst.colValues) (j + dst.colStart) (i + dst.rowStart) = none)) := by
  have hmp := mirrorP_of_mirror hmb
  rw [Mul_eq_mul h dst a b hinner hrows hcols,
    mul_eq h dst a b hrows hcols (Ne.symm hsa.1) (Ne.symm hsa.2.2.1) (Ne.symm hsb.2.1)
      (Ne.symm hsb.2.2.2)]
  refine ⟨_, rfl, ?_⟩
  intro i j hi0 hi1 hj0 hj1
  have hcell := mul_cell h dst a b hne hrows hcols hwa.1 hwb.2
    (fun e he _ _ f hf => Or.inl (hca e he f hf).2.2) hi0 hi1 hj0 hj1
  have hsum : (∑ k in Finset.range a.cols.toNat,
      (a.At h i (k : Int)).getD 0 * (b.At h (k : Int) j).getD 0) =
      ∑ k in Finset.range a.cols.toNat,
        (cell (h.obj a.rowValues) (i + a.rowStart) ((k : Int) + a.colStart)).getD 0 *
        (cell (h.obj b.colValues) (j + b.colStart) ((k : Int) + b.rowStart)).getD 0 := by
    apply Finset.sum_congr rfl
    intro k hk
    have hk1 : (k : Int) < a.cols := by
      have := Finset.mem_range.1 hk
      omega
    rw [At_getD h a hi0 hi1 (Int.ofNat_nonneg k) hk1,
      At_getD h b (Int.ofNat_nonneg k) (by omega) hj0 hj1, hmp]
  rw [hsum]
  refine ⟨?_, ?_⟩
  · rw [At_eq _ dst hi0 (by omega) hj0 (by omega), hcell, stored_getD]
    rfl
  · intro hz
    rw [hz, stored_zero] at hcell
    refine ⟨hcell, ?_⟩
    intro hmd
    have := runOps_mirror dst h
      (zeroizeOps (h.obj dst.rowValues) dst.rowStart dst.colStart dst.rows dst.cols ++
        mulOps (h.obj a.rowValues) (h.obj b.colValues) dst a b) hne (mirrorP_of_mirror hmd)
    rw [← this, hcell]

/-- C4: for views `a`, `b` and `dst` of one common shape, `dst` over other map
objects than `a` and `b`, `Add` succeeds whatever the destination held before
and every destination cell holds `a.At(i,j) + b.At(i,j)`; a cell whose sum is
zero is absent from the row map (and from the column map when the destination's
maps mirrored each other before); the map objects of `a` and `b`, hence all
their cells, are unchanged. -/
theorem Add_computes_sum (h : Heap) (dst a b : BigIntMatrix)
    (hne : dst.rowValues ≠ dst.colValues) (hsa : Separate dst a) (hsb : Separate dst b)
    (hwa : WF h a) (hwb : WF h b)
    (hab : a.rows = b.rows ∧ a.cols = b.cols) (hd : dst.rows = a.rows ∧ dst.cols = a.cols) :
    ∃ h1, dst.Add h (some a) (some b) false false = some h1 ∧
      (∀ i j, 0 ≤ i → i < a.rows → 0 ≤ j → j < a.cols →
        dst.At h1 i j = some ((a.At h i j).getD 0 + (b.At h i j).getD 0) ∧
        ((a.At h i j).getD 0 + (b.At h i j).getD 0 = 0 →
          dst.at_ h1 (i + dst.rowStart) (j + dst.colStart) = none ∧
          (Mirror h dst →
            cell (h1.obj dst.colValues) (j + dst.colStart) (i + dst.rowStart) = none))) ∧
      (h1.obj a.rowValues = h.obj a.rowValues ∧ h1.obj a.colValues = h.obj a.colValues ∧
        h1.obj b.rowValues = h.obj b.rowValues ∧ h1.obj b.colValues = h.obj b.colValues) ∧
      (∀ i j, a.At h1 i j = a.At h i j ∧ b.At h1 i j = b.At h i j) := by
  have ha1 := Ne.symm hsa.1
  have ha2 := Ne.symm hsa.2.2.1
  have hb1 := Ne.symm hsb.1
  have hb2 := Ne.symm hsb.2.2.1
  have hfr : ∀ x, x ≠ dst.rowValues → x ≠ dst.colValues → (dst.add h a b).obj x = h.obj x :=
    fun x h1 h2 => add_frame h dst a b ha1 ha2 hb1 hb2 h1 h2
  refine ⟨dst.add h a b, ?_, ?_, ?_, ?_⟩
  · simp [Add, hab.1, hab.2, hd.1, hd.2]
  · intro i j hi0 hi1 hj0 hj1
    have hcell := add_cell h dst a b hne ha1 ha2 hb1 hb2 hwa.1 hwb.1 hi0 hi1 hj0 hj1
    rw [At_getD h a hi0 hi1 hj0 hj1, At_getD h b hi0 (by omega) hj0 (by omega)]
    refine ⟨?_, ?_⟩
    · rw [At_eq _ dst hi0 (by omega) hj0 (by omega), hcell, stored_getD]
      rfl
    · intro hz
      rw [hz, stored_zero] at hcell
      refine ⟨hcell, ?_⟩
      intro hmd
      have := add_mirror h dst a b hne ha1 ha2 hb1 hb2 (mirrorP_of_mirror hmd)
      rw [← this, hcell]
  · exact ⟨hfr _ ha1 ha2, hfr _ (Ne.symm hsa.2.1) (Ne.symm hsa.2.2.2), hfr _ hb1 hb2,
      hfr _ (Ne.symm hsb.2.1) (Ne.symm hsb.2.2.2)⟩
  · intro i j
    exact ⟨At_congr_obj _ _ a i j (hfr _ ha1 ha2), At_congr_obj _ _ b i j (hfr _ hb1 hb2)⟩

end BigIntMatrix

/-! ## Clean roots and their matrices -/

namespace BigIntMatrix

theorem clean_of_runOps_fresh (h : Heap) (n : Int) (ops : List Op)
    (hops : ∀ op ∈ ops, 0 ≤ op.r ∧ op.r < n ∧ 0 ≤ op.c ∧ op.c < n) :
    Clean (runOps (fresh h n n).2 (fresh h n n).1 ops) (fresh h n n).2 n where
  rows := rfl
  cols := rfl
  rowStart := rfl
  colStart := rfl
  ne := fresh_ne h n n
  ltRow := by rw [runOps_next]; simp only [fresh, Heap.alloc]; omega
  ltCol := by rw [runOps_next]; simp only [fresh, Heap.alloc]; omega
  wfRow := by
    apply runOps_wf <;> simp only [fresh_row, fresh_col] <;> exact wfOuter_nil
  wfCol := by
    apply runOps_wf <;> simp only [fresh_row, fresh_col] <;> exact wfOuter_nil
  mirror := by
    apply runOps_mirror _ _ _ (fresh_ne h n n)
    intro x y
    rw [fresh_row, fresh_col]; rfl
  inside := by
    intro x y w hw
    by_contra hout
    rw [runOps_row _ _ _ (fresh_ne h n n), fresh_row, replay_nil_of_forall] at hw
    · simp [cell, mapGet] at hw
    · intro op hop hxy
      have := hops op hop
      apply hout
      rw [← hxy.1, ← hxy.2]; exact this

theorem runOps_fresh_old (h : Heap) (r c : Int) (ops : List Op) {x : Nat} (hx : x < h.next) :
    (runOps (fresh h r c).2 (fresh h r c).1 ops).obj x = h.obj x := by
  rw [runOps_frame, fresh_old h r c hx]
  · simp only [fresh]; omega
  · simp only [fresh]; omega

theorem Clean.mono {h h2 : Heap} {v : BigIntMatrix} {n : Int} (hc : Clean h v n)
    (hold : ∀ x, x < h.next → h2.obj x = h.obj x) (hle : h.next ≤ h2.next) : Clean h2 v n where
  rows := hc.rows
  cols := hc.cols
  rowStart := hc.rowStart
  colStart := hc.colStart
  ne := hc.ne
  ltRow := lt_of_lt_of_le hc.ltRow hle
  ltCol := lt_of_lt_of_le hc.ltCol hle
  wfRow := by rw [hold _ hc.ltRow]; exact hc.wfRow
  wfCol := by rw [hold _ hc.ltCol]; exact hc.wfCol
  mirror := by
    intro x y
    rw [hold _ hc.ltRow, hold _ hc.ltCol]; exact hc.mirror x y
  inside := by
    intro x y w hw
    rw [hold _ hc.ltRow] at hw
    exact hc.inside x y w hw

theorem Clean.mem_inside {h : Heap} {v : BigIntMatrix} {n : Int} (hc : Clean h v n) :
    ∀ e ∈ h.obj v.rowValues, ∀ f ∈ e.2, 0 ≤ e.1 ∧ e.1 < n ∧ 0 ≤ f.1 ∧ f.1 < n := by
  intro e he f hf
  exact hc.inside _ _ _ (cell_of_mem hc.wfRow he hf)

theorem matOf_apply (h : Heap) (v : BigIntMatrix) (n : Int) (hr : v.rows = n) (hc : v.cols = n)
    (i j : Fin n.toNat) :
    matOf h v n.toNat i j =
      (cell (h.obj v.rowValues) (((i : Nat) : Int) + v.rowStart)
        (((j : Nat) : Int) + v.colStart)).getD 0 := by
  unfold matOf
  have hi := i.2
  have hj := j.2
  rw [At_getD h v (Int.ofNat_nonneg _) (by omega) (Int.ofNat_nonneg _) (by omega)]

theorem matOf_congr (h h2 : Heap) (v : BigIntMatrix) (N : Nat)
    (he : h2.obj v.rowValues = h.obj v.rowValues) : matOf h2 v N = matOf h v N := by
  funext i j
  unfold matOf
  rw [At_congr_obj h h2 v _ _ he]

theorem identityOps_inside (n : Int) :
    ∀ op ∈ identityOps n, 0 ≤ op.r ∧ op.r < n ∧ 0 ≤ op.c ∧ op.c < n := by
  intro op hop
  obtain ⟨i, hi, rfl⟩ := List.mem_map.1 hop
  have := mem_upto.1 hi
  exact ⟨this.1, this.2, this.1, this.2⟩

theorem copyOps_inside (M0 : Outer) (m : BigIntMatrix) (n : Int) (hr : m.rows = n)
    (hc : m.cols = n) : ∀ op ∈ copyOps M0 m, 0 ≤ op.r ∧ op.r < n ∧ 0 ≤ op.c ∧ op.c < n := by
  intro op hop
  unfold copyOps at hop
  simp only [List.mem_flatMap, List.mem_map, mem_upto] at hop
  obtain ⟨i, hi, j, hj, rfl⟩ := hop
  simp only []
  omega

theorem mulOps_inside (A B : Outer) (mat a b : BigIntMatrix) (n : Int)
    (h1 : mat.rowStart = 0) (h2 : mat.colStart = 0) (h3 : a.rows = n) (h4 : b.cols = n) :
    ∀ op ∈ mulOps A B mat a b, 0 ≤ op.r ∧ op.r < n ∧ 0 ≤ op.c ∧ op.c < n := by
  intro op hop
  obtain ⟨e, _, f, _, hin, rfl⟩ := mem_mulOps.1 hop
  simp only []
  omega

theorem identity_clean (h : Heap) (n : Int) :
    Clean (BigIntIdentity h n).1 (BigIntIdentity h n).2 n := by
  rw [BigIntIdentity_eq]
  exact clean_of_runOps_fresh h n _ (identityOps_inside n)

theorem matOf_identity (h : Heap) (n : Int) :
    matOf (BigIntIdentity h n).1 (BigIntIdentity h n).2 n.toNat = 1 := by
  funext i j
  have hc := identity_clean h n
  rw [matOf_apply _ _ n hc.rows hc.cols, BigIntIdentity_cell, hc.rowStart, hc.colStart,
    Matrix.one_apply]
  have hi := i.2
  have hj := j.2
  by_cases hij : i = j
  · subst hij
    rw [if_pos rfl, if_pos ⟨rfl, by omega, by omega⟩]; rfl
  · have : ¬ ((i : Nat) : Int) + 0 = ((j : Nat) : Int) + 0 := by
      intro e
      apply hij
      apply Fin.ext
      omega
    rw [if_neg hij, if_neg (fun e => this e.1)]; rfl

end BigIntMatrix

/-! ## Exponentiation by squaring -/

namespace BigIntMatrix

theorem zeroizeOps_nil (r c rows col : Int) : zeroizeOps [] r c rows col = [] := rfl

theorem mul_fresh (h : Heap) (n : Int) (x y : BigIntMatrix) (hx : Clean h x n)
    (hy : Clean h y n) :
    ∃ h2, (fresh h n n).2.Mul (fresh h n n).1 (some x) (some y) false false = some h2 ∧
      Clean h2 (fresh h n n).2 n ∧ (∀ a, a < h.next → h2.obj a = h.obj a) ∧
      h2.next = h.next + 2 ∧
      matOf h2 (fresh h n n).2 n.toNat = matOf h x n.toNat * matOf h y n.toNat := by
  have hx1 : x.rowValues ≠ (fresh h n n).2.rowValues := by
    have := hx.ltRow; simp only [fresh]; omega
  have hx2 : x.rowValues ≠ (fresh h n n).2.colValues := by
    have := hx.ltRow; simp only [fresh]; omega
  have hy1 : y.colValues ≠ (fresh h n n).2.rowValues := by
    have := hy.ltCol; simp only [fresh]; omega
  have hy2 : y.colValues ≠ (fresh h n n).2.colValues := by
    have := hy.ltCol; simp only [fresh]; omega
  have hrows : (fresh h n n).2.rows = x.rows := hx.rows.symm
  have hcols : (fresh h n n).2.cols = y.cols := hy.cols.symm
  rw [Mul_eq_mul _ _ x y (hx.cols.trans hy.rows.symm) hrows hcols,
    mul_eq _ _ x y hrows hcols hx1 hx2 hy1 hy2]
  have hops : ∀ op ∈ zeroizeOps ((fresh h n n).1.obj (fresh h n n).2.rowValues)
      (fresh h n n).2.rowStart (fresh h n n).2.colStart (fresh h n n).2.rows
      (fresh h n n).2.cols ++
      mulOps ((fresh h n n).1.obj x.rowValues) ((fresh h n n).1.obj y.colValues)
        (fresh h n n).2 x y, 0 ≤ op.r ∧ op.r < n ∧ 0 ≤ op.c ∧ op.c < n := by
    intro op hop
    rw [fresh_row, zeroizeOps_nil, List.nil_append] at hop
    exact mulOps_inside _ _ _ x y n rfl rfl hx.rows hy.cols op hop
  refine ⟨_, rfl, clean_of_runOps_fresh h n _ hops, fun a ha => runOps_fresh_old h n n _ ha,
    ?_, ?_⟩
  · rw [runOps_next]; rfl
  · funext i j
    rw [matOf_apply _ _ n rfl rfl]
    have hi := i.2
    have hj := j.2
    have hcell := mul_cell (fresh h n n).1 (fresh h n n).2 x y (fresh_ne h n n) hrows hcols
      (by rw [fresh_old h n n hx.ltRow]; exact hx.wfRow)
      (by rw [fresh_old h n n hy.ltCol]; exact hy.wfCol)
      (fun e he _ _ f hf => by
        rw [fresh_old h n n hx.ltRow] at he
        have := hx.mem_inside e he f hf
        left
        rw [hx.colStart, hx.cols]
        omega)
      (i := ((i : Nat) : Int)) (j := ((j : Nat) : Int))
      (Int.ofNat_nonneg _) (by rw [hx.rows]; omega) (Int.ofNat_nonneg _)
      (by rw [hy.cols]; omega)
    rw [hcell, stored_getD, Option.getD_some, Matrix.mul_apply, hx.cols,
      ← Fin.sum_univ_eq_sum_range (fun k =>
        (cell ((fresh h n n).1.obj x.rowValues) (((i : Nat) : Int) + x.rowStart)
          ((k : Int) + x.colStart)).getD 0 *
        (cell ((fresh h n n).1.obj y.colValues) (((j : Nat) : Int) + y.colStart)
          ((k : Int) + y.rowStart)).getD 0) n.toNat]
    apply Finset.sum_congr rfl
    intro k _
    rw [matOf_apply h x n hx.rows hx.cols, matOf_apply h y n hy.rows hy.cols,
      fresh_old h n n hx.ltRow, fresh_old h n n hy.ltCol, hy.mirror]

theorem mulNew_spec (h : Heap) (n : Int) (x y : BigIntMatrix) (hx : Clean h x n)
    (hy : Clean h y n) :
    ∃ h2 t, mulNew h n n x y = some (h2, t) ∧
      Clean h2 t n ∧ (∀ a, a < h.next → h2.obj a = h.obj a) ∧ h.next ≤ h2.next ∧
      matOf h2 t n.toNat = matOf h x n.toNat * matOf h y n.toNat ∧
      h.next ≤ t.rowValues ∧ h.next ≤ t.colValues := by
  obtain ⟨h2, hm, hc, hold, hnext, hmat⟩ := mul_fresh h n x y hx hy
  refine ⟨h2, (fresh h n n).2, ?_, hc, hold, by omega, hmat, le_refl _, Nat.le_succ _⟩
  unfold mulNew
  rw [NewBigIntMat_nil]
  simp only []
  rw [hm]

theorem step_spec (h : Heap) (n : Int) (cond : Prop) [Decidable cond] (x y z : BigIntMatrix)
    (hx : Clean h x n) (hy : Clean h y n) (hz : Clean h z n) (b : Nat) (hb : b ≤ h.next)
    (hzb : b ≤ z.rowValues ∧ b ≤ z.colValues) :
    ∃ h2 t, (if cond then mulNew h n n x y else some (h, z)) = some (h2, t) ∧
      Clean h2 t n ∧ (∀ a, a < h.next → h2.obj a = h.obj a) ∧ h.next ≤ h2.next ∧
      (matOf h2 t n.toNat =
        if cond then matOf h x n.toNat * matOf h y n.toNat else matOf h z n.toNat) ∧
      b ≤ t.rowValues ∧ b ≤ t.colValues := by
  by_cases hc : cond
  · simp only [hc, if_true]
    obtain ⟨h2, t, e, h1, h3, h4, h5, h6, h7⟩ := mulNew_spec h n x y hx hy
    exact ⟨h2, t, e, h1, h3, h4, h5, by omega, by omega⟩
  · simp only [hc, if_false]
    exact ⟨h, z, rfl, hz, fun _ _ => rfl, le_refl _, rfl, hzb.1, hzb.2⟩

theorem powLoop_spec (n : Int) : ∀ (fuel : Nat) (h : Heap) (k : Int) (result cur : BigIntMatrix),
    0 ≤ k → k.toNat < fuel → Clean h result n → Clean h cur n →
    ∀ b : Nat, b ≤ h.next → b ≤ result.rowValues → b ≤ result.colValues →
    b ≤ cur.rowValues → b ≤ cur.colValues →
    ∃ h2 p, powLoop n n fuel h k result cur = some (h2, p) ∧ Clean h2 p n ∧
      (∀ a, a < h.next → h2.obj a = h.obj a) ∧ h.next ≤ h2.next ∧
      matOf h2 p n.toNat = matOf h result n.toNat * matOf h cur n.toNat ^ k.toNat ∧
      b ≤ p.rowValues ∧ b ≤ p.colValues := by
  intro fuel
  induction fuel with
  | zero => intro h k result cur _ hlt; omega
  | succ fuel ih =>
    intro h k result cur hk0 hlt hr hc b hb hb1 hb2 hb3 hb4
    unfold powLoop
    by_cases hk : k > 0
    · rw [if_pos hk]
      have hdiv : Int.tdiv k 2 = k / 2 := Int.tdiv_eq_ediv (by omega) (by omega)
      have hmod : Int.tmod k 2 = k % 2 := Int.tmod_eq_emod (by omega) (by omega)
      obtain ⟨h2, r1, e1, hr1, hold1, hle1, hm1, hf1, hf2⟩ :=
        step_spec h n (Int.tmod k 2 = 1) result cur result hr hc hr b hb ⟨hb1, hb2⟩
      have hc2 : Clean h2 cur n := hc.mono hold1 hle1
      obtain ⟨h4, c1, e2, hc1, hold2, hle2, hm2, hf3, hf4⟩ :=
        step_spec h2 n (Int.tdiv k 2 > 0) cur cur cur hc2 hc2 hc2 b (by omega) ⟨hb3, hb4⟩
      have hr4 : Clean h4 r1 n := hr1.mono hold2 hle2
      obtain ⟨h5, p, e3, hp, hold3, hle3, hm3, hf5, hf6⟩ :=
        ih h4 (Int.tdiv k 2) r1 c1 (by omega) (by omega) hr4 hc1 b (by omega) hf1 hf2 hf3 hf4
      rw [e1]
      simp only []
      rw [e2]
      simp only []
      refine ⟨h5, p, e3, hp, ?_, by omega, ?_, hf5, hf6⟩
      · intro a ha
        rw [hold3 a (by omega), hold2 a (by omega), hold1 a ha]
      · rw [hm3, matOf_congr h2 h4 r1 _ (hold2 _ hr1.ltRow), hm1, hm2,
          matOf_congr h h2 cur _ (hold1 _ hc.ltRow)]
        by_cases hodd : Int.tmod k 2 = 1
        · rw [if_pos hodd]
          by_cases hpos : Int.tdiv k 2 > 0
          · rw [if_pos hpos]
            have hkn : k.toNat = 2 * (Int.tdiv k 2).toNat + 1 := by omega
            have hp : (matOf h cur n.toNat * matOf h cur n.toNat) ^ (Int.tdiv k 2).toNat =
                matOf h cur n.toNat ^ (2 * (Int.tdiv k 2).toNat) := by
              rw [pow_mul, pow_two]
            rw [hp, hkn, pow_succ', mul_assoc]
          · rw [if_neg hpos]
            have hkn : k.toNat = 1 := by omega
            have hz : (Int.tdiv k 2).toNat = 0 := by omega
            rw [hkn, hz, pow_zero, pow_one, mul_one]
        · rw [if_neg hodd]
          have hpos : Int.tdiv k 2 > 0 := by omega
          rw [if_pos hpos]
          have hkn : k.toNat = 2 * (Int.tdiv k 2).toNat := by omega
          rw [hkn, pow_mul, pow_two]
    · rw [if_neg hk]
      have hz : k.toNat = 0 := by omega
      refine ⟨h, result, rfl, hr, fun _ _ => rfl, le_refl _, ?_, hb1, hb2⟩
      rw [hz, pow_zero, mul_one]

theorem copy_spec (h : Heap) (m : BigIntMatrix) (n : Int) (hr : m.rows = n) (hc : m.cols = n)
    (hlt : m.rowValues < h.next) :
    ∃ h2 c, BigIntCopy h m = some (h2, c) ∧ Clean h2 c n ∧
      (∀ a, a < h.next → h2.obj a = h.obj a) ∧ h.next ≤ h2.next ∧
      matOf h2 c n.toNat = matOf h m n.toNat ∧ h.next ≤ c.rowValues ∧ h.next ≤ c.colValues := by
  subst hr
  rw [BigIntCopy_eq h m hlt, hc]
  refine ⟨_, _, rfl, clean_of_runOps_fresh h _ _ ?_, fun a ha => runOps_fresh_old h _ _ _ ha,
    ?_, ?_, le_refl _, Nat.le_succ _⟩
  · exact copyOps_inside (h.obj m.rowValues) m m.rows rfl hc
  · rw [runOps_next]; simp only [fresh, Heap.alloc]; omega
  · funext i j
    have hi := i.2
    have hj := j.2
    rw [matOf_apply _ (fresh h m.rows m.rows).2 m.rows rfl rfl, matOf_apply h m m.rows rfl hc]
    have := copy_cell h m (((i : Nat) : Int) + 0) (((j : Nat) : Int) + 0)
    rw [hc] at this
    rw [show (fresh h m.rows m.rows).2.rowStart = 0 from rfl,
      show (fresh h m.rows m.rows).2.colStart = 0 from rfl, this,
      if_pos ⟨by omega, by omega, by omega, by omega⟩, stored_getD]
    simp

theorem Pow_spec (h : Heap) (m : BigIntMatrix) (k : Int) (hlt : m.rowValues < h.next)
    (hsq : m.rows = m.cols) (hk : 0 ≤ k) :
    ∃ h2 p, Pow h m k = some (h2, p) ∧ Clean h2 p m.rows ∧
      (∀ a, a < h.next → h2.obj a = h.obj a) ∧
      matOf h2 p m.rows.toNat = matOf h m m.rows.toNat ^ k.toNat ∧
      h.next ≤ p.rowValues ∧ h.next ≤ p.colValues := by
  have hid := identity_clean h m.rows
  have hidold : ∀ a, a < h.next → (BigIntIdentity h m.rows).1.obj a = h.obj a := by
    intro a ha
    rw [BigIntIdentity_eq]
    exact runOps_fresh_old h _ _ _ ha
  have hidnext : (BigIntIdentity h m.rows).1.next = h.next + 2 := by
    rw [BigIntIdentity_eq]
    simp only []
    rw [runOps_next]; rfl
  have hidrefs : h.next ≤ (BigIntIdentity h m.rows).2.rowValues ∧
      h.next ≤ (BigIntIdentity h m.rows).2.colValues := by
    rw [BigIntIdentity_eq]
    exact ⟨le_refl _, Nat.le_succ _⟩
  unfold Pow
  rw [if_neg (by simpa using hsq), if_neg (by omega)]
  by_cases hk0 : k = 0
  · rw [if_pos hk0]
    refine ⟨(BigIntIdentity h m.rows).1, (BigIntIdentity h m.rows).2, rfl, hid, hidold, ?_,
      hidrefs.1, hidrefs.2⟩
    rw [matOf_identity, hk0]
    simp
  · rw [if_neg hk0]
    simp only []
    obtain ⟨h1, c, ec, hcl, hold1, hle1, hmc, hc1, hc2⟩ :=
      copy_spec (BigIntIdentity h m.rows).1 m m.rows rfl hsq.symm (by omega)
    rw [ec]
    simp only []
    obtain ⟨h2, p, ep, hp, hold2, _, hmp, hp1, hp2⟩ :=
      powLoop_spec m.rows (k.toNat + 1) h1 k (BigIntIdentity h m.rows).2 c hk (by omega)
        (hid.mono hold1 hle1) hcl h.next (by omega) hidrefs.1 hidrefs.2 (by omega) (by omega)
    rw [← hsq, ep]
    refine ⟨h2, p, rfl, hp, ?_, ?_, hp1, hp2⟩
    · intro a ha
      rw [hold2 a (by omega), hold1 a (by omega), hidold a ha]
    · rw [hmp, matOf_congr _ h1 _ _ (hold1 _ hid.ltRow), matOf_identity, one_mul, hmc]
      congr 1
      exact matOf_congr h _ m _ (hidold _ hlt)

end BigIntMatrix

/-! ## Claims on identity and Pow -/

namespace BigIntMatrix

theorem cell_eq_bind (o : Outer) (x y : Int) :
    cell o x y = (mapGet o x).bind (fun ys => mapGet ys y) := by
  unfold cell
  cases mapGet o x <;> rfl

theorem Equals_true_of_cells (h : Heap) (x y : BigIntMatrix) (hr : x.rows = y.rows)
    (hc : x.cols = y.cols)
    (hcells : ∀ i j, 0 ≤ i → i < x.rows → 0 ≤ j → j < x.cols →
      cell (h.obj x.rowValues) (i + x.rowStart) (j + x.colStart) =
        cell (h.obj y.rowValues) (i + y.rowStart) (j + y.colStart)) :
    Equals h (some x) (some y) false = true := by
  unfold Equals
  simp only [Bool.false_eq_true, if_false, hr, hc, ne_eq, not_true_eq_false, or_self]
  rw [List.all_eq_true]
  intro i hi
  have hi2 := mem_upto.1 hi
  split
  · rfl
  · rw [List.all_eq_true]
    intro j hj
    have hj2 := mem_upto.1 hj
    have := hcells i j hi2.1 (by omega) hj2.1 (by omega)
    rw [cell_eq_bind, cell_eq_bind] at this
    rw [this]
    cases (mapGet (h.obj y.rowValues) (i + y.rowStart)).bind
      (fun ys => mapGet ys (j + y.colStart)) with
    | none => rfl
    | some v => simp

theorem sum_indicator (N : Nat) (i : Int) (hi0 : 0 ≤ i) (hi1 : i < N) (f : Nat → Int)
    (hf : ∀ k, k < N → (k : Int) ≠ i → f k = 0) :
    ∑ k in Finset.range N, f k = f i.toNat := by
  apply Finset.sum_eq_single i.toNat
  · intro k hk hne
    apply hf k (Finset.mem_range.1 hk)
    omega
  · intro hnot
    exfalso
    apply hnot
    rw [Finset.mem_range]
    omega

theorem stored_getD_self (c : Option Int) (hc : c ≠ some 0) : stored (some (c.getD 0)) = c := by
  cases c with
  | none => exact stored_zero
  | some v =>
    have : v ≠ 0 := fun e => hc (by rw [e])
    exact stored_some this

theorem cell_ne_zero {h : Heap} {m : BigIntMatrix} (hz : NoStoredZero h m) (x y : Int) :
    cell (h.obj m.rowValues) x y ≠ some 0 := by
  intro hc
  obtain ⟨e, he, f, hf, _, _, h3⟩ := cell_mem hc
  exact hz e he f hf h3

theorem identity_refs (h : Heap) (n : Int) :
    (BigIntIdentity h n).2.rowValues = h.next ∧ (BigIntIdentity h n).2.colValues = h.next + 1 ∧
    (∀ a, a < h.next → (BigIntIdentity h n).1.obj a = h.obj a) := by
  rw [BigIntIdentity_eq]
  exact ⟨rfl, rfl, fun a ha => runOps_fresh_old h n n _ ha⟩

/-- C3: for a square view `A` of size `n` (any offsets) over a store with unique
keys, mirrored index maps and no stored zero, and an n×n destination over other
map objects, `dst.Mul(BigIntIdentity(n), A)` and `dst.Mul(A, BigIntIdentity(n))`
both succeed and leave `dst.Equals(A)` true. -/
theorem Mul_identity_neutral (h : Heap) (A dst : BigIntMatrix) (n : Int)
    (hA : A.rows = n ∧ A.cols = n) (hd : dst.rows = n ∧ dst.cols = n)
    (hliveA : Live h A) (hlived : Live h dst) (hsep : Separate dst A)
    (hwf : WF h A) (hm : Mirror h A) (hnz : NoStoredZero h A) :
    (∃ h2, dst.Mul (BigIntIdentity h n).1 (some (BigIntIdentity h n).2) (some A) false false =
        some h2 ∧ Equals h2 (some dst) (some A) false = true) ∧
    (∃ h2, dst.Mul (BigIntIdentity h n).1 (some A) (some (BigIntIdentity h n).2) false false =
        some h2 ∧ Equals h2 (some dst) (some A) false = true) := by
  have hI := identity_clean h n
  obtain ⟨hIr, hIc, hIold⟩ := identity_refs h n
  have hmp := mirrorP_of_mirror hm
  have hne := hlived.1
  have hd1 : (BigIntIdentity h n).2.rowValues ≠ dst.rowValues := by
    have := hlived.2.1; omega
  have hd2 : (BigIntIdentity h n).2.rowValues ≠ dst.colValues := by
    have := hlived.2.2; omega
  have hd3 : (BigIntIdentity h n).2.colValues ≠ dst.rowValues := by
    have := hlived.2.1; omega
  have hd4 : (BigIntIdentity h n).2.colValues ≠ dst.colValues := by
    have := hlived.2.2; omega
  have hAr : (BigIntIdentity h n).1.obj A.rowValues = h.obj A.rowValues := hIold _ hliveA.2.1
  have hAc : (BigIntIdentity h n).1.obj A.colValues = h.obj A.colValues := hIold _ hliveA.2.2
  have hIcell : ∀ x y, cell ((BigIntIdentity h n).1.obj (BigIntIdentity h n).2.rowValues) x y =
      if x = y ∧ 0 ≤ x ∧ x < n then some 1 else none := BigIntIdentity_cell h n
  constructor
  · have hrows : dst.rows = (BigIntIdentity h n).2.rows := hd.1.trans hI.rows.symm
    have hcols : dst.cols = A.cols := hd.2.trans hA.2.symm
    rw [Mul_eq_mul _ dst _ A (hI.cols.trans hA.1.symm) hrows hcols,
      mul_eq _ dst _ A hrows hcols hd1 hd2 (Ne.symm hsep.2.1) (Ne.symm hsep.2.2.2)]
    refine ⟨_, rfl, Equals_true_of_cells _ dst A (hd.1.trans hA.1.symm) hcols ?_⟩
    intro i j hi0 hi1 hj0 hj1
    rw [mul_cell _ dst _ A hne hrows hcols hI.wfRow (by rw [hAc]; exact hwf.2)
      (fun e he _ _ f hf => by
        left
        have := hI.mem_inside e he f hf
        rw [hI.colStart, hI.cols]
        omega)
      hi0 (by rw [hI.rows]; omega) hj0 (by omega),
      runOps_frame _ _ _ (Ne.symm hsep.1) (Ne.symm hsep.2.2.1), hAr, hAc, hI.cols,
      sum_indicator n.toNat i hi0 (by omega)
        (fun k => (cell ((BigIntIdentity h n).1.obj (BigIntIdentity h n).2.rowValues)
            (i + (BigIntIdentity h n).2.rowStart)
            ((k : Int) + (BigIntIdentity h n).2.colStart)).getD 0 *
          (cell (h.obj A.colValues) (j + A.colStart) ((k : Int) + A.rowStart)).getD 0)
        (fun k _ hk => by
          beta_reduce
          rw [hIcell, hI.rowStart, hI.colStart, if_neg (fun e => hk (by omega))]
          simp)]
    rw [hIcell, hI.rowStart, hI.colStart, if_pos ⟨by omega, by omega, by omega⟩,
      show ((i.toNat : Nat) : Int) = i by omega, ← hmp]
    simp only [Option.getD_some, one_mul]
    exact stored_getD_self _ (cell_ne_zero hnz _ _)
  · have hrows : dst.rows = A.rows := hd.1.trans hA.1.symm
    have hcols : dst.cols = (BigIntIdentity h n).2.cols := hd.2.trans hI.cols.symm
    rw [Mul_eq_mul _ dst A _ (hA.2.trans hI.rows.symm) hrows hcols,
      mul_eq _ dst A _ hrows hcols (Ne.symm hsep.1) (Ne.symm hsep.2.2.1) hd3 hd4]
    refine ⟨_, rfl, Equals_true_of_cells _ dst A hrows (hd.2.trans hA.2.symm) ?_⟩
    intro i j hi0 hi1 hj0 hj1
    have hIcol : ∀ x y, cell ((BigIntIdentity h n).1.obj (BigIntIdentity h n).2.colValues) y x =
        if x = y ∧ 0 ≤ x ∧ x < n then some 1 else none := by
      intro x y
      rw [← hI.mirror, hIcell]
    rw [mul_cell _ dst A _ hne hrows hcols (by rw [hAr]; exact hwf.1) hI.wfCol
      (fun e _ _ _ f _ => by
        by_cases hin : A.colStart ≤ f.1 ∧ f.1 < A.colStart + A.cols
        · exact Or.inl hin
        · right
          intro g hg _ _
          cases hmg : mapGet g.2 (f.1 - A.colStart + (BigIntIdentity h n).2.rowStart) with
          | none => rfl
          | some v =>
            exfalso
            have hcg : cell ((BigIntIdentity h n).1.obj (BigIntIdentity h n).2.colValues) g.1
                (f.1 - A.colStart + (BigIntIdentity h n).2.rowStart) = some v := by
              unfold cell
              rw [mapGet_of_mem hI.wfCol.1 hg]
              exact hmg
            rw [hIcol, hI.rowStart] at hcg
            split at hcg
            · rename_i hc
              apply hin
              rw [hA.2]
              omega
            · simp at hcg)
      hi0 (by omega) hj0 (by rw [hI.cols]; omega),
      runOps_frame _ _ _ (Ne.symm hsep.1) (Ne.symm hsep.2.2.1), hAr, hA.2,
      sum_indicator n.toNat j hj0 (by omega)
        (fun k => (cell (h.obj A.rowValues) (i + A.rowStart) ((k : Int) + A.colStart)).getD 0 *
          (cell ((BigIntIdentity h n).1.obj (BigIntIdentity h n).2.colValues)
            (j + (BigIntIdentity h n).2.colStart)
            ((k : Int) + (BigIntIdentity h n).2.rowStart)).getD 0)
        (fun k _ hk => by
          beta_reduce
          rw [hIcol, hI.rowStart, hI.colStart, if_neg (fun e => hk (by omega))]
          simp)]
    rw [hIcol, hI.rowStart, hI.colStart, if_pos ⟨by omega, by omega, by omega⟩,
      show ((j.toNat : Nat) : Int) = j by omega]
    simp only [Option.getD_some, mul_one]
    exact stored_getD_self _ (cell_ne_zero hnz _ _)

theorem Pow_none_iff (h : Heap) (m : BigIntMatrix) (k : Int) (hlt : m.rowValues < h.next) :
    Pow h m k = none ↔ m.rows ≠ m.cols ∨ k < 0 := by
  constructor
  · intro hn
    by_contra hcon
    have hsq : m.rows = m.cols := by
      by_contra hne
      exact hcon (Or.inl hne)
    have hk : 0 ≤ k := by
      by_contra hneg
      exact hcon (Or.inr (by omega))
    obtain ⟨h2, p, e, _⟩ := Pow_spec h m k hlt hsq hk
    rw [e] at hn
    exact absurd hn (by simp)
  · intro hor
    unfold Pow
    rcases hor with hne | hneg
    · rw [if_pos hne]
    · by_cases hne : m.rows ≠ m.cols
      · rw [if_pos hne]
      · rw [if_neg hne, if_pos hneg]

/-- C5: for a view `m` whose row map is allocated, `Pow(k)` fails exactly when
`m` is not square or `k < 0`; otherwise it returns an n×n matrix whose cell
`(i,j)` is the `(i,j)` entry of the `k`-th power of the matrix of `m`'s cells
(the power of the matrix monoid: `M^0 = 1`, `M^(k+1) = M^k * M`). -/
theorem Pow_computes_power (h : Heap) (m : BigIntMatrix) (k : Int)
    (hlt : m.rowValues < h.next) :
    (Pow h m k = none ↔ m.rows ≠ m.cols ∨ k < 0) ∧
    (m.rows = m.cols → 0 ≤ k →
      ∃ h2 p, Pow h m k = some (h2, p) ∧ p.Dims = (m.rows, m.rows) ∧
        ∀ i j : Fin m.rows.toNat,
          p.At h2 ((i : Nat) : Int) ((j : Nat) : Int) =
            some ((matOf h m m.rows.toNat ^ k.toNat) i j)) := by
  refine ⟨Pow_none_iff h m k hlt, ?_⟩
  intro hsq hk
  obtain ⟨h2, p, e, hp, _, hmat, _, _⟩ := Pow_spec h m k hlt hsq hk
  refine ⟨h2, p, e, ?_, ?_⟩
  · unfold Dims
    rw [hp.rows, hp.cols]
  · intro i j
    have hi := i.2
    have hj := j.2
    rw [← hmat]
    unfold matOf
    rw [At_eq h2 p (Int.ofNat_nonneg _) (by rw [hp.rows]; omega) (Int.ofNat_nonneg _)
      (by rw [hp.cols]; omega)]
    rfl

/-- C6: `Pow` leaves its input alone: for a square view `m` over allocated maps
and `k ≥ 0`, the call returns, both map objects of `m` (hence every cell of its
store and every `m.At(i,j)`) are what they were before, the returned matrix
refers to map objects other than `m`'s, and a later `Set` on the result still
leaves `m`'s maps and cells unchanged. -/
theorem Pow_preserves_input (h : Heap) (m : BigIntMatrix) (k : Int)
    (hrow : m.rowValues < h.next) (hcol : m.colValues < h.next)
    (hsq : m.rows = m.cols) (hk : 0 ≤ k) :
    ∃ h2 p, Pow h m k = some (h2, p) ∧
      h2.obj m.rowValues = h.obj m.rowValues ∧ h2.obj m.colValues = h.obj m.colValues ∧
      (∀ i j, m.At h2 i j = m.At h i j) ∧
      Separate p m ∧
      (∀ i j v h3, p.Set h2 i j v = some h3 →
        h3.obj m.rowValues = h.obj m.rowValues ∧ h3.obj m.colValues = h.obj m.colValues ∧
        ∀ i1 j1, m.At h3 i1 j1 = m.At h i1 j1) := by
  obtain ⟨h2, p, e, _, hold, _, hp1, hp2⟩ := Pow_spec h m k hrow hsq hk
  have hsep : Separate p m := by
    unfold Separate
    refine ⟨?_, ?_, ?_, ?_⟩ <;> omega
  refine ⟨h2, p, e, hold _ hrow, hold _ hcol,
    fun i j => At_congr_obj h h2 m i j (hold _ hrow), hsep, ?_⟩
  intro i j v h3 hset
  have h3eq : h3 = p.set h2 (i + p.rowStart) (j + p.colStart) v := by
    unfold Set at hset
    split at hset
    · exact absurd hset (by simp)
    · split at hset
      · exact absurd hset (by simp)
      · exact (Option.some.inj hset).symm
  have e1 : h3.obj m.rowValues = h.obj m.rowValues := by
    rw [h3eq, set_frame _ _ _ _ _ (Ne.symm hsep.1) (Ne.symm hsep.2.2.1), hold _ hrow]
  have e2 : h3.obj m.colValues = h.obj m.colValues := by
    rw [h3eq, set_frame _ _ _ _ _ (Ne.symm hsep.2.1) (Ne.symm hsep.2.2.2), hold _ hcol]
  exact ⟨e1, e2, fun i1 j1 => At_congr_obj h h3 m i1 j1 e1⟩

end BigIntMatrix

/-! ## Concrete inputs: failing inputs and witnesses -/

namespace BigIntMatrix

/-- C2 (failing input): `a` is the 1×1 slice at (0,0) of the 1×2 root `[1,1]`
and `b` the 1×1 slice at (0,0) of the 2×1 root `[1,1]`.  `Mul(a, b)` writes 2,
the product of the logical contents written by `Mul(Copy(a), Copy(b))` is 1,
and the two destinations are not `Equal`. -/
theorem Mul_reads_cells_outside_operand_views :
    (do
      let (h1, P) ← NewBigIntMat Heap.empty 1 2 [some 1, some 1]
      let (h2, Q) ← NewBigIntMat h1 2 1 [some 1, some 1]
      let (h3, d1) ← NewBigIntMat h2 1 1 []
      let (h4, d2) ← NewBigIntMat h3 1 1 []
      let a ← P.Slice 0 0 1 1
      let b ← Q.Slice 0 0 1 1
      let h5 ← d1.Mul h4 (some a) (some b) false false
      let (h6, ca) ← BigIntCopy h5 a
      let (h7, cb) ← BigIntCopy h6 b
      let h8 ← d2.Mul h7 (some ca) (some cb) false false
      pure (d1.At h8 0 0, d2.At h8 0 0, Equals h8 (some d1) (some d2) false)) =
    some (some 2, some 1, false) := by
  decide

/-- C8 (failing input): `m` is the slice `(3,3,2,2)` of a 5×5 root, a 2×2 view
with offsets (3,3).  The rectangle `(0,0,1,1)` fits inside `m`'s shape, yet
`m.Slice(0,0,1,1)` panics. -/
theorem Slice_rejects_rectangle_inside_offset_view :
    (NewBigIntMat Heap.empty 5 5 []).bind (fun r => r.2.Slice 3 3 2 2) =
      some ⟨0, 1, 2, 3, 2, 3⟩ ∧
    (0 : Int) < 1 ∧ (0 : Int) + 1 ≤ (⟨0, 1, 2, 3, 2, 3⟩ : BigIntMatrix).rows ∧
    (0 : Int) + 1 ≤ (⟨0, 1, 2, 3, 2, 3⟩ : BigIntMatrix).cols ∧
    (⟨0, 1, 2, 3, 2, 3⟩ : BigIntMatrix).Slice 0 0 1 1 = none := by
  decide

/-- C1 witness: the product of `[[1,2],[3,4]]` and `[[0,1],[1,0]]` written into a destination that held nines. -/
theorem Mul_computes_product_witness :
    ∃ h1, demoD.2.Mul demoD.1 (some demoA.2) (some demoB.2) false false = some h1 ∧
      demoD.2.At h1 0 0 = some 2 ∧ demoD.2.At h1 1 1 = some 3 := by
  obtain ⟨h1, e, hc⟩ := Mul_computes_product demoD.1 demoD.2 demoA.2 demoB.2
    (by decide) (by decide) (by decide) (by decide) (by decide) (by decide) (by decide)
    (by decide) (by decide) (by decide)
  refine ⟨h1, e, ?_, ?_⟩
  · rw [(hc 0 0 (by decide) (by decide) (by decide) (by decide)).1]
    decide
  · rw [(hc 1 1 (by decide) (by decide) (by decide) (by decide)).1]
    decide

/-- C3 witness: multiplying `[[1,2],[3,4]]` by the identity of size 2 on either side. -/
theorem Mul_identity_neutral_witness :
    (∃ h2, demoD.2.Mul (BigIntIdentity demoD.1 2).1 (some (BigIntIdentity demoD.1 2).2)
        (some demoA.2) false false = some h2 ∧
      Equals h2 (some demoD.2) (some demoA.2) false = true) ∧
    (∃ h2, demoD.2.Mul (BigIntIdentity demoD.1 2).1 (some demoA.2)
        (some (BigIntIdentity demoD.1 2).2) false false = some h2 ∧
      Equals h2 (some demoD.2) (some demoA.2) false = true) :=
  Mul_identity_neutral demoD.1 demoA.2 demoD.2 2 (by decide) (by decide) (by decide)
    (by decide) (by decide) (by decide) (by decide) (by decide)

/-- C4 witness: the sum of `[[1,2],[3,4]]` and `[[0,1],[1,0]]` written into a destination that held nines. -/
theorem Add_computes_sum_witness :
    ∃ h1, demoD.2.Add demoD.1 (some demoA.2) (some demoB.2) false false = some h1 ∧
      demoD.2.At h1 0 0 = some 1 ∧ demoD.2.At h1 0 1 = some 3 ∧
      demoA.2.At h1 1 1 = some 4 := by
  obtain ⟨h1, e, hc, _, hab⟩ := Add_computes_sum demoD.1 demoD.2 demoA.2 demoB.2
    (by decide) (by decide) (by decide) (by decide) (by decide) (by decide) (by decide)
  refine ⟨h1, e, ?_, ?_, ?_⟩
  · rw [(hc 0 0 (by decide) (by decide) (by decide) (by decide)).1]
    decide
  · rw [(hc 0 1 (by decide) (by decide) (by decide) (by decide)).1]
    decide
  · rw [(hab 1 1).1]
    decide

/-- C5 witness: powers 0, 2 and 3 of `[[1,2],[3,4]]`, and the panic on exponent -1. -/
theorem Pow_computes_power_witness :
    (∃ h2 p, Pow demoA.1 demoA.2 2 = some (h2, p) ∧ p.Dims = (2, 2)) ∧
    (Pow demoA.1 demoA.2 0).map (fun r => toRows r.1 r.2) =
      some [[some 1, some 0], [some 0, some 1]] ∧
    (Pow demoA.1 demoA.2 2).map (fun r => toRows r.1 r.2) =
      some [[some 7, some 10], [some 15, some 22]] ∧
    (Pow demoA.1 demoA.2 3).map (fun r => toRows r.1 r.2) =
      some [[some 37, some 54], [some 81, some 118]] ∧
    (Pow demoA.1 demoA.2 (-1)).isNone = true := by
  obtain ⟨h2, p, e, hd, _⟩ :=
    (Pow_computes_power demoA.1 demoA.2 2 (by decide)).2 (by decide) (by decide)
  exact ⟨⟨h2, p, e, hd⟩, by decide, by decide, by decide, by decide⟩

/-- C6 witness: the third power of `[[1,2],[3,4]]` leaves both maps of the input as they were. -/
theorem Pow_preserves_input_witness :
    ∃ h2 p, Pow demoA.1 demoA.2 3 = some (h2, p) ∧
      h2.obj demoA.2.rowValues = demoA.1.obj demoA.2.rowValues ∧
      h2.obj demoA.2.colValues = demoA.1.obj demoA.2.colValues ∧ Separate p demoA.2 := by
  obtain ⟨h2, p, e, h1, h3, _, h4, _⟩ :=
    Pow_preserves_input demoA.1 demoA.2 3 (by decide) (by decide) (by decide) (by decide)
  exact ⟨h2, p, e, h1, h3, h4⟩

/-- C7 witness: the slice `(1,1,3,3)` of the identity of size 5. -/
theorem Slice_connected_witness :
    (⟨0, 1, 3, 1, 3, 1⟩ : BigIntMatrix).Dims = (3, 3) ∧
    (⟨0, 1, 3, 1, 3, 1⟩ : BigIntMatrix).At (BigIntIdentity Heap.empty 5).1 2 2 =
      (BigIntIdentity Heap.empty 5).2.At (BigIntIdentity Heap.empty 5).1 (1 + 2) (1 + 2) ∧
    ∃ h1, (⟨0, 1, 3, 1, 3, 1⟩ : BigIntMatrix).Set (BigIntIdentity Heap.empty 5).1 0 2 (some 7) =
        some h1 ∧
      (BigIntIdentity Heap.empty 5).2.At h1 (1 + 0) (1 + 2) = some 7 := by
  have key := Slice_connected (BigIntIdentity Heap.empty 5).1 (BigIntIdentity Heap.empty 5).2
    ⟨0, 1, 3, 1, 3, 1⟩ 1 1 3 3 (by decide) (by decide)
  exact ⟨key.1, (key.2.1 2 2 (by decide) (by decide) (by decide) (by decide)).1,
    key.2.2.1 0 2 (some 7) (by decide) (by decide) (by decide) (by decide)⟩

/-- C9 witness: the transpose of `[[1,2],[3,4]]`. -/
theorem T_transposes_witness :
    demoA.2.T.Dims = (2, 2) ∧ demoA.2.T.At demoA.1 1 0 = demoA.2.At demoA.1 0 1 ∧
    ∃ h1, demoA.2.T.Set demoA.1 1 0 (some 5) = some h1 ∧ demoA.2.At h1 0 1 = some 5 := by
  have key := T_transposes demoA.1 demoA.2 (by decide) (by decide)
  exact ⟨key.1, (key.2.1 0 1 (by decide) (by decide) (by decide) (by decide)).1,
    key.2.2 0 1 (some 5) (by decide) (by decide) (by decide) (by decide)⟩

end BigIntMatrix

/-! ## Sequences of writes and the store invariant -/

namespace BigIntMatrix

theorem Writes.refl (m : BigIntMatrix) (h : Heap) : Writes m h h := ⟨[], rfl⟩

theorem Writes.trans {m : BigIntMatrix} {h h1 h2 : Heap} (w1 : Writes m h h1)
    (w2 : Writes m h1 h2) : Writes m h h2 := by
  obtain ⟨o1, rfl⟩ := w1
  obtain ⟨o2, rfl⟩ := w2
  exact ⟨o1 ++ o2, (runOps_append m h o1 o2).symm⟩

theorem Writes.one (m : BigIntMatrix) (h : Heap) (r c : Int) (v : Option Int) :
    Writes m h (m.set h r c v) := ⟨[⟨r, c, fun _ => v⟩], rfl⟩

theorem Writes.foldl {α : Type} (m : BigIntMatrix) (f : Heap → α → Heap) (l : List α)
    (hf : ∀ s x, Writes m s (f s x)) (h : Heap) : Writes m h (l.foldl f h) := by
  induction l generalizing h with
  | nil => exact Writes.refl m h
  | cons x rest ih => exact (hf h x).trans (ih (f h x))

theorem Writes.foldOpt {α : Type} (m : BigIntMatrix) (f : Heap → α → Option Heap) (l : List α)
    (hf : ∀ s x s1, f s x = some s1 → Writes m s s1) (h h1 : Heap)
    (he : BigIntMatrix.foldOpt f l h = some h1) : Writes m h h1 := by
  induction l generalizing h with
  | nil =>
    have : h = h1 := Option.some.inj he
    rw [this]; exact Writes.refl m h1
  | cons x rest ih =>
    unfold BigIntMatrix.foldOpt at he
    cases hx : f h x with
    | none => rw [hx] at he; exact absurd he (by simp)
    | some s1 =>
      rw [hx] at he
      exact (hf h x s1 hx).trans (ih s1 he)

theorem Set_writes {m : BigIntMatrix} {h h1 : Heap} {i j : Int} {v : Option Int}
    (he : m.Set h i j v = some h1) : Writes m h h1 := by
  unfold Set at he
  split at he
  · exact absurd he (by simp)
  · split at he
    · exact absurd he (by simp)
    · rw [← Option.some.inj he]; exact Writes.one m h _ _ v

theorem zeroize_writes (m : BigIntMatrix) (h : Heap) (r c rows col : Int) :
    Writes m h (m.zeroize h r c rows col) := ⟨_, zeroize_eq h m r c rows col⟩

theorem ZeroizeRange_writes {m : BigIntMatrix} {h h1 : Heap} {i j rows cols : Int}
    (he : m.ZeroizeRange h i j rows cols = some h1) : Writes m h h1 := by
  unfold ZeroizeRange at he
  split at he
  · exact absurd he (by simp)
  · split at he
    · exact absurd he (by simp)
    · rw [← Option.some.inj he]; exact zeroize_writes m h _ _ _ _

theorem setMatrix_writes (m a : BigIntMatrix) (h : Heap) (rO cO : Int) :
    Writes m h (m.setMatrix h a rO cO) := by
  unfold setMatrix
  apply (zeroize_writes m h rO cO a.rows a.cols).trans
  apply Writes.foldl
  intro s e
  apply Writes.foldl
  intro s2 f
  exact Writes.one m s2 _ _ _

theorem SetMatrix_writes {m a : BigIntMatrix} {h h1 : Heap} {i j : Int}
    (he : m.SetMatrix h a i j = some h1) : Writes m h h1 := by
  unfold SetMatrix at he
  split at he
  · exact absurd he (by simp)
  · split at he
    · exact absurd he (by simp)
    · rw [← Option.some.inj he]; exact setMatrix_writes m a h _ _

theorem SetRow_writes {m : BigIntMatrix} {h h1 : Heap} {i : Int} {vec : BigIntVector}
    (he : m.SetRow h i vec = some h1) : Writes m h h1 := by
  unfold SetRow at he
  split at he
  · exact absurd he (by simp)
  · split at he
    · exact absurd he (by simp)
    · rw [← Option.some.inj he]
      exact Writes.trans
        (Writes.foldl m (fun s (f : Int × Int) => m.set s (i + m.rowStart) f.1 none) _
          (fun s f => Writes.one m s _ _ _) h)
        (Writes.foldl m (fun s (f : Int × Int) =>
          m.set s (i + m.rowStart) (f.1 + m.colStart) (some f.2)) _
          (fun s f => Writes.one m s _ _ _) _)

theorem SetColumn_writes {m : BigIntMatrix} {h h1 : Heap} {j : Int}
    {vec : TransposedBigIntVector} (he : m.SetColumn h j vec = some h1) : Writes m h h1 := by
  unfold SetColumn at he
  split at he
  · exact absurd he (by simp)
  · split at he
    · exact absurd he (by simp)
    · rw [← Option.some.inj he]
      exact Writes.trans
        (Writes.foldl m (fun s (f : Int × Int) => m.set s f.1 (j + m.colStart) none) _
          (fun s f => Writes.one m s _ _ _) h)
        (Writes.foldl m (fun s (f : Int × Int) =>
          m.set s (f.1 + m.rowStart) (j + m.colStart) (some f.2)) _
          (fun s f => Writes.one m s _ _ _) _)

theorem add_writes (m a b : BigIntMatrix) (h : Heap) : Writes m h (m.add h a b) := by
  unfold add
  apply (setMatrix_writes m a h m.rowStart m.colStart).trans
  apply Writes.foldl
  intro s e
  apply Writes.foldl
  intro s2 f
  simp only []
  split
  · exact Writes.one m s2 _ _ _
  · exact Writes.one m s2 _ _ _

theorem Add_writes {m : BigIntMatrix} {a b : Option BigIntMatrix} {h h1 : Heap}
    {sa sb : Bool} (he : m.Add h a b sa sb = some h1) : Writes m h h1 := by
  unfold Add at he
  split at he
  · split at he
    · exact absurd he (by simp)
    · split at he
      · exact absurd he (by simp)
      · split at he
        · exact absurd he (by simp)
        · rw [← Option.some.inj he]; exact add_writes m _ _ h
  · exact absurd he (by simp)

theorem mul_writes {m a b : BigIntMatrix} {h h1 : Heap} (he : m.mul h a b = some h1) :
    Writes m h h1 := by
  unfold mul at he
  apply (zeroize_writes m h m.rowStart m.colStart m.rows m.cols).trans
  refine Writes.foldOpt m _ _ ?_ _ _ he
  intro s e s1 hs
  split at hs
  · rw [← Option.some.inj hs]; exact Writes.refl m s
  · refine Writes.foldOpt m _ _ ?_ _ _ hs
    intro s2 f s3 hs2
    split at hs2
    · rw [← Option.some.inj hs2]; exact Writes.refl m s2
    · exact Set_writes hs2

theorem Mul_writes {m : BigIntMatrix} {a b : Option BigIntMatrix} {h h1 : Heap}
    {sa sb : Bool} (he : m.Mul h a b sa sb = some h1) : Writes m h h1 := by
  unfold Mul at he
  split at he
  · split at he
    · exact absurd he (by simp)
    · split at he
      · exact absurd he (by simp)
      · split at he
        · exact absurd he (by simp)
        · exact mul_writes he
  · exact absurd he (by simp)

theorem NewBigIntMat_writes {h h1 : Heap} {rows cols : Int} {values : List (Option Int)}
    {m : BigIntMatrix} (he : NewBigIntMat h rows cols values = some (h1, m)) :
    m = (fresh h rows cols).2 ∧ Writes m (fresh h rows cols).1 h1 := by
  unfold NewBigIntMat at he
  split at he
  · exact absurd he (by simp)
  · simp only [] at he
    split at he
    · obtain ⟨e2, e1⟩ := Prod.mk.inj (Option.some.inj he)
      subst e2
      subst e1
      refine ⟨rfl, ?_⟩
      apply Writes.foldl
      intro s i
      apply Writes.foldl
      intro s2 j
      split
      · exact Writes.refl _ s2
      · exact Writes.one _ s2 _ _ _
    · have e : ((fresh h rows cols).1, (fresh h rows cols).2) = (h1, m) := Option.some.inj he
      obtain ⟨e2, e1⟩ := Prod.mk.inj e
      subst e2
      subst e1
      exact ⟨rfl, Writes.refl _ _⟩

theorem BigIntIdentity_writes (h : Heap) (n : Int) :
    (BigIntIdentity h n).2 = (fresh h n n).2 ∧
      Writes (fresh h n n).2 (fresh h n n).1 (BigIntIdentity h n).1 := by
  rw [BigIntIdentity_eq]
  exact ⟨rfl, _, rfl⟩

theorem BigIntCopy_writes {h h1 : Heap} {m c : BigIntMatrix}
    (he : BigIntCopy h m = some (h1, c)) :
    c = (fresh h m.rows m.cols).2 ∧ Writes c (fresh h m.rows m.cols).1 h1 := by
  unfold BigIntCopy at he
  simp only [] at he
  split at he
  · exact absurd he (by simp)
  · rename_i s hs
    obtain ⟨e2, e1⟩ := Prod.mk.inj (Option.some.inj he)
    subst e2
    subst e1
    refine ⟨rfl, ?_⟩
    refine Writes.foldOpt _ _ _ ?_ _ _ hs
    intro s1 i s2 hs1
    refine Writes.foldOpt _ _ _ ?_ _ _ hs1
    intro s3 j s4 hs3
    split at hs3
    · exact absurd hs3 (by simp)
    · rw [← Option.some.inj hs3]; exact Writes.one _ s3 _ _ _

theorem stored_ne_zero (v : Option Int) : stored v ≠ some 0 := by
  unfold stored
  split
  · simp
  · rename_i hz
    cases v with
    | none => simp
    | some w =>
      intro e
      apply hz
      have : w = 0 := Option.some.inj e
      simp [isNilOrZero, this]

theorem Writes.next {m : BigIntMatrix} {h h1 : Heap} (w : Writes m h h1) : h1.next = h.next := by
  obtain ⟨ops, rfl⟩ := w
  exact runOps_next m h ops

theorem Writes.frame {m : BigIntMatrix} {h h1 : Heap} (w : Writes m h h1) {a : Nat}
    (ha1 : a ≠ m.rowValues) (ha2 : a ≠ m.colValues) : h1.obj a = h.obj a := by
  obtain ⟨ops, rfl⟩ := w
  exact runOps_frame m h ops ha1 ha2

theorem runOps_nozero (m : BigIntMatrix) (h : Heap) (ops : List Op)
    (hne : m.rowValues ≠ m.colValues) (hz : ∀ x y, cell (h.obj m.rowValues) x y ≠ some 0) :
    ∀ x y, cell ((runOps m h ops).obj m.rowValues) x y ≠ some 0 := by
  induction ops generalizing h with
  | nil => exact hz
  | cons op rest ih =>
    show ∀ x y, cell ((runOps m (applyOp m h op) rest).obj m.rowValues) x y ≠ some 0
    apply ih
    intro x y
    unfold applyOp
    rw [set_row _ _ _ _ _ hne]
    split
    · exact stored_ne_zero _
    · exact hz x y

theorem StoreOK.symm {h : Heap} {r c : Nat} (hs : StoreOK h r c) : StoreOK h c r :=
  ⟨fun x y => (hs.1 y x).symm, fun x y => by rw [← hs.1 y x]; exact hs.2.1 y x,
    hs.2.2.2, hs.2.2.1⟩

theorem StoreOK.congr {h h1 : Heap} {r c : Nat} (hs : StoreOK h r c)
    (er : h1.obj r = h.obj r) (ec : h1.obj c = h.obj c) : StoreOK h1 r c := by
  unfold StoreOK
  rw [er, ec]
  exact hs

theorem Writes.keepsStore {m : BigIntMatrix} {h h1 : Heap} (w : Writes m h h1)
    (hne : m.rowValues ≠ m.colValues) (hs : StoreOK h m.rowValues m.colValues) :
    StoreOK h1 m.rowValues m.colValues := by
  obtain ⟨ops, rfl⟩ := w
  exact ⟨runOps_mirror m h ops hne hs.1, runOps_nozero m h ops hne hs.2.1,
    runOps_wf m h ops hs.2.2.1 hs.2.2.1 hs.2.2.2, runOps_wf m h ops hs.2.2.2 hs.2.2.1 hs.2.2.2⟩

theorem StateOK.mutate {h h1 : Heap} {vs : List BigIntMatrix} {m : BigIntMatrix}
    (hj : StateOK h vs) (hm : m ∈ vs) (w : Writes m h h1) : StateOK h1 vs := by
  obtain ⟨⟨n, hn⟩, hviews, hstores⟩ := hj
  have hnext := w.next
  refine ⟨⟨n, by omega⟩, ?_, ?_⟩
  · intro m1 hm1
    obtain ⟨k, hk, hor⟩ := hviews m1 hm1
    exact ⟨k, by omega, hor⟩
  · intro k hk
    obtain ⟨k0, hk0, hor⟩ := hviews m hm
    by_cases hkk : k = k0
    · subst hkk
      rcases hor with ⟨e1, e2⟩ | ⟨e1, e2⟩
      · have := w.keepsStore (by omega) (by rw [e1, e2]; exact hstores k (by omega))
        rw [e1, e2] at this
        exact this
      · have := w.keepsStore (by omega) (by rw [e1, e2]; exact (hstores k (by omega)).symm)
        rw [e1, e2] at this
        exact this.symm
    · apply (hstores k (by omega)).congr
      · apply w.frame <;> omega
      · apply w.frame <;> omega

theorem StateOK.alloc {h h1 : Heap} {vs : List BigIntMatrix} (rows cols : Int)
    (hj : StateOK h vs) (w : Writes (fresh h rows cols).2 (fresh h rows cols).1 h1) :
    StateOK h1 ((fresh h rows cols).2 :: vs) := by
  obtain ⟨⟨n, hn⟩, hviews, hstores⟩ := hj
  have hnext : h1.next = h.next + 2 := by rw [w.next]; rfl
  have hr : (fresh h rows cols).2.rowValues = h.next := rfl
  have hc : (fresh h rows cols).2.colValues = h.next + 1 := rfl
  refine ⟨⟨n + 1, by omega⟩, ?_, ?_⟩
  · intro m1 hm1
    rcases List.mem_cons.1 hm1 with e | hm2
    · subst e
      exact ⟨n, by omega, Or.inl ⟨by omega, by omega⟩⟩
    · obtain ⟨k, hk, hor⟩ := hviews m1 hm2
      exact ⟨k, by omega, hor⟩
  · intro k hk
    by_cases hkn : k = n
    · subst hkn
      have h0 : StoreOK (fresh h rows cols).1 (fresh h rows cols).2.rowValues
          (fresh h rows cols).2.colValues := by
        unfold StoreOK
        rw [fresh_row, fresh_col]
        exact ⟨fun _ _ => rfl, fun _ _ => by simp [cell, mapGet], wfOuter_nil, wfOuter_nil⟩
      have := w.keepsStore (fresh_ne h rows cols) h0
      rw [hr, hc, hn] at this
      exact this
    · have hk2 : 2 * k + 1 < h.next := by omega
      apply (hstores k hk2).congr
      · rw [w.frame (by omega) (by omega), fresh_old h rows cols (by omega)]
      · rw [w.frame (by omega) (by omega), fresh_old h rows cols (by omega)]

theorem StateOK.view {h : Heap} {vs : List BigIntMatrix} {m s : BigIntMatrix}
    (hj : StateOK h vs) (hm : m ∈ vs)
    (hs : (s.rowValues = m.rowValues ∧ s.colValues = m.colValues) ∨
      (s.rowValues = m.colValues ∧ s.colValues = m.rowValues)) : StateOK h (s :: vs) := by
  obtain ⟨hn, hviews, hstores⟩ := hj
  refine ⟨hn, ?_, hstores⟩
  intro m1 hm1
  rcases List.mem_cons.1 hm1 with e | hm2
  · subst e
    obtain ⟨k, hk, hor⟩ := hviews m hm
    refine ⟨k, hk, ?_⟩
    rcases hs with ⟨e1, e2⟩ | ⟨e1, e2⟩ <;> rcases hor with ⟨e3, e4⟩ | ⟨e3, e4⟩
    · exact Or.inl ⟨e1.trans e3, e2.trans e4⟩
    · exact Or.inr ⟨e1.trans e3, e2.trans e4⟩
    · exact Or.inr ⟨e1.trans e4, e2.trans e3⟩
    · exact Or.inl ⟨e1.trans e4, e2.trans e3⟩
  · exact hviews m1 hm2

theorem StateOK.storeOK {h : Heap} {vs : List BigIntMatrix} (hj : StateOK h vs)
    {m : BigIntMatrix} (hm : m ∈ vs) : StoreOK h m.rowValues m.colValues := by
  obtain ⟨k, hk, hor⟩ := hj.2.1 m hm
  rcases hor with ⟨e1, e2⟩ | ⟨e1, e2⟩
  · rw [e1, e2]; exact hj.2.2 k hk
  · rw [e1, e2]; exact (hj.2.2 k hk).symm

theorem StoreOK.mirror {h : Heap} {m : BigIntMatrix}
    (hs : StoreOK h m.rowValues m.colValues) : Mirror h m := by
  constructor
  · intro e he f hf
    rw [← hs.1]
    exact cell_of_mem hs.2.2.1 he hf
  · intro e he f hf
    rw [hs.1]
    exact cell_of_mem hs.2.2.2 he hf

theorem StoreOK.noStoredZero {h : Heap} {m : BigIntMatrix}
    (hs : StoreOK h m.rowValues m.colValues) : NoStoredZero h m := by
  intro e he f hf hz
  have := cell_of_mem hs.2.2.1 he hf
  rw [hz] at this
  exact hs.2.1 _ _ this

end BigIntMatrix

/-! ## The dual-index invariant at the level of element objects -/

namespace Ptr

theorem allVals_putCell {P : Int → Prop} {o : Outer} (x y v : Int) (ho : AllVals P o)
    (hv : P v) : AllVals P (putCell o x y v) := by
  intro e he f hf
  unfold putCell at he
  split at he
  · rcases mem_mapPut.1 he with e1 | ⟨e1, _⟩
    · subst e1
      have : f = (y, v) := by simpa using hf
      rw [this]; exact hv
    · exact ho e e1 f hf
  · rename_i ys hys
    rcases mem_mapPut.1 he with e1 | ⟨e1, _⟩
    · subst e1
      rcases mem_mapPut.1 hf with f1 | ⟨f1, _⟩
      · rw [f1]; exact hv
      · exact ho (x, ys) (mapGet_mem hys) f f1
    · exact ho e e1 f hf

theorem allVals_delCell {P : Int → Prop} {o : Outer} (x y : Int) (ho : AllVals P o) :
    AllVals P (delCell o x y) := by
  intro e he f hf
  unfold delCell at he
  split at he
  · exact ho e he f hf
  · rename_i ys hys
    split at he
    · exact ho e (mem_mapDel.1 he).1 f hf
    · rcases mem_mapPut.1 he with e1 | ⟨e1, _⟩
      · subst e1
        exact ho (x, ys) (mapGet_mem hys) f (mem_mapDel.1 hf).1
      · exact ho e e1 f hf

theorem allVals_write {P : Int → Prop} {h : Heap} (x : Nat) {o : Outer}
    (hh : ∀ a, AllVals P (h.obj a)) (ho : AllVals P o) : ∀ a, AllVals P ((h.write x o).obj a) := by
  intro a
  show AllVals P (if a = x then o else h.obj a)
  split
  · exact ho
  · exact hh a

theorem allVals_mono {P Q : Int → Prop} {o : Outer} (hpq : ∀ p, P p → Q p) (ho : AllVals P o) :
    AllVals Q o := fun e he f hf => hpq _ (ho e he f hf)

theorem allVals_cell {P : Int → Prop} {o : Outer} (ho : AllVals P o) {x y p : Int}
    (hc : cell o x y = some p) : P p := by
  unfold cell at hc
  split at hc
  · exact absurd hc (by simp)
  · rename_i ys hys
    exact ho (x, ys) (mapGet_mem hys) (y, p) (mapGet_mem hc)

theorem set_val (s : Mem) (m : BigIntMatrix) (r c : Int) (v : Option Int) :
    (set s m r c v).val = s.val := by
  unfold set
  split
  · split
    · rfl
    · split <;> rfl
  · rfl

theorem set_nextInt (s : Mem) (m : BigIntMatrix) (r c : Int) (v : Option Int) :
    (set s m r c v).nextInt = s.nextInt := by
  unfold set
  split
  · split
    · rfl
    · split <;> rfl
  · rfl

theorem set_allVals {P : Int → Prop} (s : Mem) (m : BigIntMatrix) (r c : Int) (v : Option Int)
    (hs : ∀ a, AllVals P (s.maps.obj a)) (hv : ∀ p, v = some p → P p) :
    ∀ a, AllVals P ((set s m r c v).maps.obj a) := by
  unfold set
  split
  · split
    · exact hs
    · split
      · exact hs
      · apply allVals_write
        · apply allVals_write _ hs
          exact allVals_delCell _ _ (hs _)
        · apply allVals_delCell
          exact allVals_write _ hs (allVals_delCell _ _ (hs _)) _
  · rename_i hz
    have hp : P (v.getD 0) := by
      cases v with
      | none => exact absurd rfl hz
      | some p => exact hv p rfl
    apply allVals_write
    · apply allVals_write _ hs
      exact allVals_putCell _ _ _ (hs _) hp
    · apply allVals_putCell _ _ _ _ hp
      exact allVals_write _ hs (allVals_putCell _ _ _ (hs _) hp) _

theorem set_good {s : Mem} (m : BigIntMatrix) (r c : Int) {v : Option Int} (hg : Good s)
    (hv : ∀ p, v = some p → Allocated s p) : Good (set s m r c v) := by
  refine ⟨by rw [set_nextInt]; exact hg.1, ?_⟩
  have h2 : ∀ a, AllVals (fun p => Allocated s p ∧ s.val p ≠ 0)
      ((set s m r c v).maps.obj a) := by
    by_cases hz : isNilOrZero s v = true
    · have e : set s m r c v = set s m r c none := by
        unfold set
        rw [if_pos hz]
        rfl
      rw [e]
      apply set_allVals s m r c none hg.2
      intro p hp
      exact absurd hp (by simp)
    · apply set_allVals s m r c v hg.2
      intro p hp
      refine ⟨hv p hp, ?_⟩
      subst hp
      intro h0
      apply hz
      simp [isNilOrZero, h0]
  intro a
  refine allVals_mono ?_ (h2 a)
  intro p hp
  exact ⟨⟨hp.1.1, by rw [set_nextInt]; exact hp.1.2⟩, by rw [set_val]; exact hp.2⟩

theorem set_maps (s : Mem) (m : BigIntMatrix) (r c : Int) (v : Option Int)
    (hp : ∀ p, v = some p → p ≠ 0) :
    (set s m r c v).maps = m.set s.maps r c (if isNilOrZero s v then none else v) := by
  unfold set BigIntMatrix.set
  by_cases hz : isNilOrZero s v = true
  · have h0 : BigIntMatrix.isNilOrZero none = true := rfl
    rw [if_pos hz, if_pos hz, if_pos h0]
    split
    · rename_i h1
      simp only [h1]
    · rename_i ys h1
      split
      · rename_i h2
        simp only [h1, h2]
      · rename_i w h2
        simp only [h1, h2]
  · rw [if_neg hz, if_neg hz]
    have h2 : ¬ BigIntMatrix.isNilOrZero v = true := by
      cases v with
      | none => exact absurd rfl hz
      | some p => simp [BigIntMatrix.isNilOrZero, hp p rfl]
    rw [if_neg h2]

theorem step_good {m : BigIntMatrix} {s s1 : Mem} (hs : Step m s s1) (hg : Good s) :
    Good s1 := by
  cases hs with
  | set r c value h => exact set_good m r c hg h
  | newInt v =>
    refine ⟨?_, ?_⟩
    · show 1 ≤ s.nextInt + 1
      have := hg.1
      omega
    · intro a
      refine allVals_mono ?_ (hg.2 a)
      intro p hp
      obtain ⟨⟨h1, h2⟩, h3⟩ := hp
      refine ⟨⟨h1, ?_⟩, ?_⟩
      · show p < s.nextInt + 1
        omega
      · show (if p = s.nextInt then v else s.val p) ≠ 0
        rw [if_neg (by omega)]
        exact h3
  | neg p =>
    refine ⟨hg.1, ?_⟩
    intro a
    refine allVals_mono ?_ (hg.2 a)
    intro q hq
    refine ⟨hq.1, ?_⟩
    show (if q = p then - s.val p else s.val q) ≠ 0
    split
    · rename_i e
      subst e
      have := hq.2
      omega
    · exact hq.2

theorem step_nextInt {m : BigIntMatrix} {s s1 : Mem} (hs : Step m s s1) :
    s.nextInt ≤ s1.nextInt := by
  cases hs with
  | set r c value h => rw [set_nextInt]
  | newInt v =>
    show s.nextInt ≤ s.nextInt + 1
    omega
  | neg p => exact le_refl _

theorem step_writes {m : BigIntMatrix} {s s1 : Mem} (hs : Step m s s1) :
    BigIntMatrix.Writes m s.maps s1.maps := by
  cases hs with
  | set r c value h =>
    rw [set_maps s m r c value (fun p hp => by have := (h p hp).1; omega)]
    exact BigIntMatrix.Writes.one m s.maps r c _
  | newInt v => exact BigIntMatrix.Writes.refl m s.maps
  | neg p => exact BigIntMatrix.Writes.refl m s.maps

theorem PW.stay (m : BigIntMatrix) (s : Mem) : PW m s s := Relation.ReflTransGen.refl

theorem PW.andThen {m : BigIntMatrix} {s s1 s2 : Mem} (h1 : PW m s s1) (h2 : PW m s1 s2) :
    PW m s s2 := Relation.ReflTransGen.trans h1 h2

theorem PW.single {m : BigIntMatrix} {s s1 : Mem} (h : Step m s s1) : PW m s s1 :=
  Relation.ReflTransGen.single h

theorem PW.good {m : BigIntMatrix} {s s1 : Mem} (h : PW m s s1) (hg : Good s) : Good s1 := by
  induction h with
  | refl => exact hg
  | tail _ hs ih => exact step_good hs ih

theorem PW.nextInt {m : BigIntMatrix} {s s1 : Mem} (h : PW m s s1) :
    s.nextInt ≤ s1.nextInt := by
  induction h with
  | refl => exact le_refl _
  | tail _ hs ih => exact le_trans ih (step_nextInt hs)

theorem PW.toWrites {m : BigIntMatrix} {s s1 : Mem} (h : PW m s s1) :
    BigIntMatrix.Writes m s.maps s1.maps := by
  induction h with
  | refl => exact BigIntMatrix.Writes.refl m s.maps
  | tail _ hs ih => exact ih.trans (step_writes hs)

theorem PW.foldlA {α : Type} (m : BigIntMatrix) (f : Mem → α → Mem) (A : Int → α → Prop)
    (hA : ∀ n n1 x, n ≤ n1 → A n x → A n1 x)
    (hf : ∀ s x, Good s → A s.nextInt x → PW m s (f s x)) :
    ∀ (l : List α) (s : Mem), Good s → (∀ x ∈ l, A s.nextInt x) → PW m s (l.foldl f s) := by
  intro l
  induction l with
  | nil => intro s _ _; exact PW.stay m s
  | cons x rest ih =>
    intro s hg hl
    have h1 := hf s x hg (hl x (List.mem_cons_self _ _))
    refine h1.andThen (ih (f s x) (h1.good hg) ?_)
    intro y hy
    exact hA _ _ y h1.nextInt (hl y (List.mem_cons_of_mem _ hy))

theorem PW.foldOptA {α : Type} (m : BigIntMatrix) (f : Mem → α → Option Mem)
    (A : Int → α → Prop) (hA : ∀ n n1 x, n ≤ n1 → A n x → A n1 x)
    (hf : ∀ s x s1, Good s → A s.nextInt x → f s x = some s1 → PW m s s1) :
    ∀ (l : List α) (s s1 : Mem), Good s → (∀ x ∈ l, A s.nextInt x) →
      BigIntMatrix.foldOpt f l s = some s1 → PW m s s1 := by
  intro l
  induction l with
  | nil =>
    intro s s1 _ _ he
    have : s = s1 := Option.some.inj he
    rw [this]; exact PW.stay m s1
  | cons x rest ih =>
    intro s s1 hg hl he
    unfold BigIntMatrix.foldOpt at he
    cases hx : f s x with
    | none => rw [hx] at he; exact absurd he (by simp)
    | some s2 =>
      rw [hx] at he
      have h1 := hf s x s2 hg (hl x (List.mem_cons_self _ _)) hx
      refine h1.andThen (ih s2 s1 (h1.good hg) ?_ he)
      intro y hy
      exact hA _ _ y h1.nextInt (hl y (List.mem_cons_of_mem _ hy))

theorem allVals_nil (P : Int → Prop) : AllVals P [] := by
  intro e he
  exact absurd he (by simp)

theorem good_getD {s : Mem} (hg : Good s) (a : Nat) (k : Int) {f : Int × Int}
    (hf : f ∈ (mapGet (s.maps.obj a) k).getD []) : Allocated s f.2 := by
  cases hk : mapGet (s.maps.obj a) k with
  | none => rw [hk] at hf; exact absurd hf (by simp)
  | some ys =>
    rw [hk] at hf
    exact (hg.2 a (k, ys) (mapGet_mem hk) f hf).1

theorem getD_mem (values : List (Option Int)) (k : Nat) (p : Int)
    (h : values.getD k none = some p) : some p ∈ values := by
  induction values generalizing k with
  | nil => simp at h
  | cons x rest ih =>
    cases k with
    | zero =>
      have : x = some p := by simpa using h
      rw [this]; exact List.mem_cons_self _ _
    | succ n =>
      have : rest.getD n none = some p := by simpa using h
      exact List.mem_cons_of_mem _ (ih n this)

theorem fresh_good {s : Mem} (rows cols : Int) (hg : Good s) : Good (fresh s rows cols).1 := by
  refine ⟨hg.1, ?_⟩
  intro a
  show AllVals (fun p => Allocated s p ∧ s.val p ≠ 0)
    (if a = s.maps.alloc.next then [] else (if a = s.maps.next then [] else s.maps.obj a))
  split
  · exact allVals_nil _
  · split
    · exact allVals_nil _
    · exact hg.2 a

theorem set_nil_pw (m : BigIntMatrix) (s : Mem) (r c : Int) : PW m s (set s m r c none) :=
  PW.single (Step.set s r c none (fun p hp => absurd hp (by simp)))

theorem set_some_pw (m : BigIntMatrix) (s : Mem) (r c : Int) {p : Int} (hp : Allocated s p) :
    PW m s (set s m r c (some p)) :=
  PW.single (Step.set s r c (some p) (fun q hq => by cases hq; exact hp))

theorem newInt_set_pw (m : BigIntMatrix) (s : Mem) (v r c : Int) (hg : Good s) :
    PW m s (set (newInt s v).1 m r c (some (newInt s v).2)) := by
  refine (PW.single (Step.newInt s v)).andThen (set_some_pw m _ r c ?_)
  have := hg.1
  exact ⟨this, by show s.nextInt < s.nextInt + 1; omega⟩

theorem alloc_mono (n n1 : Int) (f : Int × Int) (hn : n ≤ n1) (h : 1 ≤ f.2 ∧ f.2 < n) :
    1 ≤ f.2 ∧ f.2 < n1 := ⟨h.1, lt_of_lt_of_le h.2 hn⟩

theorem alloc_mono_row (n n1 : Int) (e : Int × List (Int × Int)) (hn : n ≤ n1)
    (h : ∀ f ∈ e.2, 1 ≤ f.2 ∧ f.2 < n) : ∀ f ∈ e.2, 1 ≤ f.2 ∧ f.2 < n1 :=
  fun f hf => alloc_mono n n1 f hn (h f hf)

theorem PW.foldl_plain {α : Type} (m : BigIntMatrix) (f : Mem → α → Mem)
    (hf : ∀ s x, Good s → PW m s (f s x)) (l : List α) (s : Mem) (hg : Good s) :
    PW m s (l.foldl f s) :=
  PW.foldlA m f (fun _ _ => True) (fun _ _ _ _ _ => trivial) (fun s x hs _ => hf s x hs) l s hg
    (fun _ _ => trivial)

theorem PW.foldOpt_plain {α : Type} (m : BigIntMatrix) (f : Mem → α → Option Mem)
    (hf : ∀ s x s1, Good s → f s x = some s1 → PW m s s1) (l : List α) (s s1 : Mem)
    (hg : Good s) (he : BigIntMatrix.foldOpt f l s = some s1) : PW m s s1 :=
  PW.foldOptA m f (fun _ _ => True) (fun _ _ _ _ _ => trivial)
    (fun s x s1 hs _ h => hf s x s1 hs h) l s s1 hg (fun _ _ => trivial) he

theorem zeroize_pw (m : BigIntMatrix) (s : Mem) (r c rows col : Int) (hg : Good s) :
    PW m s (zeroize s m r c rows col) := by
  unfold zeroize
  refine PW.foldl_plain m _ ?_ _ s hg
  intro s1 e hg1
  beta_reduce
  split
  · exact PW.stay m s1
  · refine PW.foldl_plain m _ ?_ _ s1 hg1
    intro s2 f _
    beta_reduce
    split
    · exact PW.stay m s2
    · exact set_nil_pw m s2 _ _

theorem Set_pw {m : BigIntMatrix} {s s1 : Mem} {i j : Int} {v : Option Int}
    (hv : ∀ p, v = some p → Allocated s p) (he : Set s m i j v = some s1) : PW m s s1 := by
  unfold Set at he
  split at he
  · exact absurd he (by simp)
  · split at he
    · exact absurd he (by simp)
    · rw [← Option.some.inj he]; exact PW.single (Step.set s _ _ v hv)

theorem ZeroizeRange_pw {m : BigIntMatrix} {s s1 : Mem} {i j rows cols : Int} (hg : Good s)
    (he : ZeroizeRange s m i j rows cols = some s1) : PW m s s1 := by
  unfold ZeroizeRange at he
  split at he
  · exact absurd he (by simp)
  · split at he
    · exact absurd he (by simp)
    · rw [← Option.some.inj he]; exact zeroize_pw m s _ _ _ _ hg

theorem setMatrix_pw (m a : BigIntMatrix) (s : Mem) (rO cO : Int) (hg : Good s) :
    PW m s (setMatrix s m a rO cO) := by
  unfold setMatrix
  have h0 := zeroize_pw m s rO cO a.rows a.cols hg
  have hg0 := h0.good hg
  refine h0.andThen ?_
  refine PW.foldlA m _ (fun n (e : Int × List (Int × Int)) => ∀ f ∈ e.2, 1 ≤ f.2 ∧ f.2 < n)
    alloc_mono_row ?_ _ _ hg0 ?_
  · intro s1 e hg1 he
    refine PW.foldlA m _ (fun n (f : Int × Int) => 1 ≤ f.2 ∧ f.2 < n) alloc_mono ?_ _ s1 hg1 he
    intro s2 f _ hf
    exact set_some_pw m s2 _ _ hf
  · intro e he f hf
    exact (hg0.2 _ e he f hf).1

theorem SetMatrix_pw {m a : BigIntMatrix} {s s1 : Mem} {i j : Int} (hg : Good s)
    (he : SetMatrix s m a i j = some s1) : PW m s s1 := by
  unfold SetMatrix at he
  split at he
  · exact absurd he (by simp)
  · split at he
    · exact absurd he (by simp)
    · rw [← Option.some.inj he]; exact setMatrix_pw m a s _ _ hg

theorem SetRow_pw {m : BigIntMatrix} {s s1 : Mem} {i : Int} {vec : BigIntVector} (hg : Good s)
    (he : SetRow s m i vec = some s1) : PW m s s1 := by
  unfold SetRow at he
  split at he
  · exact absurd he (by simp)
  · split at he
    · exact absurd he (by simp)
    · rw [← Option.some.inj he]
      have h1 : PW m s (((mapGet (s.maps.obj m.rowValues) (i + m.rowStart)).getD []).foldl
          (fun t (f : Int × Int) => set t m (i + m.rowStart) f.1 none) s) :=
        PW.foldl_plain m _ (fun t f _ => set_nil_pw m t _ _) _ s hg
      have hg1 := h1.good hg
      refine h1.andThen ?_
      refine PW.foldlA m (fun t (f : Int × Int) => set t m (i + m.rowStart) (f.1 + m.colStart)
        (some f.2)) (fun n (f : Int × Int) => 1 ≤ f.2 ∧ f.2 < n) alloc_mono ?_ _ _ hg1 ?_
      · intro t f _ hf
        exact set_some_pw m t _ _ hf
      · intro f hf
        exact good_getD hg1 _ _ hf

theorem SetColumn_pw {m : BigIntMatrix} {s s1 : Mem} {j : Int} {vec : TransposedBigIntVector}
    (hg : Good s) (he : SetColumn s m j vec = some s1) : PW m s s1 := by
  unfold SetColumn at he
  split at he
  · exact absurd he (by simp)
  · split at he
    · exact absurd he (by simp)
    · rw [← Option.some.inj he]
      have h1 : PW m s (((mapGet (s.maps.obj m.colValues) (j + m.colStart)).getD []).foldl
          (fun t (f : Int × Int) => set t m f.1 (j + m.colStart) none) s) :=
        PW.foldl_plain m _ (fun t f _ => set_nil_pw m t _ _) _ s hg
      have hg1 := h1.good hg
      refine h1.andThen ?_
      refine PW.foldlA m (fun t (f : Int × Int) => set t m (f.1 + m.rowStart) (j + m.colStart)
        (some f.2)) (fun n (f : Int × Int) => 1 ≤ f.2 ∧ f.2 < n) alloc_mono ?_ _ _ hg1 ?_
      · intro t f _ hf
        exact set_some_pw m t _ _ hf
      · intro f hf
        exact good_getD hg1 _ _ hf

theorem add_pw (m a b : BigIntMatrix) (s : Mem) (hg : Good s) : PW m s (add s m a b) := by
  unfold add
  have h0 := setMatrix_pw m a s m.rowStart m.colStart hg
  refine h0.andThen ?_
  refine PW.foldl_plain m _ ?_ _ _ (h0.good hg)
  intro s1 e hg1
  refine PW.foldl_plain m _ ?_ _ s1 hg1
  intro s2 f hg2
  simp only []
  split
  · exact newInt_set_pw m s2 _ _ _ hg2
  · exact newInt_set_pw m s2 _ _ _ hg2

theorem Add_pw {m : BigIntMatrix} {a b : Option BigIntMatrix} {s s1 : Mem} {sa sb : Bool}
    (hg : Good s) (he : Add s m a b sa sb = some s1) : PW m s s1 := by
  unfold Add at he
  split at he
  · split at he
    · exact absurd he (by simp)
    · split at he
      · exact absurd he (by simp)
      · split at he
        · exact absurd he (by simp)
        · rw [← Option.some.inj he]; exact add_pw m _ _ s hg
  · exact absurd he (by simp)

theorem mul_pw {m a b : BigIntMatrix} {s s1 : Mem} (hg : Good s)
    (he : mul s m a b = some s1) : PW m s s1 := by
  unfold mul at he
  have h0 := zeroize_pw m s m.rowStart m.colStart m.rows m.cols hg
  refine h0.andThen ?_
  refine PW.foldOpt_plain m _ ?_ _ _ _ (h0.good hg) he
  intro t e t1 hgt ht
  split at ht
  · rw [← Option.some.inj ht]; exact PW.stay m t
  · refine PW.foldOpt_plain m _ ?_ _ _ _ hgt ht
    intro t2 f t3 hg2 h2
    split at h2
    · rw [← Option.some.inj h2]; exact PW.stay m t2
    · refine (PW.single (Step.newInt t2 _)).andThen (Set_pw ?_ h2)
      intro p hp
      cases hp
      have := hg2.1
      exact ⟨this, by show t2.nextInt < t2.nextInt + 1; omega⟩

theorem Mul_pw {m : BigIntMatrix} {a b : Option BigIntMatrix} {s s1 : Mem} {sa sb : Bool}
    (hg : Good s) (he : Mul s m a b sa sb = some s1) : PW m s s1 := by
  unfold Mul at he
  split at he
  · split at he
    · exact absurd he (by simp)
    · split at he
      · exact absurd he (by simp)
      · split at he
        · exact absurd he (by simp)
        · exact mul_pw hg he
  · exact absurd he (by simp)

theorem Negate_pw (m : BigIntMatrix) (s : Mem) (hg : Good s) : PW m s (Negate s m) := by
  unfold Negate
  refine PW.foldl_plain m _ ?_ _ s hg
  intro s1 i hg1
  refine PW.foldl_plain m _ ?_ _ s1 hg1
  intro s2 j hg2
  beta_reduce
  split
  · exact PW.stay m s2
  · rename_i p hp
    refine (PW.single (Step.neg s2 p)).andThen (set_some_pw m _ _ _ ?_)
    exact (allVals_cell (hg2.2 m.rowValues) hp).1

theorem At_pw (m1 : BigIntMatrix) {m : BigIntMatrix} {s s1 : Mem} {i j p : Int} (hg : Good s)
    (he : At s m i j = some (s1, p)) : PW m1 s s1 ∧ Allocated s1 p := by
  unfold At at he
  split at he
  · exact absurd he (by simp)
  · split at he
    · exact absurd he (by simp)
    · split at he
      · obtain ⟨e1, e2⟩ := Prod.mk.inj (Option.some.inj he)
        subst e1
        subst e2
        have := hg.1
        exact ⟨PW.single (Step.newInt s 0), this, by show s.nextInt < s.nextInt + 1; omega⟩
      · rename_i q hq
        obtain ⟨e1, e2⟩ := Prod.mk.inj (Option.some.inj he)
        subst e1
        subst e2
        exact ⟨PW.stay m1 s, (allVals_cell (hg.2 m.rowValues) hq).1⟩

theorem NewBigIntMat_pw {s s1 : Mem} {rows cols : Int} {values : List (Option Int)}
    {m : BigIntMatrix} (hg : Good s) (hv : ∀ p, some p ∈ values → Allocated s p)
    (he : NewBigIntMat s rows cols values = some (s1, m)) :
    m = (fresh s rows cols).2 ∧ PW m (fresh s rows cols).1 s1 := by
  unfold NewBigIntMat at he
  split at he
  · exact absurd he (by simp)
  · simp only [] at he
    split at he
    · obtain ⟨e2, e1⟩ := Prod.mk.inj (Option.some.inj he)
      subst e2
      subst e1
      refine ⟨rfl, ?_⟩
      refine PW.foldlA _ _ (fun n (_ : Int) => ∀ p, some p ∈ values → 1 ≤ p ∧ p < n) ?_ ?_ _ _
        (fresh_good rows cols hg) (fun _ _ => hv)
      · intro n n1 _ hn h p hp
        exact ⟨(h p hp).1, lt_of_lt_of_le (h p hp).2 hn⟩
      · intro t i hgt hi
        refine PW.foldlA _ _ (fun n (_ : Int) => ∀ p, some p ∈ values → 1 ≤ p ∧ p < n) ?_ ?_ _ _
          hgt (fun _ _ => hi)
        · intro n n1 _ hn h p hp
          exact ⟨(h p hp).1, lt_of_lt_of_le (h p hp).2 hn⟩
        · intro t2 j _ hj
          beta_reduce
          split
          · exact PW.stay _ t2
          · rename_i p hp
            exact set_some_pw _ t2 _ _ (hj p (getD_mem values _ p hp))
    · have e : ((fresh s rows cols).1, (fresh s rows cols).2) = (s1, m) := Option.some.inj he
      obtain ⟨e2, e1⟩ := Prod.mk.inj e
      subst e2
      subst e1
      exact ⟨rfl, PW.stay _ _⟩

theorem BigIntIdentity_pw (s : Mem) (n : Int) (hg : Good s) :
    (BigIntIdentity s n).2 = (fresh s n n).2 ∧
      PW (fresh s n n).2 (fresh s n n).1 (BigIntIdentity s n).1 := by
  refine ⟨rfl, ?_⟩
  unfold BigIntIdentity
  refine PW.foldl_plain _ _ ?_ _ _ (fresh_good n n hg)
  intro t i hgt
  exact newInt_set_pw _ t _ _ _ hgt

theorem BigIntCopy_pw {s s1 : Mem} {m c : BigIntMatrix} (hg : Good s)
    (he : BigIntCopy s m = some (s1, c)) :
    c = (fresh s m.rows m.cols).2 ∧ PW c (fresh s m.rows m.cols).1 s1 := by
  unfold BigIntCopy at he
  simp only [] at he
  split at he
  · exact absurd he (by simp)
  · rename_i t ht
    obtain ⟨e2, e1⟩ := Prod.mk.inj (Option.some.inj he)
    subst e2
    subst e1
    refine ⟨rfl, ?_⟩
    refine PW.foldOpt_plain _ _ ?_ _ _ _ (fresh_good _ _ hg) ht
    intro t1 i t2 hg1 h1
    refine PW.foldOpt_plain _ _ ?_ _ _ _ hg1 h1
    intro t3 j t4 hg3 h3
    split at h3
    · exact absurd h3 (by simp)
    · rename_i sp hsp
      rw [← Option.some.inj h3]
      have ha := At_pw (fresh s m.rows m.cols).2 hg3 (show At t3 m i j = some (sp.1, sp.2) from hsp)
      exact ha.1.andThen (set_some_pw _ _ _ _ ha.2)

theorem Inv.step {s s1 : Mem} {vs : List BigIntMatrix} {m : BigIntMatrix} (hj : Inv s vs)
    (hm : m ∈ vs) (w : PW m s s1) : Inv s1 vs :=
  ⟨hj.1.mutate hm w.toWrites, w.good hj.2⟩

theorem Inv.root {s s1 : Mem} {vs : List BigIntMatrix} (rows cols : Int) (hj : Inv s vs)
    (w : PW (fresh s rows cols).2 (fresh s rows cols).1 s1) :
    Inv s1 ((fresh s rows cols).2 :: vs) :=
  ⟨hj.1.alloc rows cols w.toWrites, w.good (fresh_good rows cols hj.2)⟩

theorem Inv.alias {s : Mem} {vs : List BigIntMatrix} {m v : BigIntMatrix} (hj : Inv s vs)
    (hm : m ∈ vs)
    (hv : (v.rowValues = m.rowValues ∧ v.colValues = m.colValues) ∨
      (v.rowValues = m.colValues ∧ v.colValues = m.rowValues)) : Inv s (v :: vs) :=
  ⟨hj.1.view hm hv, hj.2⟩

theorem Inv.empty : Inv Mem.empty [] := by
  refine ⟨⟨⟨0, rfl⟩, ?_, ?_⟩, ?_, ?_⟩
  · intro m hm
    exact absurd hm (by simp)
  · intro k hk
    have : (Heap.empty).next = 0 := rfl
    have h2 : 2 * k + 1 < (Heap.empty).next := hk
    omega
  · show (1 : Int) ≤ 1
    exact le_refl _
  · intro a
    exact allVals_nil _

theorem Reach.inv {s : Mem} {vs : List BigIntMatrix} (hr : Reach s vs) : Inv s vs := by
  induction hr with
  | empty => exact Inv.empty
  | @newInt s vs v _ ih =>
    exact ⟨ih.1, step_good (Step.newInt s v : Step ⟨0, 0, 0, 0, 0, 0⟩ s _) ih.2⟩
  | newMat rows cols values _ hv he ih =>
    obtain ⟨e, w⟩ := NewBigIntMat_pw ih.2 hv he
    subst e
    exact ih.root rows cols w
  | identity size _ ih =>
    obtain ⟨e, w⟩ := BigIntIdentity_pw _ size ih.2
    rw [e]
    exact ih.root size size w
  | copy _ _ he ih =>
    obtain ⟨e, w⟩ := BigIntCopy_pw ih.2 he
    subst e
    exact ih.root _ _ w
  | slice i j rows cols _ hm hs ih =>
    obtain ⟨e, _⟩ := BigIntMatrix.Slice_some hs
    subst e
    exact ih.alias hm (Or.inl ⟨rfl, rfl⟩)
  | transpose _ hm ih => exact ih.alias hm (Or.inr ⟨rfl, rfl⟩)
  | @read s s1 vs m i j p _ hm he ih => exact ih.step hm (At_pw m ih.2 he).1
  | set i j value _ hm hv he ih => exact ih.step hm (Set_pw hv he)
  | zeroize _ hm ih => exact ih.step hm (zeroize_pw _ _ _ _ _ _ ih.2)
  | zeroizeRange i j rows cols _ hm he ih => exact ih.step hm (ZeroizeRange_pw ih.2 he)
  | setMatrix i j _ hm _ he ih => exact ih.step hm (SetMatrix_pw ih.2 he)
  | setRow i vec _ hm _ he ih => exact ih.step hm (SetRow_pw ih.2 he)
  | setColumn j vec _ hm _ he ih => exact ih.step hm (SetColumn_pw ih.2 he)
  | add sa sb _ hm _ _ he ih => exact ih.step hm (Add_pw ih.2 he)
  | mul sa sb _ hm _ _ he ih => exact ih.step hm (Mul_pw ih.2 he)
  | negate _ hm ih => exact ih.step hm (Negate_pw _ _ ih.2)

theorem read_ne_zero {s : Mem} (hg : Good s) (a : Nat) (x y : Int) : read s a x y ≠ some 0 := by
  unfold read
  intro h
  cases hc : cell (s.maps.obj a) x y with
  | none => rw [hc] at h; exact absurd h (by simp)
  | some p =>
    rw [hc] at h
    have h0 : s.val p = 0 := Option.some.inj h
    exact (allVals_cell (hg.2 a) hc).2 h0

/-- C11: in every state reachable from the empty memory by the three
constructors, `Slice`, `T`, `At` and any sequence of `Set`, `Zeroize`,
`ZeroizeRange`, `SetMatrix`, `SetRow`, `SetColumn`, `Add`, `Mul` and `Negate`
applied through any view, with any allocated elements as arguments, the store of
every view satisfies: `rowValues[r][c]` is the element `p` exactly when
`colValues[c][r]` is, so the one holds the integer `v` exactly when the other
does, and no stored element holds zero. -/
theorem dual_index_invariant {s : Mem} {vs : List BigIntMatrix} (hr : Reach s vs)
    (m : BigIntMatrix) (hm : m ∈ vs) :
    (∀ r c p, cell (s.maps.obj m.rowValues) r c = some p ↔
      cell (s.maps.obj m.colValues) c r = some p) ∧
    (∀ r c v, read s m.rowValues r c = some v ↔ read s m.colValues c r = some v) ∧
    (∀ r c, read s m.rowValues r c ≠ some 0) ∧
    (∀ c r, read s m.colValues c r ≠ some 0) := by
  have hj := hr.inv
  have hs := hj.1.storeOK hm
  refine ⟨?_, ?_, fun r c => read_ne_zero hj.2 _ r c, fun c r => read_ne_zero hj.2 _ c r⟩
  · intro r c p
    rw [hs.1 r c]
  · intro r c v
    unfold read
    rw [hs.1 r c]

/-- C11 witness: the identity of size 2 is copied and the copy is negated in
place; the invariant holds for the store of the identity afterwards. -/
theorem dual_index_invariant_witness :
    ∃ s2 C, BigIntCopy (BigIntIdentity Mem.empty 2).1 (BigIntIdentity Mem.empty 2).2 =
        some (s2, C) ∧
      (∀ r c v, read (Negate s2 C) (BigIntIdentity Mem.empty 2).2.rowValues r c = some v ↔
        read (Negate s2 C) (BigIntIdentity Mem.empty 2).2.colValues c r = some v) ∧
      (∀ r c, read (Negate s2 C) (BigIntIdentity Mem.empty 2).2.rowValues r c ≠ some 0) := by
  obtain ⟨⟨s2, C⟩, he⟩ := Option.isSome_iff_exists.1
    (by decide : (BigIntCopy (BigIntIdentity Mem.empty 2).1
      (BigIntIdentity Mem.empty 2).2).isSome = true)
  have hr : Reach (Negate s2 C) [C, (BigIntIdentity Mem.empty 2).2] :=
    Reach.negate (Reach.copy (Reach.identity 2 Reach.empty) (List.mem_cons_self _ _) he)
      (List.mem_cons_self _ _)
  have h := dual_index_invariant hr (BigIntIdentity Mem.empty 2).2
    (List.mem_cons_of_mem _ (List.mem_cons_self _ _))
  exact ⟨s2, C, he, h.2.1, h.2.2.1⟩

end Ptr

/-! ## Claims on Set, At and ZeroizeRange -/

namespace BigIntMatrix

theorem set_col_other (h : Heap) (m : BigIntMatrix) (r c : Int) (v : Option Int)
    (hne : m.rowValues ≠ m.colValues) {x y : Int} (hxy : ¬ (x = r ∧ y = c)) :
    cell ((m.set h r c v).obj m.colValues) y x = cell (h.obj m.colValues) y x := by
  have hne2 : m.colValues ≠ m.rowValues := fun e => hne e.symm
  have hsw : ¬ (y = c ∧ x = r) := fun e => hxy ⟨e.2, e.1⟩
  rcases set_cases h m r c v with ⟨_, _, e⟩ | ⟨_, _, e⟩ | ⟨_, e⟩ <;> rw [e]
  · simp only [Heap.write, if_neg hne2, if_true]
    rw [cell_delCell, if_neg hsw]
  · simp only [Heap.write, if_neg hne2, if_true]
    rw [cell_putCell, if_neg hsw]

theorem runOps_col_other (m : BigIntMatrix) (h : Heap) (ops : List Op)
    (hne : m.rowValues ≠ m.colValues) {x y : Int}
    (hno : ∀ op ∈ ops, ¬ (op.r = x ∧ op.c = y)) :
    cell ((runOps m h ops).obj m.colValues) y x = cell (h.obj m.colValues) y x := by
  induction ops generalizing h with
  | nil => rfl
  | cons op rest ih =>
    show cell ((runOps m (applyOp m h op) rest).obj m.colValues) y x = _
    rw [ih _ (fun o ho => hno o (List.mem_cons_of_mem _ ho))]
    unfold applyOp
    apply set_col_other _ _ _ _ _ hne
    intro e
    exact hno op (List.mem_cons_self _ _) ⟨e.1.symm, e.2.symm⟩

theorem runOps_row_other (m : BigIntMatrix) (h : Heap) (ops : List Op)
    (hne : m.rowValues ≠ m.colValues) {x y : Int}
    (hno : ∀ op ∈ ops, ¬ (op.r = x ∧ op.c = y)) :
    cell ((runOps m h ops).obj m.rowValues) x y = cell (h.obj m.rowValues) x y := by
  rw [runOps_row _ _ _ hne, replay_nil_of_forall _ hno]

theorem At_none_iff (h : Heap) (m : BigIntMatrix) (i j : Int) :
    m.At h i j = none ↔ (i < 0 ∨ i ≥ m.rows ∨ j < 0 ∨ j ≥ m.cols) := by
  constructor
  · intro hn
    by_contra hcon
    rw [At_eq h m (by omega) (by omega) (by omega) (by omega)] at hn
    exact absurd hn (by simp)
  · intro hor
    unfold At
    by_cases hr : m.checkRowBounds i = true
    · have hc : m.checkColBounds j = false := by
        simp only [checkRowBounds, checkColBounds] at hr ⊢
        simp at hr ⊢
        omega
      simp [hr, hc]
    · simp [hr]

theorem Set_none_iff (h : Heap) (m : BigIntMatrix) (i j : Int) (v : Option Int) :
    m.Set h i j v = none ↔ (i < 0 ∨ i ≥ m.rows ∨ j < 0 ∨ j ≥ m.cols) := by
  constructor
  · intro hn
    by_contra hcon
    rw [Set_eq h m v (by omega) (by omega) (by omega) (by omega)] at hn
    exact absurd hn (by simp)
  · intro hor
    unfold Set
    by_cases hr : m.checkRowBounds i = true
    · have hc : m.checkColBounds j = false := by
        simp only [checkRowBounds, checkColBounds] at hr ⊢
        simp at hr ⊢
        omega
      simp [hr, hc]
    · simp [hr]

/-- C12: for an in-bounds `(i,j)`, `Set(i,j,v)` succeeds and afterwards
`At(i,j)` reads `v` (0 for nil or zero, and then the cell is absent from the row
map, and from the column map when the two maps mirrored each other); `At` at
every other in-bounds position is unchanged; and `At` on an absent cell, such as
any cell of a matrix built without values, reads 0. -/
theorem Set_then_At (h : Heap) (m : BigIntMatrix) (i j : Int) (v : Option Int)
    (hne : m.rowValues ≠ m.colValues)
    (hi0 : 0 ≤ i) (hi1 : i < m.rows) (hj0 : 0 ≤ j) (hj1 : j < m.cols) :
    (∃ h1, m.Set h i j v = some h1 ∧ m.At h1 i j = some (v.getD 0) ∧
      (isNilOrZero v = true →
        m.at_ h1 (i + m.rowStart) (j + m.colStart) = none ∧
        (Mirror h m → cell (h1.obj m.colValues) (j + m.colStart) (i + m.rowStart) = none)) ∧
      (∀ i1 j1, 0 ≤ i1 → i1 < m.rows → 0 ≤ j1 → j1 < m.cols → ¬ (i1 = i ∧ j1 = j) →
        m.At h1 i1 j1 = m.At h i1 j1)) ∧
    (∀ i1 j1, 0 ≤ i1 → i1 < m.rows → 0 ≤ j1 → j1 < m.cols →
      m.at_ h (i1 + m.rowStart) (j1 + m.colStart) = none → m.At h i1 j1 = some 0) ∧
    (∀ rows cols i1 j1, 0 ≤ i1 → i1 < rows → 0 ≤ j1 → j1 < cols →
      ∃ h2 m2, NewBigIntMat h rows cols [] = some (h2, m2) ∧ m2.At h2 i1 j1 = some 0) := by
  refine ⟨⟨_, Set_eq h m v hi0 hi1 hj0 hj1, ?_, ?_, ?_⟩, ?_, ?_⟩
  · rw [At_eq _ m hi0 hi1 hj0 hj1, set_row _ _ _ _ _ hne, if_pos ⟨rfl, rfl⟩, stored_getD]
  · intro hz
    have hrow : cell ((m.set h (i + m.rowStart) (j + m.colStart) v).obj m.rowValues)
        (i + m.rowStart) (j + m.colStart) = none := by
      rw [set_row _ _ _ _ _ hne, if_pos ⟨rfl, rfl⟩, stored_of_zero hz]
    refine ⟨hrow, ?_⟩
    intro hm
    rw [← set_mirror _ _ _ _ _ hne (mirrorP_of_mirror hm)]
    exact hrow
  · intro i1 j1 h1 h2 h3 h4 hdiff
    rw [At_eq _ m h1 h2 h3 h4, At_eq _ m h1 h2 h3 h4, set_row _ _ _ _ _ hne,
      if_neg (fun e => hdiff ⟨by omega, by omega⟩)]
  · intro i1 j1 h1 h2 h3 h4 hn
    rw [At_eq _ m h1 h2 h3 h4]
    unfold at_ at hn
    rw [hn]
    rfl
  · intro rows cols i1 j1 h1 h2 h3 h4
    refine ⟨(fresh h rows cols).1, (fresh h rows cols).2, NewBigIntMat_nil h rows cols, ?_⟩
    rw [At_eq (fresh h rows cols).1 (fresh h rows cols).2 h1 h2 h3 h4, fresh_row]
    rfl

/-- C13: `At(i,j)` and `Set(i,j,v)` fail exactly when `i < 0`, `i ≥ rows`,
`j < 0` or `j ≥ cols` of the view itself.  A `Set` that returns wrote through the
translated position, which lies inside the view's rectangle, and changed no
other cell of either map; an `At` that returns read the cell at the translated
position inside the rectangle.  A failing `Set` leaves the store unchanged: in
the embedding `Panic.Set`, which agrees with `Set` as a value and whose panic
carries the heap it leaves behind, every panic of `Set` carries the heap the
call started with, and for an index out of bounds that is what `Set` does. -/
theorem At_Set_bounds (h : Heap) (m : BigIntMatrix) (i j : Int) (v : Option Int)
    (hne : m.rowValues ≠ m.colValues) :
    (m.At h i j = none ↔ (i < 0 ∨ i ≥ m.rows ∨ j < 0 ∨ j ≥ m.cols)) ∧
    (m.Set h i j v = none ↔ (i < 0 ∨ i ≥ m.rows ∨ j < 0 ∨ j ≥ m.cols)) ∧
    (∀ h1, m.Set h i j v = some h1 →
      (m.rowStart ≤ i + m.rowStart ∧ i + m.rowStart < m.rowStart + m.rows ∧
        m.colStart ≤ j + m.colStart ∧ j + m.colStart < m.colStart + m.cols) ∧
      h1 = m.set h (i + m.rowStart) (j + m.colStart) v ∧
      ∀ x y, ¬ (x = i + m.rowStart ∧ y = j + m.colStart) →
        cell (h1.obj m.rowValues) x y = cell (h.obj m.rowValues) x y ∧
        cell (h1.obj m.colValues) y x = cell (h.obj m.colValues) y x) ∧
    (∀ w, m.At h i j = some w →
      (m.rowStart ≤ i + m.rowStart ∧ i + m.rowStart < m.rowStart + m.rows ∧
        m.colStart ≤ j + m.colStart ∧ j + m.colStart < m.colStart + m.cols) ∧
      w = (cell (h.obj m.rowValues) (i + m.rowStart) (j + m.colStart)).getD 0) ∧
    (Panic.Set h m i j v).toOption = m.Set h i j v ∧
    (∀ e, Panic.Set h m i j v = Except.error e → e = h ∧ m.Set h i j v = none) ∧
    ((i < 0 ∨ i ≥ m.rows ∨ j < 0 ∨ j ≥ m.cols) → Panic.Set h m i j v = Except.error h) := by
  have hto : (Panic.Set h m i j v).toOption = m.Set h i j v := by
    unfold Panic.Set Set
    split
    · rfl
    · split <;> rfl
  have herr : ∀ e, Panic.Set h m i j v = Except.error e → e = h := by
    intro e he
    unfold Panic.Set at he
    split at he
    · exact (Except.error.inj he).symm
    · split at he
      · exact (Except.error.inj he).symm
      · exact absurd he (by simp)
  have hnone : ∀ e, Panic.Set h m i j v = Except.error e → m.Set h i j v = none := by
    intro e he
    rw [← hto, he]
    rfl
  refine ⟨At_none_iff h m i j, Set_none_iff h m i j v, ?_, ?_, hto,
    fun e he => ⟨herr e he, hnone e he⟩, ?_⟩
  rotate_left 2
  · intro hor
    have hs := (Set_none_iff h m i j v).2 hor
    rw [← hto] at hs
    cases hp : Panic.Set h m i j v with
    | error e => rw [herr e hp]
    | ok h1 => rw [hp] at hs; exact absurd hs (by simp [Except.toOption])
  · intro h1 hs
    have hin : ¬ (i < 0 ∨ i ≥ m.rows ∨ j < 0 ∨ j ≥ m.cols) := by
      intro hor
      rw [(Set_none_iff h m i j v).2 hor] at hs
      exact absurd hs (by simp)
    rw [Set_eq h m v (by omega) (by omega) (by omega) (by omega)] at hs
    have e : h1 = m.set h (i + m.rowStart) (j + m.colStart) v := (Option.some.inj hs).symm
    refine ⟨⟨by omega, by omega, by omega, by omega⟩, e, ?_⟩
    intro x y hxy
    rw [e, set_row _ _ _ _ _ hne, if_neg hxy, set_col_other _ _ _ _ _ hne hxy]
    exact ⟨rfl, rfl⟩
  · intro w hw
    have hin : ¬ (i < 0 ∨ i ≥ m.rows ∨ j < 0 ∨ j ≥ m.cols) := by
      intro hor
      rw [(At_none_iff h m i j).2 hor] at hw
      exact absurd hw (by simp)
    rw [At_eq h m (by omega) (by omega) (by omega) (by omega)] at hw
    exact ⟨⟨by omega, by omega, by omega, by omega⟩, (Option.some.inj hw).symm⟩

/-- C14: for `i, j, rows, cols ≥ 0` with the rectangle inside the view,
`ZeroizeRange(i,j,rows,cols)` succeeds; afterwards `At` reads 0 everywhere in
the rectangle and is unchanged at every other in-bounds position, and every
cell of both maps of the shared store outside the translated rectangle is
unchanged; `Zeroize()` is `ZeroizeRange(0,0,rows,cols)` of the full view. -/
theorem ZeroizeRange_clears_rectangle (h : Heap) (m : BigIntMatrix) (i j rows cols : Int)
    (hne : m.rowValues ≠ m.colValues) (hi : 0 ≤ i) (hj : 0 ≤ j) (hr : 0 ≤ rows) (hc : 0 ≤ cols)
    (hir : i + rows ≤ m.rows) (hjc : j + cols ≤ m.cols) :
    (∃ h1, m.ZeroizeRange h i j rows cols = some h1 ∧
      (∀ x y, i ≤ x → x < i + rows → j ≤ y → y < j + cols → m.At h1 x y = some 0) ∧
      (∀ x y, 0 ≤ x → x < m.rows → 0 ≤ y → y < m.cols →
        ¬ (i ≤ x ∧ x < i + rows ∧ j ≤ y ∧ y < j + cols) → m.At h1 x y = m.At h x y) ∧
      (∀ x y, ¬ (i + m.rowStart ≤ x ∧ x < i + m.rowStart + rows ∧
          j + m.colStart ≤ y ∧ y < j + m.colStart + cols) →
        cell (h1.obj m.rowValues) x y = cell (h.obj m.rowValues) x y ∧
        cell (h1.obj m.colValues) y x = cell (h.obj m.colValues) y x)) ∧
    (0 ≤ m.rows → 0 ≤ m.cols → m.ZeroizeRange h 0 0 m.rows m.cols = some (m.Zeroize h)) := by
  have hZ : m.ZeroizeRange h i j rows cols =
      some (m.zeroize h (i + m.rowStart) (j + m.colStart) rows cols) := by
    unfold ZeroizeRange
    rw [if_neg (by simp; omega), if_neg (by simp; omega)]
  refine ⟨⟨_, hZ, ?_, ?_, ?_⟩, ?_⟩
  · intro x y h1 h2 h3 h4
    rw [At_eq _ m (by omega) (by omega) (by omega) (by omega), zeroize_row _ _ _ _ _ _ hne,
      if_pos ⟨by omega, by omega, by omega, by omega⟩]
    rfl
  · intro x y h1 h2 h3 h4 hout
    rw [At_eq _ m h1 h2 h3 h4, At_eq _ m h1 h2 h3 h4, zeroize_row _ _ _ _ _ _ hne,
      if_neg (fun e => hout ⟨by omega, by omega, by omega, by omega⟩)]
  · intro x y hout
    refine ⟨?_, ?_⟩
    · rw [zeroize_row _ _ _ _ _ _ hne, if_neg hout]
    · rw [zeroize_eq]
      apply runOps_col_other _ _ _ hne
      intro op hop hxy
      obtain ⟨e, _, f, _, hin, rfl⟩ := mem_zeroizeOps.1 hop
      apply hout
      rw [← hxy.1, ← hxy.2]
      exact hin
  · intro h0 h1
    unfold ZeroizeRange Zeroize
    rw [if_neg (by simp; omega), if_neg (by simp), zero_add, zero_add]

end BigIntMatrix

/-! ## Claims on Mul frame, Copy and independence -/

namespace BigIntMatrix

theorem setMatrix_cell_inside (h : Heap) (m a : BigIntMatrix) (rO cO : Int)
    (hne : m.rowValues ≠ m.colValues)
    (ha1 : a.rowValues ≠ m.rowValues) (ha2 : a.rowValues ≠ m.colValues)
    (hwa : WFOuter (h.obj a.rowValues))
    {i j : Int} (hi0 : 0 ≤ i) (hi1 : i < a.rows) (hj0 : 0 ≤ j) (hj1 : j < a.cols) :
    cell ((m.setMatrix h a rO cO).obj m.rowValues) (i + rO) (j + cO) =
      stored (some ((cell (h.obj a.rowValues) (i + a.rowStart) (j + a.colStart)).getD 0)) := by
  rw [setMatrix_eq h m a rO cO ha1 ha2, runOps_row _ _ _ hne, replay_append,
    ← runOps_row _ _ _ hne, ← zeroize_eq, zeroize_row _ _ _ _ _ _ hne,
    if_pos ⟨by omega, by omega, by omega, by omega⟩,
    replay_cellOps _ hwa (setMatrixOp a rO cO) (rO - a.rowStart) (cO - a.colStart)
      (fun r c v => by simp only [setMatrixOp]; omega)
      (fun r c v => by simp only [setMatrixOp]; omega)]
  rw [show i + rO - (rO - a.rowStart) = i + a.rowStart by omega,
    show j + cO - (cO - a.colStart) = j + a.colStart by omega]
  cases cell (h.obj a.rowValues) (i + a.rowStart) (j + a.colStart) with
  | none => simp [stored_zero]
  | some v => simp [setMatrixOp]

theorem setMatrix_cell_outside (h : Heap) (m a : BigIntMatrix) (rO cO : Int)
    (hne : m.rowValues ≠ m.colValues)
    (ha1 : a.rowValues ≠ m.rowValues) (ha2 : a.rowValues ≠ m.colValues)
    (hca : Confined h a) {x y : Int}
    (hout : ¬ (rO ≤ x ∧ x < rO + a.rows ∧ cO ≤ y ∧ y < cO + a.cols)) :
    cell ((m.setMatrix h a rO cO).obj m.rowValues) x y = cell (h.obj m.rowValues) x y ∧
    cell ((m.setMatrix h a rO cO).obj m.colValues) y x = cell (h.obj m.colValues) y x := by
  have hno : ∀ op ∈ zeroizeOps (h.obj m.rowValues) rO cO a.rows a.cols ++
      cellOps (h.obj a.rowValues) (setMatrixOp a rO cO), ¬ (op.r = x ∧ op.c = y) := by
    intro op hop hxy
    rcases List.mem_append.1 hop with h1 | h1
    · obtain ⟨e, _, f, _, hin, rfl⟩ := mem_zeroizeOps.1 h1
      apply hout
      rw [← hxy.1, ← hxy.2]
      exact hin
    · unfold cellOps at h1
      simp only [List.mem_flatMap, List.mem_map] at h1
      obtain ⟨e, he, f, hf, rfl⟩ := h1
      have hin := hca e he f hf
      apply hout
      have e1 := hxy.1
      have e2 := hxy.2
      simp only [setMatrixOp] at e1 e2
      omega
  rw [setMatrix_eq h m a rO cO ha1 ha2]
  exact ⟨runOps_row_other _ _ _ hne hno, runOps_col_other _ _ _ hne hno⟩

theorem mul_cell_replay (h : Heap) (mat a b : BigIntMatrix) (hne : mat.rowValues ≠ mat.colValues)
    {x y : Int} (hin : mat.rowStart ≤ x ∧ x < mat.rowStart + mat.rows ∧
      mat.colStart ≤ y ∧ y < mat.colStart + mat.cols) :
    cell ((runOps mat h
      (zeroizeOps (h.obj mat.rowValues) mat.rowStart mat.colStart mat.rows mat.cols ++
        mulOps (h.obj a.rowValues) (h.obj b.colValues) mat a b)).obj mat.rowValues) x y =
      replay (mulOps (h.obj a.rowValues) (h.obj b.colValues) mat a b) x y none := by
  rw [runOps_row _ _ _ hne, replay_append, ← runOps_row _ _ _ hne, ← zeroize_eq,
    zeroize_row _ _ _ _ _ _ hne, if_pos hin]

theorem mul_col_outside (h : Heap) (mat a b : BigIntMatrix)
    (hne : mat.rowValues ≠ mat.colValues)
    (hrows : mat.rows = a.rows) (hcols : mat.cols = b.cols) (x y : Int)
    (hout : ¬ (mat.rowStart ≤ x ∧ x < mat.rowStart + mat.rows ∧
      mat.colStart ≤ y ∧ y < mat.colStart + mat.cols)) :
    cell ((runOps mat h
      (zeroizeOps (h.obj mat.rowValues) mat.rowStart mat.colStart mat.rows mat.cols ++
        mulOps (h.obj a.rowValues) (h.obj b.colValues) mat a b)).obj mat.colValues) y x =
      cell (h.obj mat.colValues) y x := by
  apply runOps_col_other _ _ _ hne
  intro op hop hxy
  apply hout
  rcases List.mem_append.1 hop with h1 | h1
  · obtain ⟨e, _, f, _, hin, rfl⟩ := mem_zeroizeOps.1 h1
    rw [← hxy.1, ← hxy.2]
    exact hin
  · obtain ⟨e, _, f, _, hin, rfl⟩ := mem_mulOps.1 h1
    have e1 := hxy.1
    have e2 := hxy.2
    simp only at e1 e2
    omega

/-- C18: for a destination over other map objects than `a` and `b`, with
compatible shapes, `Mul` succeeds; every cell of both maps of the destination's
store outside the destination's rectangle is unchanged, so a parent `P` of which
the destination is a slice reads the same at every position the slice does not
cover; the cells of the destination afterwards are the same whatever the
destination's store held before; and under the hypotheses of C1 each cell reads
the sum over `k` of `a.At(i,k) * b.At(k,j)`, so 0 where that sum is zero. -/
theorem Mul_overwrites_destination (h : Heap) (dst a b : BigIntMatrix)
    (hne : dst.rowValues ≠ dst.colValues) (hsa : Separate dst a) (hsb : Separate dst b)
    (hinner : a.cols = b.rows) (hrows : dst.rows = a.rows) (hcols : dst.cols = b.cols) :
    ∃ h1, dst.Mul h (some a) (some b) false false = some h1 ∧
      (∀ x y, ¬ (dst.rowStart ≤ x ∧ x < dst.rowStart + dst.rows ∧
          dst.colStart ≤ y ∧ y < dst.colStart + dst.cols) →
        cell (h1.obj dst.rowValues) x y = cell (h.obj dst.rowValues) x y ∧
        cell (h1.obj dst.colValues) y x = cell (h.obj dst.colValues) y x) ∧
      (∀ (P : BigIntMatrix) (i0 j0 : Int), P.Slice i0 j0 dst.rows dst.cols = some dst →
        ∀ x y, 0 ≤ x → x < P.rows → 0 ≤ y → y < P.cols →
          ¬ (i0 ≤ x ∧ x < i0 + dst.rows ∧ j0 ≤ y ∧ y < j0 + dst.cols) →
          P.At h1 x y = P.At h x y) ∧
      (∀ hB : Heap, hB.obj a.rowValues = h.obj a.rowValues →
        hB.obj b.colValues = h.obj b.colValues →
        ∃ h2, dst.Mul hB (some a) (some b) false false = some h2 ∧
          ∀ i j, 0 ≤ i → i < dst.rows → 0 ≤ j → j < dst.cols →
            dst.At h2 i j = dst.At h1 i j) ∧
      (WF h a → WF h b → Confined h a → Mirror h b →
        ∀ i j, 0 ≤ i → i < dst.rows → 0 ≤ j → j < dst.cols →
          dst.At h1 i j = some (∑ k in Finset.range a.cols.toNat,
            (a.At h i (k : Int)).getD 0 * (b.At h (k : Int) j).getD 0)) := by
  have ha1 := Ne.symm hsa.1
  have ha2 := Ne.symm hsa.2.2.1
  have hb1 := Ne.symm hsb.2.1
  have hb2 := Ne.symm hsb.2.2.2
  have hrowcell : ∀ x y, ¬ (dst.rowStart ≤ x ∧ x < dst.rowStart + dst.rows ∧
      dst.colStart ≤ y ∧ y < dst.colStart + dst.cols) →
      cell ((runOps dst h
        (zeroizeOps (h.obj dst.rowValues) dst.rowStart dst.colStart dst.rows dst.cols ++
          mulOps (h.obj a.rowValues) (h.obj b.colValues) dst a b)).obj dst.rowValues) x y =
        cell (h.obj dst.rowValues) x y :=
    fun x y hout => mul_cell_outside h dst a b hne hrows hcols x y hout
  rw [Mul_eq_mul h dst a b hinner hrows hcols, mul_eq h dst a b hrows hcols ha1 ha2 hb1 hb2]
  refine ⟨_, rfl, ?_, ?_, ?_, ?_⟩
  · intro x y hout
    exact ⟨hrowcell x y hout, mul_col_outside h dst a b hne hrows hcols x y hout⟩
  · intro P i0 j0 hs x y hx0 hx1 hy0 hy1 hout
    have e := (Slice_some hs).1
    have e1 : dst.rowValues =
        (P.slice (i0 + P.rowStart) (j0 + P.colStart) dst.rows dst.cols).rowValues :=
      congrArg BigIntMatrix.rowValues e
    have e2 : dst.rowStart =
        (P.slice (i0 + P.rowStart) (j0 + P.colStart) dst.rows dst.cols).rowStart :=
      congrArg BigIntMatrix.rowStart e
    have e3 : dst.colStart =
        (P.slice (i0 + P.rowStart) (j0 + P.colStart) dst.rows dst.cols).colStart :=
      congrArg BigIntMatrix.colStart e
    simp only [slice] at e1 e2 e3
    rw [At_eq _ P hx0 hx1 hy0 hy1, At_eq _ P hx0 hx1 hy0 hy1, ← e1,
      hrowcell _ _ (fun hin => hout ⟨by omega, by omega, by omega, by omega⟩)]
  · intro hB eA eB
    rw [Mul_eq_mul hB dst a b hinner hrows hcols, mul_eq hB dst a b hrows hcols ha1 ha2 hb1 hb2]
    refine ⟨_, rfl, ?_⟩
    intro i j hi0 hi1 hj0 hj1
    rw [At_eq _ dst hi0 hi1 hj0 hj1, At_eq _ dst hi0 hi1 hj0 hj1,
      mul_cell_replay hB dst a b hne ⟨by omega, by omega, by omega, by omega⟩,
      mul_cell_replay h dst a b hne ⟨by omega, by omega, by omega, by omega⟩, eA, eB]
  · intro hwa hwb hca hmb i j hi0 hi1 hj0 hj1
    have hmp := mirrorP_of_mirror hmb
    have hcell := mul_cell h dst a b hne hrows hcols hwa.1 hwb.2
      (fun e he _ _ f hf => Or.inl (hca e he f hf).2.2) hi0 (by omega) hj0 (by omega)
    rw [At_eq _ dst hi0 hi1 hj0 hj1, hcell, stored_getD, Option.getD_some]
    congr 1
    apply Finset.sum_congr rfl
    intro k hk
    have hk1 : (k : Int) < a.cols := by
      have := Finset.mem_range.1 hk
      omega
    rw [At_getD h a hi0 (by omega) (Int.ofNat_nonneg k) hk1,
      At_getD h b (Int.ofNat_nonneg k) (by omega) hj0 (by omega), hmp]

/-- C19: for a view `m` whose row map is allocated, `BigIntCopy` returns a
view `c` with the dims of `m` and zero offsets, which reads `m.At(i,j)` at every
in-bounds `(i,j)`; its store holds no cell outside `c`'s shape, in either map;
and `c.Equals(m)` is true when the row map of `m` stores no zero. -/
theorem Copy_copies (h : Heap) (m : BigIntMatrix) (hrow : m.rowValues < h.next) :
    ∃ h1 c, BigIntCopy h m = some (h1, c) ∧ c.Dims = m.Dims ∧
      c.rowStart = 0 ∧ c.colStart = 0 ∧
      (∀ i j, 0 ≤ i → i < m.rows → 0 ≤ j → j < m.cols →
        c.At h1 i j = m.At h i j ∧ m.At h1 i j = m.At h i j) ∧
      (∀ x y, ¬ (0 ≤ x ∧ x < c.rows ∧ 0 ≤ y ∧ y < c.cols) →
        cell (h1.obj c.rowValues) x y = none ∧ cell (h1.obj c.colValues) y x = none) ∧
      (NoStoredZero h m → Equals h1 (some c) (some m) false = true) := by
  have hold : (runOps (fresh h m.rows m.cols).2 (fresh h m.rows m.cols).1
      (copyOps (h.obj m.rowValues) m)).obj m.rowValues = h.obj m.rowValues :=
    runOps_fresh_old h _ _ _ hrow
  have hmir : MirrorP (runOps (fresh h m.rows m.cols).2 (fresh h m.rows m.cols).1
      (copyOps (h.obj m.rowValues) m)) (fresh h m.rows m.cols).2 := by
    apply runOps_mirror _ _ _ (fresh_ne h _ _)
    intro x y
    rw [fresh_row, fresh_col]; rfl
  refine ⟨_, _, BigIntCopy_eq h m hrow, rfl, rfl, rfl, ?_, ?_, ?_⟩
  · intro i j hi0 hi1 hj0 hj1
    refine ⟨?_, At_congr_obj h _ m i j hold⟩
    rw [At_eq _ (fresh h m.rows m.cols).2 hi0 hi1 hj0 hj1, At_eq h m hi0 hi1 hj0 hj1, copy_cell,
      if_pos ⟨by simp only [fresh]; omega, by simp only [fresh]; omega,
        by simp only [fresh]; omega, by simp only [fresh]; omega⟩, stored_getD]
    simp [fresh]
  · intro x y hout
    have hrowcell : cell ((runOps (fresh h m.rows m.cols).2 (fresh h m.rows m.cols).1
        (copyOps (h.obj m.rowValues) m)).obj (fresh h m.rows m.cols).2.rowValues) x y = none := by
      rw [copy_cell]
      exact if_neg hout
    exact ⟨hrowcell, by rw [← hmir]; exact hrowcell⟩
  · intro hnz
    apply Equals_true_of_cells _ (fresh h m.rows m.cols).2 m rfl rfl
    intro i j hi0 hi1 hj0 hj1
    rw [copy_cell, if_pos ⟨by simp only [fresh]; omega, by simp only [fresh] at hi1 ⊢; omega,
      by simp only [fresh]; omega, by simp only [fresh] at hj1 ⊢; omega⟩, hold]
    simp only [fresh, add_zero]
    exact stored_getD_self _ (cell_ne_zero hnz _ _)

theorem Mutates.writes {m : BigIntMatrix} {h h1 : Heap} (hm : Mutates m h h1) :
    Writes m h h1 := by
  rcases hm with ⟨i, j, v, e⟩ | e | ⟨i, j, rows, cols, e⟩ | ⟨a, i, j, e⟩
  · exact Set_writes e
  · rw [e]; exact zeroize_writes m h _ _ _ _
  · exact ZeroizeRange_writes e
  · exact SetMatrix_writes e

/-- C20: for a view `A` over allocated maps, `C = BigIntCopy(A)` refers to map
objects other than `A`'s; from any later heap, a `Set`, `Zeroize`,
`ZeroizeRange` or `SetMatrix` applied to `C` leaves both maps of `A`, and so
every `A.At(i,j)`, unchanged, and such a mutation applied to `A` leaves both
maps of `C` and every `C.At(i,j)` unchanged. -/
theorem Copy_independent (h : Heap) (A : BigIntMatrix) (hrow : A.rowValues < h.next)
    (hcol : A.colValues < h.next) :
    ∃ h1 C, BigIntCopy h A = some (h1, C) ∧ Separate C A ∧
      (∀ h2 h3, Mutates C h2 h3 →
        h3.obj A.rowValues = h2.obj A.rowValues ∧ h3.obj A.colValues = h2.obj A.colValues ∧
        ∀ i j, A.At h3 i j = A.At h2 i j) ∧
      (∀ h2 h3, Mutates A h2 h3 →
        h3.obj C.rowValues = h2.obj C.rowValues ∧ h3.obj C.colValues = h2.obj C.colValues ∧
        ∀ i j, C.At h3 i j = C.At h2 i j) := by
  have hsep : Separate (fresh h A.rows A.cols).2 A := by
    unfold Separate
    simp only [fresh]
    refine ⟨?_, ?_, ?_, ?_⟩ <;> omega
  refine ⟨_, _, BigIntCopy_eq h A hrow, hsep, ?_, ?_⟩
  · intro h2 h3 hm
    have w := hm.writes
    have e1 := w.frame (Ne.symm hsep.1) (Ne.symm hsep.2.2.1)
    have e2 := w.frame (Ne.symm hsep.2.1) (Ne.symm hsep.2.2.2)
    exact ⟨e1, e2, fun i j => At_congr_obj h2 h3 A i j e1⟩
  · intro h2 h3 hm
    have w := hm.writes
    have e1 := w.frame hsep.1 hsep.2.1
    have e2 := w.frame hsep.2.2.1 hsep.2.2.2
    exact ⟨e1, e2, fun i j => At_congr_obj h2 h3 _ i j e1⟩

end BigIntMatrix

/-! ## Failing inputs and witnesses for the claims on Set, SetMatrix, Add, Mul and Copy -/

namespace BigIntMatrix

/-- C15 (failing input): `mat` is a 2×2 zero root and `a` the 1×1 slice at (0,0)
of the 1×2 root `[1,1]`.  `mat.SetMatrix(a,0,0)` succeeds and sets
`mat.At(0,0) = a.At(0,0) = 1`, but it also changes `mat.At(0,1)` from 0 to 1,
an in-bounds position outside the 1×1 sub-region. -/
theorem SetMatrix_changes_cell_outside_subregion :
    (do
      let (h1, mat) ← NewBigIntMat Heap.empty 2 2 []
      let (h2, S) ← NewBigIntMat h1 1 2 [some 1, some 1]
      let a ← S.Slice 0 0 1 1
      let h3 ← mat.SetMatrix h2 a 0 0
      pure (a.Dims, a.At h2 0 0, mat.At h3 0 0, mat.At h2 0 1, mat.At h3 0 1)) =
    some ((1, 1), some 1, some 1, some 0, some 1) := by
  decide

/-- C16 (failing input): `P` is a 2×2 zero root, `mat = P.Slice(0,0,1,1)` and
`a` the 1×1 slice at (0,0) of the 1×2 root `[1,1]`.  After
`mat.SetMatrix(a,0,0)` the cell `(0,1)` of `P`, outside the 1×1 target
rectangle, has changed from 0 to 1. -/
theorem SetMatrix_through_slice_writes_outside_rectangle :
    (do
      let (h1, P) ← NewBigIntMat Heap.empty 2 2 []
      let (h2, S) ← NewBigIntMat h1 1 2 [some 1, some 1]
      let mat ← P.Slice 0 0 1 1
      let a ← S.Slice 0 0 1 1
      let h3 ← mat.SetMatrix h2 a 0 0
      pure (mat.Dims, a.Dims, P.At h2 0 1, P.At h3 0 1)) =
    some ((1, 1), (1, 1), some 0, some 1) := by
  decide

/-- C17 (failing input): `P` is a 2×2 zero root, `dst = P.Slice(0,0,1,1)`, `s`
the 1×1 slice at (0,0) of the 1×2 root `[1,1]` and `z` a 1×1 zero root.  After
`dst.Add(s, z)`, and likewise after `dst.Add(z, s)`, the cell `(0,1)` of `P`,
outside `dst`'s rectangle, has changed from 0 to 1. -/
theorem Add_through_slice_writes_outside_rectangle :
    (do
      let (h1, P) ← NewBigIntMat Heap.empty 2 2 []
      let (h2, S) ← NewBigIntMat h1 1 2 [some 1, some 1]
      let (h3, z) ← NewBigIntMat h2 1 1 []
      let dst ← P.Slice 0 0 1 1
      let s ← S.Slice 0 0 1 1
      let h4 ← dst.Add h3 (some s) (some z) false false
      let h5 ← dst.Add h3 (some z) (some s) false false
      pure (dst.Dims, s.Dims, P.At h3 0 1, P.At h4 0 1, P.At h5 0 1)) =
    some ((1, 1), (1, 1), some 0, some 1, some 1) := by
  decide

/-- C12 witness: `Set(0,1,7)` on `[[1,2],[3,4]]`. -/
theorem Set_then_At_witness :
    ∃ h1, demoA.2.Set demoA.1 0 1 (some 7) = some h1 ∧ demoA.2.At h1 0 1 = some 7 ∧
      demoA.2.At h1 1 0 = some 3 := by
  obtain ⟨⟨h1, e, hat, _, hother⟩, _, _⟩ := Set_then_At demoA.1 demoA.2 0 1 (some 7)
    (by decide) (by decide) (by decide) (by decide) (by decide)
  refine ⟨h1, e, hat, ?_⟩
  rw [hother 1 0 (by decide) (by decide) (by decide) (by decide) (by decide)]
  decide

/-- C13 witness: row index 2 is out of bounds for the 2×2 matrix `[[1,2],[3,4]]`;
`Set(2,0,1)` panics with the heap as it was, in which `At(1,0)` still reads 3. -/
theorem At_Set_bounds_witness :
    demoA.2.At demoA.1 2 0 = none ∧ demoA.2.Set demoA.1 2 0 (some 1) = none ∧
    Panic.Set demoA.1 demoA.2 2 0 (some 1) = Except.error demoA.1 ∧
    demoA.2.At demoA.1 1 0 = some 3 :=
  ⟨(At_Set_bounds demoA.1 demoA.2 2 0 (some 1) (by decide)).1.2 (by decide),
    (At_Set_bounds demoA.1 demoA.2 2 0 (some 1) (by decide)).2.1.2 (by decide),
    (At_Set_bounds demoA.1 demoA.2 2 0 (some 1) (by decide)).2.2.2.2.2.2 (by decide),
    by decide⟩

/-- C14 witness: `ZeroizeRange(1,1,2,2)` on the 4×4 matrix of ones leaves ones
on the border and zeros inside. -/
theorem ZeroizeRange_clears_rectangle_witness :
    (∃ h1, (BigIntIdentity Heap.empty 4).2.ZeroizeRange (BigIntIdentity Heap.empty 4).1 1 1 2 2 =
        some h1 ∧
      (BigIntIdentity Heap.empty 4).2.At h1 1 1 = some 0 ∧
      (BigIntIdentity Heap.empty 4).2.At h1 3 3 = some 1) ∧
    ((NewBigIntMat Heap.empty 4 4 (List.replicate 16 (some 1))).bind (fun r =>
        (r.2.ZeroizeRange r.1 1 1 2 2).map (fun h1 => toRows h1 r.2))) =
      some [[some 1, some 1, some 1, some 1], [some 1, some 0, some 0, some 1],
        [some 1, some 0, some 0, some 1], [some 1, some 1, some 1, some 1]] := by
  obtain ⟨⟨h1, e, hin, hout, _⟩, _⟩ := ZeroizeRange_clears_rectangle
    (BigIntIdentity Heap.empty 4).1 (BigIntIdentity Heap.empty 4).2 1 1 2 2
    (by decide) (by decide) (by decide) (by decide) (by decide) (by decide) (by decide)
  refine ⟨⟨h1, e, hin 1 1 (by decide) (by decide) (by decide) (by decide), ?_⟩, by decide⟩
  rw [hout 3 3 (by decide) (by decide) (by decide) (by decide) (by decide)]
  decide

/-- C18 witness: `P` is the 3×3 root with 9 in every cell and the destination
is its slice `P.Slice(1,1,2,2)`.  The product of `[[1,2],[3,4]]` and
`[[0,1],[1,0]]` is written into the slice, whose cell `(0,0)` reads 2 and no
longer 9; the cells `(0,0)`, `(0,2)` and `(2,0)` of `P`, outside the slice, still
read 9 and are still stored; and the slice reads the same after the same call
in a heap where the store of `P` was empty. -/
theorem Mul_overwrites_destination_witness :
    demoQ.2.Slice 1 1 2 2 = some ⟨4, 5, 2, 1, 2, 1⟩ ∧
    (⟨4, 5, 2, 1, 2, 1⟩ : BigIntMatrix).At demoQ.1 0 0 = some 9 ∧
    ∃ h1, (⟨4, 5, 2, 1, 2, 1⟩ : BigIntMatrix).Mul demoQ.1 (some demoA.2) (some demoB.2)
        false false = some h1 ∧
      (⟨4, 5, 2, 1, 2, 1⟩ : BigIntMatrix).At h1 0 0 = some 2 ∧
      demoQ.2.At h1 0 0 = some 9 ∧ demoQ.2.At h1 0 2 = some 9 ∧ demoQ.2.At h1 2 0 = some 9 ∧
      cell (h1.obj demoQ.2.rowValues) 0 0 = some 9 ∧
      cell (h1.obj demoQ.2.colValues) 0 0 = some 9 ∧
      ∃ h2, (⟨4, 5, 2, 1, 2, 1⟩ : BigIntMatrix).Mul
          ((NewBigIntMat demoB.1 3 3 []).getD demoQ).1 (some demoA.2) (some demoB.2)
          false false = some h2 ∧
        (⟨4, 5, 2, 1, 2, 1⟩ : BigIntMatrix).At h2 0 0 =
          (⟨4, 5, 2, 1, 2, 1⟩ : BigIntMatrix).At h1 0 0 ∧
        (⟨4, 5, 2, 1, 2, 1⟩ : BigIntMatrix).At h2 1 1 =
          (⟨4, 5, 2, 1, 2, 1⟩ : BigIntMatrix).At h1 1 1 := by
  obtain ⟨h1, e, hframe, hP, hindep, hsum⟩ := Mul_overwrites_destination demoQ.1
    ⟨4, 5, 2, 1, 2, 1⟩ demoA.2 demoB.2 (by decide) (by decide) (by decide) (by decide)
    (by decide) (by decide)
  have hslice : demoQ.2.Slice 1 1 2 2 = some ⟨4, 5, 2, 1, 2, 1⟩ := by decide
  obtain ⟨h2, e2, hsame⟩ := hindep ((NewBigIntMat demoB.1 3 3 []).getD demoQ).1
    (by decide) (by decide)
  refine ⟨hslice, by decide, h1, e, ?_, ?_, ?_, ?_, ?_, ?_, h2, e2,
    hsame 0 0 (by decide) (by decide) (by decide) (by decide),
    hsame 1 1 (by decide) (by decide) (by decide) (by decide)⟩
  · rw [hsum (by decide) (by decide) (by decide) (by decide) 0 0 (by decide) (by decide)
      (by decide) (by decide)]
    decide
  · rw [hP demoQ.2 1 1 hslice 0 0 (by decide) (by decide) (by decide) (by decide) (by decide)]
    decide
  · rw [hP demoQ.2 1 1 hslice 0 2 (by decide) (by decide) (by decide) (by decide) (by decide)]
    decide
  · rw [hP demoQ.2 1 1 hslice 2 0 (by decide) (by decide) (by decide) (by decide) (by decide)]
    decide
  · rw [show demoQ.2.rowValues = 4 by decide]
    exact (hframe 0 0 (by decide)).1.trans (by decide)
  · rw [show demoQ.2.colValues = 5 by decide]
    exact (hframe 0 0 (by decide)).2.trans (by decide)

/-- C19 witness: the copy of `[[1,2],[3,4]]`. -/
theorem Copy_copies_witness :
    ∃ h1 c, BigIntCopy demoA.1 demoA.2 = some (h1, c) ∧ c.Dims = (2, 2) ∧
      c.At h1 1 0 = some 3 ∧ Equals h1 (some c) (some demoA.2) false = true := by
  obtain ⟨h1, c, e, hd, _, _, hat, _, heq⟩ := Copy_copies demoA.1 demoA.2 (by decide)
  refine ⟨h1, c, e, hd, ?_, heq (by decide)⟩
  rw [(hat 1 0 (by decide) (by decide) (by decide) (by decide)).1]
  decide

/-- C20 witness: the copy of `[[1,2],[3,4]]` uses other map objects. -/
theorem Copy_independent_witness :
    ∃ h1 C, BigIntCopy demoA.1 demoA.2 = some (h1, C) ∧ Separate C demoA.2 ∧
      ∀ h2, (C.Zeroize h2).obj demoA.2.rowValues = h2.obj demoA.2.rowValues := by
  obtain ⟨h1, C, e, hsep, hC, _⟩ := Copy_independent demoA.1 demoA.2 (by decide) (by decide)
  exact ⟨h1, C, e, hsep, fun h2 => (hC h2 (C.Zeroize h2) (Or.inr (Or.inl rfl))).1⟩

end BigIntMatrix

/-! ## Claims on NewBigIntMat, Equals and BigIntIdentity -/

namespace BigIntMatrix

theorem newMatOps_nil (rows cols : Int) : newMatOps rows cols [] = [] := by
  unfold newMatOps
  simp

theorem newMat_fold (m : BigIntMatrix) (rows cols : Int) (values : List (Option Int))
    (s : Heap) :
    (upto rows).foldl (fun h1 i =>
      (upto cols).foldl (fun h2 j =>
        match values.getD (i * cols + j).toNat none with
        | none => h2
        | some v => m.set h2 i j (some v)) h1) s =
    runOps m s (newMatOps rows cols values) := by
  unfold runOps newMatOps
  rw [foldl_flatMap_eq]
  congr 1
  funext h1 i
  rw [foldl_flatMap_eq]
  congr 1
  funext h2 j
  cases values.getD (i * cols + j).toNat none <;> rfl

theorem NewBigIntMat_eq (h : Heap) (rows cols : Int) (values : List (Option Int))
    (hl : values = [] ∨ (values.length : Int) = rows * cols) :
    NewBigIntMat h rows cols values =
      some (runOps (fresh h rows cols).2 (fresh h rows cols).1 (newMatOps rows cols values),
        (fresh h rows cols).2) := by
  rcases hl with e | e
  · subst e
    rw [NewBigIntMat_nil, newMatOps_nil]
    rfl
  · unfold NewBigIntMat
    rw [if_neg (fun hh => hh.2 e)]
    simp only []
    split
    · have := newMat_fold (fresh h rows cols).2 rows cols values (fresh h rows cols).1
      exact congrArg (fun x => some (x, (fresh h rows cols).2)) this
    · rename_i hlen
      have : values = [] := List.length_eq_zero.1 (by omega)
      subst this
      rw [newMatOps_nil]
      rfl

theorem NewBigIntMat_none_iff (h : Heap) (rows cols : Int) (values : List (Option Int)) :
    NewBigIntMat h rows cols values = none ↔
      values ≠ [] ∧ (values.length : Int) ≠ rows * cols := by
  constructor
  · intro hn
    by_contra hc
    have hl : values = [] ∨ (values.length : Int) = rows * cols := by
      by_cases e : values = []
      · exact Or.inl e
      · right
        by_contra e2
        exact hc ⟨e, e2⟩
    rw [NewBigIntMat_eq h rows cols values hl] at hn
    exact absurd hn (by simp)
  · rintro ⟨h1, h2⟩
    unfold NewBigIntMat
    have : values.length ≠ 0 := fun e => h1 (List.length_eq_zero.1 e)
    rw [if_pos ⟨this, h2⟩]

theorem mem_newMatOps {rows cols : Int} {values : List (Option Int)} {op : Op} :
    op ∈ newMatOps rows cols values ↔
      ∃ i j v, (0 ≤ i ∧ i < rows) ∧ (0 ≤ j ∧ j < cols) ∧
        values.getD (i * cols + j).toNat none = some v ∧ op = ⟨i, j, fun _ => some v⟩ := by
  unfold newMatOps
  simp only [List.mem_flatMap, mem_upto]
  constructor
  · rintro ⟨i, hi, j, hj, hop⟩
    cases hv : values.getD (i * cols + j).toNat none with
    | none => rw [hv] at hop; exact absurd hop (by simp)
    | some v =>
      rw [hv] at hop
      exact ⟨i, j, v, hi, hj, hv, by simpa using hop⟩
  · rintro ⟨i, j, v, hi, hj, hv, rfl⟩
    refine ⟨i, hi, j, hj, ?_⟩
    rw [hv]
    exact List.mem_singleton.2 rfl

theorem newMat_cell (h : Heap) (rows cols : Int) (values : List (Option Int)) (x y : Int) :
    cell ((runOps (fresh h rows cols).2 (fresh h rows cols).1
      (newMatOps rows cols values)).obj (fresh h rows cols).2.rowValues) x y =
      if 0 ≤ x ∧ x < rows ∧ 0 ≤ y ∧ y < cols then
        stored (values.getD (x * cols + y).toNat none)
      else none := by
  rw [runOps_row _ _ _ (fresh_ne h _ _), fresh_row]
  split
  · rename_i hx
    cases hv : values.getD (x * cols + y).toNat none with
    | none =>
      rw [replay_nil_of_forall]
      · rfl
      · intro op hop hxy
        obtain ⟨i, j, v, _, _, hv2, rfl⟩ := mem_newMatOps.1 hop
        have e1 := hxy.1
        have e2 := hxy.2
        simp only at e1 e2
        rw [e1, e2, hv] at hv2
        exact absurd hv2 (by simp)
    | some v =>
      apply replay_const
      · exact ⟨_, mem_newMatOps.2 ⟨x, y, v, ⟨hx.1, hx.2.1⟩, ⟨hx.2.2.1, hx.2.2.2⟩, hv, rfl⟩,
          rfl, rfl⟩
      · intro op hop hxy w
        obtain ⟨i, j, v2, _, _, hv2, rfl⟩ := mem_newMatOps.1 hop
        have e1 := hxy.1
        have e2 := hxy.2
        simp only at e1 e2
        rw [e1, e2, hv] at hv2
        have : v = v2 := Option.some.inj hv2
        rw [this]
  · rename_i hx
    rw [replay_nil_of_forall]
    · rfl
    · intro op hop hxy
      obtain ⟨i, j, v, hi, hj, _, rfl⟩ := mem_newMatOps.1 hop
      apply hx
      have e1 := hxy.1
      have e2 := hxy.2
      simp only at e1 e2
      omega

theorem newMat_mirror (h : Heap) (rows cols : Int) (ops : List Op) :
    MirrorP (runOps (fresh h rows cols).2 (fresh h rows cols).1 ops) (fresh h rows cols).2 := by
  apply runOps_mirror _ _ _ (fresh_ne h rows cols)
  intro x y
  rw [fresh_row, fresh_col]
  rfl

theorem index_lt {rows cols i j : Int} (hi1 : i < rows) (hj0 : 0 ≤ j)
    (hj1 : j < cols) : i * cols + j < rows * cols := by
  have h1 : (i + 1) * cols ≤ rows * cols :=
    mul_le_mul_of_nonneg_right (by omega) (by omega)
  have h2 : (i + 1) * cols = i * cols + cols := by ring
  omega

/-- C23: for all `rows`, `cols`, `NewBigIntMat(rows, cols, values...)` fails exactly
when `values` is non-empty and its length is not `rows * cols`.  Otherwise it
returns a `rows × cols` view with zero offsets; for a non-empty `values` every
index `i * cols + j` is in range and `At(i, j)` reads `values[i * cols + j]`, nil
read as 0; for an empty `values` every `At(i, j)` reads 0; a cell whose value is
nil or zero is absent from both maps, and neither map stores a zero. -/
theorem NewBigIntMat_spec (h : Heap) (rows cols : Int) (values : List (Option Int)) :
    (NewBigIntMat h rows cols values = none ↔
      values ≠ [] ∧ (values.length : Int) ≠ rows * cols) ∧
    (∀ h1 m, NewBigIntMat h rows cols values = some (h1, m) →
      m.Dims = (rows, cols) ∧ m.rowStart = 0 ∧ m.colStart = 0 ∧
      (∀ i j, 0 ≤ i → i < rows → 0 ≤ j → j < cols →
        (values ≠ [] → (i * cols + j).toNat < values.length ∧
          m.At h1 i j = some ((values.getD (i * cols + j).toNat none).getD 0)) ∧
        (values = [] → m.At h1 i j = some 0) ∧
        (isNilOrZero (values.getD (i * cols + j).toNat none) = true →
          cell (h1.obj m.rowValues) i j = none ∧ cell (h1.obj m.colValues) j i = none)) ∧
      (∀ x y, cell (h1.obj m.rowValues) x y ≠ some 0 ∧
        cell (h1.obj m.colValues) y x ≠ some 0)) := by
  refine ⟨NewBigIntMat_none_iff h rows cols values, ?_⟩
  intro h1 m he
  have hl : values = [] ∨ (values.length : Int) = rows * cols := by
    by_cases e : values = []
    · exact Or.inl e
    · right
      by_contra e2
      have := (NewBigIntMat_none_iff h rows cols values).2 ⟨e, e2⟩
      rw [this] at he
      exact absurd he (by simp)
  rw [NewBigIntMat_eq h rows cols values hl] at he
  obtain ⟨e1, e2⟩ := Prod.mk.inj (Option.some.inj he)
  subst e1
  subst e2
  have hmir := newMat_mirror h rows cols (newMatOps rows cols values)
  have hcell := newMat_cell h rows cols values
  refine ⟨rfl, rfl, rfl, ?_, ?_⟩
  · intro i j hi0 hi1 hj0 hj1
    have hat : (fresh h rows cols).2.At (runOps (fresh h rows cols).2 (fresh h rows cols).1
        (newMatOps rows cols values)) i j =
        some ((values.getD (i * cols + j).toNat none).getD 0) := by
      rw [At_eq _ _ hi0 hi1 hj0 hj1]
      show some ((cell _ (i + 0) (j + 0)).getD 0) = _
      rw [add_zero, add_zero, hcell i j, if_pos ⟨hi0, hi1, hj0, hj1⟩, stored_getD]
    refine ⟨?_, ?_, ?_⟩
    · intro hne
      refine ⟨?_, hat⟩
      rcases hl with e | e
      · exact absurd e hne
      · have h1 := index_lt hi1 hj0 hj1
        have h2 : 0 ≤ i * cols := mul_nonneg hi0 (by omega)
        omega
    · intro e
      rw [hat, e]
      rfl
    · intro hz
      have hrow : cell ((runOps (fresh h rows cols).2 (fresh h rows cols).1
          (newMatOps rows cols values)).obj (fresh h rows cols).2.rowValues) i j = none := by
        rw [hcell i j, if_pos ⟨hi0, hi1, hj0, hj1⟩]
        exact stored_of_zero hz
      exact ⟨hrow, by rw [← hmir i j]; exact hrow⟩
  · intro x y
    have hrow : cell ((runOps (fresh h rows cols).2 (fresh h rows cols).1
        (newMatOps rows cols values)).obj (fresh h rows cols).2.rowValues) x y ≠ some 0 := by
      rw [hcell x y]
      split
      · exact stored_ne_zero _
      · simp
    exact ⟨hrow, by rw [← hmir x y]; exact hrow⟩

/-- C23 witness: `NewBigIntMat(2, 2, [1, 0, nil, 4])`. -/
theorem NewBigIntMat_spec_witness :
    ∃ h1 m, NewBigIntMat Heap.empty 2 2 [some 1, some 0, none, some 4] = some (h1, m) ∧
      m.Dims = (2, 2) ∧ m.At h1 1 1 = some 4 ∧ m.At h1 1 0 = some 0 ∧
      cell (h1.obj m.rowValues) 0 1 = none := by
  obtain ⟨⟨h1, m⟩, he⟩ := Option.isSome_iff_exists.1
    (by decide : (NewBigIntMat Heap.empty 2 2 [some 1, some 0, none, some 4]).isSome = true)
  obtain ⟨hd, _, _, hcells, _⟩ := (NewBigIntMat_spec Heap.empty 2 2
    [some 1, some 0, none, some 4]).2 h1 m he
  refine ⟨h1, m, he, hd, ?_, ?_, ?_⟩
  · exact ((hcells 1 1 (by decide) (by decide) (by decide) (by decide)).1 (by simp)).2
  · exact ((hcells 1 0 (by decide) (by decide) (by decide) (by decide)).1 (by simp)).2
  · exact ((hcells 0 1 (by decide) (by decide) (by decide) (by decide)).2.2 (by decide)).1

theorem cells_of_Equals (h : Heap) (x y : BigIntMatrix)
    (he : Equals h (some x) (some y) false = true) :
    (x.rows = y.rows ∧ x.cols = y.cols) ∧
    ∀ i j, 0 ≤ i → i < x.rows → 0 ≤ j → j < x.cols →
      cell (h.obj x.rowValues) (i + x.rowStart) (j + x.colStart) =
        cell (h.obj y.rowValues) (i + y.rowStart) (j + y.colStart) := by
  unfold Equals at he
  simp only [Bool.false_eq_true, if_false] at he
  by_cases hd : x.rows ≠ y.rows ∨ x.cols ≠ y.cols
  · rw [if_pos hd] at he
    exact absurd he (by simp)
  · rw [if_neg hd] at he
    have hr : x.rows = y.rows := by
      by_contra e
      exact hd (Or.inl e)
    have hc : x.cols = y.cols := by
      by_contra e
      exact hd (Or.inr e)
    refine ⟨⟨hr, hc⟩, ?_⟩
    rw [List.all_eq_true] at he
    intro i j hi0 hi1 hj0 hj1
    have h1 := he i (mem_upto.2 ⟨hi0, hi1⟩)
    rw [cell_eq_bind, cell_eq_bind]
    simp only [] at h1
    split at h1
    · rename_i hnn
      simp only [Bool.and_eq_true, Option.isNone_iff_eq_none] at hnn
      rw [hnn.1, hnn.2]
      rfl
    · rw [List.all_eq_true] at h1
      have h2 := h1 j (mem_upto.2 ⟨hj0, hj1⟩)
      revert h2
      cases (mapGet (h.obj x.rowValues) (i + x.rowStart)).bind
          (fun m1 => mapGet m1 (j + x.colStart)) <;>
        cases (mapGet (h.obj y.rowValues) (i + y.rowStart)).bind
          (fun m2 => mapGet m2 (j + y.colStart)) <;> simp

theorem getD_inj {c1 c2 : Option Int} (h1 : c1 ≠ some 0) (h2 : c2 ≠ some 0)
    (e : c1.getD 0 = c2.getD 0) : c1 = c2 := by
  cases c1 with
  | none =>
    cases c2 with
    | none => rfl
    | some w =>
      exfalso
      apply h2
      have : (0 : Int) = w := e
      rw [this]
  | some v =>
    cases c2 with
    | none =>
      exfalso
      apply h1
      have : v = 0 := e
      rw [this]
    | some w =>
      have : v = w := e
      rw [this]

theorem getD_nilOrZero (zs : List (Option Int)) (hz : ∀ z ∈ zs, isNilOrZero z = true)
    (k : Nat) : isNilOrZero (zs.getD k none) = true := by
  induction zs generalizing k with
  | nil => rfl
  | cons x rest ih =>
    cases k with
    | zero => exact hz x (List.mem_cons_self _ _)
    | succ n => exact ih (fun z hzm => hz z (List.mem_cons_of_mem _ hzm)) n

/-- C22: for non-nil views `x` and `y` whose row maps store no zero (the view's
row map is the store's column map for a transpose), with any offsets,
`x.Equals(y)` is true exactly when the dims agree and `x.At(i,j) = y.At(i,j)` at
every in-bounds position; it is false whenever the dims differ; and a matrix
built without values equals, in both directions, one built from a value list
of zeros and nils. -/
theorem Equals_iff_same_cells (h : Heap) (x y : BigIntMatrix) (sameObject : Bool)
    (hso : sameObject = true → x = y) (hx : NoStoredZero h x) (hy : NoStoredZero h y) :
    (Equals h (some x) (some y) sameObject = true ↔
      x.Dims = y.Dims ∧ ∀ i j, 0 ≤ i → i < x.rows → 0 ≤ j → j < x.cols →
        x.At h i j = y.At h i j) ∧
    (x.Dims ≠ y.Dims → Equals h (some x) (some y) sameObject = false) ∧
    (∀ (h0 : Heap) (rows cols : Int) (zs : List (Option Int)),
      (∀ z ∈ zs, isNilOrZero z = true) → (zs.length : Int) = rows * cols →
      ∃ h1 a h2 b, NewBigIntMat h0 rows cols [] = some (h1, a) ∧
        NewBigIntMat h1 rows cols zs = some (h2, b) ∧
        Equals h2 (some a) (some b) false = true ∧
        Equals h2 (some b) (some a) false = true) := by
  have key : Equals h (some x) (some y) sameObject = true ↔
      x.Dims = y.Dims ∧ ∀ i j, 0 ≤ i → i < x.rows → 0 ≤ j → j < x.cols →
        x.At h i j = y.At h i j := by
    cases sameObject with
    | true =>
      have e := hso rfl
      subst e
      exact ⟨fun _ => ⟨rfl, fun _ _ _ _ _ _ => rfl⟩, fun _ => rfl⟩
    | false =>
      constructor
      · intro he
        obtain ⟨⟨hr, hc⟩, hcells⟩ := cells_of_Equals h x y he
        refine ⟨by unfold Dims; rw [hr, hc], ?_⟩
        intro i j hi0 hi1 hj0 hj1
        rw [At_eq h x hi0 hi1 hj0 hj1, At_eq h y hi0 (by omega) hj0 (by omega),
          hcells i j hi0 hi1 hj0 hj1]
      · rintro ⟨hd, hat⟩
        have hr : x.rows = y.rows := congrArg Prod.fst hd
        have hc : x.cols = y.cols := congrArg Prod.snd hd
        apply Equals_true_of_cells h x y hr hc
        intro i j hi0 hi1 hj0 hj1
        have e := hat i j hi0 hi1 hj0 hj1
        rw [At_eq h x hi0 hi1 hj0 hj1, At_eq h y hi0 (by omega) hj0 (by omega)] at e
        exact getD_inj (cell_ne_zero hx _ _) (cell_ne_zero hy _ _) (Option.some.inj e)
  refine ⟨key, ?_, ?_⟩
  · intro hd
    cases he : Equals h (some x) (some y) sameObject with
    | false => rfl
    | true => exact absurd (key.1 he).1 hd
  · intro h0 rows cols zs hz hlen
    refine ⟨(fresh h0 rows cols).1, (fresh h0 rows cols).2, _, _, NewBigIntMat_nil h0 rows cols,
      NewBigIntMat_eq (fresh h0 rows cols).1 rows cols zs (Or.inr hlen), ?_, ?_⟩
    · apply Equals_true_of_cells _ (fresh h0 rows cols).2
        (fresh (fresh h0 rows cols).1 rows cols).2 rfl rfl
      intro i j hi0 hi1 hj0 hj1
      have hi2 : i < rows := hi1
      have hj2 : j < cols := hj1
      show cell _ (i + 0) (j + 0) = cell _ (i + 0) (j + 0)
      rw [add_zero, add_zero, runOps_fresh_old (fresh h0 rows cols).1 rows cols _
        (show (fresh h0 rows cols).2.rowValues < (fresh h0 rows cols).1.next by
          rw [fresh_next]; show h0.next < h0.next + 2; omega), fresh_row, newMat_cell,
        if_pos ⟨hi0, hi2, hj0, hj2⟩, stored_of_zero (getD_nilOrZero zs hz _)]
      rfl
    · apply Equals_true_of_cells _ (fresh (fresh h0 rows cols).1 rows cols).2
        (fresh h0 rows cols).2 rfl rfl
      intro i j hi0 hi1 hj0 hj1
      have hi2 : i < rows := hi1
      have hj2 : j < cols := hj1
      show cell _ (i + 0) (j + 0) = cell _ (i + 0) (j + 0)
      rw [add_zero, add_zero, runOps_fresh_old (fresh h0 rows cols).1 rows cols _
        (show (fresh h0 rows cols).2.rowValues < (fresh h0 rows cols).1.next by
          rw [fresh_next]; show h0.next < h0.next + 2; omega), fresh_row, newMat_cell,
        if_pos ⟨hi0, hi2, hj0, hj2⟩, stored_of_zero (getD_nilOrZero zs hz _)]
      rfl

/-- C22 witness: `[[1,2],[3,4]]` against itself as another object, and against
`[[0,1],[1,0]]`. -/
theorem Equals_iff_same_cells_witness :
    Equals demoB.1 (some demoA.2) (some demoA.2) false = true ∧
    (Equals demoB.1 (some demoA.2) (some demoB.2) false = true ↔
      demoA.2.Dims = demoB.2.Dims ∧ ∀ i j, 0 ≤ i → i < demoA.2.rows → 0 ≤ j →
        j < demoA.2.cols → demoA.2.At demoB.1 i j = demoB.2.At demoB.1 i j) ∧
    Equals demoB.1 (some demoA.2) (some demoB.2) false = false :=
  ⟨((Equals_iff_same_cells demoB.1 demoA.2 demoA.2 false (by decide) (by decide)
      (by decide)).1).2 ⟨rfl, fun _ _ _ _ _ _ => rfl⟩,
    (Equals_iff_same_cells demoB.1 demoA.2 demoB.2 false (by decide) (by decide) (by decide)).1,
    by decide⟩

theorem identityValues_length (N : Nat) : (identityValues N).length = N * N := by
  unfold identityValues
  rw [List.length_map, List.length_range]

theorem identityValues_getD (n i j : Int) (hi0 : 0 ≤ i) (hi1 : i < n) (hj0 : 0 ≤ j)
    (hj1 : j < n) :
    (identityValues n.toNat).getD (i * n + j).toNat none = some (if i = j then 1 else 0) := by
  obtain ⟨N, rfl⟩ := Int.eq_ofNat_of_zero_le (show 0 ≤ n by omega)
  obtain ⟨I, rfl⟩ := Int.eq_ofNat_of_zero_le hi0
  obtain ⟨J, rfl⟩ := Int.eq_ofNat_of_zero_le hj0
  have hI : I < N := by omega
  have hJ : J < N := by omega
  have hk : ((I : Int) * (N : Int) + (J : Int)).toNat = J + I * N := by
    have : ((I : Int) * (N : Int) + (J : Int)) = ((J + I * N : Nat) : Int) := by
      push_cast
      ring
    rw [this, Int.toNat_natCast]
  have hlt : J + I * N < N * N := by
    have : (I + 1) * N ≤ N * N := Nat.mul_le_mul_right N (by omega)
    have h2 : (I + 1) * N = I * N + N := by ring
    omega
  rw [hk, Int.toNat_natCast]
  unfold identityValues
  rw [List.getD_eq_getElem?_getD, List.getElem?_map, List.getElem?_range hlt]
  have hdiv : (J + I * N) / N = I := by
    rw [Nat.add_mul_div_right _ _ (by omega : 0 < N), Nat.div_eq_of_lt hJ, Nat.zero_add]
  have hmod : (J + I * N) % N = J := by
    rw [Nat.add_mul_mod_self_right, Nat.mod_eq_of_lt hJ]
  simp only [Option.map_some', Option.getD_some, hdiv, hmod]
  by_cases e : I = J
  · subst e
    simp
  · have : ¬ ((I : Int) = (J : Int)) := by omega
    simp [e, this]

/-- C24: for `n ≥ 0`, `BigIntIdentity(n)` is an `n × n` view where `At(i, j)`
reads 1 for `i = j` and 0 otherwise, and it equals, in both directions,
`NewBigIntMat(n, n, v...)` for the row-major list `v` with 1 on the diagonal
and 0 elsewhere. -/
theorem BigIntIdentity_spec (h : Heap) (n : Int) (hn : 0 ≤ n) :
    (BigIntIdentity h n).2.Dims = (n, n) ∧
    (∀ i j, 0 ≤ i → i < n → 0 ≤ j → j < n →
      (BigIntIdentity h n).2.At (BigIntIdentity h n).1 i j = some (if i = j then 1 else 0)) ∧
    (∃ h2 m, NewBigIntMat (BigIntIdentity h n).1 n n (identityValues n.toNat) = some (h2, m) ∧
      Equals h2 (some (BigIntIdentity h n).2) (some m) false = true ∧
      Equals h2 (some m) (some (BigIntIdentity h n).2) false = true) := by
  have hcellI := BigIntIdentity_cell h n
  have hlen : ((identityValues n.toNat).length : Int) = n * n := by
    rw [identityValues_length]
    push_cast
    rw [Int.toNat_of_nonneg hn]
  have hcellsEq : ∀ i j, 0 ≤ i → i < n → 0 ≤ j → j < n →
      cell ((runOps (fresh (BigIntIdentity h n).1 n n).2 (fresh (BigIntIdentity h n).1 n n).1
        (newMatOps n n (identityValues n.toNat))).obj (BigIntIdentity h n).2.rowValues) i j =
      cell ((runOps (fresh (BigIntIdentity h n).1 n n).2 (fresh (BigIntIdentity h n).1 n n).1
        (newMatOps n n (identityValues n.toNat))).obj
          (fresh (BigIntIdentity h n).1 n n).2.rowValues) i j := by
    intro i j hi0 hi1 hj0 hj1
    have hlt : (BigIntIdentity h n).2.rowValues < (BigIntIdentity h n).1.next := by
      rw [BigIntIdentity_eq]
      simp only []
      rw [runOps_next, fresh_next]
      show h.next < h.next + 2
      omega
    have hL : cell ((runOps (fresh (BigIntIdentity h n).1 n n).2
        (fresh (BigIntIdentity h n).1 n n).1
        (newMatOps n n (identityValues n.toNat))).obj (BigIntIdentity h n).2.rowValues) i j =
        if i = j then some 1 else none := by
      rw [runOps_fresh_old _ n n _ hlt, hcellI]
      by_cases e : i = j
      · rw [if_pos ⟨e, hi0, hi1⟩, if_pos e]
      · rw [if_neg (fun hh => e hh.1), if_neg e]
    have hR : cell ((runOps (fresh (BigIntIdentity h n).1 n n).2
        (fresh (BigIntIdentity h n).1 n n).1
        (newMatOps n n (identityValues n.toNat))).obj
          (fresh (BigIntIdentity h n).1 n n).2.rowValues) i j =
        if i = j then some 1 else none := by
      rw [newMat_cell, if_pos ⟨hi0, hi1, hj0, hj1⟩, identityValues_getD n i j hi0 hi1 hj0 hj1]
      by_cases e : i = j
      · rw [if_pos e, if_pos e]
        exact stored_some (by decide)
      · rw [if_neg e, if_neg e]
        exact stored_zero
    rw [hL, hR]
  have hdims : (BigIntIdentity h n).2.rows = n ∧ (BigIntIdentity h n).2.cols = n ∧
      (BigIntIdentity h n).2.rowStart = 0 ∧ (BigIntIdentity h n).2.colStart = 0 := by
    rw [BigIntIdentity_eq]
    exact ⟨rfl, rfl, rfl, rfl⟩
  refine ⟨by unfold Dims; rw [hdims.1, hdims.2.1], ?_, ?_⟩
  · intro i j hi0 hi1 hj0 hj1
    rw [At_eq _ _ hi0 (by rw [hdims.1]; exact hi1) hj0 (by rw [hdims.2.1]; exact hj1),
      hdims.2.2.1, hdims.2.2.2, add_zero, add_zero, hcellI]
    by_cases e : i = j
    · rw [if_pos ⟨e, hi0, hi1⟩, if_pos e]
      rfl
    · rw [if_neg (fun hh => e hh.1), if_neg e]
      rfl
  · refine ⟨_, _, NewBigIntMat_eq _ n n _ (Or.inr hlen), ?_, ?_⟩
    · apply Equals_true_of_cells _ _ _ hdims.1 hdims.2.1
      intro i j hi0 hi1 hj0 hj1
      rw [hdims.1] at hi1
      rw [hdims.2.1] at hj1
      rw [hdims.2.2.1, hdims.2.2.2]
      show cell _ (i + 0) (j + 0) = cell _ (i + 0) (j + 0)
      rw [add_zero, add_zero]
      exact hcellsEq i j hi0 hi1 hj0 hj1
    · apply Equals_true_of_cells _ _ _ hdims.1.symm hdims.2.1.symm
      intro i j hi0 hi1 hj0 hj1
      rw [hdims.2.2.1, hdims.2.2.2]
      show cell _ (i + 0) (j + 0) = cell _ (i + 0) (j + 0)
      rw [add_zero, add_zero]
      exact (hcellsEq i j hi0 hi1 hj0 hj1).symm

/-- C24 witness: `BigIntIdentity(2)` against `NewBigIntMat(2, 2, [1, 0, 0, 1])`. -/
theorem BigIntIdentity_spec_witness :
    identityValues 2 = [some 1, some 0, some 0, some 1] ∧
    ∃ h2 m, NewBigIntMat (BigIntIdentity Heap.empty 2).1 2 2 [some 1, some 0, some 0, some 1] =
        some (h2, m) ∧
      Equals h2 (some (BigIntIdentity Heap.empty 2).2) (some m) false = true ∧
      Equals h2 (some m) (some (BigIntIdentity Heap.empty 2).2) false = true :=
  ⟨by decide, (BigIntIdentity_spec Heap.empty 2 (by decide)).2.2⟩

end BigIntMatrix

/-! ## Validation of Mul and Add -/

namespace Panic

theorem foldExc_toOption {α : Type} (f : Heap → α → Except Heap Heap) (l : List α) (s : Heap) :
    (foldExc f l s).toOption = BigIntMatrix.foldOpt (fun s1 x => (f s1 x).toOption) l s := by
  induction l generalizing s with
  | nil => rfl
  | cons x rest ih =>
    unfold foldExc BigIntMatrix.foldOpt
    cases hx : f s x with
    | error e => rfl
    | ok s1 => exact ih s1

theorem Set_toOption (h : Heap) (m : BigIntMatrix) (i j : Int) (v : Option Int) :
    (Set h m i j v).toOption = m.Set h i j v := by
  unfold Set BigIntMatrix.Set
  split
  · rfl
  · split <;> rfl

theorem mul_toOption (h : Heap) (mat a b : BigIntMatrix) :
    (mul h mat a b).toOption = mat.mul h a b := by
  unfold mul BigIntMatrix.mul
  simp only []
  rw [foldExc_toOption]
  congr 1
  funext h1 e
  split
  · rfl
  · rw [foldExc_toOption]
    congr 1
    funext h2 f
    split
    · rfl
    · exact Set_toOption _ _ _ _ _

theorem foldOpt_isSome {α : Type} (f : Heap → α → Option Heap) (l : List α)
    (hf : ∀ s x, x ∈ l → (f s x).isSome = true) (s : Heap) :
    (BigIntMatrix.foldOpt f l s).isSome = true := by
  induction l generalizing s with
  | nil => rfl
  | cons x rest ih =>
    unfold BigIntMatrix.foldOpt
    cases hx : f s x with
    | none =>
      have := hf s x (List.mem_cons_self _ _)
      rw [hx] at this
      exact absurd this (by simp)
    | some s1 => exact ih (fun s2 y hy => hf s2 y (List.mem_cons_of_mem _ hy)) s1

theorem mul_isSome (h : Heap) (mat a b : BigIntMatrix) (hrows : mat.rows = a.rows)
    (hcols : mat.cols = b.cols) : (mat.mul h a b).isSome = true := by
  unfold BigIntMatrix.mul
  apply foldOpt_isSome
  intro s e _
  beta_reduce
  split
  · rfl
  · rename_i he
    apply foldOpt_isSome
    intro s2 f _
    beta_reduce
    split
    · rfl
    · rename_i hf
      simp only [Bool.or_eq_true, decide_eq_true_eq, not_or, not_lt, not_le] at he hf
      rw [BigIntMatrix.Set_eq s2 mat _ (by omega) (by omega) (by omega) (by omega)]
      rfl

theorem mul_ok (h : Heap) (mat a b : BigIntMatrix) (hrows : mat.rows = a.rows)
    (hcols : mat.cols = b.cols) (e : Heap) : mul h mat a b ≠ Except.error e := by
  intro he
  have h1 := mul_toOption h mat a b
  rw [he] at h1
  have h2 := mul_isSome h mat a b hrows hcols
  rw [← h1] at h2
  exact absurd h2 (by simp [Except.toOption])

/-- C27: `dst.Mul(a, b)` and `dst.Add(a, b)` fail exactly under the conditions
that their validation tests, in this order: a nil operand, the destination being
the same object as an operand, and the two shape conditions.  In the embedding
that keeps the heap a panic leaves behind, the results are the same as a value
(`toOption`), and every panic of `Mul` and of `Add` leaves the heap it was
called with: after validation `mul` and `add` never panic. -/
theorem Mul_Add_validate_before_writing (h : Heap) (dst : BigIntMatrix)
    (a b : Option BigIntMatrix) (matIsA matIsB : Bool) :
    (dst.Mul h a b matIsA matIsB = none ↔
      a = none ∨ b = none ∨ matIsA = true ∨ matIsB = true ∨
        ∃ x y, a = some x ∧ b = some y ∧ (x.cols ≠ y.rows ∨ dst.Dims ≠ (x.rows, y.cols))) ∧
    (dst.Add h a b matIsA matIsB = none ↔
      a = none ∨ b = none ∨ matIsA = true ∨ matIsB = true ∨
        ∃ x y, a = some x ∧ b = some y ∧ (x.Dims ≠ y.Dims ∨ dst.Dims ≠ x.Dims)) ∧
    (Mul h dst a b matIsA matIsB).toOption = dst.Mul h a b matIsA matIsB ∧
    (Add h dst a b matIsA matIsB).toOption = dst.Add h a b matIsA matIsB ∧
    (∀ e, Mul h dst a b matIsA matIsB = Except.error e → e = h) ∧
    (∀ e, Add h dst a b matIsA matIsB = Except.error e → e = h) := by
  cases a with
  | none =>
    refine ⟨⟨fun _ => Or.inl rfl, fun _ => ?_⟩, ⟨fun _ => Or.inl rfl, fun _ => ?_⟩, ?_, ?_, ?_, ?_⟩
    · cases b <;> rfl
    · cases b <;> rfl
    · cases b <;> rfl
    · cases b <;> rfl
    · intro e he
      cases b <;> exact (Except.error.inj he).symm
    · intro e he
      cases b <;> exact (Except.error.inj he).symm
  | some x =>
    cases b with
    | none =>
      refine ⟨⟨fun _ => Or.inr (Or.inl rfl), fun _ => rfl⟩,
        ⟨fun _ => Or.inr (Or.inl rfl), fun _ => rfl⟩, rfl, rfl, ?_, ?_⟩
      · intro e he
        exact (Except.error.inj he).symm
      · intro e he
        exact (Except.error.inj he).symm
    | some y =>
      have hdm : dst.Dims ≠ (x.rows, y.cols) ↔ (dst.Dims.1 ≠ x.Dims.1 ∨ dst.Dims.2 ≠ y.Dims.2) := by
        unfold BigIntMatrix.Dims
        simp only [ne_eq, Prod.mk.injEq, not_and_or]
      have hda : x.Dims ≠ y.Dims ↔ (x.rows ≠ y.rows ∨ x.cols ≠ y.cols) := by
        unfold BigIntMatrix.Dims
        simp only [ne_eq, Prod.mk.injEq, not_and_or]
      have hdd : dst.Dims ≠ x.Dims ↔ (dst.rows ≠ x.rows ∨ dst.cols ≠ x.cols) := by
        unfold BigIntMatrix.Dims
        simp only [ne_eq, Prod.mk.injEq, not_and_or]
      refine ⟨?_, ?_, ?_, ?_, ?_, ?_⟩
      · show (if (matIsA || matIsB) = true then none
          else if x.cols ≠ y.rows then none
          else if dst.Dims.1 ≠ x.Dims.1 ∨ dst.Dims.2 ≠ y.Dims.2 then none
          else dst.mul h x y) = none ↔ _
        by_cases h1 : (matIsA || matIsB) = true
        · rw [if_pos h1]
          simp only [Bool.or_eq_true] at h1
          exact ⟨fun _ => Or.inr (Or.inr (by tauto)), fun _ => rfl⟩
        · rw [if_neg h1]
          simp only [Bool.or_eq_true, not_or] at h1
          by_cases h2 : x.cols ≠ y.rows
          · rw [if_pos h2]
            exact ⟨fun _ => Or.inr (Or.inr (Or.inr (Or.inr ⟨x, y, rfl, rfl, Or.inl h2⟩))),
              fun _ => rfl⟩
          · rw [if_neg h2]
            by_cases h3 : dst.Dims.1 ≠ x.Dims.1 ∨ dst.Dims.2 ≠ y.Dims.2
            · rw [if_pos h3]
              exact ⟨fun _ => Or.inr (Or.inr (Or.inr (Or.inr
                ⟨x, y, rfl, rfl, Or.inr (hdm.2 h3)⟩))), fun _ => rfl⟩
            · rw [if_neg h3]
              have hrows : dst.rows = x.rows := by
                by_contra e
                exact h3 (Or.inl e)
              have hcols : dst.cols = y.cols := by
                by_contra e
                exact h3 (Or.inr e)
              have hs := mul_isSome h dst x y hrows hcols
              constructor
              · intro hn
                rw [hn] at hs
                exact absurd hs (by simp)
              · intro hor
                exfalso
                rcases hor with e | e | e | e | ⟨x1, y1, e1, e2, e3⟩
                · exact absurd e (by simp)
                · exact absurd e (by simp)
                · exact h1.1 e
                · exact h1.2 e
                · obtain rfl := Option.some.inj e1
                  obtain rfl := Option.some.inj e2
                  rcases e3 with e3 | e3
                  · exact h2 e3
                  · exact h3 (hdm.1 e3)
      · show (if (matIsA || matIsB) = true then none
          else if x.rows ≠ y.rows ∨ x.cols ≠ y.cols then none
          else if dst.rows ≠ x.rows ∨ dst.cols ≠ x.cols then none
          else some (dst.add h x y)) = none ↔ _
        by_cases h1 : (matIsA || matIsB) = true
        · rw [if_pos h1]
          simp only [Bool.or_eq_true] at h1
          exact ⟨fun _ => Or.inr (Or.inr (by tauto)), fun _ => rfl⟩
        · rw [if_neg h1]
          simp only [Bool.or_eq_true, not_or] at h1
          by_cases h2 : x.rows ≠ y.rows ∨ x.cols ≠ y.cols
          · rw [if_pos h2]
            exact ⟨fun _ => Or.inr (Or.inr (Or.inr (Or.inr
              ⟨x, y, rfl, rfl, Or.inl (hda.2 h2)⟩))), fun _ => rfl⟩
          · rw [if_neg h2]
            by_cases h3 : dst.rows ≠ x.rows ∨ dst.cols ≠ x.cols
            · rw [if_pos h3]
              exact ⟨fun _ => Or.inr (Or.inr (Or.inr (Or.inr
                ⟨x, y, rfl, rfl, Or.inr (hdd.2 h3)⟩))), fun _ => rfl⟩
            · rw [if_neg h3]
              constructor
              · intro hn
                exact absurd hn (by simp)
              · intro hor
                exfalso
                rcases hor with e | e | e | e | ⟨x1, y1, e1, e2, e3⟩
                · exact absurd e (by simp)
                · exact absurd e (by simp)
                · exact h1.1 e
                · exact h1.2 e
                · obtain rfl := Option.some.inj e1
                  obtain rfl := Option.some.inj e2
                  rcases e3 with e3 | e3
                  · exact h2 (hda.1 e3)
                  · exact h3 (hdd.1 e3)
      · show (if (matIsA || matIsB) = true then Except.error h
          else if x.cols ≠ y.rows then Except.error h
          else if dst.Dims.1 ≠ x.Dims.1 ∨ dst.Dims.2 ≠ y.Dims.2 then Except.error h
          else mul h dst x y).toOption =
          (if (matIsA || matIsB) = true then none
          else if x.cols ≠ y.rows then none
          else if dst.Dims.1 ≠ x.Dims.1 ∨ dst.Dims.2 ≠ y.Dims.2 then none
          else dst.mul h x y)
        split
        · rfl
        · split
          · rfl
          · split
            · rfl
            · exact mul_toOption h dst x y
      · show (if (matIsA || matIsB) = true then Except.error h
          else if x.rows ≠ y.rows ∨ x.cols ≠ y.cols then Except.error h
          else if dst.rows ≠ x.rows ∨ dst.cols ≠ x.cols then Except.error h
          else Except.ok (dst.add h x y)).toOption =
          (if (matIsA || matIsB) = true then none
          else if x.rows ≠ y.rows ∨ x.cols ≠ y.cols then none
          else if dst.rows ≠ x.rows ∨ dst.cols ≠ x.cols then none
          else some (dst.add h x y))
        split
        · rfl
        · split
          · rfl
          · split <;> rfl
      · intro e he
        have he2 : (if (matIsA || matIsB) = true then Except.error h
          else if x.cols ≠ y.rows then Except.error h
          else if dst.Dims.1 ≠ x.Dims.1 ∨ dst.Dims.2 ≠ y.Dims.2 then Except.error h
          else mul h dst x y) = Except.error e := he
        split at he2
        · exact (Except.error.inj he2).symm
        · split at he2
          · exact (Except.error.inj he2).symm
          · split at he2
            · exact (Except.error.inj he2).symm
            · rename_i h3
              exfalso
              have hrows : dst.rows = x.rows := by
                by_contra e1
                exact h3 (Or.inl e1)
              have hcols : dst.cols = y.cols := by
                by_contra e1
                exact h3 (Or.inr e1)
              exact mul_ok h dst x y hrows hcols e he2
      · intro e he
        have he2 : (if (matIsA || matIsB) = true then Except.error h
          else if x.rows ≠ y.rows ∨ x.cols ≠ y.cols then Except.error h
          else if dst.rows ≠ x.rows ∨ dst.cols ≠ x.cols then Except.error h
          else Except.ok (dst.add h x y)) = Except.error e := he
        split at he2
        · exact (Except.error.inj he2).symm
        · split at he2
          · exact (Except.error.inj he2).symm
          · split at he2
            · exact (Except.error.inj he2).symm
            · exact absurd he2 (by simp)

end Panic

/-! ## Views of the store of an operand -/

namespace BigIntMatrix

/-- C26 (failing input): with the pointer comparisons true, `Mul` and `Add`
fail; but for `P = NewBigIntMat(1,1,[2])`, `b = NewBigIntMat(1,1,[3])` and the
destinations `P.Slice(0,0,1,1)` and `P.T()`, which are other objects over the
store of `P`, `dst.Mul(P, b)` and `dst.Add(P, b)` return: the destination is
cleared first, so `P` reads 0 after `Mul` and 3 after `Add`. -/
theorem Mul_Add_accept_other_view_of_operand_store :
    (∀ h dst a b matIsA matIsB, matIsA = true ∨ matIsB = true →
      Mul h dst a b matIsA matIsB = none ∧ Add h dst a b matIsA matIsB = none) ∧
    (do
      let (h1, P) ← NewBigIntMat Heap.empty 1 1 [some 2]
      let (h2, b) ← NewBigIntMat h1 1 1 [some 3]
      let dst ← P.Slice 0 0 1 1
      let h3 ← dst.Mul h2 (some P) (some b) false false
      let h4 ← dst.Add h2 (some P) (some b) false false
      let h5 ← P.T.Mul h2 (some P) (some b) false false
      let h6 ← P.T.Add h2 (some P) (some b) false false
      pure (decide (dst.rowValues = P.rowValues),
        [P.At h2 0 0, P.At h3 0 0, P.At h4 0 0, P.At h5 0 0, P.At h6 0 0])) =
    some (true, [some 2, some 0, some 3, some 0, some 3]) := by
  constructor
  · intro h dst a b matIsA matIsB hor
    unfold Mul Add
    cases a <;> cases b <;> rcases hor with e | e <;> simp [e]
  · decide

end BigIntMatrix

/-! ## Negate and the sharing of element objects -/

namespace Ptr

theorem set_keep (s : Mem) (m : BigIntMatrix) (r c q : Int)
    (hne : m.rowValues ≠ m.colValues)
    (hrow : cell (s.maps.obj m.rowValues) r c = some q)
    (hcol : cell (s.maps.obj m.colValues) c r = some q) (hq : s.val q ≠ 0) :
    SameCells m s (set s m r c (some q)) ∧ (set s m r c (some q)).val = s.val := by
  have hz : ¬ isNilOrZero s (some q) = true := by
    simp [isNilOrZero, hq]
  unfold set
  rw [if_neg hz]
  refine ⟨⟨?_, ?_⟩, rfl⟩
  · intro x y
    have e2 : ¬ (m.colValues = m.rowValues) := Ne.symm hne
    simp only [Heap.write, Option.getD_some, hne, if_true, if_false, cell_putCell]
    split
    · rename_i hxy
      rw [hxy.1, hxy.2, hrow]
    · rfl
  · intro x y
    have e2 : ¬ (m.colValues = m.rowValues) := Ne.symm hne
    simp only [Heap.write, Option.getD_some, e2, if_true, if_false, cell_putCell]
    split
    · rename_i hxy
      rw [hxy.1, hxy.2, hcol]
    · rfl

theorem negStep_none (m : BigIntMatrix) (s : Mem) (p : Int × Int)
    (hc : cell (s.maps.obj m.rowValues) (p.1 + m.rowStart) (p.2 + m.colStart) = none) :
    negStep m s p = s := by
  unfold negStep at_
  rw [hc]

theorem negStep_some (m : BigIntMatrix) (s : Mem) (p : Int × Int) (q : Int)
    (hc : cell (s.maps.obj m.rowValues) (p.1 + m.rowStart) (p.2 + m.colStart) = some q) :
    negStep m s p = set (neg s q) m (p.1 + m.rowStart) (p.2 + m.colStart) (some q) := by
  unfold negStep at_
  rw [hc]

theorem negStep_spec (m : BigIntMatrix) (s : Mem) (p : Int × Int) (q : Int)
    (hne : m.rowValues ≠ m.colValues)
    (hmir : ∀ x y, cell (s.maps.obj m.rowValues) x y = cell (s.maps.obj m.colValues) y x)
    (hc : cell (s.maps.obj m.rowValues) (p.1 + m.rowStart) (p.2 + m.colStart) = some q)
    (hq : s.val q ≠ 0) :
    SameCells m s (negStep m s p) ∧
      ∀ t, (negStep m s p).val t = if t = q then - s.val q else s.val t := by
  rw [negStep_some m s p q hc]
  have hq2 : (neg s q).val q ≠ 0 := by
    show (if q = q then - s.val q else s.val q) ≠ 0
    rw [if_pos rfl]
    omega
  have hk := set_keep (neg s q) m (p.1 + m.rowStart) (p.2 + m.colStart) q hne hc
    (by rw [← hc]; exact (hmir _ _).symm) hq2
  refine ⟨hk.1, ?_⟩
  intro t
  rw [hk.2]
  rfl

theorem negate_fold (m : BigIntMatrix) (hne : m.rowValues ≠ m.colValues) :
    ∀ (L : List (Int × Int)) (s : Mem), L.Nodup →
      (∀ x y, cell (s.maps.obj m.rowValues) x y = cell (s.maps.obj m.colValues) y x) →
      (∀ x y q, cell (s.maps.obj m.rowValues) x y = some q → s.val q ≠ 0) →
      (∀ p ∈ L, ∀ p1 ∈ L, ∀ q,
        cell (s.maps.obj m.rowValues) (p.1 + m.rowStart) (p.2 + m.colStart) = some q →
        cell (s.maps.obj m.rowValues) (p1.1 + m.rowStart) (p1.2 + m.colStart) = some q →
        p = p1) →
      SameCells m s (L.foldl (negStep m) s) ∧
      (∀ t, Pointed m s L t → (L.foldl (negStep m) s).val t = - s.val t) ∧
      (∀ t, ¬ Pointed m s L t → (L.foldl (negStep m) s).val t = s.val t) := by
  intro L
  induction L with
  | nil =>
    intro s _ _ _ _
    refine ⟨⟨fun _ _ => rfl, fun _ _ => rfl⟩, ?_, fun _ _ => rfl⟩
    intro t ht
    obtain ⟨p, hp, _⟩ := ht
    exact absurd hp (by simp)
  | cons p rest ih =>
    intro s hnd hmir hnz hinj
    have hp : p ∉ rest := (List.nodup_cons.1 hnd).1
    have hrest : rest.Nodup := (List.nodup_cons.1 hnd).2
    show SameCells m s (rest.foldl (negStep m) (negStep m s p)) ∧
      (∀ t, Pointed m s (p :: rest) t →
        (rest.foldl (negStep m) (negStep m s p)).val t = - s.val t) ∧
      (∀ t, ¬ Pointed m s (p :: rest) t →
        (rest.foldl (negStep m) (negStep m s p)).val t = s.val t)
    cases hc : cell (s.maps.obj m.rowValues) (p.1 + m.rowStart) (p.2 + m.colStart) with
    | none =>
      rw [negStep_none m s p hc]
      obtain ⟨h1, h2, h3⟩ := ih s hrest hmir hnz
        (fun a ha b hb => hinj a (List.mem_cons_of_mem _ ha) b (List.mem_cons_of_mem _ hb))
      refine ⟨h1, ?_, ?_⟩
      · intro t ht
        obtain ⟨p1, hp1, hc1⟩ := ht
        rcases List.mem_cons.1 hp1 with e | e
        · rw [e, hc] at hc1
          exact absurd hc1 (by simp)
        · exact h2 t ⟨p1, e, hc1⟩
      · intro t ht
        exact h3 t (fun ⟨p1, hp1, hc1⟩ => ht ⟨p1, List.mem_cons_of_mem _ hp1, hc1⟩)
    | some q =>
      obtain ⟨hsame, hval⟩ := negStep_spec m s p q hne hmir hc (hnz _ _ q hc)
      have hmir1 : ∀ x y, cell ((negStep m s p).maps.obj m.rowValues) x y =
          cell ((negStep m s p).maps.obj m.colValues) y x := by
        intro x y
        rw [hsame.1 x y, hsame.2 x y]
        exact hmir x y
      have hnz1 : ∀ x y t, cell ((negStep m s p).maps.obj m.rowValues) x y = some t →
          (negStep m s p).val t ≠ 0 := by
        intro x y t ht
        rw [hsame.1 x y] at ht
        rw [hval t]
        split
        · have := hnz _ _ q hc
          omega
        · exact hnz x y t ht
      have hinj1 : ∀ a ∈ rest, ∀ b ∈ rest, ∀ t,
          cell ((negStep m s p).maps.obj m.rowValues) (a.1 + m.rowStart) (a.2 + m.colStart) =
            some t →
          cell ((negStep m s p).maps.obj m.rowValues) (b.1 + m.rowStart) (b.2 + m.colStart) =
            some t → a = b := by
        intro a ha b hb t h1 h2
        rw [hsame.1] at h1 h2
        exact hinj a (List.mem_cons_of_mem _ ha) b (List.mem_cons_of_mem _ hb) t h1 h2
      obtain ⟨h1, h2, h3⟩ := ih (negStep m s p) hrest hmir1 hnz1 hinj1
      have hpt : ∀ t, Pointed m (negStep m s p) rest t ↔ Pointed m s rest t := by
        intro t
        constructor
        · rintro ⟨p1, hp1, hc1⟩
          rw [hsame.1] at hc1
          exact ⟨p1, hp1, hc1⟩
        · rintro ⟨p1, hp1, hc1⟩
          rw [← hsame.1] at hc1
          exact ⟨p1, hp1, hc1⟩
      have hq_not : ¬ Pointed m s rest q := by
        rintro ⟨p1, hp1, hc1⟩
        have e : p1 = p := hinj p1 (List.mem_cons_of_mem _ hp1) p (List.mem_cons_self _ _) q
          hc1 hc
        exact hp (e ▸ hp1)
      refine ⟨⟨fun x y => by rw [h1.1 x y, hsame.1 x y],
        fun x y => by rw [h1.2 x y, hsame.2 x y]⟩, ?_, ?_⟩
      · intro t ht
        obtain ⟨p1, hp1, hc1⟩ := ht
        rcases List.mem_cons.1 hp1 with e | e
        · rw [e, hc] at hc1
          have e2 : q = t := Option.some.inj hc1
          subst e2
          rw [h3 q (fun hh => hq_not ((hpt q).1 hh)), hval q, if_pos rfl]
        · have hne2 : t ≠ q := by
            intro e2
            subst e2
            exact hq_not ⟨p1, e, hc1⟩
          rw [h2 t ((hpt t).2 ⟨p1, e, hc1⟩), hval t, if_neg hne2]
      · intro t ht
        have hne2 : t ≠ q := by
          intro e2
          subst e2
          exact ht ⟨p, List.mem_cons_self _ _, hc⟩
        rw [h3 t (fun hh => ht (by
          obtain ⟨p1, hp1, hc1⟩ := (hpt t).1 hh
          exact ⟨p1, List.mem_cons_of_mem _ hp1, hc1⟩)), hval t, if_neg hne2]

theorem Negate_eq_foldl (s : Mem) (m : BigIntMatrix) :
    Negate s m = (positions m).foldl (negStep m) s := by
  unfold Negate positions
  rw [BigIntMatrix.foldl_flatMap_eq]
  congr 1
  funext s1 i
  rw [List.foldl_map]
  rfl

theorem nodup_upto (n : Int) : (BigIntMatrix.upto n).Nodup := by
  unfold BigIntMatrix.upto
  exact (List.nodup_range _).map (fun a b h => by
    have : (a : Int) = (b : Int) := h
    omega)

theorem nodup_positions (m : BigIntMatrix) : (positions m).Nodup := by
  unfold positions
  rw [List.nodup_flatMap]
  constructor
  · intro i _
    exact (nodup_upto m.cols).map (fun a b h => (Prod.mk.inj h).2)
  · refine (nodup_upto m.rows).imp ?_
    intro a b hab
    intro p hp1 hp2
    obtain ⟨j1, _, e1⟩ := List.mem_map.1 hp1
    obtain ⟨j2, _, e2⟩ := List.mem_map.1 hp2
    rw [← e2] at e1
    exact hab (Prod.mk.inj e1).1

theorem mem_positions {m : BigIntMatrix} {p : Int × Int} :
    p ∈ positions m ↔ (0 ≤ p.1 ∧ p.1 < m.rows) ∧ (0 ≤ p.2 ∧ p.2 < m.cols) := by
  unfold positions
  simp only [List.mem_flatMap, List.mem_map, BigIntMatrix.mem_upto]
  constructor
  · rintro ⟨i, hi, j, hj, rfl⟩
    exact ⟨hi, hj⟩
  · rintro ⟨hi, hj⟩
    exact ⟨p.1, hi, p.2, hj, rfl⟩

theorem distinct_inj {s : Mem} {m : BigIntMatrix} (hd : Distinct s m) :
    ∀ x y x1 y1 q, cell (s.maps.obj m.rowValues) x y = some q →
      cell (s.maps.obj m.rowValues) x1 y1 = some q → x = x1 ∧ y = y1 := by
  intro x y x1 y1 q h1 h2
  obtain ⟨e, he, f, hf, rfl, rfl, hfq⟩ := BigIntMatrix.cell_mem h1
  obtain ⟨e1, he1, f1, hf1, rfl, rfl, hf1q⟩ := BigIntMatrix.cell_mem h2
  unfold Distinct at hd
  rw [List.nodup_flatMap] at hd
  have hee : e = e1 := by
    by_contra hne
    have hdis := hd.2.forall (fun a b hab => hab.symm) he he1 hne
    exact hdis (List.mem_map.2 ⟨f, hf, hfq⟩) (List.mem_map.2 ⟨f1, hf1, hf1q⟩)
  subst hee
  have hff : f = f1 := List.inj_on_of_nodup_map (hd.1 e he) hf hf1 (hfq.trans hf1q.symm)
  subst hff
  exact ⟨rfl, rfl⟩

theorem filterMap_nodup_inj {α β : Type} (g : α → Option β) :
    ∀ (l : List α), (l.filterMap g).Nodup → ∀ a ∈ l, ∀ b ∈ l, ∀ q, g a = some q →
      g b = some q → a = b := by
  intro l
  induction l with
  | nil =>
    intro _ a ha
    exact absurd ha (by simp)
  | cons c rest ih =>
    intro hl a ha b hb q hga hgb
    cases hc : g c with
    | none =>
      rw [List.filterMap_cons_none hc] at hl
      rcases List.mem_cons.1 ha with e | e
      · rw [e, hc] at hga
        exact absurd hga (by simp)
      · rcases List.mem_cons.1 hb with e1 | e1
        · rw [e1, hc] at hgb
          exact absurd hgb (by simp)
        · exact ih hl a e b e1 q hga hgb
    | some v =>
      rw [List.filterMap_cons_some hc] at hl
      obtain ⟨hv, hrest⟩ := List.nodup_cons.1 hl
      rcases List.mem_cons.1 ha with e | e
      · rcases List.mem_cons.1 hb with e1 | e1
        · rw [e, e1]
        · exfalso
          apply hv
          rw [e, hc] at hga
          rw [Option.some.inj hga]
          exact List.mem_filterMap.2 ⟨b, e1, hgb⟩
      · rcases List.mem_cons.1 hb with e1 | e1
        · exfalso
          apply hv
          rw [e1, hc] at hgb
          rw [Option.some.inj hgb]
          exact List.mem_filterMap.2 ⟨a, e, hga⟩
        · exact ih hrest a e b e1 q hga hgb

theorem AtVal_eq (s : Mem) (m : BigIntMatrix) {i j : Int} (hi0 : 0 ≤ i) (hi1 : i < m.rows)
    (hj0 : 0 ≤ j) (hj1 : j < m.cols) :
    AtVal s m i j = some ((read s m.rowValues (i + m.rowStart) (j + m.colStart)).getD 0) := by
  unfold AtVal At
  rw [BigIntMatrix.checkRowBounds_eq_true hi0 hi1, BigIntMatrix.checkColBounds_eq_true hj0 hj1]
  unfold at_ read
  cases cell (s.maps.obj m.rowValues) (i + m.rowStart) (j + m.colStart) with
  | none =>
    show some (if s.nextInt = s.nextInt then (0 : Int) else s.val s.nextInt) = some 0
    rw [if_pos rfl]
  | some p => rfl

theorem read_congr {s s1 : Mem} {a : Nat} {x y : Int}
    (hc : cell (s1.maps.obj a) x y = cell (s.maps.obj a) x y)
    (hv : ∀ t, cell (s.maps.obj a) x y = some t → s1.val t = s.val t) :
    read s1 a x y = read s a x y := by
  unfold read
  rw [hc]
  cases h : cell (s.maps.obj a) x y with
  | none => rfl
  | some t =>
    show some (s1.val t) = some (s.val t)
    rw [hv t h]

theorem pointed_of_inside {s : Mem} {m : BigIntMatrix} {i j t : Int} (hi0 : 0 ≤ i)
    (hi1 : i < m.rows) (hj0 : 0 ≤ j) (hj1 : j < m.cols)
    (hc : cell (s.maps.obj m.rowValues) (i + m.rowStart) (j + m.colStart) = some t) :
    Pointed m s (positions m) t :=
  ⟨(i, j), mem_positions.2 ⟨⟨hi0, hi1⟩, ⟨hj0, hj1⟩⟩, hc⟩

theorem negate_facts (s : Mem) (m : BigIntMatrix) (hne : m.rowValues ≠ m.colValues)
    (hmir : ∀ x y, cell (s.maps.obj m.rowValues) x y = cell (s.maps.obj m.colValues) y x)
    (hnz : ∀ x y q, cell (s.maps.obj m.rowValues) x y = some q → s.val q ≠ 0)
    (hinj : ∀ p ∈ positions m, ∀ p1 ∈ positions m, ∀ q,
      cell (s.maps.obj m.rowValues) (p.1 + m.rowStart) (p.2 + m.colStart) = some q →
      cell (s.maps.obj m.rowValues) (p1.1 + m.rowStart) (p1.2 + m.colStart) = some q →
      p = p1) :
    SameCells m s (Negate s m) ∧
    (∀ t, Pointed m s (positions m) t → (Negate s m).val t = - s.val t) ∧
    (∀ t, ¬ Pointed m s (positions m) t → (Negate s m).val t = s.val t) := by
  rw [Negate_eq_foldl]
  exact negate_fold m hne (positions m) s (nodup_positions m) hmir hnz hinj

/-- C25: for a view `m` over two distinct maps that mirror each other and hold
no zero, whose cells hold pairwise distinct element objects: after `Negate`,
`At(i, j)` reads the negation of what it read before at every in-bounds
position; every cell of both maps holds the same element as before, so absent
cells stay absent; a cell of the store whose element sits in no cell of `m`
holds the same integer as before, which is every cell outside the rectangle of
`m` when no element sits in two cells of the store; and after a second `Negate`
every cell of the store holds its original integer. -/
theorem Negate_negates (s : Mem) (m : BigIntMatrix) (hne : m.rowValues ≠ m.colValues)
    (hmir : BigIntMatrix.Mirror s.maps m) (hnz : NoZeroElem s m) (hd : DistinctIn s m) :
    (∀ i j, 0 ≤ i → i < m.rows → 0 ≤ j → j < m.cols →
      AtVal (Negate s m) m i j = (AtVal s m i j).map (fun v => -v)) ∧
    (∀ x y, cell ((Negate s m).maps.obj m.rowValues) x y = cell (s.maps.obj m.rowValues) x y ∧
      cell ((Negate s m).maps.obj m.colValues) y x = cell (s.maps.obj m.colValues) y x) ∧
    (∀ x y, (∀ t, cell (s.maps.obj m.rowValues) x y = some t →
        ¬ Pointed m s (positions m) t) →
      read (Negate s m) m.rowValues x y = read s m.rowValues x y ∧
      read (Negate s m) m.colValues y x = read s m.colValues y x) ∧
    (Distinct s m → ∀ x y, ¬ (m.rowStart ≤ x ∧ x < m.rowStart + m.rows ∧
        m.colStart ≤ y ∧ y < m.colStart + m.cols) →
      read (Negate s m) m.rowValues x y = read s m.rowValues x y ∧
      read (Negate s m) m.colValues y x = read s m.colValues y x) ∧
    (∀ x y, read (Negate (Negate s m) m) m.rowValues x y = read s m.rowValues x y ∧
      read (Negate (Negate s m) m) m.colValues y x = read s m.colValues y x) := by
  have hmirP : ∀ x y, cell (s.maps.obj m.rowValues) x y = cell (s.maps.obj m.colValues) y x :=
    BigIntMatrix.mirrorP_of_mirror hmir
  have hnzP : ∀ x y q, cell (s.maps.obj m.rowValues) x y = some q → s.val q ≠ 0 := by
    intro x y q hc
    obtain ⟨e, he, f, hf, _, _, hfq⟩ := BigIntMatrix.cell_mem hc
    rw [← hfq]
    exact hnz e he f hf
  have hinj : ∀ p ∈ positions m, ∀ p1 ∈ positions m, ∀ q,
      cell (s.maps.obj m.rowValues) (p.1 + m.rowStart) (p.2 + m.colStart) = some q →
      cell (s.maps.obj m.rowValues) (p1.1 + m.rowStart) (p1.2 + m.colStart) = some q →
      p = p1 :=
    filterMap_nodup_inj _ (positions m) hd
  obtain ⟨hsame, hneg, hkeep⟩ := negate_facts s m hne hmirP hnzP hinj
  have hpt : ∀ t, Pointed m (Negate s m) (positions m) t ↔ Pointed m s (positions m) t := by
    intro t
    constructor
    · rintro ⟨p1, hp1, hc1⟩
      rw [hsame.1] at hc1
      exact ⟨p1, hp1, hc1⟩
    · rintro ⟨p1, hp1, hc1⟩
      rw [← hsame.1] at hc1
      exact ⟨p1, hp1, hc1⟩
  have hmir1 : ∀ x y, cell ((Negate s m).maps.obj m.rowValues) x y =
      cell ((Negate s m).maps.obj m.colValues) y x := by
    intro x y
    rw [hsame.1 x y, hsame.2 x y]
    exact hmirP x y
  have hnz1 : ∀ x y q, cell ((Negate s m).maps.obj m.rowValues) x y = some q →
      (Negate s m).val q ≠ 0 := by
    intro x y q hc
    rw [hsame.1 x y] at hc
    have h0 := hnzP x y q hc
    by_cases hp : Pointed m s (positions m) q
    · rw [hneg q hp]
      omega
    · rw [hkeep q hp]
      exact h0
  have hinj1 : ∀ p ∈ positions m, ∀ p1 ∈ positions m, ∀ q,
      cell ((Negate s m).maps.obj m.rowValues) (p.1 + m.rowStart) (p.2 + m.colStart) =
        some q →
      cell ((Negate s m).maps.obj m.rowValues) (p1.1 + m.rowStart) (p1.2 + m.colStart) =
        some q → p = p1 := by
    intro p hp p1 hp1 q h1 h2
    rw [hsame.1] at h1 h2
    exact hinj p hp p1 hp1 q h1 h2
  obtain ⟨hsame2, hneg2, hkeep2⟩ := negate_facts (Negate s m) m hne hmir1 hnz1 hinj1
  have hrow1 : ∀ x y, (∀ t, cell (s.maps.obj m.rowValues) x y = some t →
      ¬ Pointed m s (positions m) t) →
      read (Negate s m) m.rowValues x y = read s m.rowValues x y := by
    intro x y hout
    apply read_congr (hsame.1 x y)
    intro t ht
    exact hkeep t (hout t ht)
  have hrow2 : ∀ x y, read (Negate (Negate s m) m) m.rowValues x y = read s m.rowValues x y := by
    intro x y
    apply read_congr ((hsame2.1 x y).trans (hsame.1 x y))
    intro t _
    by_cases hp : Pointed m s (positions m) t
    · rw [hneg2 t ((hpt t).2 hp), hneg t hp]
      omega
    · rw [hkeep2 t (fun hh => hp ((hpt t).1 hh)), hkeep t hp]
  have hcol : ∀ (s1 : Mem),
      (∀ x y, cell (s1.maps.obj m.rowValues) x y = cell (s1.maps.obj m.colValues) y x) →
      ∀ x y, read s1 m.rowValues x y = read s m.rowValues x y →
        read s1 m.colValues y x = read s m.colValues y x := by
    intro s1 hm1 x y hr
    unfold read at hr ⊢
    rw [← hm1 x y, ← hmirP x y]
    exact hr
  refine ⟨?_, fun x y => ⟨hsame.1 x y, hsame.2 x y⟩, ?_, ?_, ?_⟩
  · intro i j hi0 hi1 hj0 hj1
    rw [AtVal_eq _ m hi0 hi1 hj0 hj1, AtVal_eq s m hi0 hi1 hj0 hj1]
    unfold read
    rw [hsame.1]
    cases hc : cell (s.maps.obj m.rowValues) (i + m.rowStart) (j + m.colStart) with
    | none =>
      show some (0 : Int) = some (-0)
      rw [neg_zero]
    | some t =>
      show some ((Negate s m).val t) = some (- s.val t)
      rw [hneg t (pointed_of_inside hi0 hi1 hj0 hj1 hc)]
  · intro x y hout
    exact ⟨hrow1 x y hout, hcol _ hmir1 x y (hrow1 x y hout)⟩
  · intro hall x y hout
    have hfree : ∀ t, cell (s.maps.obj m.rowValues) x y = some t →
        ¬ Pointed m s (positions m) t := by
      intro t ht
      rintro ⟨p, hp, hc⟩
      obtain ⟨hp1, hp2⟩ := mem_positions.1 hp
      have := distinct_inj hall _ _ _ _ t hc ht
      apply hout
      omega
    exact ⟨hrow1 x y hfree, hcol _ hmir1 x y (hrow1 x y hfree)⟩
  · intro x y
    refine ⟨hrow2 x y, hcol _ ?_ x y (hrow2 x y)⟩
    intro a b
    rw [hsame2.1 a b, hsame2.2 a b]
    exact hmir1 a b

/-- C25 witness: `Negate` on the slice of the first column of `[[5,-6],[7,8]]`,
whose four elements are four objects. -/
theorem Negate_negates_witness :
    AtVal (Negate demoP.1 (demoP.2.slice 0 0 2 1)) (demoP.2.slice 0 0 2 1) 1 0 =
      (AtVal demoP.1 (demoP.2.slice 0 0 2 1) 1 0).map (fun v => -v) ∧
    read (Negate demoP.1 (demoP.2.slice 0 0 2 1)) demoP.2.rowValues 0 1 =
      read demoP.1 demoP.2.rowValues 0 1 ∧
    [AtVal demoP.1 demoP.2 1 0, AtVal (Negate demoP.1 (demoP.2.slice 0 0 2 1)) demoP.2 1 0,
      AtVal (Negate demoP.1 (demoP.2.slice 0 0 2 1)) demoP.2 0 1] =
      [some 7, some (-7), some (-6)] :=
  ⟨(Negate_negates demoP.1 (demoP.2.slice 0 0 2 1) (by decide) (by decide) (by decide)
      (by decide)).1 1 0 (by decide) (by decide) (by decide) (by decide),
    ((Negate_negates demoP.1 (demoP.2.slice 0 0 2 1) (by decide) (by decide) (by decide)
      (by decide)).2.2.2.1 (by decide) 0 1 (by decide)).1,
    by decide⟩

/-- C25 (counterexample): the element `e` holds 5, `P = NewBigIntMat(1,2,e,e)`
holds `e` in both cells and `m = P.Slice(0,0,1,1)`.  The one cell of `m` holds
pairwise distinct elements, the maps mirror each other and hold no zero; after
`m.Negate()` the cell `(0,1)` of `P`, outside the rectangle of `m`, reads -5
instead of 5. -/
theorem Negate_changes_cell_sharing_element :
    (do
      let (s1, P) ← NewBigIntMat (newInt Mem.empty 5).1 1 2 [some 1, some 1]
      let m ← P.Slice 0 0 1 1
      pure (decide (DistinctIn s1 m ∧ BigIntMatrix.Mirror s1.maps m ∧ NoZeroElem s1 m),
        m.Dims, [AtVal s1 P 0 1, AtVal (Negate s1 m) P 0 1, AtVal (Negate s1 m) m 0 0])) =
    some (true, (1, 1), [some 5, some (-5), some (-5)]) := by
  decide

/-- C21 (failing input): the element `e` holds 7, `A = NewBigIntMat(1,1,e)`,
`C = BigIntCopy(A)`.  `BigIntCopy` hands the pointer returned by `A.At(0,0)` to
`set`, so `C` stores `e` itself; after `C.Negate()` not only `C.At(0,0)` but
also `A.At(0,0)` reads -7. -/
theorem Copy_shares_elements_with_original :
    (do
      let (s1, A) ← NewBigIntMat (newInt Mem.empty 7).1 1 1 [some (newInt Mem.empty 7).2]
      let (s2, C) ← BigIntCopy s1 A
      pure ([AtVal s1 A 0 0, AtVal s2 A 0 0, AtVal s2 C 0 0],
        decide (at_ s2 A 0 0 = at_ s2 C 0 0), decide (A.rowValues ≠ C.rowValues),
        [AtVal (Negate s2 C) A 0 0, AtVal (Negate s2 C) C 0 0])) =
    some ([some 7, some 7, some 7], true, true, [some (-7), some (-7)]) := by
  decide

end Ptr

/-! ## Failing inputs of the row vector methods -/

namespace BigIntVector

/-- C28 (failing input): `a` and `b` are the slices of length 1 at index 0 of
two vectors `[1,1]`.  Their only elements are 1 and 1, so the dot product is 1,
but `a.Dot(b)` returns 2: `mul` also multiplies the cells at column 1, which lie
outside both slices. -/
theorem Dot_reads_cells_outside_slices :
    (do
      let (h1, v) ← NewBigIntVec Heap.empty 2 [some 1, some 1]
      let (h2, w) ← NewBigIntVec h1 2 [some 1, some 1]
      let a ← v.Slice 0 1
      let b ← w.Slice 0 1
      let (_, d) ← a.Dot h2 b
      pure (a.Len, b.Len, a.mat.At h2 0 0, b.mat.At h2 0 0, d)) =
    some (1, 1, some 1, some 1, 2) := by
  decide

/-- C29 (failing input): `v = NewBigIntVec(3,[1,2,3]).Slice(1,2)` has the
elements 2 and 3.  `v.At(0)` reads 1, the cell at absolute column 0, and after
`v.Set(0, 9)`, which writes absolute column 1, `v.At(0)` still reads 1. -/
theorem Vector_At_ignores_offset :
    (do
      let (h1, v0) ← NewBigIntVec Heap.empty 3 [some 1, some 2, some 3]
      let v ← v0.Slice 1 2
      let h2 ← v.Set h1 0 (some 9)
      pure (v.Len, [v.mat.At h1 0 0, v.At h1 0, v.At h2 0, v.mat.At h2 0 0],
        [v0.At h2 0, v0.At h2 1, v0.At h2 2])) =
    some (2, [some 2, some 1, some 1, some 9], [some 1, some 9, some 3]) := by
  decide

/-- C30 (failing input): `M = NewBigIntMat(2,2,[1,2,3,4])`, `v = M.Row(1)` has
the elements 3 and 4, and `s = v.Slice(0,1)`.  The slice starts at row 0 of the
store: it does not equal the vector `[3]`, it reads `M[0][0] = 1`, and
`s.Set(0, 9)` changes `M.At(0,0)` and leaves `M.At(1,0)`, the element 0 of `v`. -/
theorem Vector_Slice_of_row_views_row_zero :
    (do
      let (h1, M) ← BigIntMatrix.NewBigIntMat Heap.empty 2 2 [some 1, some 2, some 3, some 4]
      let v ← M.Row 1
      let s ← v.Slice 0 1
      let (h2, e) ← NewBigIntVec h1 1 [some 3]
      let h3 ← s.Set h2 0 (some 9)
      pure (s.Len, s.Equals h2 e false false, [v.mat.At h2 0 0, s.mat.At h2 0 0],
        [M.At h3 0 0, M.At h3 1 0, v.mat.At h3 0 0])) =
    some (1, false, [some 3, some 1], [some 9, some 3, some 3]) := by
  decide

end BigIntVector

/-! ## Row and column vectors of a matrix -/

namespace BigIntMatrix

theorem set_slice (h : Heap) (m : BigIntMatrix) (r0 c0 rows cols r c : Int) (v : Option Int) :
    (m.slice r0 c0 rows cols).set h r c v = m.set h r c v := rfl

theorem At_congr_cell (h h1 : Heap) (m : BigIntMatrix) (i j : Int)
    (hc : cell (h1.obj m.rowValues) (i + m.rowStart) (j + m.colStart) =
      cell (h.obj m.rowValues) (i + m.rowStart) (j + m.colStart)) :
    m.At h1 i j = m.At h i j := by
  unfold At at_
  rw [hc]

theorem At_after_set (h : Heap) (m : BigIntMatrix) (hne : m.rowValues ≠ m.colValues)
    (i j : Int) (x : Option Int) (hi0 : 0 ≤ i) (hi1 : i < m.rows) (hj0 : 0 ≤ j)
    (hj1 : j < m.cols) :
    m.At (m.set h (i + m.rowStart) (j + m.colStart) x) i j = some (x.getD 0) ∧
    ∀ i1 j1, ¬ (i1 = i ∧ j1 = j) →
      m.At (m.set h (i + m.rowStart) (j + m.colStart) x) i1 j1 = m.At h i1 j1 := by
  constructor
  · rw [At_eq _ m hi0 hi1 hj0 hj1, set_row _ _ _ _ _ hne, if_pos ⟨rfl, rfl⟩, stored_getD]
  · intro i1 j1 hd
    apply At_congr_cell
    rw [set_row _ _ _ _ _ hne, if_neg (fun e => hd ⟨by omega, by omega⟩)]

theorem Row_some {m : BigIntMatrix} {i : Int} {r : BigIntVector} (hr : m.Row i = some r) :
    r = ⟨m.slice (i + m.rowStart) (0 + m.colStart) 1 m.cols⟩ ∧ 0 ≤ i ∧ i < m.rows := by
  unfold Row at hr
  split at hr
  · exact absurd hr (by simp)
  · cases hs : m.Slice i 0 1 m.cols with
    | none => rw [hs] at hr; exact absurd hr (by simp)
    | some s =>
      rw [hs] at hr
      obtain ⟨e, _, _, h0, _, h1, _⟩ := Slice_some hs
      refine ⟨?_, h0, by omega⟩
      rw [← Option.some.inj hr, e]

theorem Column_some {m : BigIntMatrix} {j : Int} {t : TransposedBigIntVector}
    (ht : m.Column j = some t) :
    t = ⟨m.slice (0 + m.rowStart) (j + m.colStart) m.rows 1⟩ ∧ 0 ≤ j ∧ j < m.cols := by
  unfold Column at ht
  split at ht
  · exact absurd ht (by simp)
  · cases hs : m.Slice 0 j m.rows 1 with
    | none => rw [hs] at ht; exact absurd ht (by simp)
    | some s =>
      rw [hs] at ht
      obtain ⟨e, _, _, _, h0, _, h1⟩ := Slice_some hs
      refine ⟨?_, h0, by omega⟩
      rw [← Option.some.inj ht, e]

end BigIntMatrix

namespace BigIntVector

theorem checkBounds_eq_true {v : BigIntVector} {i : Int} (h0 : 0 ≤ i) (h1 : i < v.Len) :
    v.checkBounds i = true := by
  simp [checkBounds]; omega

theorem checkBounds_eq_false {v : BigIntVector} {i : Int} (h0 : i < 0 ∨ i ≥ v.Len) :
    v.checkBounds i = false := by
  simp [checkBounds]; omega

theorem Set_none_iff_bounds (h : Heap) (v : BigIntVector) (k : Int) (x : Option Int) :
    v.Set h k x = none ↔ k < 0 ∨ k ≥ v.Len := by
  unfold Set
  by_cases hb : k < 0 ∨ k ≥ v.Len
  · rw [checkBounds_eq_false hb]
    simp [hb]
  · rw [checkBounds_eq_true (by omega) (by omega)]
    simp [hb]

end BigIntVector

namespace TransposedBigIntVector

theorem checkBounds_tvec_true {v : TransposedBigIntVector} {i : Int} (h0 : 0 ≤ i)
    (h1 : i < v.Len) : v.checkBounds i = true := by
  simp [checkBounds]; omega

theorem checkBounds_tvec_false {v : TransposedBigIntVector} {i : Int} (h0 : i < 0 ∨ i ≥ v.Len) :
    v.checkBounds i = false := by
  simp [checkBounds]; omega

theorem At_tvec_eq (h : Heap) (t : TransposedBigIntVector) (hc : t.mat.cols = 1) {i : Int}
    (h0 : 0 ≤ i) (h1 : i < t.Len) :
    t.At h i = some ((cell (h.obj t.mat.rowValues) (i + t.mat.rowStart)
      (0 + t.mat.colStart)).getD 0) := by
  unfold At
  rw [checkBounds_tvec_true h0 h1]
  exact BigIntMatrix.At_eq h t.mat h0 h1 (le_refl 0) (by rw [hc]; decide)

theorem At_tvec_none (h : Heap) (t : TransposedBigIntVector) {i : Int}
    (hb : i < 0 ∨ i ≥ t.Len) : t.At h i = none := by
  unfold At
  rw [checkBounds_tvec_false hb]
  rfl

theorem Set_tvec_eq (h : Heap) (t : TransposedBigIntVector) (hc : t.mat.cols = 1) {i : Int}
    (x : Option Int) (h0 : 0 ≤ i) (h1 : i < t.Len) :
    t.Set h i x = some (t.mat.set h (i + t.mat.rowStart) (0 + t.mat.colStart) x) := by
  unfold Set
  rw [checkBounds_tvec_true h0 h1]
  exact BigIntMatrix.Set_eq h t.mat x h0 h1 (le_refl 0) (by rw [hc]; decide)

theorem Set_tvec_none_iff (h : Heap) (t : TransposedBigIntVector) (hc : t.mat.cols = 1)
    (k : Int) (x : Option Int) : t.Set h k x = none ↔ k < 0 ∨ k ≥ t.Len := by
  by_cases hb : k < 0 ∨ k ≥ t.Len
  · unfold Set
    rw [checkBounds_tvec_false hb]
    simp [hb]
  · rw [Set_tvec_eq h t hc x (by omega) (by omega)]
    simp [hb]

theorem wrapInt_eq {x : Int} (h0 : -maxInt - 1 ≤ x) (h1 : x ≤ maxInt) : wrapInt x = x := by
  unfold wrapInt
  unfold maxInt at h0 h1
  omega

theorem wrapInt_overflow {x : Int} (h0 : maxInt < x) (h1 : x ≤ 2 * maxInt + 1) :
    wrapInt x = x - 2 * maxInt - 2 := by
  unfold wrapInt
  unfold maxInt at h0 h1 ⊢
  omega

theorem Slice_tvec_none_iff (t : TransposedBigIntVector) (j n : Int) (hov : j + n ≤ maxInt) :
    t.Slice j n = none ↔ n ≤ 0 ∨ j < 0 ∨ j ≥ t.Len ∨ j + n > t.Len := by
  unfold Slice
  by_cases hn : n ≤ 0
  · simp [hn]
  · rw [if_neg hn]
    by_cases hb : j < 0 ∨ j ≥ t.Len
    · rw [checkBounds_tvec_false hb]
      simp only [Bool.not_false, if_true, true_iff]
      omega
    · rw [checkBounds_tvec_true (by omega) (by omega)]
      simp only [Bool.not_true, Bool.false_eq_true, if_false]
      rw [wrapInt_eq (by unfold maxInt; omega) hov]
      by_cases hl : j + n > t.Len
      · simp [hl]
      · rw [if_neg hl]
        constructor
        · intro e; exact absurd e (by simp)
        · intro e; exfalso; omega

theorem Slice_tvec_some {t s : TransposedBigIntVector} {j n : Int} (hov : j + n ≤ maxInt)
    (hs : t.Slice j n = some s) :
    s = ⟨t.mat.slice (t.mat.rowStart + j) t.mat.colStart n 1⟩ ∧
      0 < n ∧ 0 ≤ j ∧ j + n ≤ t.Len := by
  have hnn : ¬ (n ≤ 0 ∨ j < 0 ∨ j ≥ t.Len ∨ j + n > t.Len) := by
    intro e
    rw [(Slice_tvec_none_iff t j n hov).2 e] at hs
    exact absurd hs (by simp)
  refine ⟨?_, by omega, by omega, by omega⟩
  unfold Slice at hs
  rw [if_neg (by omega), checkBounds_tvec_true (by omega) (by omega)] at hs
  simp only [Bool.not_true, Bool.false_eq_true, if_false] at hs
  rw [wrapInt_eq (by unfold maxInt; omega) hov, if_neg (by omega)] at hs
  exact (Option.some.inj hs).symm

theorem Slice_tvec_wraps {t : TransposedBigIntVector} {j n : Int} (hn0 : 0 < n)
    (hn1 : n ≤ maxInt) (hj0 : 0 ≤ j) (hj1 : j < t.Len) (hlen : t.Len ≤ maxInt)
    (hov : maxInt < j + n) :
    t.Slice j n = some ⟨t.mat.slice (t.mat.rowStart + j) t.mat.colStart n 1⟩ := by
  unfold Slice
  rw [if_neg (by omega), checkBounds_tvec_true hj0 hj1]
  simp only [Bool.not_true, Bool.false_eq_true, if_false]
  rw [wrapInt_overflow hov (by omega), if_neg (by unfold maxInt at hov hn1 hlen ⊢; omega)]

theorem Slice_tvec_spec (h : Heap) (t : TransposedBigIntVector) (j n : Int)
    (hcols : t.mat.cols = 1) (hne : t.mat.rowValues ≠ t.mat.colValues)
    (hov : j + n ≤ maxInt) :
    (t.Slice j n = none ↔ n ≤ 0 ∨ j < 0 ∨ j ≥ t.Len ∨ j + n > t.Len) ∧
    ∀ s, t.Slice j n = some s →
      s.Len = n ∧ s.mat.cols = 1 ∧ s.mat.rowValues = t.mat.rowValues ∧
      s.mat.colValues = t.mat.colValues ∧
      (∀ k, 0 ≤ k → k < n → s.At h k = t.At h (j + k) ∧ (s.At h k).isSome = true) ∧
      (∀ k x, 0 ≤ k → k < n →
        ∃ h1, s.Set h k x = some h1 ∧ t.At h1 (j + k) = some (x.getD 0) ∧
          ∀ i, i ≠ j + k → t.At h1 i = t.At h i) := by
  refine ⟨Slice_tvec_none_iff t j n hov, ?_⟩
  intro s hs
  obtain ⟨rfl, hn, hj, hjn⟩ := Slice_tvec_some hov hs
  refine ⟨rfl, rfl, rfl, rfl, ?_, ?_⟩
  · intro k hk0 hk1
    have e1 := At_tvec_eq h ⟨t.mat.slice (t.mat.rowStart + j) t.mat.colStart n 1⟩ rfl hk0 hk1
    have e2 := At_tvec_eq h t hcols (show 0 ≤ j + k by omega) (show j + k < t.Len by omega)
    rw [e1, e2]
    simp only [BigIntMatrix.slice, Option.isSome_some, and_true]
    rw [show k + (t.mat.rowStart + j) = j + k + t.mat.rowStart by omega]
  · intro k x hk0 hk1
    have e1 := Set_tvec_eq h ⟨t.mat.slice (t.mat.rowStart + j) t.mat.colStart n 1⟩ rfl x
      hk0 hk1
    refine ⟨_, e1, ?_, ?_⟩
    · rw [At_tvec_eq _ t hcols (show 0 ≤ j + k by omega) (show j + k < t.Len by omega)]
      change some ((cell ((t.mat.set h (k + (t.mat.rowStart + j)) (0 + t.mat.colStart) x).obj
        t.mat.rowValues) _ _).getD 0) = _
      rw [BigIntMatrix.set_row _ _ _ _ _ hne, if_pos ⟨by omega, rfl⟩, BigIntMatrix.stored_getD]
    · intro i hi
      by_cases hb : i < 0 ∨ i ≥ t.Len
      · rw [At_tvec_none _ t hb, At_tvec_none _ t hb]
      · rw [At_tvec_eq _ t hcols (by omega) (by omega),
          At_tvec_eq _ t hcols (by omega) (by omega)]
        change some ((cell ((t.mat.set h (k + (t.mat.rowStart + j)) (0 + t.mat.colStart) x).obj
          t.mat.rowValues) _ _).getD 0) = _
        rw [BigIntMatrix.set_row _ _ _ _ _ hne, if_neg (fun e => hi (by omega))]

/-- C32 (failing input): the check `j+length > Len()` of `Slice` adds two `int`
arguments, and a sum above `math.MaxInt64` wraps to a negative number and passes
it.  For `t = NewTBigIntVec(3,[1,2,3])`, `t.Slice(1, MaxInt64)` has
`1 + MaxInt64 > 3` and should fail; it returns a vector `s` of length
`MaxInt64`, and `s.At(5)` reads 0 where `t.At(1+5)` panics.  In general, for
`0 ≤ j < t.Len()` and `0 < n ≤ MaxInt64` with `j + n > MaxInt64` a vector of
length `n` is returned that reads past the end of `t`.  Whenever `j + n` does
not overflow, the claim holds for a column vector over a view with one column:
`Slice` fails exactly when `n ≤ 0`, `j < 0`, `j ≥ t.Len()` or `j + n > t.Len()`;
a slice `s` that is returned is again a view with one column over the same
store, has length `n`, reads `t.At(j+k)` at `k`, and `s.Set(k, x)` succeeds for
`0 ≤ k < n`, after which `t.At(j+k)` reads `x` (0 for nil or zero) and `t.At` is
unchanged at every other index. -/
theorem TSlice_accepts_length_that_wraps (h : Heap) (t : TransposedBigIntVector) (j n : Int)
    (hcols : t.mat.cols = 1) (hne : t.mat.rowValues ≠ t.mat.colValues) :
    (do
      let (h1, t0) ← NewTBigIntVec Heap.empty 3 [some 1, some 2, some 3]
      let s ← t0.Slice 1 maxInt
      pure (t0.Len, decide ((1 : Int) + maxInt > t0.Len), decide (s.Len = maxInt),
        [s.At h1 0, s.At h1 5, t0.At h1 (1 + 0), t0.At h1 (1 + 5)])) =
      some (3, true, true, [some 2, some 0, some 2, none]) ∧
    (0 < n → n ≤ maxInt → 0 ≤ j → j < t.Len → t.Len ≤ maxInt → maxInt < j + n →
      ∃ s, t.Slice j n = some s ∧ s.Len = n ∧ t.Len < j + n ∧
        0 ≤ t.Len - j ∧ t.Len - j < n ∧
        (s.At h (t.Len - j)).isSome = true ∧ t.At h (j + (t.Len - j)) = none) ∧
    (j + n ≤ maxInt →
      (t.Slice j n = none ↔ n ≤ 0 ∨ j < 0 ∨ j ≥ t.Len ∨ j + n > t.Len) ∧
      ∀ s, t.Slice j n = some s →
        s.Len = n ∧ s.mat.cols = 1 ∧ s.mat.rowValues = t.mat.rowValues ∧
        s.mat.colValues = t.mat.colValues ∧
        (∀ k, 0 ≤ k → k < n → s.At h k = t.At h (j + k) ∧ (s.At h k).isSome = true) ∧
        (∀ k x, 0 ≤ k → k < n →
          ∃ h1, s.Set h k x = some h1 ∧ t.At h1 (j + k) = some (x.getD 0) ∧
            ∀ i, i ≠ j + k → t.At h1 i = t.At h i)) := by
  refine ⟨by decide, ?_, fun hov => Slice_tvec_spec h t j n hcols hne hov⟩
  intro hn0 hn1 hj0 hj1 hlen hov
  refine ⟨_, Slice_tvec_wraps hn0 hn1 hj0 hj1 hlen hov, rfl, by omega, by omega, by omega,
    ?_, ?_⟩
  · rw [At_tvec_eq h ⟨t.mat.slice (t.mat.rowStart + j) t.mat.colStart n 1⟩ rfl
      (show 0 ≤ t.Len - j by omega) (show t.Len - j < n by omega)]
    rfl
  · exact At_tvec_none h t (Or.inr (by omega))

end TransposedBigIntVector

namespace BigIntMatrix

/-- C36: a row vector `r = m.Row(i)` and a column vector `t = m.Column(j)` that
are returned are connected to `m`.  `r` has length `m.cols`, `r.Set(k, x)` fails
exactly when `k` is outside `[0, m.cols)`, and after it `m.At(i,k)` reads `x`
(0 for nil or zero) and `m.At` is unchanged at every other position; `t` has
length `m.rows`, `t.Set(k, x)` fails exactly when `k` is outside `[0, m.rows)`,
and after it `m.At(k,j)` reads `x` and `m.At` is unchanged at every other
position. -/
theorem Row_Column_connected (h : Heap) (m : BigIntMatrix) (hne : m.rowValues ≠ m.colValues) :
    (∀ i r, m.Row i = some r →
      r.Len = m.cols ∧
      ∀ k x, (r.Set h k x = none ↔ k < 0 ∨ k ≥ m.cols) ∧
        ∀ h1, r.Set h k x = some h1 →
          m.At h1 i k = some (x.getD 0) ∧
          ∀ i1 k1, ¬ (i1 = i ∧ k1 = k) → m.At h1 i1 k1 = m.At h i1 k1) ∧
    (∀ j t, m.Column j = some t →
      t.Len = m.rows ∧
      ∀ k x, (t.Set h k x = none ↔ k < 0 ∨ k ≥ m.rows) ∧
        ∀ h1, t.Set h k x = some h1 →
          m.At h1 k j = some (x.getD 0) ∧
          ∀ k1 j1, ¬ (k1 = k ∧ j1 = j) → m.At h1 k1 j1 = m.At h k1 j1) := by
  constructor
  · intro i r hr
    obtain ⟨he, hi0, hi1⟩ := Row_some hr
    have hlen : r.Len = m.cols := by rw [he]; rfl
    refine ⟨hlen, ?_⟩
    intro k x
    have hnone := BigIntVector.Set_none_iff_bounds h r k x
    rw [hlen] at hnone
    refine ⟨hnone, ?_⟩
    intro h1 hset
    have hk : ¬ (k < 0 ∨ k ≥ m.cols) := by
      intro e
      rw [hnone.2 e] at hset
      exact absurd hset (by simp)
    unfold BigIntVector.Set at hset
    rw [BigIntVector.checkBounds_eq_true (by omega) (show k < r.Len by omega)] at hset
    have e : h1 = m.set h (i + m.rowStart) (k + m.colStart) x := by
      rw [← Option.some.inj hset, he]
      simp only [BigIntVector.set, BigIntVector.offset, slice, zero_add]
      rfl
    rw [e]
    exact At_after_set h m hne i k x hi0 hi1 (by omega) (by omega)
  · intro j t ht
    obtain ⟨he, hj0, hj1⟩ := Column_some ht
    have hlen : t.Len = m.rows := by rw [he]; rfl
    have hc1 : t.mat.cols = 1 := by rw [he]; rfl
    refine ⟨hlen, ?_⟩
    intro k x
    have hnone := TransposedBigIntVector.Set_tvec_none_iff h t hc1 k x
    rw [hlen] at hnone
    refine ⟨hnone, ?_⟩
    intro h1 hset
    have hk : ¬ (k < 0 ∨ k ≥ m.rows) := by
      intro e
      rw [hnone.2 e] at hset
      exact absurd hset (by simp)
    rw [TransposedBigIntVector.Set_tvec_eq h t hc1 x (by omega) (show k < t.Len by omega)]
      at hset
    have e : h1 = m.set h (k + m.rowStart) (j + m.colStart) x := by
      rw [← Option.some.inj hset, he]
      simp only [slice, zero_add]
      rfl
    rw [e]
    exact At_after_set h m hne k j x (by omega) (by omega) hj0 hj1

end BigIntMatrix

/-! ## The map of non-zero values of a vector -/

theorem nonzero_fold (lo n : Int) : ∀ (L acc : List (Int × Int)), NodupKeys L → ∀ k,
    mapGet (L.foldl (fun indexToValues e =>
      if e.1 ≥ lo ∧ e.1 < lo + n then
        if e.2 ≠ 0 then mapPut indexToValues (e.1 - lo) e.2
        else indexToValues
      else indexToValues) acc) k =
    if 0 ≤ k ∧ k < n ∧ (mapGet L (k + lo)).getD 0 ≠ 0 then mapGet L (k + lo)
    else mapGet acc k := by
  intro L
  induction L with
  | nil =>
    intro acc _ k
    simp [mapGet]
  | cons e rest ih =>
    intro acc hnd k
    have hnd2 : NodupKeys rest := (List.nodup_cons.1 hnd).2
    have hnot : e.1 ∉ rest.map (fun e => e.1) := (List.nodup_cons.1 hnd).1
    rw [List.foldl_cons, ih _ hnd2 k, mapGet_cons]
    by_cases hk : e.1 = k + lo
    · have hnone : mapGet rest (k + lo) = none := by
        apply mapGet_none_of_not_mem
        rw [← hk]
        intro e1 he1 c
        exact hnot (List.mem_map.2 ⟨e1, he1, c⟩)
      rw [hnone, if_pos hk]
      simp only [Option.getD_none, ne_eq, not_true_eq_false, and_false, if_false,
        Option.getD_some]
      by_cases hr : e.1 ≥ lo ∧ e.1 < lo + n
      · rw [if_pos hr]
        by_cases hz : e.2 = 0
        · rw [if_neg (by simpa using hz), if_neg (fun c => c.2.2 hz)]
        · rw [if_pos hz, if_pos ⟨by omega, by omega, hz⟩,
            show e.1 - lo = k by omega, mapGet_mapPut_self]
      · rw [if_neg hr, if_neg (fun c => hr ⟨by omega, by omega⟩)]
    · rw [if_neg hk]
      have hacc : mapGet (if e.1 ≥ lo ∧ e.1 < lo + n then
            if e.2 ≠ 0 then mapPut acc (e.1 - lo) e.2 else acc
          else acc) k = mapGet acc k := by
        split
        · split
          · exact mapGet_mapPut_ne _ _ (by omega)
          · rfl
        · rfl
      rw [hacc]

theorem nonzero_fold_nodup (lo n : Int) : ∀ (L acc : List (Int × Int)), NodupKeys acc →
    NodupKeys (L.foldl (fun indexToValues e =>
      if e.1 ≥ lo ∧ e.1 < lo + n then
        if e.2 ≠ 0 then mapPut indexToValues (e.1 - lo) e.2
        else indexToValues
      else indexToValues) acc) := by
  intro L
  induction L with
  | nil => intro acc ha; exact ha
  | cons e rest ih =>
    intro acc ha
    rw [List.foldl_cons]
    apply ih
    split
    · split
      · exact nodupKeys_mapPut _ _ ha
      · exact ha
    · exact ha

theorem nodupKeys_nil : NodupKeys ([] : List (Int × Int)) := by
  unfold NodupKeys; simp

namespace BigIntVector

/-- C34: for a row vector `v` over a view with one row and a column vector `t`
over a view with one column, in a store with unique keys (and, for `t`, whose
two maps mirror each other), `NonzeroValues()` is a map with unique keys that
holds at `k` the `k`-th logical element `x_k` when `0 ≤ k < Len()` and
`x_k ≠ 0`, and has no other key.  The logical elements are read through the
underlying view, `v.mat.At(0,k)` and `t.At(k)`. -/
theorem NonzeroValues_spec (h : Heap) :
    (∀ v : BigIntVector, v.mat.rows = 1 → WFOuter (h.obj v.mat.rowValues) →
      NodupKeys (v.NonzeroValues h) ∧
      ∀ k, mapGet (v.NonzeroValues h) k =
        if 0 ≤ k ∧ k < v.Len ∧ (v.mat.At h 0 k).getD 0 ≠ 0 then v.mat.At h 0 k else none) ∧
    (∀ t : TransposedBigIntVector, t.mat.cols = 1 → WFOuter (h.obj t.mat.colValues) →
      BigIntMatrix.MirrorP h t.mat →
      NodupKeys (t.NonzeroValues h) ∧
      ∀ k, mapGet (t.NonzeroValues h) k =
        if 0 ≤ k ∧ k < t.Len ∧ (t.At h k).getD 0 ≠ 0 then t.At h k else none) := by
  constructor
  · intro v hrows hwf
    constructor
    · unfold NonzeroValues
      split
      · exact nodupKeys_nil
      · exact nonzero_fold_nodup _ _ _ _ nodupKeys_nil
    · intro k
      by_cases hk : 0 ≤ k ∧ k < v.Len
      · have hat := BigIntMatrix.At_eq h v.mat (le_refl 0) (by rw [hrows]; decide) hk.1 hk.2
        rw [hat]
        unfold NonzeroValues cell
        rw [zero_add]
        cases hg : mapGet (h.obj v.mat.rowValues) v.mat.rowStart with
        | none => simp [mapGet]
        | some rowMap =>
          simp only []
          rw [nonzero_fold _ _ _ _ (hwf.2 _ (mapGet_mem hg)) k]
          by_cases hz : (mapGet rowMap (k + v.mat.colStart)).getD 0 ≠ 0
          · rw [if_pos ⟨hk.1, hk.2, hz⟩, if_pos ⟨hk.1, hk.2, by simpa using hz⟩]
            cases hc : mapGet rowMap (k + v.mat.colStart) with
            | none => rw [hc] at hz; exact absurd rfl hz
            | some w => rfl
          · rw [if_neg (fun c => hz c.2.2), if_neg (fun c => hz (by simpa using c.2.2))]
            rfl
      · rw [if_neg (fun c => hk ⟨c.1, c.2.1⟩)]
        unfold NonzeroValues
        split
        · rfl
        · rename_i rowMap hg
          rw [nonzero_fold _ _ _ _ (hwf.2 _ (mapGet_mem hg)) k,
            if_neg (fun c => hk ⟨c.1, c.2.1⟩)]
          rfl
  · intro t hcols hwf hm
    constructor
    · unfold TransposedBigIntVector.NonzeroValues
      split
      · exact nodupKeys_nil
      · exact nonzero_fold_nodup _ _ _ _ nodupKeys_nil
    · intro k
      by_cases hk : 0 ≤ k ∧ k < t.Len
      · have hat := TransposedBigIntVector.At_tvec_eq h t hcols hk.1 hk.2
        rw [hat, hm]
        unfold TransposedBigIntVector.NonzeroValues cell
        rw [zero_add]
        cases hg : mapGet (h.obj t.mat.colValues) t.mat.colStart with
        | none => simp [mapGet]
        | some colMap =>
          simp only []
          rw [nonzero_fold _ _ _ _ (hwf.2 _ (mapGet_mem hg)) k]
          by_cases hz : (mapGet colMap (k + t.mat.rowStart)).getD 0 ≠ 0
          · rw [if_pos ⟨hk.1, hk.2, hz⟩, if_pos ⟨hk.1, hk.2, by simpa using hz⟩]
            cases hc : mapGet colMap (k + t.mat.rowStart) with
            | none => rw [hc] at hz; exact absurd rfl hz
            | some w => rfl
          · rw [if_neg (fun c => hz c.2.2), if_neg (fun c => hz (by simpa using c.2.2))]
            rfl
      · rw [if_neg (fun c => hk ⟨c.1, c.2.1⟩)]
        unfold TransposedBigIntVector.NonzeroValues
        split
        · rfl
        · rename_i colMap hg
          rw [nonzero_fold _ _ _ _ (hwf.2 _ (mapGet_mem hg)) k,
            if_neg (fun c => hk ⟨c.1, c.2.1⟩)]
          rfl

end BigIntVector

/-! ## The number of multiplications made by Pow -/

namespace BigIntMatrix

theorem digits_sum_step (n : Nat) (hn : 0 < n) :
    (Nat.digits 2 n).sum = (if n % 2 = 1 then 1 else 0) + (Nat.digits 2 (n / 2)).sum := by
  rw [Nat.digits_def' (by decide : 1 < 2) hn, List.sum_cons]
  have hmod : n % 2 = if n % 2 = 1 then 1 else 0 := by
    split <;> omega
  omega

theorem log_step (n : Nat) (hn : 0 < n) :
    Nat.log 2 n = (if n / 2 > 0 then 1 else 0) + Nat.log 2 (n / 2) := by
  by_cases h2 : n / 2 > 0
  · rw [if_pos h2, Nat.log_of_one_lt_of_le (by decide) (by omega)]
    omega
  · rw [if_neg h2]
    have h1 : n = 1 := by omega
    subst h1
    simp

theorem clog_lt_calls : ∀ n : Nat, 0 < n →
    Nat.clog 2 n < (Nat.digits 2 n).sum + Nat.log 2 n := by
  intro n
  induction n using Nat.strong_induction_on with
  | _ n ih =>
    intro hn
    by_cases h1 : n = 1
    · subst h1
      simp
    · have h2 : 2 ≤ n := by omega
      rw [digits_sum_step n hn, log_step n hn, if_pos (show n / 2 > 0 by omega),
        Nat.clog_of_two_le (by decide) h2]
      have ihh := ih (n / 2) (by omega) (by omega)
      have e : (n + 2 - 1) / 2 = (n + 1) / 2 := by omega
      rw [e]
      by_cases hodd : n % 2 = 1
      · rw [if_pos hodd]
        have hle : Nat.clog 2 ((n + 1) / 2) ≤ Nat.clog 2 (n / 2) + 1 := by
          apply (Nat.le_pow_iff_clog_le (by decide : 1 < 2)).1
          have hp := Nat.le_pow_clog (by decide : 1 < 2) (n / 2)
          rw [pow_succ]
          omega
        omega
      · rw [if_neg hodd]
        have e2 : (n + 1) / 2 = n / 2 := by omega
        rw [e2]
        omega

theorem digits_sum_le_log : ∀ n : Nat, 0 < n → (Nat.digits 2 n).sum ≤ Nat.log 2 n + 1 := by
  intro n
  induction n using Nat.strong_induction_on with
  | _ n ih =>
    intro hn
    rw [digits_sum_step n hn, log_step n hn]
    by_cases h2 : n / 2 > 0
    · rw [if_pos h2]
      have ihh := ih (n / 2) (by omega) h2
      split <;> omega
    · rw [if_neg h2]
      have h0 : n / 2 = 0 := by omega
      rw [h0]
      simp
      split <;> omega

theorem powLoopCalls_eq (rows cols : Int) : ∀ (fuel : Nat) (h : Heap) (k : Int)
    (result cur : BigIntMatrix) (c d : Nat),
    powLoopCalls rows cols fuel h k result cur c d =
      (powLoop rows cols fuel h k result cur).map
        (fun r => (r.1, r.2, c + (Nat.digits 2 k.toNat).sum, d + Nat.log 2 k.toNat)) := by
  intro fuel
  induction fuel with
  | zero =>
    intro h k result cur c d
    rfl
  | succ fuel ih =>
    intro h k result cur c d
    unfold powLoopCalls powLoop
    by_cases hk : k > 0
    · rw [if_pos hk, if_pos hk]
      have keyS := digits_sum_step k.toNat (by omega)
      have keyL := log_step k.toNat (by omega)
      have hdivI : Int.tdiv k 2 = k / 2 := Int.tdiv_eq_ediv (by omega) (by omega)
      have hmodI : Int.tmod k 2 = k % 2 := Int.tmod_eq_emod (by omega) (by omega)
      have hdiv : (Int.tdiv k 2).toNat = k.toNat / 2 := by
        rw [hdivI]; omega
      have hodd : Int.tmod k 2 = 1 ↔ k.toNat % 2 = 1 := by
        rw [hmodI]; omega
      have hhalf : Int.tdiv k 2 > 0 ↔ k.toNat / 2 > 0 := by
        rw [hdivI]; omega
      by_cases ho : Int.tmod k 2 = 1
      · rw [if_pos ho, if_pos ho]
        rw [if_pos (hodd.1 ho)] at keyS
        cases e1 : mulNew h rows cols result cur with
        | none => rfl
        | some r1 =>
          obtain ⟨h2, res1⟩ := r1
          simp only [Option.map_some']
          by_cases hh : Int.tdiv k 2 > 0
          · rw [if_pos hh, if_pos hh]
            rw [if_pos (hhalf.1 hh)] at keyL
            cases e2 : mulNew h2 rows cols cur cur with
            | none => rfl
            | some r2 =>
              obtain ⟨h4, cur1⟩ := r2
              simp only [Option.map_some']
              rw [ih, hdiv, keyS, keyL]
              congr 1
              funext r
              rw [show c + 1 + (Nat.digits 2 (k.toNat / 2)).sum =
                  c + (1 + (Nat.digits 2 (k.toNat / 2)).sum) by omega,
                show d + 1 + Nat.log 2 (k.toNat / 2) =
                  d + (1 + Nat.log 2 (k.toNat / 2)) by omega]
          · rw [if_neg hh, if_neg hh]
            rw [if_neg (fun e => hh (hhalf.2 e))] at keyL
            simp only []
            rw [ih, hdiv, keyS, keyL]
            congr 1
            funext r
            rw [show c + 1 + (Nat.digits 2 (k.toNat / 2)).sum =
                c + (1 + (Nat.digits 2 (k.toNat / 2)).sum) by omega, zero_add]
      · rw [if_neg ho, if_neg ho]
        rw [if_neg (fun e => ho (hodd.2 e))] at keyS
        simp only []
        by_cases hh : Int.tdiv k 2 > 0
        · rw [if_pos hh, if_pos hh]
          rw [if_pos (hhalf.1 hh)] at keyL
          cases e2 : mulNew h rows cols cur cur with
          | none => rfl
          | some r2 =>
            obtain ⟨h4, cur1⟩ := r2
            simp only [Option.map_some']
            rw [ih, hdiv, keyS, keyL]
            congr 1
            funext r
            rw [show d + 1 + Nat.log 2 (k.toNat / 2) =
                d + (1 + Nat.log 2 (k.toNat / 2)) by omega, zero_add]
        · rw [if_neg hh, if_neg hh]
          rw [if_neg (fun e => hh (hhalf.2 e))] at keyL
          simp only []
          rw [ih, hdiv, keyS, keyL, zero_add, zero_add]
    · rw [if_neg hk, if_neg hk]
      have : k.toNat = 0 := by omega
      rw [this]
      simp

theorem PowCalls_eq (h : Heap) (m : BigIntMatrix) (k : Int) :
    PowCalls h m k = (Pow h m k).map
      (fun r => (r.1, r.2, (Nat.digits 2 k.toNat).sum, Nat.log 2 k.toNat)) := by
  unfold PowCalls Pow
  by_cases hsq : m.rows ≠ m.cols
  · rw [if_pos hsq, if_pos hsq]; rfl
  · rw [if_neg hsq, if_neg hsq]
    by_cases hk : k < 0
    · rw [if_pos hk, if_pos hk]; rfl
    · rw [if_neg hk, if_neg hk]
      by_cases hk0 : k = 0
      · rw [if_pos hk0, if_pos hk0]
        subst hk0
        simp
      · rw [if_neg hk0, if_neg hk0]
        simp only []
        cases e : BigIntCopy (BigIntIdentity h m.rows).1 m with
        | none => rfl
        | some r =>
          obtain ⟨h1, cur⟩ := r
          simp only []
          rw [powLoopCalls_eq]
          simp

/-- C40 (amended): `PowCalls` runs the code of `Pow` with one counter at each
of the two call sites of `Mul`, and returns what `Pow` returns together with
the two counts: `s(k)` products of `result` by the current power, where `s(k)`
is the number of ones in the binary expansion of `k` (one for every round with
`k` odd), and `⌊log2 k⌋` squarings (one for every halving that leaves `k > 0`).
For `k ≥ 1` the total `⌊log2 k⌋ + s(k)` is larger than `⌈log2 k⌉` and at most
`2⌊log2 k⌋ + 1`, and for a square matrix of an allocated store `Pow` returns,
so the calls are made. -/
theorem Pow_number_of_Mul_calls (h : Heap) (m : BigIntMatrix) (k : Int) :
    PowCalls h m k = (Pow h m k).map
      (fun r => (r.1, r.2, (Nat.digits 2 k.toNat).sum, Nat.log 2 k.toNat)) ∧
    (1 ≤ k →
      Nat.clog 2 k.toNat < (Nat.digits 2 k.toNat).sum + Nat.log 2 k.toNat ∧
      (Nat.digits 2 k.toNat).sum + Nat.log 2 k.toNat ≤ 2 * Nat.log 2 k.toNat + 1) ∧
    (m.rowValues < h.next → m.rows = m.cols → 1 ≤ k →
      ∃ h2 p, PowCalls h m k =
        some (h2, p, (Nat.digits 2 k.toNat).sum, Nat.log 2 k.toNat)) := by
  refine ⟨PowCalls_eq h m k, fun hk => ⟨clog_lt_calls k.toNat (by omega), ?_⟩, ?_⟩
  · have := digits_sum_le_log k.toNat (by omega)
    omega
  · intro hlt hsq hk
    obtain ⟨h2, p, e, _⟩ := Pow_spec h m k hlt hsq (by omega)
    refine ⟨h2, p, ?_⟩
    rw [PowCalls_eq, e]
    rfl

end BigIntMatrix

/-! ## Serialization -/

namespace BigIntMatrix

theorem UnmarshalJSON_row (h : Heap) (m : bigintmatrix) :
    (UnmarshalJSON h m).1.obj (UnmarshalJSON h m).2.rowValues = m.RowValues := by
  simp [UnmarshalJSON, Heap.write, Heap.alloc]

theorem UnmarshalJSON_col (h : Heap) (m : bigintmatrix) :
    (UnmarshalJSON h m).1.obj (UnmarshalJSON h m).2.colValues = m.ColValues := by
  simp [UnmarshalJSON, Heap.write, Heap.alloc]

theorem UnmarshalJSON_old (h : Heap) (m : bigintmatrix) {a : Nat} (ha : a < h.next) :
    (UnmarshalJSON h m).1.obj a = h.obj a := by
  have h1 : a ≠ h.next := by omega
  have h2 : a ≠ h.next + 1 := by omega
  simp [UnmarshalJSON, Heap.write, Heap.alloc, h1, h2]

/-- C39: `MarshalJSON` hands the six fields of the view to `json.Marshal`, and
`UnmarshalJSON` assigns the six decoded fields to the receiver.  When the
decoded struct `d` holds the four integers that were exported and two maps with
the cells that were exported, the decoded matrix `D` has the dims of `M`,
`M.Equals(D)` and `D.Equals(M)` are true, `D.At` reads what `M.At` reads
everywhere, `D` lives in two new maps, and the maps of `M` are as before.  This
holds for every view `M` of an allocated store, sliced or not. -/
theorem JSON_round_trip (h : Heap) (M : BigIntMatrix) (d : bigintmatrix)
    (hrow : M.rowValues < h.next) (hcol : M.colValues < h.next)
    (hd : Decodes (M.MarshalJSON h) d) :
    M.MarshalJSON h =
      ⟨h.obj M.rowValues, h.obj M.colValues, M.rows, M.rowStart, M.cols, M.colStart⟩ ∧
    (UnmarshalJSON h d).2.Dims = M.Dims ∧
    Equals (UnmarshalJSON h d).1 (some M) (some (UnmarshalJSON h d).2) false = true ∧
    Equals (UnmarshalJSON h d).1 (some (UnmarshalJSON h d).2) (some M) false = true ∧
    (∀ i j, (UnmarshalJSON h d).2.At (UnmarshalJSON h d).1 i j = M.At h i j) ∧
    (∀ i j, M.At (UnmarshalJSON h d).1 i j = M.At h i j) ∧
    h.next ≤ (UnmarshalJSON h d).2.rowValues ∧ h.next ≤ (UnmarshalJSON h d).2.colValues ∧
    (UnmarshalJSON h d).1.obj M.rowValues = h.obj M.rowValues ∧
    (UnmarshalJSON h d).1.obj M.colValues = h.obj M.colValues := by
  obtain ⟨hR, hC, e1, e2, e3, e4⟩ := hd
  have hrows : (UnmarshalJSON h d).2.rows = M.rows := e1
  have hcols : (UnmarshalJSON h d).2.cols = M.cols := e3
  have hrs : (UnmarshalJSON h d).2.rowStart = M.rowStart := e2
  have hcs : (UnmarshalJSON h d).2.colStart = M.colStart := e4
  have hold := UnmarshalJSON_old h d hrow
  have hcells : ∀ x y, cell ((UnmarshalJSON h d).1.obj (UnmarshalJSON h d).2.rowValues) x y =
      cell ((UnmarshalJSON h d).1.obj M.rowValues) x y := by
    intro x y
    rw [UnmarshalJSON_row, hold]
    exact hR x y
  refine ⟨rfl, ?_, ?_, ?_, ?_, ?_, le_refl _, Nat.le_succ _, hold,
    UnmarshalJSON_old h d hcol⟩
  · unfold Dims
    rw [hrows, hcols]
  · apply Equals_true_of_cells _ M (UnmarshalJSON h d).2 hrows.symm hcols.symm
    intro i j _ _ _ _
    rw [hcells, hrs, hcs]
  · apply Equals_true_of_cells _ (UnmarshalJSON h d).2 M hrows hcols
    intro i j _ _ _ _
    rw [hcells, hrs, hcs]
  · intro i j
    unfold At at_ checkRowBounds checkColBounds
    rw [hcells, hrs, hcs, hrows, hcols, hold]
  · intro i j
    exact At_congr_obj h _ M i j hold

end BigIntMatrix

/-! ## Concrete inputs of the vector methods, serialization and Pow -/

namespace TransposedBigIntVector

theorem NewTBigIntVec_shape {h h1 : Heap} {length : Int} {values : List (Option Int)}
    {t : TransposedBigIntVector} (he : NewTBigIntVec h length values = some (h1, t)) :
    t.Len = length ∧ t.mat.cols = 1 ∧ t.mat.rowValues ≠ t.mat.colValues := by
  unfold NewTBigIntVec at he
  by_cases hc : values.length ≠ 0 ∧ length ≠ (values.length : Int)
  · rw [if_pos hc] at he
    exact absurd he (by simp)
  · rw [if_neg hc] at he
    unfold BigIntVector.NewBigIntVec at he
    rw [if_neg hc] at he
    cases hm : BigIntMatrix.NewBigIntMat h 1 length values with
    | none => rw [hm] at he; exact absurd he (by simp)
    | some r =>
      rw [hm] at he
      have e2 : r.2 = (BigIntMatrix.fresh h 1 length).2 := by
        unfold BigIntMatrix.NewBigIntMat at hm
        split at hm
        · exact absurd hm (by simp)
        · simp only [] at hm
          split at hm
          · rw [← Option.some.inj hm]
          · rw [← Option.some.inj hm]
      have e3 : t = ⟨r.2.T⟩ := by
        simp only [Option.some.injEq, Prod.mk.injEq] at he
        rw [← he.2]
        rfl
      rw [e3, e2]
      refine ⟨rfl, rfl, ?_⟩
      simp [BigIntMatrix.T, BigIntMatrix.fresh]

/-- C32 witness: the slice `(1,2)` of the column vector `[1,0,3]`, whose sum
`1 + 2` does not overflow, and the request `Slice(1, MaxInt64)`, whose sum
does. -/
theorem TSlice_accepts_length_that_wraps_witness :
    (demoT.2.Slice 1 2 = some ⟨⟨1, 0, 2, 1, 1, 0⟩⟩ ∧
      (⟨⟨1, 0, 2, 1, 1, 0⟩⟩ : TransposedBigIntVector).Len = 2 ∧
      (⟨⟨1, 0, 2, 1, 1, 0⟩⟩ : TransposedBigIntVector).At demoT.1 1 =
        demoT.2.At demoT.1 (1 + 1) ∧
      (∃ h1, (⟨⟨1, 0, 2, 1, 1, 0⟩⟩ : TransposedBigIntVector).Set demoT.1 0 (some 9) = some h1 ∧
        demoT.2.At h1 (1 + 0) = some 9 ∧ demoT.2.At h1 2 = some 3) ∧
      demoT.2.Slice 2 2 = none) ∧
    (∃ s, demoT.2.Slice 1 maxInt = some s ∧ s.Len = maxInt ∧ demoT.2.Len < 1 + maxInt ∧
      (s.At demoT.1 (demoT.2.Len - 1)).isSome = true ∧
      demoT.2.At demoT.1 (1 + (demoT.2.Len - 1)) = none) := by
  have key := (TSlice_accepts_length_that_wraps demoT.1 demoT.2 1 2 (by decide)
    (by decide)).2.2 (by decide)
  have k2 := key.2 ⟨⟨1, 0, 2, 1, 1, 0⟩⟩ (by decide)
  obtain ⟨h1, e, hat, hother⟩ := k2.2.2.2.2.2 0 (some 9) (by decide) (by decide)
  obtain ⟨s, hs, hl, hlt, _, _, hsome, hnone⟩ :=
    (TSlice_accepts_length_that_wraps demoT.1 demoT.2 1 maxInt (by decide) (by decide)).2.1
      (by decide) (by decide) (by decide) (by decide) (by decide) (by decide)
  refine ⟨⟨by decide, k2.1, (k2.2.2.2.2.1 1 (by decide) (by decide)).1, ⟨h1, e, hat, ?_⟩,
    by decide⟩, ⟨s, hs, hl, hlt, hsome, hnone⟩⟩
  rw [hother 2 (by decide)]
  decide

end TransposedBigIntVector

namespace BigIntVector

/-- C31 (failing input): `Slice` checks `len > 0` and the start index only, so it
fails exactly when `n ≤ 0`, `i < 0` or `i ≥ v.Len()`.  For
`v = NewBigIntVec(2,[1,2])` the request `v.Slice(1, 5)` runs past the end of
`v`, `1 + 5 > 2`, and is answered with a vector of length 5, while the column
vector `v.T()` rejects the same request. -/
theorem Vector_Slice_accepts_range_past_end :
    (∀ (v : BigIntVector) (i n : Int), v.Slice i n = none ↔ n ≤ 0 ∨ i < 0 ∨ i ≥ v.Len) ∧
    (do
      let (_, v) ← NewBigIntVec Heap.empty 2 [some 1, some 2]
      let s ← v.Slice 1 5
      pure (v.Len, decide ((1 : Int) + 5 > v.Len), s.Len, ((v.T).Slice 1 5).isNone)) =
    some (2, true, 5, true) := by
  refine ⟨?_, by decide⟩
  intro v i n
  unfold Slice
  by_cases hn : n ≤ 0
  · simp [hn]
  · rw [if_neg hn]
    by_cases hb : i < 0 ∨ i ≥ v.Len
    · rw [checkBounds_eq_false hb]
      simp only [Bool.not_false, if_true, true_iff]
      omega
    · rw [checkBounds_eq_true (by omega) (by omega)]
      simp only [Bool.not_true, Bool.false_eq_true, if_false]
      constructor
      · intro e; exact absurd e (by simp)
      · intro e; exfalso; omega

/-- C33 (failing input): `SetVec` fails exactly when `a` is nil, `i < 0` or
`i + a.Len() > vec.Len()`.  With `vec = NewBigIntVec(3)` and `a` the slice of
length 1 at index 0 of `NewBigIntVec(2,[1,2])`, a vector over another store
whose only element is 1, `vec.SetVec(a, 0)` turns `[0,0,0]` into `[1,2,0]`:
element 1 of `vec`, outside `[0, 1)`, has changed. -/
theorem SetVec_copies_cells_outside_source :
    (∀ (h : Heap) (vec : BigIntVector) (a : Option BigIntVector) (i : Int),
      vec.SetVec h a i = none ↔
        a = none ∨ i < 0 ∨ ∃ x, a = some x ∧ i + x.Len > vec.Len) ∧
    (do
      let (h1, vec) ← NewBigIntVec Heap.empty 3 []
      let (h2, w) ← NewBigIntVec h1 2 [some 1, some 2]
      let a ← w.Slice 0 1
      let h3 ← vec.SetVec h2 (some a) 0
      pure ((a.Len, vec.Len, decide (vec.mat.rowValues ≠ a.mat.rowValues)),
        [[a.mat.At h2 0 0],
         [vec.mat.At h2 0 0, vec.mat.At h2 0 1, vec.mat.At h2 0 2],
         [vec.mat.At h3 0 0, vec.mat.At h3 0 1, vec.mat.At h3 0 2]])) =
    some ((1, 3, true),
      [[some 1], [some 0, some 0, some 0], [some 1, some 2, some 0]]) := by
  refine ⟨?_, by decide⟩
  intro h vec a i
  cases a with
  | none => simp [SetVec]
  | some x =>
    simp only [SetVec]
    by_cases hb : i < 0 ∨ i + x.Len > vec.Len
    · rw [if_pos (by simpa using hb)]
      simp only [true_iff]
      rcases hb with hb | hb
      · exact Or.inr (Or.inl hb)
      · exact Or.inr (Or.inr ⟨x, rfl, hb⟩)
    · rw [if_neg (by simpa using hb)]
      constructor
      · intro e; exact absurd e (by simp)
      · rintro (e | e | ⟨y, e, hy⟩)
        · exact absurd e (by simp)
        · exact absurd (Or.inl e) hb
        · rw [← Option.some.inj e] at hy
          exact absurd (Or.inr hy) hb

/-- C34 witness: the non-zero values of the row vector `[1,0,3]`, of its slice
`(1,2)` and of the column vector `[1,0,3]`. -/
theorem NonzeroValues_spec_witness :
    (NodupKeys (demoV.2.NonzeroValues demoV.1) ∧
      mapGet (demoV.2.NonzeroValues demoV.1) 2 = some 3 ∧
      mapGet (demoV.2.NonzeroValues demoV.1) 1 = none) ∧
    (demoV.2.Slice 1 2 = some ⟨⟨0, 1, 1, 0, 2, 1⟩⟩ ∧
      mapGet ((⟨⟨0, 1, 1, 0, 2, 1⟩⟩ : BigIntVector).NonzeroValues demoV.1) 1 = some 3 ∧
      mapGet ((⟨⟨0, 1, 1, 0, 2, 1⟩⟩ : BigIntVector).NonzeroValues demoV.1) 2 = none) ∧
    (NodupKeys (TransposedBigIntVector.demoT.2.NonzeroValues TransposedBigIntVector.demoT.1) ∧
      mapGet (TransposedBigIntVector.demoT.2.NonzeroValues TransposedBigIntVector.demoT.1) 0 =
        some 1) := by
  have kv := (NonzeroValues_spec demoV.1).1 demoV.2 (by decide) (by decide)
  have ks := (NonzeroValues_spec demoV.1).1 ⟨⟨0, 1, 1, 0, 2, 1⟩⟩ (by decide) (by decide)
  have kt := (NonzeroValues_spec TransposedBigIntVector.demoT.1).2
    TransposedBigIntVector.demoT.2 (by decide) (by decide)
    (BigIntMatrix.mirrorP_of_mirror (by decide))
  refine ⟨⟨kv.1, ?_, ?_⟩, ⟨by decide, ?_, ?_⟩, ⟨kt.1, ?_⟩⟩
  · rw [kv.2 2]; decide
  · rw [kv.2 1]; decide
  · rw [ks.2 1]; decide
  · rw [ks.2 2]; decide
  · rw [kt.2 0]; decide

end BigIntVector

namespace BigIntMatrix

/-- C35 (failing input): `m` is the slice `(3,3,2,2)` of a 5×5 root, a 2×2 view
with offsets (3,3).  `m.Column(0)` and `m.Column(1)` panic although both
indices lie in `[0, m.cols)`: `Slice` compares the absolute start of the column
with the shape of the view.  On the root itself `Column(0)` is returned. -/
theorem Column_fails_on_offset_view :
    (do
      let (_, P) ← NewBigIntMat Heap.empty 5 5 []
      let m ← P.Slice 3 3 2 2
      pure (m.Dims, (m.Column 0).isNone, (m.Column 1).isNone, (P.Column 0).isSome)) =
    some ((2, 2), true, true, true) := by
  decide

/-- C36 witness: row 1 and column 1 of `[[1,2],[3,4]]`. -/
theorem Row_Column_connected_witness :
    (demoA.2.Row 1 = some ⟨⟨0, 1, 1, 1, 2, 0⟩⟩ ∧
      ∃ h1, (⟨⟨0, 1, 1, 1, 2, 0⟩⟩ : BigIntVector).Set demoA.1 0 (some 9) = some h1 ∧
        demoA.2.At h1 1 0 = some 9 ∧ demoA.2.At h1 0 0 = some 1) ∧
    (demoA.2.Column 1 = some ⟨⟨0, 1, 2, 0, 1, 1⟩⟩ ∧
      ∃ h1, (⟨⟨0, 1, 2, 0, 1, 1⟩⟩ : TransposedBigIntVector).Set demoA.1 0 (some 9) = some h1 ∧
        demoA.2.At h1 0 1 = some 9 ∧ demoA.2.At h1 1 1 = some 4) := by
  have key := Row_Column_connected demoA.1 demoA.2 (by decide)
  obtain ⟨h1, e1⟩ := Option.isSome_iff_exists.1
    (by decide : ((⟨⟨0, 1, 1, 1, 2, 0⟩⟩ : BigIntVector).Set demoA.1 0 (some 9)).isSome = true)
  obtain ⟨h2, e2⟩ := Option.isSome_iff_exists.1
    (by decide :
      ((⟨⟨0, 1, 2, 0, 1, 1⟩⟩ : TransposedBigIntVector).Set demoA.1 0 (some 9)).isSome = true)
  have kr := ((key.1 1 ⟨⟨0, 1, 1, 1, 2, 0⟩⟩ (by decide)).2 0 (some 9)).2 h1 e1
  have kc := ((key.2 1 ⟨⟨0, 1, 2, 0, 1, 1⟩⟩ (by decide)).2 0 (some 9)).2 h2 e2
  refine ⟨⟨by decide, h1, e1, kr.1, ?_⟩, ⟨by decide, h2, e2, kc.1, ?_⟩⟩
  · rw [kr.2 0 0 (by decide)]; decide
  · rw [kc.2 1 1 (by decide)]; decide

/-- C37 (failing input): `P = NewBigIntMat(1,2,[1,1])`, `m = P.Slice(0,0,1,1)`
and `vec = NewBigIntVec(1,[5])`.  After `m.SetRow(0, vec)` the cell `P.At(0,1)`,
outside the rectangle of `m`, reads 0 instead of 1: the first loop removes the
whole row of the store.  Moreover, for `u = NewBigIntVec(2,[7,8]).Slice(1,1)`,
whose only element is 8, and a new 1×1 matrix `r`, `r.SetRow(0, u)` leaves
`r.At(0,0) = 7`: the second loop copies the row of the store of `u` by its
absolute keys. -/
theorem SetRow_clears_and_copies_whole_store_row :
    (do
      let (h1, P) ← NewBigIntMat Heap.empty 1 2 [some 1, some 1]
      let m ← P.Slice 0 0 1 1
      let (h2, vec) ← BigIntVector.NewBigIntVec h1 1 [some 5]
      let h3 ← m.SetRow h2 0 vec
      let (h4, w) ← BigIntVector.NewBigIntVec h3 2 [some 7, some 8]
      let u ← w.Slice 1 1
      let (h5, r) ← NewBigIntMat h4 1 1 []
      let h6 ← r.SetRow h5 0 u
      pure ([P.At h2 0 1, P.At h3 0 1, m.At h3 0 0],
        (u.Len, u.mat.At h5 0 0, r.At h6 0 0))) =
    some ([some 1, some 0, some 5], (1, some 8, some 7)) := by
  decide

/-- C38 (failing input): `P = NewBigIntMat(2,1,[1,1])`, `m = P.Slice(0,0,1,1)`
and `vec = NewTBigIntVec(1,[5])`.  After `m.SetColumn(0, vec)` the cell
`P.At(1,0)`, outside the rectangle of `m`, reads 0 instead of 1: the first loop
removes the whole column of the store.  Moreover, for
`u = NewTBigIntVec(2,[7,8]).Slice(1,1)`, whose only element is 8, and a new 1×1
matrix `r`, `r.SetColumn(0, u)` leaves `r.At(0,0) = 7`: the second loop copies
the column of the store of `u` by its absolute keys. -/
theorem SetColumn_clears_and_copies_whole_store_column :
    (do
      let (h1, P) ← NewBigIntMat Heap.empty 2 1 [some 1, some 1]
      let m ← P.Slice 0 0 1 1
      let (h2, vec) ← TransposedBigIntVector.NewTBigIntVec h1 1 [some 5]
      let h3 ← m.SetColumn h2 0 vec
      let (h4, w) ← TransposedBigIntVector.NewTBigIntVec h3 2 [some 7, some 8]
      let u ← w.Slice 1 1
      let (h5, r) ← NewBigIntMat h4 1 1 []
      let h6 ← r.SetColumn h5 0 u
      pure ([P.At h2 1 0, P.At h3 1 0, m.At h3 0 0],
        (u.Len, u.At h5 0, r.At h6 0 0))) =
    some ([some 1, some 0, some 5], (1, some 8, some 7)) := by
  decide

/-- C39 witness: the identity of size 3, decoded from what was exported. -/
theorem JSON_round_trip_witness :
    Decodes ((BigIntIdentity Heap.empty 3).2.MarshalJSON (BigIntIdentity Heap.empty 3).1)
      ((BigIntIdentity Heap.empty 3).2.MarshalJSON (BigIntIdentity Heap.empty 3).1) ∧
    (UnmarshalJSON (BigIntIdentity Heap.empty 3).1
      ((BigIntIdentity Heap.empty 3).2.MarshalJSON (BigIntIdentity Heap.empty 3).1)).2.Dims =
        (3, 3) ∧
    Equals (UnmarshalJSON (BigIntIdentity Heap.empty 3).1
        ((BigIntIdentity Heap.empty 3).2.MarshalJSON (BigIntIdentity Heap.empty 3).1)).1
      (some (BigIntIdentity Heap.empty 3).2)
      (some (UnmarshalJSON (BigIntIdentity Heap.empty 3).1
        ((BigIntIdentity Heap.empty 3).2.MarshalJSON (BigIntIdentity Heap.empty 3).1)).2)
      false = true := by
  have hd : Decodes
      ((BigIntIdentity Heap.empty 3).2.MarshalJSON (BigIntIdentity Heap.empty 3).1)
      ((BigIntIdentity Heap.empty 3).2.MarshalJSON (BigIntIdentity Heap.empty 3).1) :=
    ⟨fun _ _ => rfl, fun _ _ => rfl, rfl, rfl, rfl, rfl⟩
  have key := JSON_round_trip (BigIntIdentity Heap.empty 3).1 (BigIntIdentity Heap.empty 3).2
    _ (by decide) (by decide) hd
  exact ⟨hd, key.2.1, key.2.2.1⟩

/-- C40 (counterexample): for the 2×2 matrix `[[1,2],[3,4]]` the loop of `Pow`
calls `Mul` once for `k = 1`, twice for `k = 2` and three times for `k = 3`,
while `⌈log2 k⌉` is 0, 1 and 2. -/
theorem Pow_one_makes_one_Mul_call :
    (PowCalls demoA.1 demoA.2 1).map (fun r => r.2.2.1 + r.2.2.2) = some 1 ∧
    Nat.clog 2 1 = 0 ∧
    (PowCalls demoA.1 demoA.2 2).map (fun r => r.2.2.1 + r.2.2.2) = some 2 ∧
    Nat.clog 2 2 = 1 ∧
    (PowCalls demoA.1 demoA.2 3).map (fun r => r.2.2.1 + r.2.2.2) = some 3 ∧
    Nat.clog 2 3 = 2 := by
  refine ⟨by decide, by simp [Nat.clog], by decide, by simp [Nat.clog], by decide,
    by simp [Nat.clog]⟩

/-- C40 witness: the fifth power of `[[1,2],[3,4]]` takes 2 products and 2
squarings, 4 calls of `Mul`, and `⌈log2 5⌉ = 3`. -/
theorem Pow_number_of_Mul_calls_witness :
    (∃ h2 p, PowCalls demoA.1 demoA.2 5 = some (h2, p, 2, 2)) ∧ Nat.clog 2 5 < 2 + 2 ∧
    2 + 2 ≤ 2 * 2 + 1 := by
  have key := Pow_number_of_Mul_calls demoA.1 demoA.2 5
  have e1 : (Nat.digits 2 (5 : Int).toNat).sum = 2 := by simp
  have e2 : Nat.log 2 (5 : Int).toNat = 2 := by simp [Nat.log]
  rw [e1, e2] at key
  exact ⟨key.2.2 (by decide) (by decide) (by decide), (key.2.1 (by decide)).1,
    (key.2.1 (by decide)).2⟩

end BigIntMatrix

end Intmat
